import Mathlib

/-!
xmind-merge: a shallow embedding of the tree-merge and consolidation core

The program `xmind-merge.js` works on values produced by `JSON.parse` and
mutates them in place.  The embedding below models

* JavaScript values as the inductive type `JsVal` (JSON values, plus
  `undefined`, plus named properties on arrays, which the program can create
  by assigning to a property of an array);
* a thrown exception as `Except.error msg`, `msg` being `error.message`;
* in-place mutation as explicit state passing.  The values the program
  mutates are trees without sharing (they come from `JSON.parse`, from
  `lod.mapValues`, from `Array.prototype.map` and from object literals), and
  the only aliases the program creates (`new_attached.push(item)`,
  `matched.notes = item.notes`, ...) are with objects that are unreachable
  once `consolidate_xmind` has replaced the top-level list, so a functional
  update of the tree is exact.

Modelling boundaries, stated once:

* JSON numbers are integers (`Int`), rendered in decimal by `ToString`;
* strings are Lean strings, that is, sequences of Unicode scalar values
  (a JavaScript string that holds an unpaired surrogate is outside the model);
  where the program looks at a string through its UTF-16 code units (the
  relational comparison of the sort) the model computes them (`codeUnits`);
* the built-in `String.prototype.toUpperCase` is a parameter of the model
  (`Engine`): the definitions and theorems that depend on it hold for every
  upper-casing function that behaves on ASCII strings as the standard says;
* the text of `TypeError` messages is the JavaScript engine's, not the
  program's; the model fixes one wording (V8's);
* property names read or written by the program (`title`, `notes`,
  `children`, `attached`, `detached`, `plain`, `html`, `content`,
  `paragraphs`, `ops`, `branch`, `id`, `rootTopic`) are neither `length` nor an
  array index nor the name of a built-in method, so a named property read of
  a primitive value yields `undefined`, and no array carries a named property
  that hides a built-in method (`forEach`, `push`, `join`, ...);
* the staging of resource files (`dst_resources`, asynchronous) is left out:
  of a source archive only the number of its resource entries matters to the
  tree.
-/

namespace XmindMerge

/-! ## JavaScript values -/

/-- A JavaScript value as the program can hold it: a JSON value, `undefined`,
or an array that was given named properties besides its elements. -/
inductive JsVal where
  | undefined
  | null
  | bool (b : Bool)
  | num (n : Int)
  | str (s : String)
  | arr (items : List JsVal) (props : List (String × JsVal))
  | obj (props : List (String × JsVal))

namespace JsVal

mutual
/-- Decidable equality of values (the type is nested, so it is written out). -/
def decEq : (a b : JsVal) → Decidable (a = b)
  | .undefined, .undefined => isTrue rfl
  | .null, .null => isTrue rfl
  | .bool a, .bool b =>
    if h : a = b then isTrue (by rw [h]) else isFalse (by intro e; cases e; exact h rfl)
  | .num a, .num b =>
    if h : a = b then isTrue (by rw [h]) else isFalse (by intro e; cases e; exact h rfl)
  | .str a, .str b =>
    if h : a = b then isTrue (by rw [h]) else isFalse (by intro e; cases e; exact h rfl)
  | .arr xs ps, .arr ys qs =>
    match decEqList xs ys, decEqProps ps qs with
    | isTrue h1, isTrue h2 => isTrue (by rw [h1, h2])
    | isFalse h, _ => isFalse (by intro e; cases e; exact h rfl)
    | _, isFalse h => isFalse (by intro e; cases e; exact h rfl)
  | .obj ps, .obj qs =>
    match decEqProps ps qs with
    | isTrue h => isTrue (by rw [h])
    | isFalse h => isFalse (by intro e; cases e; exact h rfl)
  | .undefined, .null | .undefined, .bool _ | .undefined, .num _ | .undefined, .str _
  | .undefined, .arr _ _ | .undefined, .obj _ => isFalse (by intro e; cases e)
  | .null, .undefined | .null, .bool _ | .null, .num _ | .null, .str _
  | .null, .arr _ _ | .null, .obj _ => isFalse (by intro e; cases e)
  | .bool _, .undefined | .bool _, .null | .bool _, .num _ | .bool _, .str _
  | .bool _, .arr _ _ | .bool _, .obj _ => isFalse (by intro e; cases e)
  | .num _, .undefined | .num _, .null | .num _, .bool _ | .num _, .str _
  | .num _, .arr _ _ | .num _, .obj _ => isFalse (by intro e; cases e)
  | .str _, .undefined | .str _, .null | .str _, .bool _ | .str _, .num _
  | .str _, .arr _ _ | .str _, .obj _ => isFalse (by intro e; cases e)
  | .arr _ _, .undefined | .arr _ _, .null | .arr _ _, .bool _ | .arr _ _, .num _
  | .arr _ _, .str _ | .arr _ _, .obj _ => isFalse (by intro e; cases e)
  | .obj _, .undefined | .obj _, .null | .obj _, .bool _ | .obj _, .num _
  | .obj _, .str _ | .obj _, .arr _ _ => isFalse (by intro e; cases e)
/-- Decidable equality of element lists. -/
def decEqList : (a b : List JsVal) → Decidable (a = b)
  | [], [] => isTrue rfl
  | [], _ :: _ => isFalse (by intro e; cases e)
  | _ :: _, [] => isFalse (by intro e; cases e)
  | x :: xs, y :: ys =>
    match decEq x y, decEqList xs ys with
    | isTrue h1, isTrue h2 => isTrue (by rw [h1, h2])
    | isFalse h, _ => isFalse (by intro e; cases e; exact h rfl)
    | _, isFalse h => isFalse (by intro e; cases e; exact h rfl)
/-- Decidable equality of property lists. -/
def decEqProps : (a b : List (String × JsVal)) → Decidable (a = b)
  | [], [] => isTrue rfl
  | [], _ :: _ => isFalse (by intro e; cases e)
  | _ :: _, [] => isFalse (by intro e; cases e)
  | (k, x) :: xs, (l, y) :: ys =>
    if hk : k = l then
      match decEq x y, decEqProps xs ys with
      | isTrue h1, isTrue h2 => isTrue (by rw [hk, h1, h2])
      | isFalse h, _ => isFalse (by intro e; cases e; exact h rfl)
      | _, isFalse h => isFalse (by intro e; cases e; exact h rfl)
    else isFalse (by intro e; cases e; exact hk rfl)
end

instance : DecidableEq JsVal := decEq

end JsVal

/-- Decidable equality of results, for evaluating the model on examples. -/
instance instDecidableEqExcept {ε α : Type} [DecidableEq ε] [DecidableEq α] :
    DecidableEq (Except ε α)
  | .ok a, .ok b =>
    if h : a = b then isTrue (by rw [h]) else isFalse (by intro e; cases e; exact h rfl)
  | .error a, .error b =>
    if h : a = b then isTrue (by rw [h]) else isFalse (by intro e; cases e; exact h rfl)
  | .ok _, .error _ => isFalse (by intro e; cases e)
  | .error _, .ok _ => isFalse (by intro e; cases e)

/-- An object's own properties in insertion order. -/
abbrev Props := List (String × JsVal)

/-- The value of the first property named `k`, if any. -/
def lookup (k : String) : Props → Option JsVal
  | [] => none
  | (k', v) :: ps => if k' = k then some v else lookup k ps

/-- Property assignment on a property list: an existing property keeps its
place, a new one goes last. -/
def assign (k : String) (v : JsVal) : Props → Props
  | [] => [(k, v)]
  | (k', v') :: ps => if k' = k then (k', v) :: ps else (k', v') :: assign k v ps

/-- The own named properties of a value (objects, and arrays that were given
some). -/
def own (k : String) : JsVal → Option JsVal
  | .obj ps => lookup k ps
  | .arr _ ps => lookup k ps
  | _ => none

/-- Lodash `lod.has(object, key)` for the property names of this program:
`object` is not null and has an own property `key`. -/
def has (o : JsVal) (k : String) : Bool := (own k o).isSome

/-- Lodash `lod.isArray(value)`. -/
def isArray : JsVal → Bool
  | .arr _ _ => true
  | _ => false

/-- The message of the `TypeError` for reading a property of `undefined` or
`null`. -/
def errRead (base k : String) : String :=
  "Cannot read properties of " ++ base ++ " (reading \x27" ++ k ++ "\x27)"

/-- The message of the `TypeError` for assigning to a property of `undefined`
or `null`. -/
def errSet (base k : String) : String :=
  "Cannot set properties of " ++ base ++ " (setting \x27" ++ k ++ "\x27)"

/-- The message of the `TypeError` for calling something that is no function. -/
def errNotFunction (expr : String) : String := expr ++ " is not a function"

/-- The property read `o.k`: a `TypeError` on `undefined` and `null`,
`undefined` when there is no such own property. -/
def getProp (o : JsVal) (k : String) : Except String JsVal :=
  match o with
  | .undefined => .error (errRead "undefined" k)
  | .null => .error (errRead "null" k)
  | v => .ok ((own k v).getD .undefined)

/-- The store of `v` under `k` in an object or array; other values are left
as they are. -/
def putProp (o : JsVal) (k : String) (v : JsVal) : JsVal :=
  match o with
  | .obj ps => .obj (assign k v ps)
  | .arr xs ps => .arr xs (assign k v ps)
  | w => w

/-- The assignment `o.k = v` in sloppy mode: a `TypeError` on `undefined` and
`null`, silently ignored on a primitive value. -/
def setProp (o : JsVal) (k : String) (v : JsVal) : Except String JsVal :=
  match o with
  | .undefined => .error (errSet "undefined" k)
  | .null => .error (errSet "null" k)
  | w => .ok (putProp w k v)

/-- The indexed read `o[0]`. -/
def getFirst (o : JsVal) : Except String JsVal :=
  match o with
  | .undefined => .error (errRead "undefined" "0")
  | .null => .error (errRead "null" "0")
  | .arr xs _ => .ok (xs.headD .undefined)
  | .obj ps => .ok ((lookup "0" ps).getD .undefined)
  | .str s => .ok (match s.data with | [] => .undefined | c :: _ => .str (String.mk [c]))
  | _ => .ok .undefined

/-- The write-back of a changed `o[0]` (an element of an array or the
property `0` of an object). -/
def putFirst (o : JsVal) (v : JsVal) : JsVal :=
  match o with
  | .arr (_ :: xs) ps => .arr (v :: xs) ps
  | .obj ps => .obj (assign "0" v ps)
  | w => w

/-! ## String conversion -/

/-- The string with its ASCII letters `a` to `z` replaced by `A` to `Z` and
every other character kept. -/
def asciiUpper (s : String) : String := String.mk (s.data.map Char.toUpper)

/-- The built-in of the JavaScript engine that the program calls and the
source does not define: `String.prototype.toUpperCase`.  It is a parameter.
All that is assumed of it is what it does to a string of ASCII characters,
where only the letters `a` to `z` have an upper-case form; what it does to
any other string (`é`, `ß`, Cyrillic, ...) is left to the engine. -/
class Engine where
  toUpperCase : String → String
  toUpperCase_ascii : ∀ s : String, (∀ c ∈ s.data, c.toNat < 128) →
    toUpperCase s = asciiUpper s

/-- `String.prototype.toUpperCase`, as the engine has it. -/
def toUpperCase [Engine] (s : String) : String := Engine.toUpperCase s

/-- An engine to run the model on examples: it upper-cases the ASCII letters
and nothing else.  On ASCII strings every engine agrees with it. -/
instance asciiEngine : Engine where
  toUpperCase := asciiUpper
  toUpperCase_ascii := fun _ _ => rfl

/-- Joins strings with a separator, as `Array.prototype.join` does. -/
def joinWith (sep : String) : List String → String
  | [] => ""
  | [s] => s
  | s :: t :: rest => s ++ sep ++ joinWith sep (t :: rest)

mutual
/-- The string the `+` operator uses for a value next to a string operand
(`ToString(ToPrimitive(v))`).  An object whose own `toString` is a JSON value
cannot be converted; an array goes through `join`. -/
def toStr : JsVal → Except String String
  | .undefined => .ok "undefined"
  | .null => .ok "null"
  | .bool b => .ok (if b then "true" else "false")
  | .num n => .ok (toString n)
  | .str s => .ok s
  | .arr xs _ => (toStrItems xs).map (joinWith ",")
  | .obj ps =>
    if (lookup "toString" ps).isSome then .error "Cannot convert object to primitive value"
    else .ok "[object Object]"
/-- The strings `join` makes of the elements: empty for `undefined` and
`null`. -/
def toStrItems : List JsVal → Except String (List String)
  | [] => .ok []
  | .undefined :: xs => (toStrItems xs).map fun ss => "" :: ss
  | .null :: xs => (toStrItems xs).map fun ss => "" :: ss
  | x :: xs =>
    match toStr x with
    | .error e => .error e
    | .ok s => (toStrItems xs).map fun ss => s :: ss
end

/-- The method call `v.toUpperCase()`, `expr` being the text of `v` in the
source. -/
def callToUpperCase [Engine] (expr : String) (v : JsVal) : Except String String :=
  match v with
  | .str s => .ok (toUpperCase s)
  | .undefined => .error (errRead "undefined" "toUpperCase")
  | .null => .error (errRead "null" "toUpperCase")
  | _ => .error (errNotFunction (expr ++ ".toUpperCase"))

/-- Lodash `lod.concat(array, values)`: a new array of the elements of
`array` (or `array` itself when it is no array) followed by those of
`values` (likewise). -/
def concat (array values : JsVal) : JsVal :=
  .arr ((match array with | .arr xs _ => xs | v => [v]) ++
        (match values with | .arr ys _ => ys | v => [v])) []

/-! ## Constants -/

/-- The constant `ROOT_TOPIC`. -/
def ROOT_TOPIC : String := "rootTopic"

/-- The constant `SRC_ATTR_TAG`. -/
def SRC_ATTR_TAG : String := "Merge-Source: "

/-! ## `match_topic` -/

/-- The callback of `findIndex` in `match_topic`: both have a title and the
titles are equal after `toUpperCase`. -/
def titleMatches [Engine] (topic item : JsVal) : Except String Bool :=
  if has item "title" && has topic "title" then do
    let a ← callToUpperCase "item.title" (← getProp item "title")
    let b ← callToUpperCase "topic.title" (← getProp topic "title")
    pure (decide (a = b))
  else pure false

/-- The loop of `Array.prototype.findIndex`, from index `i` on. -/
def findIndexFrom [Engine] (topic : JsVal) : List JsVal → Nat → Except String Int
  | [], _ => .ok (-1)
  | item :: rest, i =>
    match titleMatches topic item with
    | .error e => .error e
    | .ok true => .ok (i : Int)
    | .ok false => findIndexFrom topic rest (i + 1)

/-- The function `match_topic(topic, list)`: the index of the first matching
item of `list`, or `-1`. -/
def match_topic [Engine] (topic : JsVal) (list : List JsVal) : Except String Int :=
  findIndexFrom topic list 0

/-! ## `consolidate_xmind` -/

/-- The first statement of the `try` block: the plain texts are joined by a
newline and stored on the matched topic. -/
def merge_plain (m item : JsVal) : Except String JsVal := do
  let notes ← getProp m "notes"
  let plain ← getProp notes "plain"
  let a ← toStr (← getProp plain "content")
  let b ← toStr (← getProp (← getProp (← getProp item "notes") "plain") "content")
  let plain1 ← setProp plain "content" (.str (a ++ "\n" ++ b))
  pure (putProp m "notes" (putProp notes "plain" plain1))

/-- The second statement of the `try` block: the HTML paragraph lists are
concatenated and stored on the matched topic. -/
def merge_html (m item : JsVal) : Except String JsVal := do
  let notes ← getProp m "notes"
  let html ← getProp notes "html"
  let content ← getProp html "content"
  let a ← getProp content "paragraphs"
  let b ← getProp (← getProp (← getProp (← getProp item "notes") "html") "content") "paragraphs"
  let content1 ← setProp content "paragraphs" (concat a b)
  pure (putProp m "notes" (putProp notes "html" (putProp html "content" content1)))

/-- The third statement of the `try` block: when the current topic has an
`ops` section its list is concatenated onto the matched topic's, or the
section is installed when the matched topic has none. -/
def merge_ops (m item : JsVal) : Except String JsVal := do
  let inotes ← getProp item "notes"
  if has inotes "ops" then
    let notes ← getProp m "notes"
    if has notes "ops" then
      let ops ← getProp notes "ops"
      let a ← getProp ops "ops"
      let b ← getProp (← getProp inotes "ops") "ops"
      let ops1 ← setProp ops "ops" (concat a b)
      pure (putProp m "notes" (putProp notes "ops" ops1))
    else
      let notes1 ← setProp notes "ops" (← getProp inotes "ops")
      pure (putProp m "notes" notes1)
  else pure m

/-- The `try` block that merges existing notes: the statements run in order,
and a statement that throws leaves the effect of the earlier ones in place.
The result is the matched topic and the message of the caught error. -/
def merge_notes (m item : JsVal) : JsVal × Option String :=
  match merge_plain m item with
  | .error e => (m, some e)
  | .ok m1 =>
    match merge_html m1 item with
    | .error e => (m1, some e)
    | .ok m2 =>
      match merge_ops m2 item with
      | .error e => (m2, some e)
      | .ok m3 => (m3, none)

/-- The condition `lod.has(t, 'children') && lod.has(t.children, 'attached')
&& lod.isArray(t.children.attached)`. -/
def hasAttachedArray (t : JsVal) : Bool :=
  match own "children" t with
  | none => false
  | some c =>
    match own "attached" c with
    | none => false
    | some a => isArray a

/-- The statement `if(!lod.has(m, 'children')) { m.children = {}; }`. -/
def ensure_children (m : JsVal) : Except String JsVal :=
  if has m "children" then .ok m else setProp m "children" (.obj [])

/-- The children part of a consolidation: the current topic's attached
list is concatenated onto the matched topic's, or installed when the matched
topic has no such list. -/
def merge_children (m item : JsVal) : Except String JsVal :=
  if hasAttachedArray item then do
    let ia ← getProp (← getProp item "children") "attached"
    if hasAttachedArray m then
      let c ← getProp m "children"
      let c1 ← setProp c "attached" (concat (← getProp c "attached") ia)
      pure (putProp m "children" c1)
    else
      let m1 ← ensure_children m
      let c ← getProp m1 "children"
      let c1 ← setProp c "attached" ia
      pure (putProp m1 "children" c1)
  else pure m

/-- The text of the warning printed when merging notes fails. -/
def mergeWarning (title error : String) : String :=
  "Warning: Unable to merge notes within top-level topic '" ++ title ++
    "', possible note data loss: " ++ error

/-- The local state of `consolidate_xmind`, with the lines it prints. -/
structure Consolidation where
  new_attached : List JsVal
  count : Nat
  console : List String
  deriving DecidableEq

/-- The notes part of a consolidation: the `try` block when both topics have
notes, with the warning printed when it fails; the current topic's notes as
they are when only it has some. -/
def consolidate_notes (m item : JsVal) : Except String (JsVal × List String) :=
  if has item "notes" then
    if has m "notes" then
      match merge_notes m item with
      | (m1, none) => .ok (m1, [])
      | (m1, some e) => do
        let title ← toStr (← getProp m1 "title")
        pure (m1, [mergeWarning title e])
    else do
      let m1 ← setProp m "notes" (← getProp item "notes")
      pure (m1, [])
  else .ok (m, [])

/-- The consolidation of the current topic `item` into the matched topic
`m` = `new_attached[match]`: notes, then children.  Returns the matched
topic and the warning printed, if any. -/
def consolidate_into (m item : JsVal) : Except String (JsVal × List String) := do
  let r ← consolidate_notes m item
  let m2 ← merge_children r.1 item
  pure (m2, r.2)

/-- The callback of the `forEach` in `consolidate_xmind`. -/
def consolidate_item [Engine] (st : Consolidation) (item : JsVal) :
    Except String Consolidation := do
  let mt ← match_topic item st.new_attached
  if mt ≠ -1 then
    let r ← consolidate_into (st.new_attached.getD mt.toNat .undefined) item
    pure { new_attached := st.new_attached.set mt.toNat r.1,
           count := st.count + 1,
           console := st.console ++ r.2 }
  else
    pure { st with new_attached := st.new_attached ++ [item] }

/-- The `forEach` loop over the top-level topics. -/
def consolidate_loop [Engine] (st : Consolidation) : List JsVal → Except String Consolidation
  | [] => .ok st
  | item :: rest =>
    match consolidate_item st item with
    | .error e => .error e
    | .ok st1 => consolidate_loop st1 rest

/-- The result of `consolidate_xmind`: the master workbook afterwards, the
count returned, and the lines printed. -/
structure ConsolidateResult where
  dst_xmind : JsVal
  count : Nat
  console : List String
  deriving DecidableEq

/-- The read `dst_xmind[0][ROOT_TOPIC].children`. -/
def topChildren (dst_xmind : JsVal) : Except String JsVal := do
  getProp (← getProp (← getFirst dst_xmind) ROOT_TOPIC) "children"

/-- The read `dst_xmind[0][ROOT_TOPIC].children.attached`. -/
def topAttached (dst_xmind : JsVal) : Except String JsVal := do
  getProp (← topChildren dst_xmind) "attached"

/-- The read `dst_xmind[0][ROOT_TOPIC].children.detached`. -/
def topDetached (dst_xmind : JsVal) : Except String JsVal := do
  getProp (← topChildren dst_xmind) "detached"

/-- The assignment `dst_xmind[0][ROOT_TOPIC].children[k] = v`. -/
def setTopList (dst_xmind : JsVal) (k : String) (v : JsVal) : Except String JsVal := do
  let sheet ← getFirst dst_xmind
  let root ← getProp sheet ROOT_TOPIC
  let children ← getProp root "children"
  let children1 ← setProp children k v
  pure (putFirst dst_xmind (putProp sheet ROOT_TOPIC (putProp root "children" children1)))

/-- The function `consolidate_xmind()`, on the master workbook `dst_xmind`. -/
def consolidate_xmind [Engine] (dst_xmind : JsVal) : Except String ConsolidateResult := do
  match ← topAttached dst_xmind with
  | .arr items _ =>
    let st ← consolidate_loop { new_attached := [], count := 0, console := [] } items
    if st.count > 0 then
      let dst1 ← setTopList dst_xmind "attached" (.arr st.new_attached [])
      pure { dst_xmind := dst1, count := st.count, console := st.console }
    else
      pure { dst_xmind := dst_xmind, count := st.count, console := st.console }
  | .undefined => .error (errRead "undefined" "forEach")
  | .null => .error (errRead "null" "forEach")
  | _ => .error (errNotFunction "dst_xmind[0][ROOT_TOPIC].children.attached.forEach")

/-! ## Identifier reissue: `lod.deeply(lod.mapValues)` with the `id` callback -/

/-- The second `mapValues` of `deeply`, with the callback of `merge_content`:
`(val, key) => { if(key === 'id') { val = uuidv4(); } return val; }`.  The
`n`-th call of `uuidv4()` returns `gen n`. -/
def reissue (gen : Nat → String) : Props → Nat → Props × Nat
  | [], n => ([], n)
  | (k, v) :: ps, n =>
    if k = "id" then
      let r := reissue gen ps (n + 1)
      ((k, .str (gen n)) :: r.1, r.2)
    else
      let r := reissue gen ps n
      ((k, v) :: r.1, r.2)

/-- The enumerable own properties `0`, `1`, ... of a string: its characters. -/
def indexedChars : List Char → Nat → Props
  | [], _ => []
  | c :: cs, i => (toString i, .str (String.mk [c])) :: indexedChars cs (i + 1)

mutual
/-- The function `lod.deeply(lod.mapValues)(x, fn)`: `lod.mapValues` over the
own enumerable properties of `x` with the recursive callback, then
`lod.mapValues` with `fn`.  The result is always a plain object: the
properties of an array are its indices, those of a string its characters, and
a number, a boolean or `null` has none. -/
def deeply (gen : Nat → String) : JsVal → Nat → JsVal × Nat
  | .obj ps, n =>
    let r := deeplyProps gen ps n
    let q := reissue gen r.1 r.2
    (.obj q.1, q.2)
  | .arr xs ps, n =>
    let r := deeplyIndexed gen xs 0 n
    let r2 := deeplyProps gen ps r.2
    let q := reissue gen (r.1 ++ r2.1) r2.2
    (.obj q.1, q.2)
  | .str s, n =>
    let q := reissue gen (indexedChars s.data 0) n
    (.obj q.1, q.2)
  | _, n => (.obj [], n)
/-- The recursive callback of `deeply`: `lod.isPlainObject(v) ?
lod.deeply(map)(v, fn) : lod.isArray(v) ? v.map(x => lod.deeply(map)(x, fn))
: v`. -/
def deeplyValue (gen : Nat → String) : JsVal → Nat → JsVal × Nat
  | .obj ps, n =>
    let r := deeplyProps gen ps n
    let q := reissue gen r.1 r.2
    (.obj q.1, q.2)
  | .arr xs _, n =>
    let r := deeplyItems gen xs n
    (.arr r.1 [], r.2)
  | v, n => (v, n)
/-- The first `mapValues` of `deeply` over named properties. -/
def deeplyProps (gen : Nat → String) : Props → Nat → Props × Nat
  | [], n => ([], n)
  | (k, v) :: ps, n =>
    let r := deeplyValue gen v n
    let r2 := deeplyProps gen ps r.2
    ((k, r.1) :: r2.1, r2.2)
/-- The first `mapValues` of `deeply` over the elements of an array, from
index `i` on. -/
def deeplyIndexed (gen : Nat → String) : List JsVal → Nat → Nat → Props × Nat
  | [], _, n => ([], n)
  | x :: xs, i, n =>
    let r := deeplyValue gen x n
    let r2 := deeplyIndexed gen xs (i + 1) r.2
    ((toString i, r.1) :: r2.1, r2.2)
/-- The `v.map(x => lod.deeply(map)(x, fn))` of the recursive callback. -/
def deeplyItems (gen : Nat → String) : List JsVal → Nat → List JsVal × Nat
  | [], n => ([], n)
  | x :: xs, n =>
    let r := deeply gen x n
    let r2 := deeplyItems gen xs r.2
    (r.1 :: r2.1, r2.2)
end

/-! ## `add_src_attr` -/

/-- The note object `add_src_attr` gives a topic without notes. -/
def newNote (note : String) : JsVal :=
  .obj [("plain", .obj [("content", .str note)]),
        ("ops", .obj [("ops", .arr [.obj [("insert", .str (note ++ "\n"))]] [])]),
        ("html", .obj [("content", .obj [("paragraphs",
          .arr [.obj [("spans", .arr [.obj [("text", .str note)]] [])]] [])])])]

/-- The method call `target.push(item)`, `expr` being the text of `target`
in the source. -/
def callPush (expr : String) (target item : JsVal) : Except String JsVal :=
  match target with
  | .arr xs ps => .ok (.arr (xs ++ [item]) ps)
  | .undefined => .error (errRead "undefined" "push")
  | .null => .error (errRead "null" "push")
  | _ => .error (errNotFunction (expr ++ ".push"))

/-- The first statement of the `try` block of `add_src_attr`:
`topic.notes.plain.content = topic.notes.plain.content + '\n' + note`. -/
def append_plain (note : String) (topic : JsVal) : Except String JsVal := do
  let notes ← getProp topic "notes"
  let plain ← getProp notes "plain"
  let a ← toStr (← getProp plain "content")
  let plain1 ← setProp plain "content" (.str (a ++ "\n" ++ note))
  pure (putProp topic "notes" (putProp notes "plain" plain1))

/-- The second statement: a paragraph with one span is pushed onto
`topic.notes.html.content.paragraphs`. -/
def append_html (note : String) (topic : JsVal) : Except String JsVal := do
  let notes ← getProp topic "notes"
  let html ← getProp notes "html"
  let content ← getProp html "content"
  let paragraphs ← getProp content "paragraphs"
  let paragraphs1 ← callPush "topic.notes.html.content.paragraphs" paragraphs
    (.obj [("spans", .arr [.obj [("text", .str note)]] [])])
  pure (putProp topic "notes" (putProp notes "html" (putProp html "content"
    (putProp content "paragraphs" paragraphs1))))

/-- The third statement: when the notes have an `ops` section, an insert of
the line and a newline is pushed onto `topic.notes.ops.ops`. -/
def append_ops (note : String) (topic : JsVal) : Except String JsVal := do
  let notes ← getProp topic "notes"
  if has notes "ops" then
    let ops ← getProp notes "ops"
    let list ← getProp ops "ops"
    let list1 ← callPush "topic.notes.ops.ops" list (.obj [("insert", .str (note ++ "\n"))])
    pure (putProp topic "notes" (putProp notes "ops" (putProp ops "ops" list1)))
  else pure topic

/-- The text pushed on `src_errors` when the `try` block fails. -/
def noteError (src_filename error : String) : String :=
  "Unable to add to existing note in " ++ src_filename ++ ": " ++ error

/-- The notes part of the callback of `add_src_attr` (all of it after the
recursion): an existing note is appended to inside a `try` block, whose
statements run in order, one that throws leaving the effect of the earlier
ones in place; a topic without notes gets a new note. -/
def annotate (src_filename : String) (topic : JsVal) (src_errors : List String) :
    Except String (JsVal × List String) :=
  let note := SRC_ATTR_TAG ++ src_filename
  if has topic "notes" then
    match append_plain note topic with
    | .error e => .ok (topic, src_errors ++ [noteError src_filename e])
    | .ok t1 =>
      match append_html note t1 with
      | .error e => .ok (t1, src_errors ++ [noteError src_filename e])
      | .ok t2 =>
        match append_ops note t2 with
        | .error e => .ok (t2, src_errors ++ [noteError src_filename e])
        | .ok t3 => .ok (t3, src_errors)
  else
    match setProp topic "notes" (newNote note) with
    | .error e => .error e
    | .ok t1 => .ok (t1, src_errors)

/-- The store of a list that was processed in place, back under its key. -/
def restore (k : String) (v : Option JsVal) (ps : Props) : Props :=
  match v with
  | none => ps
  | some w => assign k w ps

mutual
/-- The function `add_src_attr(topics, src_filename)` on the elements of the
array `topics`; `deeper` is `args.deeper`.  The recursion into
`topic.children.attached` and `topic.children.detached` follows the property
lists down to the first property of that name, which is the one `lod.has` and
the property read see. -/
def add_src_attr (deeper : Bool) (src_filename : String) :
    List JsVal → List String → Except String (List JsVal × List String)
  | [], errs => .ok ([], errs)
  | topic :: rest, errs =>
    match add_src_attr_topic deeper src_filename topic errs with
    | .error e => .error e
    | .ok r =>
      match add_src_attr deeper src_filename rest r.2 with
      | .error e => .error e
      | .ok r2 => .ok (r.1 :: r2.1, r2.2)
/-- The callback of the `forEach` in `add_src_attr`. -/
def add_src_attr_topic (deeper : Bool) (src_filename : String) :
    JsVal → List String → Except String (JsVal × List String)
  | .obj ps, errs =>
    if deeper then
      match add_src_attr_children deeper src_filename ps errs with
      | .error e => .error e
      | .ok r => annotate src_filename (.obj r.1) r.2
    else annotate src_filename (.obj ps) errs
  | .arr xs ps, errs =>
    if deeper then
      match add_src_attr_children deeper src_filename ps errs with
      | .error e => .error e
      | .ok r => annotate src_filename (.arr xs r.1) r.2
    else annotate src_filename (.arr xs ps) errs
  | v, errs => annotate src_filename v errs
/-- The recursion of the callback when `lod.has(topic, 'children')`: the
properties of the topic, with `children` processed. -/
def add_src_attr_children (deeper : Bool) (src_filename : String) :
    Props → List String → Except String (Props × List String)
  | [], errs => .ok ([], errs)
  | (k, v) :: rest, errs =>
    if k = "children" then
      match add_src_attr_lists deeper src_filename v errs with
      | .error e => .error e
      | .ok r => .ok ((k, r.1) :: rest, r.2)
    else
      match add_src_attr_children deeper src_filename rest errs with
      | .error e => .error e
      | .ok r => .ok ((k, v) :: r.1, r.2)
/-- The two recursive calls on `topic.children`: the `attached` list when
`lod.has(topic.children, 'attached')`, then the `detached` list likewise. -/
def add_src_attr_lists (deeper : Bool) (src_filename : String) :
    JsVal → List String → Except String (JsVal × List String)
  | .obj cps, errs =>
    match add_src_attr_at deeper src_filename "attached" cps errs with
    | .error e => .error e
    | .ok a =>
      match add_src_attr_at deeper src_filename "detached" cps a.2 with
      | .error e => .error e
      | .ok d => .ok (.obj (restore "detached" d.1 (restore "attached" a.1 cps)), d.2)
  | .arr xs cps, errs =>
    match add_src_attr_at deeper src_filename "attached" cps errs with
    | .error e => .error e
    | .ok a =>
      match add_src_attr_at deeper src_filename "detached" cps a.2 with
      | .error e => .error e
      | .ok d => .ok (.arr xs (restore "detached" d.1 (restore "attached" a.1 cps)), d.2)
  | v, errs => .ok (v, errs)
/-- The recursive call on the property `key` of `topic.children`, when there
is one. -/
def add_src_attr_at (deeper : Bool) (src_filename : String) (key : String) :
    Props → List String → Except String (Option JsVal × List String)
  | [], errs => .ok (none, errs)
  | (k, v) :: rest, errs =>
    if k = key then add_src_attr_array deeper src_filename v errs
    else add_src_attr_at deeper src_filename key rest errs
/-- The recursive call `add_src_attr(topics, src_filename)` on a value read
from `topic.children`: `topics.forEach` needs an array. -/
def add_src_attr_array (deeper : Bool) (src_filename : String) :
    JsVal → List String → Except String (Option JsVal × List String)
  | .arr xs ps, errs =>
    match add_src_attr deeper src_filename xs errs with
    | .error e => .error e
    | .ok r => .ok (some (.arr r.1 ps), r.2)
  | .undefined, _ => .error (errRead "undefined" "forEach")
  | .null, _ => .error (errRead "null" "forEach")
  | _, _ => .error (errNotFunction "topics.forEach")
end

/-! ## `merge_content` -/

/-- The command-line flags the core reads: `args.src_attr`, `args.deeper`,
`args.sort_topics` and `args.fold`. -/
structure Args where
  src_attr : Bool
  deeper : Bool
  sort_topics : Bool
  fold : Bool
  deriving DecidableEq

/-- The global variables the merge works on: the master workbook
`dst_xmind`, the error log `src_errors`, and the number of identifiers
`uuidv4()` has issued so far. -/
structure Session where
  dst_xmind : JsVal
  src_errors : List String
  issued : Nat
  deriving DecidableEq

/-- The summary topic `src_status` of one source: its title, then the lines
on the topics merged, on the resources merged (only when there are some) and
on the source file, each with a new identifier. -/
def src_status (gen : Nat → String) (n : Nat) (title : JsVal) (topic_count resource_count : Nat)
    (src_xmind : String) : JsVal × Nat :=
  let first : JsVal := .obj [("title", .str ("Merged " ++ toString topic_count ++ " top-level topics")),
                             ("id", .str (gen (n + 1)))]
  if resource_count > 0 then
    (.obj [("title", title), ("id", .str (gen n)),
           ("children", .obj [("attached", .arr [first,
              .obj [("title", .str ("Merged " ++ toString resource_count ++ " resources")),
                    ("id", .str (gen (n + 2)))],
              .obj [("title", .str ("Source file was " ++ src_xmind)),
                    ("id", .str (gen (n + 3)))]] [])])], n + 4)
  else
    (.obj [("title", title), ("id", .str (gen n)),
           ("children", .obj [("attached", .arr [first,
              .obj [("title", .str ("Source file was " ++ src_xmind)),
                    ("id", .str (gen (n + 2)))]] [])])], n + 3)

/-- The statement
`dst_xmind[0][ROOT_TOPIC].children.detached[0].children.attached.push(src_status)`. -/
def push_status (dst_xmind status : JsVal) : Except String JsVal := do
  let detached ← topDetached dst_xmind
  let log ← getFirst detached
  let children ← getProp log "children"
  let attached ← getProp children "attached"
  let attached1 ← callPush "dst_xmind[0][ROOT_TOPIC].children.detached[0].children.attached"
    attached status
  let detached1 := putFirst detached (putProp log "children" (putProp children "attached" attached1))
  setTopList dst_xmind "detached" detached1

/-- The statement `if(args.src_attr) { add_src_attr(topics, src_xmind); }`. -/
def attribute_topics (args : Args) (src_xmind : String) (topics : List JsVal)
    (src_errors : List String) : Except String (List JsVal × List String) :=
  if args.src_attr then add_src_attr args.deeper src_xmind topics src_errors
  else .ok (topics, src_errors)

/-- One of the two blocks of `merge_content` that append a list of the
cleaned root topic (`key` is `attached` or `detached`) to the master, after
the attribution when `args.src_attr` is set.  Returns the session and the
number of topics appended, or `none` when the root topic has no such list. -/
def append_list (args : Args) (src_xmind key : String) (clean_obj : JsVal) (s : Session) :
    Except String (Option (Session × Nat)) :=
  match own key ((own "children" clean_obj).getD .undefined) with
  | some (.arr topics ps) => do
    let r ← attribute_topics args src_xmind topics s.src_errors
    let old ← getProp (← topChildren s.dst_xmind) key
    let dst1 ← setTopList s.dst_xmind key (concat old (.arr r.1 ps))
    pure (some ({ s with dst_xmind := dst1, src_errors := r.2 }, r.1.length))
  | _ => pure none

/-- The function `merge_content(src_json, src_xmind, src_zip)`.  `parsed` is
the outcome of `JSON.parse(src_json)` (the value, or the message of the
error), `resources` is the number of entries of the archive below
`resources/`.  Returns the status character and the session afterwards; an
`Except.error` is an exception that leaves `merge_content`. -/
def merge_content (args : Args) (gen : Nat → String) (parsed : Except String JsVal)
    (src_xmind : String) (resources : Nat) (s : Session) : Except String (String × Session) :=
  match parsed >>= getFirst with
  | .error msg =>
    .ok ("x", { s with src_errors := s.src_errors ++
      ["Unable to parse JSON in \x27" ++ src_xmind ++ "\x27: " ++ msg] })
  | .ok src_obj =>
    if has src_obj ROOT_TOPIC then do
      let clean := deeply gen (← getProp src_obj ROOT_TOPIC) s.issued
      let clean_obj := clean.1
      let s0 := { s with issued := clean.2 }
      let a ← append_list args src_xmind "attached" clean_obj s0
      let (status, s1, count1) :=
        match a with
        | some (s1, n) => ("+", s1, n)
        | none => ("?", { s0 with src_errors := s0.src_errors ++
            ["No attached subtopics found in \x27" ++ src_xmind ++ "\x27"] }, 0)
      let d ← append_list args src_xmind "detached" clean_obj s1
      let (s2, count2) :=
        match d with
        | some (s2, n) => (s2, count1 + n)
        | none => (s1, count1)
      let st := src_status gen s2.issued ((own "title" clean_obj).getD .undefined) count2
        resources src_xmind
      let dst1 ← push_status s2.dst_xmind st.1
      pure (status, { s2 with dst_xmind := dst1, issued := st.2 })
    else
      .ok ("x", { s with src_errors := s.src_errors ++
        ["No root topic in \x27" ++ src_xmind ++ "\x27"] })

/-! ## `fold_xmind` -/

/-- The callback of the `forEach` in `fold_xmind`. -/
def fold_item (item : JsVal) : JsVal :=
  if has item "children" then putProp item "branch" (.str "folded") else item

/-- The function `fold_xmind()`. -/
def fold_xmind (dst_xmind : JsVal) : Except String JsVal := do
  match ← topAttached dst_xmind with
  | .arr items ps => setTopList dst_xmind "attached" (.arr (items.map fold_item) ps)
  | .undefined => .error (errRead "undefined" "forEach")
  | .null => .error (errRead "null" "forEach")
  | _ => .error (errNotFunction "dst_xmind[0][ROOT_TOPIC].children.attached.forEach")

/-! ## `sort_topics` -/

/-- The UTF-16 code units of a character: the character itself below
`U+10000`, and the two surrogates that encode it from there on. -/
def utf16 (c : Char) : List Nat :=
  if c.toNat < 0x10000 then [c.toNat]
  else [0xD800 + (c.toNat - 0x10000) / 0x400, 0xDC00 + (c.toNat - 0x10000) % 0x400]

/-- The UTF-16 code units of a sequence of characters. -/
def codeUnitsOf : List Char → List Nat
  | [] => []
  | c :: cs => utf16 c ++ codeUnitsOf cs

/-- The UTF-16 code units of a string: the sequence that the JavaScript
operators `<` and `>` compare. -/
def codeUnits (s : String) : List Nat := codeUnitsOf s.data

/-- The relational comparison `value < other` of Lodash `compareAscending`,
on two strings (the lexicographic order of their sequences of UTF-16 code
units) or on two numbers or booleans; a pair of any other kinds is
taken as unordered (JavaScript orders a string against a number only when
the string is a numeric literal, and compares objects and arrays through
their string forms). -/
def jsLt (value other : JsVal) : Bool :=
  match value, other with
  | .str a, .str b => decide (codeUnits a < codeUnits b)
  | .num a, .num b => decide (a < b)
  | .bool a, .bool b => !a && b
  | .num a, .bool b => decide (a < (if b then 1 else 0))
  | .bool a, .num b => decide ((if a then 1 else 0) < b)
  | _, _ => false

/-- Lodash `compareAscending(value, other)`: `1`, `-1` or `0`.  A defined
value comes before `null`, and `null` before `undefined`. -/
def compareAscending (value other : JsVal) : Int :=
  match value, other with
  | .undefined, .undefined => 0
  | .undefined, _ => 1
  | _, .undefined => -1
  | .null, .null => 0
  | .null, _ => 1
  | _, .null => -1
  | v, o => if jsLt o v then 1 else if jsLt v o then -1 else 0

/-- The sort key of `lod.sortBy(list, ['title'])`: the `title` of an
element, `undefined` when it has none. -/
def sortKey (x : JsVal) : JsVal := (own "title" x).getD .undefined

/-- The order of `lod.sortBy(list, ['title'])` on elements: the title of the
first does not come after the title of the second. -/
def titleLe (x y : JsVal) : Prop := compareAscending (sortKey x) (sortKey y) ≤ 0

instance : DecidableRel titleLe := fun x y =>
  inferInstanceAs (Decidable (compareAscending (sortKey x) (sortKey y) ≤ 0))

/-- Lodash `lod.sortBy(list, ['title'])`: elements whose titles compare equal
keep their order (the comparer of Lodash falls back on the index). -/
def sortBy (xs : List JsVal) : List JsVal := List.insertionSort titleLe xs

mutual
/-- The function `sort_children(obj)`.  The recursive calls leave every title
as it is, so the list is the same whether it is sorted before them (as in the
source) or after them (as here, where the recursion is on the elements of the
list that is read). -/
def sort_children : JsVal → JsVal
  | .obj ps => .obj (sort_children_props ps)
  | .arr xs ps => .arr xs (sort_children_props ps)
  | v => v
/-- The properties of `obj`, with the own property `children` processed. -/
def sort_children_props : Props → Props
  | [] => []
  | (k, v) :: rest =>
    if k = "children" then (k, sort_children_in v) :: rest
    else (k, v) :: sort_children_props rest
/-- The value `obj.children`, with its own property `attached` processed. -/
def sort_children_in : JsVal → JsVal
  | .obj cps => .obj (sort_attached cps)
  | .arr xs cps => .arr xs (sort_attached cps)
  | v => v
/-- The properties of `obj.children`, with the own property `attached`
processed. -/
def sort_attached : Props → Props
  | [] => []
  | (k, v) :: rest =>
    if k = "attached" then (k, sort_array v) :: rest
    else (k, v) :: sort_attached rest
/-- The value `obj.children.attached`: an array is replaced by the sorted
array of its processed elements. -/
def sort_array : JsVal → JsVal
  | .arr xs _ => .arr (sortBy (sort_children_list xs)) []
  | w => w
/-- The loop `sort_children(obj.children.attached[i])`. -/
def sort_children_list : List JsVal → List JsVal
  | [] => []
  | x :: xs => sort_children x :: sort_children_list xs
end

/-- The function `sort_topics()`: `sort_children(dst_xmind[0][ROOT_TOPIC])`.
On a sheet without a root topic the argument is `undefined`, which
`sort_children` leaves alone, and nothing is written. -/
def sort_topics (dst_xmind : JsVal) : Except String JsVal := do
  let sheet ← getFirst dst_xmind
  let root ← getProp sheet ROOT_TOPIC
  pure (if has sheet ROOT_TOPIC then
      putFirst dst_xmind (putProp sheet ROOT_TOPIC (sort_children root))
    else dst_xmind)

/-! ## The run: all sources, then the post-passes -/

/-- One source as `merge_content` receives it: the outcome of `JSON.parse`
on its content, its file name, and the number of its resource entries. -/
structure Source where
  parsed : Except String JsVal
  name : String
  resources : Nat

/-- The calls of `merge_content`, one per source whose content file could be
read, in the order in which the reads complete.  Returns the status
characters printed and the session. -/
def merge_all (args : Args) (gen : Nat → String) :
    List Source → Session → Except String (List String × Session)
  | [], s => .ok ([], s)
  | src :: rest, s =>
    match merge_content args gen src.parsed src.name src.resources s with
    | .error e => .error e
    | .ok r =>
      match merge_all args gen rest r.2 with
      | .error e => .error e
      | .ok r2 => .ok (r.1 :: r2.1, r2.2)

/-- The step `if(args.deeper) { consolidate_xmind(); }` of `check_done_load`. -/
def consolidate_stage [Engine] (args : Args) (dst_xmind : JsVal) : Except String JsVal :=
  if args.deeper then (consolidate_xmind dst_xmind).map fun r => r.dst_xmind
  else .ok dst_xmind

/-- The step `if(args.sort_topics) { sort_topics(); }` of `check_done_load`. -/
def sort_stage (args : Args) (dst_xmind : JsVal) : Except String JsVal :=
  if args.sort_topics then sort_topics dst_xmind else .ok dst_xmind

/-- The step `if(args.fold) { fold_xmind(); }` of `check_done_load`. -/
def fold_stage (args : Args) (dst_xmind : JsVal) : Except String JsVal :=
  if args.fold then fold_xmind dst_xmind else .ok dst_xmind

/-- The post-passes of `check_done_load`, in their fixed order: consolidate,
sort, fold.  The result is the workbook that `save_results` writes. -/
def check_done_load [Engine] (args : Args) (dst_xmind : JsVal) : Except String JsVal := do
  let d1 ← consolidate_stage args dst_xmind
  let d2 ← sort_stage args d1
  fold_stage args d2

end XmindMerge

namespace XmindMerge

/-! ## Vocabulary of the specification -/

/-- The title of a topic, when it has one and it is a string. -/
def titleOf (t : JsVal) : Option String :=
  match own "title" t with
  | some (.str s) => some s
  | _ => none

/-- The title of a topic after upper-casing: the key of the case-insensitive
comparison. -/
def titleKey [Engine] (t : JsVal) : Option String := (titleOf t).map toUpperCase

/-- Data model: a title, when present, is a string. -/
def TitleIsString (t : JsVal) : Prop := ∀ v, own "title" t = some v → ∃ s, v = .str s

/-- Data model: the topic carries a string title. -/
def Titled (t : JsVal) : Prop := ∃ s, own "title" t = some (.str s)

/-- Data model: `children`, when present, is a structure (an object). -/
def ChildrenIsObject (t : JsVal) : Prop := ∀ c, own "children" t = some c → ∃ ps, c = .obj ps

/-- Two topics both have a title and the titles are equal after upper-casing. -/
def sameTitle [Engine] (topic item : JsVal) : Bool :=
  match titleOf item, titleOf topic with
  | some a, some b => decide (toUpperCase a = toUpperCase b)
  | _, _ => false

/-- A master workbook with the given top-level attached and detached topics:
one sheet whose root topic holds the two lists. -/
def workbook (attached detached : List JsVal) : JsVal :=
  .arr [.obj [("rootTopic", .obj [("title", .str "Merged"),
    ("children", .obj [("attached", .arr attached []), ("detached", .arr detached [])])])]] []

/-- A topic with a title and nothing else. -/
def leaf (title : String) : JsVal := .obj [("title", .str title)]

/-- A topic with a title and attached children. -/
def branch (title : String) (kids : List JsVal) : JsVal :=
  .obj [("title", .str title), ("children", .obj [("attached", .arr kids [])])]

/-- The title of the topic, when it is a string, holds ASCII characters
only. -/
def asciiTitle (t : JsVal) : Bool :=
  match own "title" t with
  | some (.str s) => s.data.all fun c => decide (c.toNat < 128)
  | _ => true

/-- The top-level attached topics of the workbook, when they are a list,
have titles of ASCII characters. -/
def asciiTop (dst_xmind : JsVal) : Bool :=
  match topAttached dst_xmind with
  | .ok (.arr xs _) => xs.all asciiTitle
  | _ => true

end XmindMerge

namespace XmindMerge

/-- The attached children of a topic: the elements of `children.attached`
when that is a list, none otherwise. -/
def attachedOf (t : JsVal) : List JsVal :=
  match own "children" t with
  | none => []
  | some c =>
    match own "attached" c with
    | some (.arr xs _) => xs
    | _ => []

/-- The later topic `b` does not match the earlier topic `a`. -/
def Unmatched [Engine] (a b : JsVal) : Prop := titleMatches b a = .ok false

end XmindMerge

namespace XmindMerge

/-- The invariant of the loop of `consolidate_xmind` that the first claim
needs, after the topics `done` have been processed: the output list holds
well-formed topics with pairwise distinct keys, in the order of `done`, one
for every key met so far, each with the title of the first topic of `done`
that has its key; and every topic processed was either counted or kept. -/
structure FirstOccurrences [Engine] (done : List JsVal) (st : Consolidation) : Prop where
  wellFormed : ∀ a ∈ st.new_attached, Titled a ∧ ChildrenIsObject a
  distinct : (st.new_attached.map titleKey).Nodup
  inOrder : (st.new_attached.map titleOf).Sublist (done.map titleOf)
  complete : ∀ d ∈ done, titleKey d ∈ st.new_attached.map titleKey
  first : ∀ a ∈ st.new_attached, ∃ d,
    done.find? (fun d => decide (titleKey d = titleKey a)) = some d ∧ titleOf d = titleOf a
  counted : st.count + st.new_attached.length = done.length

end XmindMerge

namespace XmindMerge

/-- The members, among the topics `xs`, of the group of the topic `o`: the
topics whose title equals the title of `o` after upper-casing. -/
def group [Engine] (xs : List JsVal) (o : JsVal) : List JsVal :=
  xs.filter (fun t => decide (titleKey t = titleKey o))

/-- The invariant of the loop of `consolidate_xmind` for the children: every
topic of the output list holds the attached children of all members of its
group processed so far, in their order. -/
structure ChildrenCollected [Engine] (done : List JsVal) (st : Consolidation) : Prop where
  base : FirstOccurrences done st
  collected : ∀ a ∈ st.new_attached, attachedOf a = (group done a).flatMap attachedOf

end XmindMerge

namespace XmindMerge

/-! ## Vocabulary of the specification: notes -/

/-- The plain text of a topic's notes: `notes.plain.content`, when the notes
are well-formed that far. -/
def plainOf (t : JsVal) : Option String :=
  match own "notes" t with
  | some (.obj np) =>
    match lookup "plain" np with
    | some (.obj pp) =>
      match lookup "content" pp with
      | some (.str s) => some s
      | _ => none
    | _ => none
  | _ => none

/-- The HTML paragraphs of a topic's notes: the elements of
`notes.html.content.paragraphs`, when the notes are well-formed that far. -/
def paragraphsOf (t : JsVal) : Option (List JsVal) :=
  match own "notes" t with
  | some (.obj np) =>
    match lookup "html" np with
    | some (.obj hp) =>
      match lookup "content" hp with
      | some (.obj cp) =>
        match lookup "paragraphs" cp with
        | some (.arr ps _) => some ps
        | _ => none
      | _ => none
    | _ => none
  | _ => none

/-- The ops form of a topic's notes: `some none` when the notes have no `ops`
section, `some (some l)` when `notes.ops.ops` is the list `l`, and `none`
when the section is there but malformed. -/
def opsOf (t : JsVal) : Option (Option (List JsVal)) :=
  match own "notes" t with
  | some (.obj np) =>
    match lookup "ops" np with
    | none => some none
    | some (.obj op) =>
      match lookup "ops" op with
      | some (.arr l _) => some (some l)
      | _ => none
    | _ => none
  | _ => none

/-- The topic has well-formed notes with the plain text `plain`, the HTML
paragraphs `paragraphs`, and the ops list `ops` (`none`: no ops section). -/
def HasNotes (t : JsVal) (plain : String) (paragraphs : List JsVal)
    (ops : Option (List JsVal)) : Prop :=
  plainOf t = some plain ∧ paragraphsOf t = some paragraphs ∧ opsOf t = some ops

instance (t : JsVal) (plain : String) (paragraphs : List JsVal) (ops : Option (List JsVal)) :
    Decidable (HasNotes t plain paragraphs ops) :=
  inferInstanceAs (Decidable (_ ∧ _ ∧ _))

/-- The ops list of the matched topic after a consolidation, as the
specification gives it: the two lists concatenated when the current topic has
an ops section (the matched topic's counting as empty when it has none), the
matched topic's own otherwise. -/
def mergedOps (matched current : Option (List JsVal)) : Option (List JsVal) :=
  match current with
  | none => matched
  | some li => some (matched.getD [] ++ li)

/-- The concatenation of a list of strings. -/
def concatStrings : List String → String
  | [] => ""
  | s :: rest => s ++ concatStrings rest

/-- The text of a span of an HTML paragraph. -/
def spanText (span : JsVal) : String :=
  match own "text" span with
  | some (.str s) => s
  | _ => ""

/-- The text of an HTML paragraph: the texts of its spans, concatenated. -/
def paragraphText (paragraph : JsVal) : String :=
  match own "spans" paragraph with
  | some (.arr spans _) => concatStrings (spans.map spanText)
  | _ => ""

/-- The text of an insert operation of the ops form. -/
def insertText (op : JsVal) : String :=
  match own "insert" op with
  | some (.str s) => s
  | _ => ""

/-- The text of an ops list: the inserted texts, concatenated. -/
def opsText (ops : List JsVal) : String := concatStrings (ops.map insertText)

/-- The three representations carry the same note lines: the HTML form has
one paragraph per line of the plain text, and the ops form, where present,
inserts every line followed by a newline. -/
def Consistent (plain : String) (paragraphs : List JsVal) (ops : Option (List JsVal)) : Prop :=
  paragraphs ≠ [] ∧ joinWith "\n" (paragraphs.map paragraphText) = plain ∧
    ∀ l, ops = some l → opsText l = plain ++ "\n"

instance (plain : String) (paragraphs : List JsVal) (ops : Option (List JsVal)) :
    Decidable (Consistent plain paragraphs ops) :=
  match ops with
  | none =>
    if h : paragraphs ≠ [] ∧ joinWith "\n" (paragraphs.map paragraphText) = plain then
      isTrue ⟨h.1, h.2, by intro l hl; cases hl⟩
    else isFalse (fun hc => h ⟨hc.1, hc.2.1⟩)
  | some l =>
    if h : paragraphs ≠ [] ∧ joinWith "\n" (paragraphs.map paragraphText) = plain ∧
        opsText l = plain ++ "\n" then
      isTrue ⟨h.1, h.2.1, by intro l2 hl; cases hl; exact h.2.2⟩
    else isFalse (fun hc => h ⟨hc.1, hc.2.1, hc.2.2 l rfl⟩)

/-- The notes of a topic are well-formed and consistent. -/
def NotesConsistent (t : JsVal) : Prop :=
  match plainOf t, paragraphsOf t, opsOf t with
  | some plain, some paragraphs, some ops => Consistent plain paragraphs ops
  | _, _, _ => False

instance (t : JsVal) : Decidable (NotesConsistent t) := by
  unfold NotesConsistent
  split
  · infer_instance
  · infer_instance

/-- A note object in the three forms, for examples: one paragraph with one
span per line, and one insert per line when `withOps` is set. -/
def noteOf (lines : List String) (withOps : Bool) : JsVal :=
  let html : JsVal := .obj [("content", .obj [("paragraphs",
    .arr (lines.map fun l => .obj [("spans", .arr [.obj [("text", .str l)]] [])]) [])])]
  let plain : JsVal := .obj [("content", .str (joinWith "\n" lines))]
  if withOps then
    .obj [("plain", plain),
          ("ops", .obj [("ops", .arr (lines.map fun l => .obj [("insert", .str (l ++ "\n"))]) [])]),
          ("html", html)]
  else .obj [("plain", plain), ("html", html)]

/-- A topic with a title and notes, for examples. -/
def noted (title : String) (lines : List String) (withOps : Bool) : JsVal :=
  .obj [("title", .str title), ("notes", noteOf lines withOps)]

end XmindMerge

namespace XmindMerge

/-- The attribution line `SRC_ATTR_TAG + src_filename`. -/
def attributionLine (src_filename : String) : String := SRC_ATTR_TAG ++ src_filename

/-- The HTML paragraph `add_src_attr` appends: one span with the line. -/
def lineParagraph (line : String) : JsVal :=
  .obj [("spans", .arr [.obj [("text", .str line)]] [])]

/-- The insert operation `add_src_attr` appends: the line and a newline. -/
def lineInsert (line : String) : JsVal := .obj [("insert", .str (line ++ "\n"))]

/-- One of the representations of a topic's notes: the value of
`notes.plain`, `notes.html` or `notes.ops`. -/
def notesPart (k : String) (t : JsVal) : Option JsVal := (own "notes" t).bind (own k)

/-- The shape of the ops section of well-formed notes. -/
def OpsShape (np : Props) : Option (List JsVal) → Prop
  | none => lookup "ops" np = none
  | some l => ∃ op xo, lookup "ops" np = some (.obj op) ∧ lookup "ops" op = some (.arr l xo)

end XmindMerge

namespace XmindMerge

/-! ## Vocabulary of the specification: identifiers -/

/-- An identifier generator for examples: the `n`-th identifier is `n + 1`
letters `u`. -/
def sampleGen (n : Nat) : String := String.mk (List.replicate (n + 1) 'u')

mutual
/-- The identifiers of a tree: every value stored under a key `id`, at every
depth. -/
def ids : JsVal → List JsVal
  | .arr xs ps => idsList xs ++ idsProps ps
  | .obj ps => idsProps ps
  | _ => []
/-- The identifiers of the elements of a list. -/
def idsList : List JsVal → List JsVal
  | [] => []
  | x :: xs => ids x ++ idsList xs
/-- The identifiers of a property list. -/
def idsProps : Props → List JsVal
  | [] => []
  | (k, v) :: ps => (if k = "id" then [v] else []) ++ (ids v ++ idsProps ps)
end

/-- The first `n` identifiers of the generator, as values. -/
def generated (gen : Nat → String) (n : Nat) : List JsVal :=
  (List.range n).map fun i => JsVal.str (gen i)

end XmindMerge

namespace XmindMerge

/-- The identifiers inside the values of a property list. -/
def innerIds : Props → List JsVal
  | [] => []
  | (_, v) :: ps => ids v ++ innerIds ps

end XmindMerge

namespace XmindMerge

/-- The value of `clean_obj.children[key]`, `undefined` when there is none. -/
def cleanList (key : String) (clean_obj : JsVal) : JsVal :=
  (own key ((own "children" clean_obj).getD .undefined)).getD .undefined

/-- The notes of a topic, `undefined` when it has none. -/
def notesValue (item : JsVal) : JsVal := (own "notes" item).getD .undefined

end XmindMerge

namespace XmindMerge

/-- The identifiers of the sources: those of every parsed content. -/
def sourceIds : List Source → List JsVal
  | [] => []
  | src :: rest =>
    (match src.parsed with
      | .ok v => ids v
      | .error _ => []) ++ sourceIds rest

/-- A master template for examples: one sheet, a root topic without attached
topics and with one detached merge-log topic. -/
def sampleTemplate : JsVal :=
  .arr [.obj [("id", .str "s0"), ("rootTopic", .obj [("id", .str "r0"), ("title", .str "Merged"),
    ("children", .obj [("attached", .arr [] []),
      ("detached", .arr [.obj [("id", .str "l0"), ("title", .str "Merge Log"),
        ("children", .obj [("attached", .arr [] [])])]] [])])])]] []

/-- The content of a source for examples, written by an earlier run on the
same template: its root topic and one of its topics carry the identifiers of
the template. -/
def sampleSource : JsVal :=
  .arr [.obj [("id", .str "s0"), ("rootTopic", .obj [("id", .str "r0"), ("title", .str "Merged"),
    ("children", .obj [("attached", .arr [.obj [("id", .str "p1"), ("title", .str "Plan")]] []),
      ("detached", .arr [.obj [("id", .str "l0"), ("title", .str "Merge Log")]] [])])])]] []

/-- The master after merging `sampleSource` into `sampleTemplate` with
`sampleGen`. -/
def sampleMerged : JsVal :=
  .arr [.obj [("id", .str "s0"), ("rootTopic", .obj [("id", .str "r0"), ("title", .str "Merged"),
    ("children", .obj [
      ("attached", .arr [.obj [("id", .str "u"), ("title", .str "Plan")]] []),
      ("detached", .arr [
        .obj [("id", .str "l0"), ("title", .str "Merge Log"),
          ("children", .obj [("attached", .arr [
            .obj [("title", .str "Merged"), ("id", .str "uuuu"),
              ("children", .obj [("attached", .arr [
                .obj [("title", .str "Merged 2 top-level topics"), ("id", .str "uuuuu")],
                .obj [("title", .str "Source file was a.xmind"), ("id", .str "uuuuuu")]] [])])]] [])])],
        .obj [("id", .str "uu"), ("title", .str "Merge Log")]] [])])])]] []

/-- A source workbook none of whose identifiers occurs in `sampleTemplate`. -/
def freshSource : JsVal :=
  .arr [.obj [("id", .str "s9"), ("rootTopic",
    .obj [("id", .str "r9"), ("title", .str "Merged"), ("children", .obj [
      ("attached", .arr [.obj [("id", .str "p1"), ("title", .str "Plan")]] []),
      ("detached", .arr [.obj [("id", .str "l9"), ("title", .str "Merge Log")]] [])])])]] []

end XmindMerge

namespace XmindMerge

/-! ## Vocabulary of the specification: sorted topics -/

/-- The title of a topic as text, empty when the topic has no string title. -/
def titleText (t : JsVal) : String := (titleOf t).getD ""

/-- The topic `u` is reached from the topic `t` through attached links: it is
`t`, or it is reached from a member of the list `t.children.attached`. -/
inductive ReachedByAttached : JsVal → JsVal → Prop
  | root (t : JsVal) : ReachedByAttached t t
  | step {t c u : JsVal} : c ∈ attachedOf t → ReachedByAttached c u → ReachedByAttached t u

/-- The titles of the topics are in ascending order, the order of
JavaScript strings: the lexicographic order of their UTF-16 code units. -/
def AscendingTitles (xs : List JsVal) : Prop :=
  (xs.map fun x => codeUnits (titleText x)).Sorted (· ≤ ·)

/-- The topics of `xs` that carry the title `s`, in their order. -/
def withTitle (s : String) (xs : List JsVal) : List JsVal :=
  xs.filter fun x => decide (titleText x = s)

/-- The read `dst_xmind[0][ROOT_TOPIC]`. -/
def topRoot (dst_xmind : JsVal) : Except String JsVal := do
  getProp (← getFirst dst_xmind) ROOT_TOPIC

/-- The value of `t.children.detached`, if there is one. -/
def detachedValue (t : JsVal) : Option JsVal := (own "children" t).bind (own "detached")

mutual
/-- Every list `children.detached` of a topic and of the topics below it, at
every level: each entry is the whole value stored under `detached`. -/
def detachedLists : JsVal → List JsVal
  | .obj ps => detachedListsProps ps
  | .arr _ ps => detachedListsProps ps
  | _ => []
/-- The lists below the own property `children` of a topic. -/
def detachedListsProps : Props → List JsVal
  | [] => []
  | (k, v) :: rest => if k = "children" then detachedListsIn v else detachedListsProps rest
/-- The lists of a value `children`: its own `detached` with what is below
it, then what is below its `attached`. -/
def detachedListsIn : JsVal → List JsVal
  | .obj cps => detachedHere cps ++ detachedBelow cps
  | .arr _ cps => detachedHere cps ++ detachedBelow cps
  | _ => []
/-- The own property `detached` of a value `children`, and the lists below
its members. -/
def detachedHere : Props → List JsVal
  | [] => []
  | (k, v) :: rest => if k = "detached" then v :: detachedListsArray v else detachedHere rest
/-- The lists below the members of the own property `attached` of a value
`children`. -/
def detachedBelow : Props → List JsVal
  | [] => []
  | (k, v) :: rest => if k = "attached" then detachedListsArray v else detachedBelow rest
/-- The lists below the members of a list of topics. -/
def detachedListsArray : JsVal → List JsVal
  | .arr xs _ => detachedListsList xs
  | _ => []
/-- The lists of each topic of a list, in order. -/
def detachedListsList : List JsVal → List JsVal
  | [] => []
  | x :: xs => detachedLists x ++ detachedListsList xs
end

end XmindMerge

namespace XmindMerge

/-! ## Vocabulary of the specification: attribution -/

/-- The outcome `r` of a run that started with an empty log, when `errs` had
been logged before. -/
def logged {α : Type} (errs : List String) (r : Except String (α × List String)) :
    Except String (α × List String) :=
  r.map fun x => (x.1, errs ++ x.2)

end XmindMerge

namespace XmindMerge

/-- The two lists of child topics of a topic. -/
inductive Side where
  | attached
  | detached
  deriving DecidableEq

/-- The property name of a list of child topics. -/
def Side.key : Side → String
  | .attached => "attached"
  | .detached => "detached"

/-- The member `i` of the list `t.children[k]`, if there is one. -/
def childAt (t : JsVal) (k : String) (i : Nat) : Option JsVal :=
  match (own "children" t).bind (own k) with
  | some (.arr xs _) => xs[i]?
  | _ => none

/-- The topic reached from `t` along a path: each step goes to a member of
`children.attached` or of `children.detached`. -/
def descend : JsVal → List (Side × Nat) → Option JsVal
  | t, [] => some t
  | t, (s, i) :: rest =>
    match childAt t s.key i with
    | some c => descend c rest
    | none => none

/-- The topic reached from the member `i` of a sequence of topics along a
path. -/
def topicAt (ts : List JsVal) (i : Nat) (path : List (Side × Nat)) : Option JsVal :=
  match ts[i]? with
  | some t => descend t path
  | none => none

/-- The topic `u1` is the topic `u` with the attribution line for `L` added
once: every field but `notes` and `children` is as before; a topic without
notes has the new note with the line alone; well-formed notes have the line
appended to the plain text after a newline, one paragraph with the line
appended to the HTML form, and one insert of the line appended to the ops
form when there is one. -/
def NoteAdded (L : String) (u u1 : JsVal) : Prop :=
  (∀ k, k ≠ "notes" → k ≠ "children" → own k u1 = own k u) ∧
  (own "notes" u = none → own "notes" u1 = some (newNote (attributionLine L))) ∧
  (∀ X p o, HasNotes u X p o →
    HasNotes u1 (X ++ "\n" ++ attributionLine L) (p ++ [lineParagraph (attributionLine L)])
      (o.map fun l => l ++ [lineInsert (attributionLine L)]))

mutual
/-- Data model of a tree of topics: a topic is an object; its `children`,
when present, is an object whose `attached` and `detached`, when present, are
lists of topics. -/
def topicTree : JsVal → Bool
  | .obj ps => topicTreeProps ps
  | _ => false
/-- The own property `children` of a topic, when present, is well-formed. -/
def topicTreeProps : Props → Bool
  | [] => true
  | (k, v) :: rest => if k = "children" then topicTreeIn v else topicTreeProps rest
/-- A value `children` is an object with well-formed lists. -/
def topicTreeIn : JsVal → Bool
  | .obj cps => topicTreeAt "attached" cps && topicTreeAt "detached" cps
  | _ => false
/-- The own property `key` of a value `children`, when present, is a list of
topics. -/
def topicTreeAt (key : String) : Props → Bool
  | [] => true
  | (k, v) :: rest => if k = key then topicTreeArray v else topicTreeAt key rest
/-- A list of topics. -/
def topicTreeArray : JsVal → Bool
  | .arr xs _ => topicTreeList xs
  | _ => false
/-- Every member of the list is a well-formed topic. -/
def topicTreeList : List JsVal → Bool
  | [] => true
  | x :: xs => topicTree x && topicTreeList xs
end

end XmindMerge

namespace XmindMerge

/-! ## Vocabulary of the specification: one merge -/

/-- The root topic of a source: the field `rootTopic` of the first sheet,
when the content parses and the sheet has the field. -/
def sourceRoot (parsed : Except String JsVal) : Option JsVal :=
  match parsed >>= getFirst with
  | .ok sheet => own ROOT_TOPIC sheet
  | .error _ => none

/-- The topics of the list `root.children[key]` of a source root topic, when
`children` is an object and the value is a list. -/
def sourceList (key : String) (root : JsVal) : Option (List JsVal) :=
  match own "children" root with
  | some (.obj cps) =>
    match lookup key cps with
    | some (.arr xs _) => some xs
    | _ => none
  | _ => none

/-- The master `d` holds the top-level attached topics `A`, and the
top-level detached topics `log :: D`, the first of which, the merge log, has
the attached topics `L`. -/
def MasterShape (d : JsVal) (A : List JsVal) (log : JsVal) (D L : List JsVal) : Prop :=
  ∃ sheet root c pa pd lc pl, getFirst d = .ok sheet ∧ own ROOT_TOPIC sheet = some root ∧
    own "children" root = some c ∧ own "attached" c = some (.arr A pa) ∧
    own "detached" c = some (.arr (log :: D) pd) ∧ own "children" log = some lc ∧
    own "attached" lc = some (.arr L pl)

/-- The topic `y` is the cleaned topic `c` as the merge delivers it: `c`
itself, or the outcome of the callback of `add_src_attr` on `c` when source
attribution is configured. -/
def Attributed (args : Args) (src_xmind : String) (c y : JsVal) : Prop :=
  (args.src_attr = false ∧ y = c) ∨
  (args.src_attr = true ∧ ∃ e e1, add_src_attr_topic args.deeper src_xmind c e = .ok (y, e1))

/-- The topics `ys` are the source topics `xs` in their order, each with new
identifiers and, when configured, the attribution. -/
def Imported (args : Args) (gen : Nat → String) (src_xmind : String) (xs ys : List JsVal) :
    Prop :=
  ys.length = xs.length ∧ ∀ (i : Nat) (x : JsVal), xs[i]? = some x →
    ∃ y n, ys[i]? = some y ∧ Attributed args src_xmind (deeply gen x n).1 y

/-- The topics a merge appends for a list of the source root topic: none when
the source has no such list. -/
def ImportedFrom (args : Args) (gen : Nat → String) (src_xmind : String) :
    Option (List JsVal) → List JsVal → Prop
  | none, ys => ys = []
  | some xs, ys => Imported args gen src_xmind xs ys

/-- The message logged for a source without a list of attached topics. -/
def noAttachedMessage (src_xmind : String) : String :=
  "No attached subtopics found in \x27" ++ src_xmind ++ "\x27"

end XmindMerge

namespace XmindMerge

/-- The titles of the lines of a summary topic, as the specification lists
them: the number of top-level topics merged, the number of resources merged
(only when there are some), and the source file. -/
def summaryLines (topics resources : Nat) (src_xmind : String) : List String :=
  ["Merged " ++ toString topics ++ " top-level topics"] ++
  (if resources > 0 then ["Merged " ++ toString resources ++ " resources"] else []) ++
  ["Source file was " ++ src_xmind]

/-- The number of top-level topics a source contributes: the lengths of the
lists `children.attached` and `children.detached` of its root topic, and
nothing when the content does not parse or has no root topic. -/
def mergedCount (src : Source) : Nat :=
  match sourceRoot src.parsed with
  | none => 0
  | some root =>
    ((sourceList "attached" root).getD []).length + ((sourceList "detached" root).getD []).length

end XmindMerge

namespace XmindMerge

/-- The topic `st` is the summary of a source with the root topic `root`: it
carries the title of the root topic (a string), and its attached topics are
titled, in order, by the lines of the summary. -/
def IsSummary (st root : JsVal) (topics resources : Nat) (src_xmind : String) : Prop :=
  (∀ t, own "title" root = some (.str t) → own "title" st = some (.str t)) ∧
  (attachedOf st).map titleText = summaryLines topics resources src_xmind

end XmindMerge

namespace XmindMerge

/-- The number of topics of a list that was read, none when the read failed
or gave no list. -/
def listCount : Except String JsVal → Nat
  | .ok (.arr xs _) => xs.length
  | _ => 0

/-- The number of top-level attached plus detached topics of a master. -/
def topCount (d : JsVal) : Nat := listCount (topAttached d) + listCount (topDetached d)

end XmindMerge

namespace XmindMerge

/-- Data model of a source for a deeper attribution: the topics of the lists
of its root topic are well-formed topic trees. -/
def WellFormedSource (parsed : Except String JsVal) : Prop :=
  ∀ root, sourceRoot parsed = some root → ∀ key xs, sourceList key root = some xs →
    topicTreeList xs = true

end XmindMerge

namespace XmindMerge

/-! ## Vocabulary of the specification: a failed source -/

/-- The message logged for a source whose content does not parse, `error`
being the message of the error caught. -/
def parseFailureMessage (src_xmind error : String) : String :=
  "Unable to parse JSON in \x27" ++ src_xmind ++ "\x27: " ++ error

/-- The message logged for a source whose first sheet has no root topic. -/
def noRootMessage (src_xmind : String) : String :=
  "No root topic in \x27" ++ src_xmind ++ "\x27"

/-- A topic with a child, whose notes have a plain text and an HTML form
without the paragraph list. -/
def halfNoted : JsVal :=
  .obj [("title", .str "T"),
    ("notes", .obj [("plain", .obj [("content", .str "X")]),
      ("html", .obj [("content", .obj [])])]),
    ("children", .obj [("attached", .arr [.obj [("title", .str "c")]] [])])]

end XmindMerge

namespace XmindMerge

/-! ## Properties: reading and writing properties -/

theorem lookup_assign_self (k : String) (v : JsVal) (ps : Props) :
    lookup k (assign k v ps) = some v := by
  induction ps with
  | nil => simp [assign, lookup]
  | cons p ps ih =>
    obtain ⟨k', v'⟩ := p
    by_cases h : k' = k <;> simp [assign, lookup, h, ih]

theorem lookup_assign_ne {k k' : String} (h : k' ≠ k) (v : JsVal) (ps : Props) :
    lookup k' (assign k v ps) = lookup k' ps := by
  induction ps with
  | nil => simp [assign, lookup, Ne.symm h]
  | cons p ps ih =>
    obtain ⟨k1, v1⟩ := p
    by_cases h1 : k1 = k
    · subst h1
      simp [assign, lookup, Ne.symm h]
    · by_cases h2 : k1 = k'
      · subst h2
        simp [assign, lookup, h1]
      · simp [assign, lookup, h1, h2, ih]

theorem own_putProp_ne {k k' : String} (h : k' ≠ k) (o v : JsVal) :
    own k' (putProp o k v) = own k' o := by
  cases o <;> simp [putProp, own, lookup_assign_ne h]

theorem own_putProp_self {k : String} {o w : JsVal} (h : own k o = some w) (v : JsVal) :
    own k (putProp o k v) = some v := by
  cases o <;> simp_all [putProp, own, lookup_assign_self]

theorem own_putProp_obj (k : String) (ps : Props) (v : JsVal) :
    own k (putProp (.obj ps) k v) = some v := by
  simp [putProp, own, lookup_assign_self]

theorem getProp_of_own {k : String} {o v : JsVal} (h : own k o = some v) :
    getProp o k = .ok v := by
  cases o <;> simp_all [getProp, own]

theorem setProp_of_own {k0 : String} {o w : JsVal} (h : own k0 o = some w) (k : String)
    (v : JsVal) : setProp o k v = .ok (putProp o k v) := by
  cases o <;> simp_all [setProp, own]

theorem has_of_own {k : String} {o v : JsVal} (h : own k o = some v) : has o k = true := by
  simp [has, h]

theorem has_eq_false_of_own {k : String} {o : JsVal} (h : own k o = none) : has o k = false := by
  simp [has, h]

/-! ## Properties: `match_topic` -/

theorem titleMatches_eq [Engine] {topic item : JsVal} (ht : TitleIsString topic)
    (hi : TitleIsString item) : titleMatches topic item = .ok (sameTitle topic item) := by
  unfold titleMatches sameTitle titleOf
  cases h1 : own "title" item with
  | none => simp [has, h1, pure, Except.pure]
  | some a =>
    cases h2 : own "title" topic with
    | none => simp [has, h1, h2, pure, Except.pure]
    | some b =>
      obtain ⟨s, rfl⟩ := hi a h1
      obtain ⟨u, rfl⟩ := ht b h2
      simp [has, h1, h2, getProp_of_own h1, getProp_of_own h2, callToUpperCase, bind,
        Except.bind, pure, Except.pure]

theorem titleMatches_congr [Engine] {t t1 i i1 : JsVal} (ht : own "title" t1 = own "title" t)
    (hi : own "title" i1 = own "title" i) : titleMatches t1 i1 = titleMatches t i := by
  unfold titleMatches has
  rw [ht, hi]
  cases h1 : own "title" i with
  | none => simp
  | some a =>
    cases h2 : own "title" t with
    | none => simp
    | some b =>
      rw [getProp_of_own h1, getProp_of_own h2, getProp_of_own (hi.trans h1),
        getProp_of_own (ht.trans h2)]

theorem findIndexFrom_none [Engine] {topic : JsVal} {list : List JsVal}
    (h : ∀ item ∈ list, titleMatches topic item = .ok false) (i : Nat) :
    findIndexFrom topic list i = .ok (-1) := by
  induction list generalizing i with
  | nil => rfl
  | cons x xs ih =>
    simp only [findIndexFrom, h x (List.mem_cons_self _ _)]
    exact ih (fun y hy => h y (List.mem_cons_of_mem _ hy)) _

theorem findIndexFrom_some [Engine] {topic m : JsVal} {pre : List JsVal} (post : List JsVal)
    (h : ∀ item ∈ pre, titleMatches topic item = .ok false)
    (hm : titleMatches topic m = .ok true) (i : Nat) :
    findIndexFrom topic (pre ++ m :: post) i = .ok ((i + pre.length : Nat) : Int) := by
  induction pre generalizing i with
  | nil => simp [findIndexFrom, hm]
  | cons x xs ih =>
    have hx := h x (List.mem_cons_self _ _)
    have := ih (fun y hy => h y (List.mem_cons_of_mem _ hy)) (i + 1)
    have e : i + 1 + xs.length = i + (xs.length + 1) := by omega
    have step : findIndexFrom topic (x :: (xs ++ m :: post)) i =
        findIndexFrom topic (xs ++ m :: post) (i + 1) := by
      simp only [findIndexFrom, hx]
    rw [List.cons_append, step, this, List.length_cons, e]

/-- Whatever `findIndexFrom` returns, it is `-1` with no item matching, or the
position of the first matching item. -/
theorem findIndexFrom_ok [Engine] {topic : JsVal} {list : List JsVal} {i : Nat} {r : Int}
    (h : findIndexFrom topic list i = .ok r) :
    (r = -1 ∧ ∀ item ∈ list, titleMatches topic item = .ok false) ∨
    (∃ pre m post, list = pre ++ m :: post ∧ r = ((i + pre.length : Nat) : Int) ∧
      (∀ item ∈ pre, titleMatches topic item = .ok false) ∧ titleMatches topic m = .ok true) := by
  induction list generalizing i with
  | nil =>
    left
    simp only [findIndexFrom, Except.ok.injEq] at h
    exact ⟨h.symm, by simp⟩
  | cons x xs ih =>
    simp only [findIndexFrom] at h
    cases hx : titleMatches topic x with
    | error e => simp [hx] at h
    | ok b =>
      cases b with
      | true =>
        simp only [hx, Except.ok.injEq] at h
        right
        exact ⟨[], x, xs, rfl, by simp [← h], by simp, hx⟩
      | false =>
        simp only [hx] at h
        rcases ih h with ⟨h1, h2⟩ | ⟨pre, m, post, h1, h2, h3, h4⟩
        · left
          refine ⟨h1, ?_⟩
          intro item hitem
          rcases List.mem_cons.1 hitem with rfl | hmem
          · exact hx
          · exact h2 item hmem
        · right
          refine ⟨x :: pre, m, post, by simp [h1], ?_, ?_, h4⟩
          · have e : i + 1 + pre.length = i + (pre.length + 1) := by omega
            rw [h2, List.length_cons, e]
          · intro item hitem
            rcases List.mem_cons.1 hitem with rfl | hmem
            · exact hx
            · exact h3 item hmem

end XmindMerge

namespace XmindMerge

/-! ## Properties: the consolidation of one topic into another -/

theorem bind_ok {ε α β : Type} {x : Except ε α} {f : α → Except ε β} {b : β} :
    (x >>= f) = .ok b ↔ ∃ a, x = .ok a ∧ f a = .ok b := by
  cases x with
  | error e => simp [bind, Except.bind]
  | ok a => simp [bind, Except.bind]

theorem own_putProp_of_own {k0 k : String} {o w : JsVal} (h : own k0 o = some w) (v : JsVal) :
    own k (putProp o k v) = some v := by
  cases o <;> simp_all [putProp, own, lookup_assign_self]

theorem merge_plain_frame {m item m1 : JsVal} (h : merge_plain m item = .ok m1) {k : String}
    (hk : k ≠ "notes") : own k m1 = own k m := by
  simp only [merge_plain, bind_ok, pure, Except.pure, Except.ok.injEq] at h
  repeat obtain ⟨_, _, h⟩ := h
  try subst h
  exact own_putProp_ne hk _ _

theorem merge_html_frame {m item m1 : JsVal} (h : merge_html m item = .ok m1) {k : String}
    (hk : k ≠ "notes") : own k m1 = own k m := by
  simp only [merge_html, bind_ok, pure, Except.pure, Except.ok.injEq] at h
  repeat obtain ⟨_, _, h⟩ := h
  try subst h
  exact own_putProp_ne hk _ _

theorem merge_ops_frame {m item m1 : JsVal} (h : merge_ops m item = .ok m1) {k : String}
    (hk : k ≠ "notes") : own k m1 = own k m := by
  simp only [merge_ops, bind_ok] at h
  obtain ⟨inotes, _, h⟩ := h
  split at h
  · simp only [bind_ok] at h
    obtain ⟨notes, _, h⟩ := h
    split at h
    · simp only [bind_ok, pure, Except.pure, Except.ok.injEq] at h
      repeat obtain ⟨_, _, h⟩ := h
      try subst h
      exact own_putProp_ne hk _ _
    · simp only [bind_ok, pure, Except.pure, Except.ok.injEq] at h
      repeat obtain ⟨_, _, h⟩ := h
      try subst h
      exact own_putProp_ne hk _ _
  · simp only [pure, Except.pure, Except.ok.injEq] at h
    rw [← h]

theorem merge_notes_frame (m item : JsVal) {k : String} (hk : k ≠ "notes") :
    own k (merge_notes m item).1 = own k m := by
  unfold merge_notes
  split
  · rfl
  · rename_i m1 h1
    split
    · exact merge_plain_frame h1 hk
    · rename_i m2 h2
      split
      · exact (merge_html_frame h2 hk).trans (merge_plain_frame h1 hk)
      · rename_i m3 h3
        exact (merge_ops_frame h3 hk).trans
          ((merge_html_frame h2 hk).trans (merge_plain_frame h1 hk))

theorem ensure_children_frame {m m1 : JsVal} (h : ensure_children m = .ok m1)
    {k : String} (hk : k ≠ "children") : own k m1 = own k m := by
  unfold ensure_children at h
  split at h
  · simp only [Except.ok.injEq] at h
    rw [← h]
  · cases m <;> simp [setProp] at h <;> subst h <;> exact own_putProp_ne hk _ _

theorem merge_children_frame {m item m1 : JsVal} (h : merge_children m item = .ok m1)
    {k : String} (hk : k ≠ "children") : own k m1 = own k m := by
  unfold merge_children at h
  split at h
  · simp only [bind_ok] at h
    obtain ⟨_, _, ia, _, h⟩ := h
    split at h
    · simp only [bind_ok, pure, Except.pure, Except.ok.injEq] at h
      repeat obtain ⟨_, _, h⟩ := h
      try subst h
      exact own_putProp_ne hk _ _
    · simp only [bind_ok, pure, Except.pure, Except.ok.injEq] at h
      obtain ⟨m0, h0, _, _, _, _, rfl⟩ := h
      rw [own_putProp_ne hk]
      exact ensure_children_frame h0 hk
  · simp only [pure, Except.pure, Except.ok.injEq] at h
    rw [← h]

theorem consolidate_notes_frame {m item m1 : JsVal} {w : List String}
    (h : consolidate_notes m item = .ok (m1, w)) {k : String} (hn : k ≠ "notes") :
    own k m1 = own k m := by
  unfold consolidate_notes at h
  split at h
  · split at h
    · split at h
      · rename_i m0 hm
        simp only [Except.ok.injEq, Prod.mk.injEq] at h
        obtain ⟨rfl, _⟩ := h
        have := merge_notes_frame m item hn
        rw [hm] at this
        exact this
      · rename_i m0 e hm
        simp only [bind_ok, pure, Except.pure, Except.ok.injEq, Prod.mk.injEq] at h
        obtain ⟨_, _, _, _, rfl, _⟩ := h
        have := merge_notes_frame m item hn
        rw [hm] at this
        exact this
    · simp only [bind_ok, pure, Except.pure, Except.ok.injEq, Prod.mk.injEq] at h
      obtain ⟨_, _, m0, h1, rfl, _⟩ := h
      cases m <;> simp [setProp] at h1 <;> subst h1 <;> exact own_putProp_ne hn _ _
  · simp only [Except.ok.injEq, Prod.mk.injEq] at h
    obtain ⟨rfl, _⟩ := h
    rfl

/-- A consolidation changes at most the `notes` and the `children` of the
matched topic. -/
theorem consolidate_into_frame {m item m2 : JsVal} {w : List String}
    (h : consolidate_into m item = .ok (m2, w)) {k : String} (hn : k ≠ "notes")
    (hc : k ≠ "children") : own k m2 = own k m := by
  simp only [consolidate_into, bind_ok, pure, Except.pure, Except.ok.injEq, Prod.mk.injEq] at h
  obtain ⟨r, hr, m3, h3, rfl, _⟩ := h
  rw [merge_children_frame h3 hc]
  exact consolidate_notes_frame (w := r.2) hr hn

end XmindMerge

namespace XmindMerge

/-! ## Properties: the top-level lists of the master workbook -/

theorem own_of_getProp {o v : JsVal} {k : String} (h : getProp o k = .ok v)
    (hv : v ≠ .undefined) : own k o = some v := by
  cases o <;> simp [getProp, own] at h ⊢ <;> first
    | exact absurd h.symm hv
    | (cases hl : lookup k _ <;> simp [hl] at h <;> first
        | exact absurd h.symm hv
        | rw [h])

theorem getFirst_putFirst {d sheet w : JsVal} {k : String} (h : getFirst d = .ok sheet)
    (hs : own k sheet = some w) (v : JsVal) : getFirst (putFirst d v) = .ok v := by
  cases d with
  | undefined => simp [getFirst] at h
  | null => simp [getFirst] at h
  | bool b => simp [getFirst] at h; subst h; simp [own] at hs
  | num n => simp [getFirst] at h; subst h; simp [own] at hs
  | str s =>
    simp only [getFirst, Except.ok.injEq] at h
    split at h <;> subst h <;> simp [own] at hs
  | arr xs ps =>
    cases xs with
    | nil => simp [getFirst] at h; subst h; simp [own] at hs
    | cons x xs => simp [putFirst, getFirst]
  | obj ps => simp [putFirst, getFirst, lookup_assign_self]

/-- The shape of a master workbook whose `children` can be read. -/
theorem topChildren_ok {d c w : JsVal} {k : String} (h : topChildren d = .ok c)
    (hc : own k c = some w) :
    ∃ sheet root, getFirst d = .ok sheet ∧ own ROOT_TOPIC sheet = some root ∧
      own "children" root = some c := by
  simp only [topChildren, bind_ok] at h
  obtain ⟨sheet, h1, root, h2, h3⟩ := h
  have hcu : c ≠ .undefined := by
    intro e
    subst e
    simp [own] at hc
  have h3' := own_of_getProp h3 hcu
  have hru : root ≠ .undefined := by
    intro e
    subst e
    simp [own] at h3'
  exact ⟨sheet, root, h1, own_of_getProp h2 hru, h3'⟩

theorem topChildren_eq {d sheet root c : JsVal} (h1 : getFirst d = .ok sheet)
    (h2 : own ROOT_TOPIC sheet = some root) (h3 : own "children" root = some c) :
    topChildren d = .ok c := by
  simp [topChildren, h1, getProp_of_own h2, getProp_of_own h3, bind, Except.bind]

/-- Assigning one of the top-level lists succeeds on a workbook whose
`children` holds a list, and the list is read back. -/
theorem setTopList_ok {d c w : JsVal} {k0 : String} (h : topChildren d = .ok c)
    (hc : own k0 c = some w) (k : String) (v : JsVal) :
    ∃ d1, setTopList d k v = .ok d1 ∧ topChildren d1 = .ok (putProp c k v) := by
  obtain ⟨sheet, root, h1, h2, h3⟩ := topChildren_ok h hc
  refine ⟨putFirst d (putProp sheet ROOT_TOPIC (putProp root "children" (putProp c k v))), ?_, ?_⟩
  · simp [setTopList, h1, getProp_of_own h2, getProp_of_own h3, setProp_of_own hc k v, bind,
      Except.bind, pure, Except.pure]
  · apply topChildren_eq (getFirst_putFirst h1 h2 _) (own_putProp_self h2 _)
    exact own_putProp_self h3 _

theorem topAttached_ok {d a : JsVal} (h : topAttached d = .ok a) (ha : a ≠ .undefined) :
    ∃ c, topChildren d = .ok c ∧ own "attached" c = some a := by
  simp only [topAttached, bind_ok] at h
  obtain ⟨c, h1, h2⟩ := h
  exact ⟨c, h1, own_of_getProp h2 ha⟩

theorem topAttached_eq {d c a : JsVal} (h : topChildren d = .ok c)
    (ha : own "attached" c = some a) : topAttached d = .ok a := by
  simp [topAttached, h, getProp_of_own ha, bind, Except.bind]

/-- Replacing the top-level attached list: the assignment succeeds and the
new list is read back. -/
theorem setTopAttached_ok {d a : JsVal} (h : topAttached d = .ok a) (ha : a ≠ .undefined)
    (v : JsVal) : ∃ d1, setTopList d "attached" v = .ok d1 ∧ topAttached d1 = .ok v := by
  obtain ⟨c, h1, h2⟩ := topAttached_ok h ha
  obtain ⟨d1, h3, h4⟩ := setTopList_ok h1 h2 "attached" v
  exact ⟨d1, h3, topAttached_eq h4 (own_putProp_self h2 _)⟩

/-! ## Properties: the loop of `consolidate_xmind` -/

theorem getD_middle (pre post : List JsVal) (m d : JsVal) :
    (pre ++ m :: post).getD pre.length d = m := by
  induction pre with
  | nil => rfl
  | cons x xs ih => simpa using ih

theorem set_middle (pre post : List JsVal) (m m2 : JsVal) :
    (pre ++ m :: post).set pre.length m2 = pre ++ m2 :: post := by
  simp

theorem consolidate_item_nomatch [Engine] {st : Consolidation} {item : JsVal}
    (h : ∀ a ∈ st.new_attached, titleMatches item a = .ok false) :
    consolidate_item st item = .ok { st with new_attached := st.new_attached ++ [item] } := by
  simp [consolidate_item, match_topic, findIndexFrom_none h, bind, Except.bind, pure,
    Except.pure]

theorem consolidate_item_match [Engine] {st : Consolidation} {item m : JsVal} {pre post : List JsVal}
    (hacc : st.new_attached = pre ++ m :: post)
    (hpre : ∀ a ∈ pre, titleMatches item a = .ok false)
    (hm : titleMatches item m = .ok true) {m2 : JsVal} {w : List String}
    (hinto : consolidate_into m item = .ok (m2, w)) :
    consolidate_item st item = .ok { new_attached := pre ++ m2 :: post,
                                     count := st.count + 1,
                                     console := st.console ++ w } := by
  have hne : ¬ ((pre.length : Nat) : Int) = -1 := by omega
  simp only [consolidate_item, match_topic, hacc, findIndexFrom_some post hpre hm, bind,
    Except.bind, ne_eq, Int.toNat_ofNat, Nat.zero_add,
    getD_middle, set_middle, hinto, pure, Except.pure]
  rw [if_pos hne]

/-- The two ways the callback can return: the item was appended, no topic of
the list matching it; or it was consolidated into the first matching topic. -/
theorem consolidate_item_ok [Engine] {st st1 : Consolidation} {item : JsVal}
    (h : consolidate_item st item = .ok st1) :
    (st1 = { st with new_attached := st.new_attached ++ [item] } ∧
      ∀ a ∈ st.new_attached, titleMatches item a = .ok false) ∨
    (∃ pre m post m2 w, st.new_attached = pre ++ m :: post ∧
      (∀ a ∈ pre, titleMatches item a = .ok false) ∧ titleMatches item m = .ok true ∧
      consolidate_into m item = .ok (m2, w) ∧
      st1 = { new_attached := pre ++ m2 :: post, count := st.count + 1,
              console := st.console ++ w }) := by
  cases hf : match_topic item st.new_attached with
  | error e => simp [consolidate_item, hf, bind, Except.bind] at h
  | ok r =>
    rcases findIndexFrom_ok hf with ⟨_, h2⟩ | ⟨pre, m, post, h1, _, h3, h4⟩
    · left
      rw [consolidate_item_nomatch h2] at h
      exact ⟨(Except.ok.inj h).symm, h2⟩
    · right
      cases hinto : consolidate_into m item with
      | error e =>
        have hne : ¬ ((pre.length : Nat) : Int) = -1 := by omega
        simp only [consolidate_item, match_topic, h1, findIndexFrom_some post h3 h4, bind,
          Except.bind, ne_eq, Int.toNat_ofNat, Nat.zero_add,
          getD_middle, hinto] at h
        rw [if_pos hne] at h
        exact absurd h (by simp)
      | ok r2 =>
        obtain ⟨m2, w⟩ := r2
        rw [consolidate_item_match h1 h3 h4 hinto] at h
        exact ⟨pre, m, post, m2, w, h1, h3, h4, hinto, (Except.ok.inj h).symm⟩

end XmindMerge

namespace XmindMerge

/-! ## Properties: idempotence of the consolidation -/

theorem consolidate_item_pairwise [Engine] {st st1 : Consolidation} {item : JsVal}
    (h : consolidate_item st item = .ok st1) (hp : st.new_attached.Pairwise Unmatched) :
    st1.new_attached.Pairwise Unmatched := by
  rcases consolidate_item_ok h with ⟨rfl, h2⟩ | ⟨pre, m, post, m2, w, h1, _, _, hinto, rfl⟩
  · simp only [List.pairwise_append, List.pairwise_cons, List.Pairwise.nil, and_true,
      List.mem_singleton, forall_eq]
    exact ⟨hp, by simp, h2⟩
  · have ht : own "title" m2 = own "title" m :=
      consolidate_into_frame hinto (by decide) (by decide)
    rw [h1] at hp
    simp only [List.pairwise_append, List.pairwise_cons, List.mem_cons, forall_eq_or_imp] at hp ⊢
    obtain ⟨hpre, ⟨hm, hpost⟩, hcross⟩ := hp
    refine ⟨hpre, ⟨?_, hpost⟩, ?_⟩
    · intro b hb
      have := hm b hb
      unfold Unmatched at this ⊢
      rw [titleMatches_congr rfl ht]
      exact this
    · intro a ha
      refine ⟨?_, (hcross a ha).2⟩
      have := (hcross a ha).1
      unfold Unmatched at this ⊢
      rw [titleMatches_congr ht rfl]
      exact this

theorem consolidate_loop_pairwise [Engine] {rest : List JsVal} {st st1 : Consolidation}
    (h : consolidate_loop st rest = .ok st1) (hp : st.new_attached.Pairwise Unmatched) :
    st1.new_attached.Pairwise Unmatched := by
  induction rest generalizing st with
  | nil =>
    simp only [consolidate_loop, Except.ok.injEq] at h
    rw [← h]
    exact hp
  | cons item rest ih =>
    simp only [consolidate_loop] at h
    cases hs : consolidate_item st item with
    | error e => simp [hs] at h
    | ok st2 =>
      simp only [hs] at h
      exact ih h (consolidate_item_pairwise hs hp)

theorem consolidate_item_count [Engine] {st st1 : Consolidation} {item : JsVal}
    (h : consolidate_item st item = .ok st1) :
    (st1 = { st with new_attached := st.new_attached ++ [item] }) ∨ st1.count = st.count + 1 := by
  rcases consolidate_item_ok h with ⟨h1, _⟩ | ⟨_, _, _, _, _, _, _, _, _, rfl⟩
  · exact Or.inl h1
  · exact Or.inr rfl

theorem consolidate_loop_count_le [Engine] {rest : List JsVal} {st st1 : Consolidation}
    (h : consolidate_loop st rest = .ok st1) : st.count ≤ st1.count := by
  induction rest generalizing st with
  | nil =>
    simp only [consolidate_loop, Except.ok.injEq] at h
    rw [← h]
  | cons item rest ih =>
    simp only [consolidate_loop] at h
    cases hs : consolidate_item st item with
    | error e => simp [hs] at h
    | ok st2 =>
      simp only [hs] at h
      have := ih h
      rcases consolidate_item_count hs with rfl | h2
      · exact this
      · omega

/-- A run of the loop that counts nothing appended every item and printed
nothing. -/
theorem consolidate_loop_count_eq [Engine] {rest : List JsVal} {st st1 : Consolidation}
    (h : consolidate_loop st rest = .ok st1) (hc : st1.count = st.count) :
    st1 = { st with new_attached := st.new_attached ++ rest } := by
  induction rest generalizing st with
  | nil =>
    simp only [consolidate_loop, Except.ok.injEq] at h
    simp [← h]
  | cons item rest ih =>
    simp only [consolidate_loop] at h
    cases hs : consolidate_item st item with
    | error e => simp [hs] at h
    | ok st2 =>
      simp only [hs] at h
      have hle := consolidate_loop_count_le h
      rcases consolidate_item_count hs with rfl | h2
      · rw [ih h hc]
        simp
      · omega

/-- On a list no topic of which matches an earlier one the loop appends every
item. -/
theorem consolidate_loop_fixed [Engine] (rest : List JsVal) (st : Consolidation)
    (hp : (st.new_attached ++ rest).Pairwise Unmatched) :
    consolidate_loop st rest = .ok { st with new_attached := st.new_attached ++ rest } := by
  induction rest generalizing st with
  | nil => simp [consolidate_loop]
  | cons item rest ih =>
    have h1 : ∀ a ∈ st.new_attached, titleMatches item a = .ok false := by
      intro a ha
      rw [List.pairwise_append] at hp
      exact hp.2.2 a ha item (List.mem_cons_self _ _)
    simp only [consolidate_loop, consolidate_item_nomatch h1]
    rw [ih]
    · simp
    · simpa using hp

/-! ## Properties: on ASCII titles every engine gives the same run -/

theorem toUpperCase_of_ascii [Engine] {s : String}
    (h : (s.data.all fun c => decide (c.toNat < 128)) = true) :
    toUpperCase s = asciiUpper s :=
  Engine.toUpperCase_ascii s (fun c hc => by simpa using List.all_eq_true.1 h c hc)

theorem callToUpperCase_ascii [Engine] (expr : String) {t v : JsVal}
    (h : asciiTitle t = true) (hv : own "title" t = some v) :
    callToUpperCase expr v = @callToUpperCase asciiEngine expr v := by
  cases v with
  | str s =>
    simp only [asciiTitle, hv] at h
    simp only [callToUpperCase, toUpperCase_of_ascii h]
    rfl
  | undefined => rfl
  | null => rfl
  | bool b => rfl
  | num n => rfl
  | arr xs ps => rfl
  | obj ps => rfl

theorem titleMatches_ascii [Engine] {topic item : JsVal} (ht : asciiTitle topic = true)
    (hi : asciiTitle item = true) :
    titleMatches topic item = @titleMatches asciiEngine topic item := by
  unfold titleMatches has
  cases h1 : own "title" item with
  | none => simp
  | some a =>
    cases h2 : own "title" topic with
    | none => simp
    | some b =>
      simp only [getProp_of_own h1, getProp_of_own h2, bind, Except.bind,
        callToUpperCase_ascii "item.title" hi h1, callToUpperCase_ascii "topic.title" ht h2]

theorem findIndexFrom_ascii [Engine] {topic : JsVal} (ht : asciiTitle topic = true) :
    ∀ (list : List JsVal) (i : Nat), (∀ a ∈ list, asciiTitle a = true) →
      findIndexFrom topic list i = @findIndexFrom asciiEngine topic list i := by
  intro list
  induction list with
  | nil => intro i _; rfl
  | cons x xs ih =>
    intro i h
    simp only [findIndexFrom]
    rw [titleMatches_ascii ht (h x (List.mem_cons_self _ _)),
      ih (i + 1) (fun a ha => h a (List.mem_cons_of_mem _ ha))]

theorem consolidate_item_ascii [Engine] {st : Consolidation} {item : JsVal}
    (hs : ∀ a ∈ st.new_attached, asciiTitle a = true) (hi : asciiTitle item = true) :
    consolidate_item st item = @consolidate_item asciiEngine st item := by
  simp only [consolidate_item, match_topic, findIndexFrom_ascii hi _ _ hs]

theorem asciiTitle_of_own_eq {a b : JsVal} (h : own "title" a = own "title" b) :
    asciiTitle a = asciiTitle b := by
  simp only [asciiTitle, h]

theorem consolidate_item_asciiTitles [Engine] {st st1 : Consolidation} {item : JsVal}
    (h : consolidate_item st item = .ok st1)
    (hs : ∀ a ∈ st.new_attached, asciiTitle a = true) (hi : asciiTitle item = true) :
    ∀ a ∈ st1.new_attached, asciiTitle a = true := by
  rcases consolidate_item_ok h with ⟨rfl, _⟩ | ⟨pre, m, post, m2, w, hacc, _, _, hinto, rfl⟩
  · intro a ha
    simp only [List.mem_append, List.mem_singleton] at ha
    rcases ha with ha | rfl
    · exact hs a ha
    · exact hi
  · intro a ha
    simp only [List.mem_append, List.mem_cons] at ha
    rcases ha with ha | rfl | ha
    · exact hs a (by simp [hacc, ha])
    · rw [asciiTitle_of_own_eq (consolidate_into_frame hinto (by decide) (by decide))]
      exact hs m (by simp [hacc])
    · exact hs a (by simp [hacc, ha])

theorem consolidate_loop_ascii [Engine] :
    ∀ (items : List JsVal) (st : Consolidation),
      (∀ a ∈ st.new_attached, asciiTitle a = true) → (∀ x ∈ items, asciiTitle x = true) →
      consolidate_loop st items = @consolidate_loop asciiEngine st items := by
  intro items
  induction items with
  | nil => intro st _ _; rfl
  | cons x xs ih =>
    intro st hs hx
    have hx0 := hx x (List.mem_cons_self _ _)
    simp only [consolidate_loop]
    rw [← consolidate_item_ascii hs hx0]
    cases h : consolidate_item st x with
    | error e => rfl
    | ok st1 =>
      exact ih st1 (consolidate_item_asciiTitles h hs hx0)
        (fun a ha => hx a (List.mem_cons_of_mem _ ha))

/-- A run of `consolidate_xmind` on top-level topics with ASCII titles is the
same on every engine: it can be computed on the sample engine. -/
theorem consolidate_xmind_ascii [Engine] (d : JsVal) (h : asciiTop d = true) :
    consolidate_xmind d = @consolidate_xmind asciiEngine d := by
  unfold asciiTop at h
  unfold consolidate_xmind
  cases ha : topAttached d with
  | error e => rfl
  | ok v =>
    rw [ha] at h
    cases v with
    | arr xs ps =>
      simp only [List.all_eq_true] at h
      simp only [bind, Except.bind]
      rw [consolidate_loop_ascii xs _ (by simp) h]
    | undefined => rfl
    | null => rfl
    | bool b => rfl
    | num n => rfl
    | str s => rfl
    | obj ps => rfl

end XmindMerge

namespace XmindMerge

/-- C2. Consolidation is idempotent: when a first run of `consolidate_xmind`
on any master workbook has returned, a second run on the workbook it left
returns the count 0, prints nothing and leaves that workbook as it is. -/
theorem consolidate_xmind_idempotent [Engine] (dst_xmind : JsVal) (r : ConsolidateResult)
    (h : consolidate_xmind dst_xmind = .ok r) :
    consolidate_xmind r.dst_xmind =
      .ok { dst_xmind := r.dst_xmind, count := 0, console := [] } := by
  have second : ∀ (d : JsVal) (out : List JsVal) (ps : Props),
      topAttached d = .ok (.arr out ps) → out.Pairwise Unmatched →
      consolidate_xmind d = .ok { dst_xmind := d, count := 0, console := [] } := by
    intro d out ps h1 h2
    have := consolidate_loop_fixed out { new_attached := [], count := 0, console := [] }
      (by simpa using h2)
    simp [consolidate_xmind, h1, this, bind, Except.bind, pure, Except.pure]
  simp only [consolidate_xmind, bind_ok] at h
  obtain ⟨a, ha, h⟩ := h
  cases a with
  | arr items ps =>
    simp only [bind_ok] at h
    obtain ⟨st, hst, h⟩ := h
    have hpw := consolidate_loop_pairwise hst (by simp)
    split at h
    · simp only [bind_ok, pure, Except.pure, Except.ok.injEq] at h
      obtain ⟨dst1, hset, rfl⟩ := h
      obtain ⟨d1, hd1, hread⟩ := setTopAttached_ok ha (by simp) (.arr st.new_attached [])
      rw [hset] at hd1
      cases hd1
      exact second _ _ _ hread hpw
    · simp only [pure, Except.pure, Except.ok.injEq] at h
      subst h
      have hc : st.count = 0 := by omega
      have := consolidate_loop_count_eq hst (by simpa using hc)
      rw [this] at hpw
      exact second _ _ _ ha (by simpa using hpw)
  | undefined => simp at h
  | null => simp at h
  | bool b => simp at h
  | num n => simp at h
  | str s => simp at h
  | obj ps => simp at h

theorem consolidate_xmind_idempotent_witness :
    consolidate_xmind (workbook [branch "Plan" [leaf "a"], leaf "Budget",
        branch "plan" [leaf "b"]] []) =
      .ok { dst_xmind := workbook [branch "Plan" [leaf "a", leaf "b"], leaf "Budget"] [],
            count := 1, console := [] } ∧
    consolidate_xmind (workbook [branch "Plan" [leaf "a", leaf "b"], leaf "Budget"] []) =
      .ok { dst_xmind := workbook [branch "Plan" [leaf "a", leaf "b"], leaf "Budget"] [],
            count := 0, console := [] } :=
  ⟨by decide, consolidate_xmind_idempotent
    (workbook [branch "Plan" [leaf "a"], leaf "Budget", branch "plan" [leaf "b"]] [])
    { dst_xmind := workbook [branch "Plan" [leaf "a", leaf "b"], leaf "Budget"] [],
      count := 1, console := [] } (by decide)⟩

/-- C3. Title matching is case-insensitive.  On every engine (upper-casing
is the `toUpperCase` of the engine, whatever it does beyond ASCII), for a
topic and a list whose titles, where present, are strings, `match_topic`
returns `-1` when no item of the list has a title equal to the topic's after
upper-casing both, and otherwise the index of the first such item.  Top-level topics titled `Alpha`
and `alpha` consolidate into one topic with count 1, while `Alpha` and `Beta`
both remain, with count 0. -/
theorem match_topic_case_insensitive [Engine] (topic : JsVal) (list : List JsVal)
    (ht : TitleIsString topic) (hl : ∀ item ∈ list, TitleIsString item) :
    (∃ r, match_topic topic list = .ok r ∧
      ((r = -1 ∧ ∀ item ∈ list, sameTitle topic item = false) ∨
       (∃ i : Nat, r = (i : Int) ∧ ∃ item, list[i]? = some item ∧
          sameTitle topic item = true ∧
          ∀ j, j < i → ∀ x, list[j]? = some x → sameTitle topic x = false))) ∧
    consolidate_xmind (workbook [leaf "Alpha", leaf "alpha"] []) =
      .ok { dst_xmind := workbook [leaf "Alpha"] [], count := 1, console := [] } ∧
    consolidate_xmind (workbook [leaf "Alpha", leaf "Beta"] []) =
      .ok { dst_xmind := workbook [leaf "Alpha", leaf "Beta"] [], count := 0,
            console := [] } := by
  refine ⟨?_, (consolidate_xmind_ascii _ (by decide)).trans (by decide),
    (consolidate_xmind_ascii _ (by decide)).trans (by decide)⟩
  have key : ∀ item ∈ list, titleMatches topic item = .ok (sameTitle topic item) :=
    fun item hi => titleMatches_eq ht (hl item hi)
  by_cases hex : ∃ item ∈ list, sameTitle topic item = true
  · obtain ⟨item, hmem, hsame⟩ := hex
    -- split the list at its first matching item
    have hsplit : ∃ pre m post, list = pre ++ m :: post ∧
        (∀ x ∈ pre, sameTitle topic x = false) ∧ sameTitle topic m = true := by
      clear key hl
      induction list with
      | nil => simp at hmem
      | cons y ys ih =>
        by_cases hy : sameTitle topic y = true
        · exact ⟨[], y, ys, rfl, by simp, hy⟩
        · rcases List.mem_cons.1 hmem with rfl | hmem2
          · exact absurd hsame hy
          · obtain ⟨pre, m, post, h1, h2, h3⟩ := ih hmem2
            refine ⟨y :: pre, m, post, by simp [h1], ?_, h3⟩
            intro x hx
            rcases List.mem_cons.1 hx with rfl | hx2
            · simpa using hy
            · exact h2 x hx2
    obtain ⟨pre, m, post, h1, h2, h3⟩ := hsplit
    have hpre : ∀ x ∈ pre, titleMatches topic x = .ok false := by
      intro x hx
      rw [key x (by simp [h1, hx]), h2 x hx]
    have hm : titleMatches topic m = .ok true := by
      rw [key m (by simp [h1]), h3]
    refine ⟨(pre.length : Int), ?_, Or.inr ⟨pre.length, rfl, m, ?_, h3, ?_⟩⟩
    · have := findIndexFrom_some post hpre hm 0
      simpa [match_topic, h1] using this
    · rw [h1, List.getElem?_append_right (le_refl _)]
      simp
    · intro j hj x hx
      rw [h1, List.getElem?_append_left hj] at hx
      exact h2 x (List.getElem?_mem hx)
  · have hnone : ∀ item ∈ list, sameTitle topic item = false := by
      intro item hi
      by_contra hc
      exact hex ⟨item, hi, by simpa using hc⟩
    refine ⟨-1, ?_, Or.inl ⟨rfl, hnone⟩⟩
    apply findIndexFrom_none
    intro item hi
    rw [key item hi, hnone item hi]

theorem match_topic_case_insensitive_witness :
    (∃ r, match_topic (leaf "alpha") [leaf "Beta", leaf "Alpha", leaf "ALPHA"] = .ok r ∧
      ((r = -1 ∧ ∀ item ∈ [leaf "Beta", leaf "Alpha", leaf "ALPHA"],
          sameTitle (leaf "alpha") item = false) ∨
       (∃ i : Nat, r = (i : Int) ∧ ∃ item,
          [leaf "Beta", leaf "Alpha", leaf "ALPHA"][i]? = some item ∧
          sameTitle (leaf "alpha") item = true ∧
          ∀ j, j < i → ∀ x, [leaf "Beta", leaf "Alpha", leaf "ALPHA"][j]? = some x →
            sameTitle (leaf "alpha") x = false))) ∧
    consolidate_xmind (workbook [leaf "Alpha", leaf "alpha"] []) =
      .ok { dst_xmind := workbook [leaf "Alpha"] [], count := 1, console := [] } ∧
    consolidate_xmind (workbook [leaf "Alpha", leaf "Beta"] []) =
      .ok { dst_xmind := workbook [leaf "Alpha", leaf "Beta"] [], count := 0,
            console := [] } :=
  match_topic_case_insensitive (leaf "alpha") [leaf "Beta", leaf "Alpha", leaf "ALPHA"]
    (by intro v hv; simp [leaf, own, lookup] at hv; exact ⟨_, hv.symm⟩)
    (by
      intro item hi v hv
      simp only [List.mem_cons, List.mem_singleton, List.not_mem_nil, or_false] at hi
      rcases hi with rfl | rfl | rfl <;>
        (simp [leaf, own, lookup] at hv; exact ⟨_, hv.symm⟩))

end XmindMerge

namespace XmindMerge

/-! ## Properties: a consolidation always succeeds on well-formed topics -/

theorem hasAttachedArray_true {t : JsVal} (h : hasAttachedArray t = true) :
    ∃ c xs ps, own "children" t = some c ∧ own "attached" c = some (.arr xs ps) ∧
      attachedOf t = xs := by
  unfold hasAttachedArray at h
  cases hc : own "children" t with
  | none => simp [hc] at h
  | some c =>
    simp only [hc] at h
    cases ha : own "attached" c with
    | none => simp [ha] at h
    | some a =>
      simp only [ha] at h
      cases a <;> simp [isArray] at h
      exact ⟨c, _, _, rfl, ha, by simp [attachedOf, hc, ha]⟩

theorem attachedOf_of_not_hasAttachedArray {t : JsVal} (h : hasAttachedArray t = false) :
    attachedOf t = [] := by
  unfold hasAttachedArray at h
  unfold attachedOf
  cases hc : own "children" t with
  | none => rfl
  | some c =>
    simp only [hc] at h ⊢
    cases ha : own "attached" c with
    | none => rfl
    | some a =>
      simp only [ha] at h ⊢
      cases a <;> simp [isArray] at h <;> rfl

theorem setProp_obj (ps : Props) (k : String) (v : JsVal) :
    setProp (.obj ps) k v = .ok (.obj (assign k v ps)) := rfl

theorem putProp_obj (ps : Props) (k : String) (v : JsVal) :
    putProp (.obj ps) k v = .obj (assign k v ps) := rfl

theorem attachedOf_putProp {m c w : JsVal} {k0 : String} (hm : own k0 m = some w)
    (xs : List JsVal) (ps : Props) (hc : own "attached" c = some (.arr xs ps)) :
    attachedOf (putProp m "children" c) = xs := by
  simp only [attachedOf, own_putProp_of_own hm, hc]

theorem childrenIsObject_putProp {m w : JsVal} {k0 : String} (hm : own k0 m = some w)
    (cps : Props) : ChildrenIsObject (putProp m "children" (.obj cps)) := by
  intro c hc
  rw [own_putProp_of_own hm] at hc
  exact ⟨cps, (Option.some.inj hc).symm⟩

/-- The children part of a consolidation succeeds on a matched topic whose
`children`, when present, is an object, and leaves it with the attached
children of both topics. -/
theorem merge_children_total {m w : JsVal} (item : JsVal) {k0 : String}
    (hm : own k0 m = some w) (hc : ChildrenIsObject m) :
    ∃ m2, merge_children m item = .ok m2 ∧ ChildrenIsObject m2 ∧
      attachedOf m2 = attachedOf m ++ attachedOf item := by
  unfold merge_children
  by_cases hi : hasAttachedArray item = true
  · obtain ⟨ci, ia, ips, hi1, hi2, hi3⟩ := hasAttachedArray_true hi
    simp only [hi, if_true, getProp_of_own hi1, getProp_of_own hi2, bind, Except.bind]
    by_cases hmm : hasAttachedArray m = true
    · obtain ⟨cm, xs, qs, hm1, hm2, hm3⟩ := hasAttachedArray_true hmm
      obtain ⟨cps, rfl⟩ := hc cm hm1
      simp only [hmm, if_true, getProp_of_own hm1, getProp_of_own hm2, setProp_obj,
        putProp_obj, concat, pure, Except.pure]
      refine ⟨_, rfl, childrenIsObject_putProp hm _, ?_⟩
      rw [hm3, hi3]
      exact attachedOf_putProp hm _ [] (by simp [own, lookup_assign_self])
    · have hmf : hasAttachedArray m = false := by simpa using hmm
      rw [attachedOf_of_not_hasAttachedArray hmf, hi3]
      simp only [hmf, Bool.false_eq_true, if_false]
      cases hch : own "children" m with
      | none =>
        have h1 : ensure_children m = .ok (putProp m "children" (.obj [])) := by
          simp [ensure_children, has, hch, setProp_of_own hm]
        have h2 : own "children" (putProp m "children" (.obj [])) = some (.obj []) :=
          own_putProp_of_own hm _
        have h3 : own k0 (putProp m "children" (.obj [])) = some w ∨
            own k0 (putProp m "children" (.obj [])) = some (.obj []) := by
          by_cases hk : k0 = "children"
          · subst hk
            exact Or.inr h2
          · exact Or.inl ((own_putProp_ne hk _ _).trans hm)
        simp only [h1, getProp_of_own h2, setProp_obj, putProp_obj, pure, Except.pure]
        rcases h3 with h3 | h3
        · exact ⟨_, rfl, childrenIsObject_putProp h3 _,
            attachedOf_putProp h3 ia ips (by simp [own, lookup_assign_self])⟩
        · exact ⟨_, rfl, childrenIsObject_putProp h3 _,
            attachedOf_putProp h3 ia ips (by simp [own, lookup_assign_self])⟩
      | some cm =>
        obtain ⟨cps, rfl⟩ := hc cm hch
        have h1 : ensure_children m = .ok m := by simp [ensure_children, has, hch]
        simp only [h1, getProp_of_own hch, setProp_obj, putProp_obj, pure, Except.pure]
        exact ⟨_, rfl, childrenIsObject_putProp hm _,
          attachedOf_putProp hm ia ips (by simp [own, lookup_assign_self])⟩
  · have hif : hasAttachedArray item = false := by simpa using hi
    simp only [hif, Bool.false_eq_true, if_false, pure, Except.pure]
    exact ⟨m, rfl, hc, by rw [attachedOf_of_not_hasAttachedArray hif, List.append_nil]⟩

/-- The notes part of a consolidation succeeds on a matched topic that
carries a string title. -/
theorem consolidate_notes_total {m : JsVal} (item : JsVal) (hm : Titled m) :
    ∃ m1 w, consolidate_notes m item = .ok (m1, w) := by
  obtain ⟨s, hs⟩ := hm
  unfold consolidate_notes
  by_cases hi : has item "notes" = true
  · simp only [hi, if_true]
    by_cases hn : has m "notes" = true
    · simp only [hn, if_true]
      have hframe := merge_notes_frame m item (k := "title") (by decide)
      rcases hmn : merge_notes m item with ⟨m1, _ | e⟩
      · exact ⟨m1, [], rfl⟩
      · rw [hmn] at hframe
        simp only [getProp_of_own (hframe.trans hs), toStr, bind, Except.bind, pure,
          Except.pure]
        exact ⟨_, _, rfl⟩
    · simp only [hn, Bool.false_eq_true, if_false]
      cases hin : own "notes" item with
      | none => simp [has, hin] at hi
      | some v =>
        simp only [getProp_of_own hin, setProp_of_own hs, bind, Except.bind, pure,
          Except.pure]
        exact ⟨_, _, rfl⟩
  · simp only [hi, Bool.false_eq_true, if_false]
    exact ⟨_, _, rfl⟩

/-- `Titled` and `ChildrenIsObject` only depend on the properties they name. -/
theorem titled_of_own_eq {m m1 : JsVal} (h : own "title" m1 = own "title" m) (hm : Titled m) :
    Titled m1 := by
  obtain ⟨s, hs⟩ := hm
  exact ⟨s, h.trans hs⟩

theorem childrenIsObject_of_own_eq {m m1 : JsVal} (h : own "children" m1 = own "children" m)
    (hm : ChildrenIsObject m) : ChildrenIsObject m1 := by
  intro c hc
  exact hm c (h ▸ hc)

theorem attachedOf_of_own_eq {m m1 : JsVal} (h : own "children" m1 = own "children" m) :
    attachedOf m1 = attachedOf m := by
  unfold attachedOf
  rw [h]

/-- On a matched topic with a string title whose `children`, when present,
is an object, a consolidation succeeds: the title stays, and the attached
children are those of the matched topic followed by those of the current
topic. -/
theorem consolidate_into_total {m : JsVal} (item : JsVal) (hm : Titled m)
    (hc : ChildrenIsObject m) :
    ∃ m2 w, consolidate_into m item = .ok (m2, w) ∧ own "title" m2 = own "title" m ∧
      ChildrenIsObject m2 ∧ attachedOf m2 = attachedOf m ++ attachedOf item := by
  obtain ⟨m1, w, h1⟩ := consolidate_notes_total item hm
  have ht1 : own "title" m1 = own "title" m := consolidate_notes_frame h1 (by decide)
  have hc1 : own "children" m1 = own "children" m := consolidate_notes_frame h1 (by decide)
  obtain ⟨s, hs⟩ := titled_of_own_eq ht1 hm
  obtain ⟨m2, h2, h3, h4⟩ := merge_children_total item hs
    (childrenIsObject_of_own_eq hc1 hc)
  have hinto : consolidate_into m item = .ok (m2, w) := by
    simp [consolidate_into, h1, h2, bind, Except.bind, pure, Except.pure]
  refine ⟨m2, w, hinto, consolidate_into_frame hinto (by decide) (by decide), h3, ?_⟩
  rw [h4, attachedOf_of_own_eq hc1]

end XmindMerge

namespace XmindMerge

/-! ## Properties: the loop of `consolidate_xmind` on well-formed topics -/

/-- Loop invariants: a property of the topics processed so far and the local
state that every call of the callback re-establishes holds at the end of the
loop, which returns. -/
theorem consolidate_loop_invariant [Engine] (Inv : List JsVal → Consolidation → Prop)
    (P : JsVal → Prop)
    (hstep : ∀ done st item, Inv done st → P item →
      ∃ st1, consolidate_item st item = .ok st1 ∧ Inv (done ++ [item]) st1) :
    ∀ (rest done : List JsVal) (st : Consolidation), Inv done st → (∀ x ∈ rest, P x) →
      ∃ st1, consolidate_loop st rest = .ok st1 ∧ Inv (done ++ rest) st1 := by
  intro rest
  induction rest with
  | nil =>
    intro done st hinv _
    exact ⟨st, rfl, by simpa using hinv⟩
  | cons item rest ih =>
    intro done st hinv hP
    obtain ⟨st1, h1, h2⟩ := hstep done st item hinv (hP item (List.mem_cons_self _ _))
    obtain ⟨st2, h3, h4⟩ := ih (done ++ [item]) st1 h2
      (fun x hx => hP x (List.mem_cons_of_mem _ hx))
    refine ⟨st2, ?_, by simpa using h4⟩
    simp only [consolidate_loop, h1, h3]

theorem titleOf_of_titled {t : JsVal} (h : Titled t) : ∃ s, titleOf t = some s := by
  obtain ⟨s, hs⟩ := h
  exact ⟨s, by simp [titleOf, hs]⟩

theorem titleIsString_of_titled {t : JsVal} (h : Titled t) : TitleIsString t := by
  obtain ⟨s, hs⟩ := h
  intro v hv
  rw [hs] at hv
  exact ⟨s, (Option.some.inj hv).symm⟩

theorem titleOf_of_own_eq {m m1 : JsVal} (h : own "title" m1 = own "title" m) :
    titleOf m1 = titleOf m := by
  simp only [titleOf, h]

theorem titleKey_of_own_eq [Engine] {m m1 : JsVal} (h : own "title" m1 = own "title" m) :
    titleKey m1 = titleKey m := by
  simp only [titleKey, titleOf_of_own_eq h]

/-- On topics with string titles, matching is equality of the keys. -/
theorem sameTitle_iff [Engine] {topic item : JsVal} (ht : Titled topic) (hi : Titled item) :
    sameTitle topic item = true ↔ titleKey item = titleKey topic := by
  obtain ⟨a, ha⟩ := titleOf_of_titled ht
  obtain ⟨b, hb⟩ := titleOf_of_titled hi
  simp [sameTitle, titleKey, ha, hb]

/-- A list with a matching item splits at the first one. -/
theorem split_first_match [Engine] (topic : JsVal) {list : List JsVal}
    (h : ∃ item ∈ list, sameTitle topic item = true) :
    ∃ pre m post, list = pre ++ m :: post ∧
      (∀ x ∈ pre, sameTitle topic x = false) ∧ sameTitle topic m = true := by
  induction list with
  | nil =>
    obtain ⟨item, hmem, _⟩ := h
    simp at hmem
  | cons y ys ih =>
    by_cases hy : sameTitle topic y = true
    · exact ⟨[], y, ys, rfl, by simp, hy⟩
    · obtain ⟨item, hmem, hsame⟩ := h
      rcases List.mem_cons.1 hmem with rfl | hmem2
      · exact absurd hsame hy
      · obtain ⟨pre, m, post, h1, h2, h3⟩ := ih ⟨item, hmem2, hsame⟩
        refine ⟨y :: pre, m, post, by simp [h1], ?_, h3⟩
        intro x hx
        rcases List.mem_cons.1 hx with rfl | hx2
        · simpa using hy
        · exact h2 x hx2

/-- The callback re-establishes `FirstOccurrences`. -/
theorem consolidate_item_firstOccurrences [Engine] (done : List JsVal) (st : Consolidation)
    (item : JsVal) (hinv : FirstOccurrences done st)
    (hitem : Titled item ∧ ChildrenIsObject item) :
    ∃ st1, consolidate_item st item = .ok st1 ∧ FirstOccurrences (done ++ [item]) st1 := by
  have key : ∀ a ∈ st.new_attached, titleMatches item a = .ok (sameTitle item a) :=
    fun a ha => titleMatches_eq (titleIsString_of_titled hitem.1)
      (titleIsString_of_titled (hinv.wellFormed a ha).1)
  by_cases hex : ∃ a ∈ st.new_attached, sameTitle item a = true
  · -- the item is consolidated into the first matching topic
    obtain ⟨pre, m, post, h1, h2, h3⟩ := split_first_match item hex
    have hmem : m ∈ st.new_attached := by simp [h1]
    have hpre : ∀ x ∈ pre, titleMatches item x = .ok false := by
      intro x hx
      rw [key x (by simp [h1, hx]), h2 x hx]
    have hm : titleMatches item m = .ok true := by rw [key m hmem, h3]
    obtain ⟨m2, w, hinto, htitle, hchild, _⟩ :=
      consolidate_into_total item (hinv.wellFormed m hmem).1 (hinv.wellFormed m hmem).2
    have hkeym : titleKey m = titleKey item :=
      (sameTitle_iff hitem.1 (hinv.wellFormed m hmem).1).1 h3
    have htitles : (pre ++ m2 :: post).map titleOf = st.new_attached.map titleOf := by
      simp [h1, titleOf_of_own_eq htitle]
    have hkeys : (pre ++ m2 :: post).map titleKey = st.new_attached.map titleKey := by
      simp [h1, titleKey_of_own_eq htitle]
    refine ⟨_, consolidate_item_match h1 hpre hm hinto, ?_⟩
    constructor
    · intro a ha
      simp only [List.mem_append, List.mem_cons] at ha
      rcases ha with ha | rfl | ha
      · exact hinv.wellFormed a (by simp [h1, ha])
      · exact ⟨titled_of_own_eq htitle (hinv.wellFormed m hmem).1, hchild⟩
      · exact hinv.wellFormed a (by simp [h1, ha])
    · show ((pre ++ m2 :: post).map titleKey).Nodup
      rw [hkeys]
      exact hinv.distinct
    · show ((pre ++ m2 :: post).map titleOf).Sublist ((done ++ [item]).map titleOf)
      rw [htitles, List.map_append]
      exact hinv.inOrder.trans (List.sublist_append_left _ _)
    · intro d hd
      show titleKey d ∈ (pre ++ m2 :: post).map titleKey
      rw [hkeys]
      rcases List.mem_append.1 hd with hd | hd
      · exact hinv.complete d hd
      · rw [List.mem_singleton.1 hd, ← hkeym]
        exact List.mem_map_of_mem _ hmem
    · intro a ha
      have : ∃ a0 ∈ st.new_attached, titleKey a0 = titleKey a ∧ titleOf a0 = titleOf a := by
        simp only [List.mem_append, List.mem_cons] at ha
        rcases ha with ha | rfl | ha
        · exact ⟨a, by simp [h1, ha], rfl, rfl⟩
        · exact ⟨m, hmem, (titleKey_of_own_eq htitle).symm, (titleOf_of_own_eq htitle).symm⟩
        · exact ⟨a, by simp [h1, ha], rfl, rfl⟩
      obtain ⟨a0, ha0, hk, ht⟩ := this
      obtain ⟨d, hd1, hd2⟩ := hinv.first a0 ha0
      refine ⟨d, ?_, hd2.trans ht⟩
      rw [List.find?_append, ← hk, hd1]
      rfl
    · show st.count + 1 + (pre ++ m2 :: post).length = (done ++ [item]).length
      have := hinv.counted
      simp only [h1, List.length_append, List.length_cons, List.length_nil] at this ⊢
      omega
  · -- the item is new
    have hnone : ∀ a ∈ st.new_attached, sameTitle item a = false := by
      intro a ha
      by_contra hc
      exact hex ⟨a, ha, by simpa using hc⟩
    have hno : ∀ a ∈ st.new_attached, titleMatches item a = .ok false := by
      intro a ha
      rw [key a ha, hnone a ha]
    have hfresh : titleKey item ∉ st.new_attached.map titleKey := by
      intro hmem
      obtain ⟨a, ha, hk⟩ := List.mem_map.1 hmem
      have := (sameTitle_iff hitem.1 (hinv.wellFormed a ha).1).2 hk
      rw [hnone a ha] at this
      exact absurd this (by simp)
    refine ⟨_, consolidate_item_nomatch hno, ?_⟩
    constructor
    · intro a ha
      rcases List.mem_append.1 ha with ha | ha
      · exact hinv.wellFormed a ha
      · rw [List.mem_singleton.1 ha]
        exact hitem
    · show ((st.new_attached ++ [item]).map titleKey).Nodup
      rw [List.map_append, List.nodup_append]
      refine ⟨hinv.distinct, by simp, ?_⟩
      intro k hk1 hk2
      simp only [List.map_cons, List.map_nil, List.mem_singleton] at hk2
      exact hfresh (hk2 ▸ hk1)
    · show ((st.new_attached ++ [item]).map titleOf).Sublist ((done ++ [item]).map titleOf)
      rw [List.map_append, List.map_append]
      exact hinv.inOrder.append (List.Sublist.refl _)
    · intro d hd
      show titleKey d ∈ (st.new_attached ++ [item]).map titleKey
      rw [List.map_append, List.mem_append]
      rcases List.mem_append.1 hd with hd | hd
      · exact Or.inl (hinv.complete d hd)
      · right
        rw [List.mem_singleton.1 hd]
        simp
    · intro a ha
      rcases List.mem_append.1 ha with ha | ha
      · obtain ⟨d, hd1, hd2⟩ := hinv.first a ha
        refine ⟨d, ?_, hd2⟩
        rw [List.find?_append, hd1]
        rfl
      · rw [List.mem_singleton.1 ha]
        refine ⟨item, ?_, rfl⟩
        have hnot : List.find? (fun d => decide (titleKey d = titleKey item)) done = none := by
          rw [List.find?_eq_none]
          intro d hd hk
          have hk2 : titleKey d = titleKey item := by simpa using hk
          exact hfresh (hk2 ▸ hinv.complete d hd)
        rw [List.find?_append, hnot]
        simp
    · show st.count + (st.new_attached ++ [item]).length = (done ++ [item]).length
      have := hinv.counted
      simp only [List.length_append, List.length_cons, List.length_nil] at this ⊢
      omega

end XmindMerge

namespace XmindMerge

/-- The run of `consolidate_xmind` on a workbook whose top-level topics are
well-formed: it returns, and the list it leaves satisfies every invariant of
the loop that does not depend on the place of a topic in the list. -/
theorem consolidate_xmind_invariant [Engine] (Inv : List JsVal → Consolidation → Prop)
    (hstep : ∀ done st item, Inv done st → (Titled item ∧ ChildrenIsObject item) →
      ∃ st1, consolidate_item st item = .ok st1 ∧ Inv (done ++ [item]) st1)
    (h0 : Inv [] { new_attached := [], count := 0, console := [] })
    (dst_xmind : JsVal) (xs : List JsVal) (ps : Props)
    (hread : topAttached dst_xmind = .ok (.arr xs ps))
    (hwf : ∀ t ∈ xs, Titled t ∧ ChildrenIsObject t) :
    ∃ r out qs w, consolidate_xmind dst_xmind = .ok r ∧
      topAttached r.dst_xmind = .ok (.arr out qs) ∧
      Inv xs { new_attached := out, count := r.count, console := w } := by
  obtain ⟨st, hst, hinv⟩ := consolidate_loop_invariant Inv _ hstep xs [] _ h0 hwf
  simp only [List.nil_append] at hinv
  by_cases hc : st.count > 0
  · obtain ⟨d1, hd1, hread1⟩ := setTopAttached_ok hread (by simp) (.arr st.new_attached [])
    refine ⟨{ dst_xmind := d1, count := st.count, console := st.console },
      st.new_attached, [], st.console, ?_, hread1, hinv⟩
    simp [consolidate_xmind, hread, hst, hc, hd1, bind, Except.bind, pure, Except.pure]
  · have hc0 : st.count = 0 := by omega
    have heq := consolidate_loop_count_eq hst (by simpa using hc0)
    refine ⟨{ dst_xmind := dst_xmind, count := st.count, console := st.console },
      xs, ps, st.console, ?_, hread, ?_⟩
    · simp [consolidate_xmind, hread, hst, hc, bind, Except.bind, pure, Except.pure]
    · have hxs : st.new_attached = xs := by rw [heq]; simp
      have : ({ new_attached := xs, count := st.count, console := st.console } :
          Consolidation) = st := by
        cases st
        simp only [Consolidation.mk.injEq, and_true] at hxs ⊢
        exact hxs.symm
      show Inv xs { new_attached := xs, count := st.count, console := st.console }
      rw [this]
      exact hinv

theorem firstOccurrences_nil [Engine] :
    FirstOccurrences [] { new_attached := [], count := 0, console := [] } :=
  ⟨by simp, by simp, by simp, by simp, by simp, by simp⟩

/-- C1. For every master workbook whose top-level topics carry string titles
(and whose `children`, where present, is an object, as the data model has it),
and for every engine (upper-casing is the `toUpperCase` of the engine,
whatever it does beyond ASCII), `consolidate_xmind` returns, and the
top-level attached list it leaves holds
topics with string titles whose titles are, in original order (a sublist of
the input titles), those of the first occurrence of each case-insensitively
distinct title: no two output titles are equal after upper-casing, every input
title is represented, and each output title is the title of the first input
topic with its key.  The count returned is the input length minus the output
length. -/
theorem consolidate_xmind_first_occurrences [Engine] (dst_xmind : JsVal) (xs : List JsVal)
    (ps : Props) (hread : topAttached dst_xmind = .ok (.arr xs ps))
    (hwf : ∀ t ∈ xs, Titled t ∧ ChildrenIsObject t) :
    ∃ r out qs, consolidate_xmind dst_xmind = .ok r ∧
      topAttached r.dst_xmind = .ok (.arr out qs) ∧
      (∀ o ∈ out, Titled o) ∧
      (out.map titleOf).Sublist (xs.map titleOf) ∧
      (out.map titleKey).Nodup ∧
      (∀ t ∈ xs, titleKey t ∈ out.map titleKey) ∧
      (∀ o ∈ out, ∃ t, xs.find? (fun t => decide (titleKey t = titleKey o)) = some t ∧
        titleOf t = titleOf o) ∧
      r.count + out.length = xs.length := by
  obtain ⟨r, out, qs, w, h1, h2, hinv⟩ := consolidate_xmind_invariant FirstOccurrences
    consolidate_item_firstOccurrences firstOccurrences_nil dst_xmind xs ps hread hwf
  exact ⟨r, out, qs, h1, h2, fun o ho => (hinv.wellFormed o ho).1, hinv.inOrder,
    hinv.distinct, hinv.complete, hinv.first, hinv.counted⟩

theorem consolidate_xmind_first_occurrences_witness :
    ∃ r out qs,
      consolidate_xmind (workbook [leaf "Plan", leaf "Budget", leaf "plan", leaf "PLAN"] []) =
        .ok r ∧
      topAttached r.dst_xmind = .ok (.arr out qs) ∧
      (∀ o ∈ out, Titled o) ∧
      (out.map titleOf).Sublist
        ([leaf "Plan", leaf "Budget", leaf "plan", leaf "PLAN"].map titleOf) ∧
      (out.map titleKey).Nodup ∧
      (∀ t ∈ [leaf "Plan", leaf "Budget", leaf "plan", leaf "PLAN"],
        titleKey t ∈ out.map titleKey) ∧
      (∀ o ∈ out, ∃ t, [leaf "Plan", leaf "Budget", leaf "plan", leaf "PLAN"].find?
          (fun t => decide (titleKey t = titleKey o)) = some t ∧ titleOf t = titleOf o) ∧
      r.count + out.length = [leaf "Plan", leaf "Budget", leaf "plan", leaf "PLAN"].length :=
  consolidate_xmind_first_occurrences
    (workbook [leaf "Plan", leaf "Budget", leaf "plan", leaf "PLAN"] [])
    [leaf "Plan", leaf "Budget", leaf "plan", leaf "PLAN"] [] (by decide)
    (by
      intro t ht
      simp only [List.mem_cons, List.mem_singleton, List.not_mem_nil, or_false] at ht
      rcases ht with rfl | rfl | rfl | rfl <;>
        exact ⟨⟨_, rfl⟩, fun c hc => by simp [leaf, own, lookup] at hc⟩)

end XmindMerge

namespace XmindMerge

/-! ## Properties: the children of consolidated topics -/

theorem group_append [Engine] (done : List JsVal) (item o : JsVal) :
    group (done ++ [item]) o =
      group done o ++ (if titleKey item = titleKey o then [item] else []) := by
  unfold group
  rw [List.filter_append]
  by_cases h : titleKey item = titleKey o <;> simp [List.filter, h]

theorem group_of_key_eq [Engine] (done : List JsVal) {a b : JsVal} (h : titleKey a = titleKey b) :
    group done a = group done b := by
  unfold group
  rw [h]

/-- In a list with distinct keys, the topics around a topic have other keys. -/
theorem key_ne_of_nodup [Engine] {pre post : List JsVal} {m a : JsVal}
    (h : ((pre ++ m :: post).map titleKey).Nodup) (ha : a ∈ pre ∨ a ∈ post) :
    titleKey a ≠ titleKey m := by
  rw [List.map_append, List.map_cons, List.nodup_middle, List.nodup_cons] at h
  intro hk
  apply h.1
  rw [← hk, ← List.map_append]
  exact List.mem_map_of_mem _ (List.mem_append.2 ha)

/-- The callback re-establishes `ChildrenCollected`. -/
theorem consolidate_item_childrenCollected [Engine] (done : List JsVal) (st : Consolidation)
    (item : JsVal) (hinv : ChildrenCollected done st)
    (hitem : Titled item ∧ ChildrenIsObject item) :
    ∃ st1, consolidate_item st item = .ok st1 ∧ ChildrenCollected (done ++ [item]) st1 := by
  obtain ⟨st1, hst1, hbase⟩ := consolidate_item_firstOccurrences done st item hinv.base hitem
  refine ⟨st1, hst1, hbase, ?_⟩
  have hwf := hinv.base.wellFormed
  have key : ∀ a ∈ st.new_attached, titleMatches item a = .ok (sameTitle item a) :=
    fun a ha => titleMatches_eq (titleIsString_of_titled hitem.1)
      (titleIsString_of_titled (hwf a ha).1)
  rcases consolidate_item_ok hst1 with ⟨rfl, hno⟩ | ⟨pre, m, post, m2, w, h1, _, hm, hinto, rfl⟩
  · -- the item was appended
    have hne : ∀ a ∈ st.new_attached, titleKey item ≠ titleKey a := by
      intro a ha hk
      have h2 := (sameTitle_iff hitem.1 (hwf a ha).1).2 hk.symm
      have h3 := hno a ha
      rw [key a ha, h2] at h3
      exact absurd h3 (by simp)
    intro a ha
    rcases List.mem_append.1 ha with ha | ha
    · rw [group_append, if_neg (hne a ha), List.append_nil]
      exact hinv.collected a ha
    · rw [List.mem_singleton.1 ha, group_append, if_pos rfl]
      have hnil : group done item = [] := by
        unfold group
        rw [List.filter_eq_nil_iff]
        intro d hd hk
        have hk2 : titleKey d = titleKey item := by simpa using hk
        obtain ⟨a, ha, hka⟩ := List.mem_map.1 (hinv.base.complete d hd)
        exact hne a ha (hk2.symm.trans hka.symm)
      simp [hnil]
  · -- the item was consolidated into `m`
    have hmem : m ∈ st.new_attached := by simp [h1]
    obtain ⟨m3, w3, hinto3, htitle, _, hatt⟩ :=
      consolidate_into_total item (hwf m hmem).1 (hwf m hmem).2
    rw [hinto] at hinto3
    obtain ⟨rfl, rfl⟩ := Prod.mk.inj (Except.ok.inj hinto3)
    have hkm : titleKey item = titleKey m := by
      have h3 := hm
      rw [key m hmem] at h3
      exact ((sameTitle_iff hitem.1 (hwf m hmem).1).1 (Except.ok.inj h3)).symm
    have hnodup := hinv.base.distinct
    rw [h1] at hnodup
    have hother : ∀ a, a ∈ pre ∨ a ∈ post →
        attachedOf a = (group (done ++ [item]) a).flatMap attachedOf := by
      intro a ha
      have hk : titleKey item ≠ titleKey a := by
        rw [hkm]
        exact (key_ne_of_nodup hnodup ha).symm
      rw [group_append, if_neg hk, List.append_nil]
      exact hinv.collected a (by rcases ha with ha | ha <;> simp [h1, ha])
    intro a ha
    simp only [List.mem_append, List.mem_cons] at ha
    rcases ha with ha | rfl | ha
    · exact hother a (Or.inl ha)
    · have hk2 : titleKey a = titleKey m := titleKey_of_own_eq htitle
      rw [group_append, if_pos (hkm.trans hk2.symm), List.flatMap_append,
        group_of_key_eq done hk2, ← hinv.collected m hmem, hatt]
      simp
    · exact hother a (Or.inr ha)

theorem childrenCollected_nil [Engine] :
    ChildrenCollected [] { new_attached := [], count := 0, console := [] } :=
  ⟨firstOccurrences_nil, by simp⟩

/-- C4, as stated, fails.  The first topic `Plan` carries a `children` that
is a string, and `plan`, which matches it, has one attached child.
`consolidate_xmind` counts one consolidation and leaves the single topic
`Plan` as it was: the assignment to the property `attached` of a string has
no effect, so the survivor has no attached children, while the attached lists
of the members of its group hold the child of `plan`.  With `children` being
`null` on the first topic the same assignment throws. -/
theorem survivor_children_not_object :
    consolidate_xmind (workbook [.obj [("title", .str "Plan"), ("children", .str "x")],
        branch "plan" [leaf "d"]] []) =
      .ok { dst_xmind := workbook [.obj [("title", .str "Plan"), ("children", .str "x")]] [],
            count := 1, console := [] } ∧
    attachedOf (.obj [("title", .str "Plan"), ("children", .str "x")]) = [] ∧
    (group [.obj [("title", .str "Plan"), ("children", .str "x")], branch "plan" [leaf "d"]]
      (.obj [("title", .str "Plan"), ("children", .str "x")])).flatMap attachedOf =
      [leaf "d"] ∧
    consolidate_xmind (workbook [.obj [("title", .str "Plan"), ("children", .null)],
        branch "plan" [leaf "d"]] []) =
      .error "Cannot set properties of null (setting \x27attached\x27)" := by
  decide

/-- C4, amended.  For every master workbook whose top-level topics carry
string titles and whose `children`, where present, is an object,
`consolidate_xmind` returns, on every engine; every group of topics sharing a
case-insensitive title (the same title after `toUpperCase`) has exactly
one surviving topic, and the attached children of a surviving topic are the
concatenation, in original top-level order, of the attached-children lists of
all members of its group (a member without such a list contributing nothing).
So the top-level topics `Plan`, `Budget`, `plan` yield exactly two topics,
`Plan` holding the children of `Plan` and `plan`, and `Budget` unchanged; and
a surviving topic without `children` gets the structure created. -/
theorem consolidate_xmind_children [Engine] (dst_xmind : JsVal) (xs : List JsVal)
    (ps : Props) (hread : topAttached dst_xmind = .ok (.arr xs ps))
    (hwf : ∀ t ∈ xs, Titled t ∧ ChildrenIsObject t) :
    (∃ r out qs, consolidate_xmind dst_xmind = .ok r ∧
      topAttached r.dst_xmind = .ok (.arr out qs) ∧
      (out.map titleKey).Nodup ∧
      (∀ t ∈ xs, ∃ o ∈ out, titleKey o = titleKey t) ∧
      (∀ o ∈ out, attachedOf o = (group xs o).flatMap attachedOf)) ∧
    consolidate_xmind (workbook [branch "Plan" [leaf "a", leaf "b"],
        branch "Budget" [leaf "c"], branch "plan" [leaf "d"]] []) =
      .ok { dst_xmind := workbook [branch "Plan" [leaf "a", leaf "b", leaf "d"],
              branch "Budget" [leaf "c"]] [],
            count := 1, console := [] } ∧
    consolidate_xmind (workbook [leaf "Plan", branch "plan" [leaf "d"]] []) =
      .ok { dst_xmind := workbook [branch "Plan" [leaf "d"]] [],
            count := 1, console := [] } := by
  refine ⟨?_, (consolidate_xmind_ascii _ (by decide)).trans (by decide),
    (consolidate_xmind_ascii _ (by decide)).trans (by decide)⟩
  obtain ⟨r, out, qs, w, h1, h2, hinv⟩ := consolidate_xmind_invariant ChildrenCollected
    consolidate_item_childrenCollected childrenCollected_nil dst_xmind xs ps hread hwf
  refine ⟨r, out, qs, h1, h2, hinv.base.distinct, ?_, hinv.collected⟩
  intro t ht
  obtain ⟨o, ho, hk⟩ := List.mem_map.1 (hinv.base.complete t ht)
  exact ⟨o, ho, hk⟩

theorem consolidate_xmind_children_witness :
    (∃ r out qs,
      consolidate_xmind (workbook [branch "Plan" [leaf "a"], leaf "Budget",
        branch "plan" [leaf "d"]] []) = .ok r ∧
      topAttached r.dst_xmind = .ok (.arr out qs) ∧
      (out.map titleKey).Nodup ∧
      (∀ t ∈ [branch "Plan" [leaf "a"], leaf "Budget", branch "plan" [leaf "d"]],
        ∃ o ∈ out, titleKey o = titleKey t) ∧
      (∀ o ∈ out, attachedOf o =
        (group [branch "Plan" [leaf "a"], leaf "Budget", branch "plan" [leaf "d"]] o).flatMap
          attachedOf)) ∧
    consolidate_xmind (workbook [branch "Plan" [leaf "a", leaf "b"],
        branch "Budget" [leaf "c"], branch "plan" [leaf "d"]] []) =
      .ok { dst_xmind := workbook [branch "Plan" [leaf "a", leaf "b", leaf "d"],
              branch "Budget" [leaf "c"]] [],
            count := 1, console := [] } ∧
    consolidate_xmind (workbook [leaf "Plan", branch "plan" [leaf "d"]] []) =
      .ok { dst_xmind := workbook [branch "Plan" [leaf "d"]] [],
            count := 1, console := [] } :=
  consolidate_xmind_children
    (workbook [branch "Plan" [leaf "a"], leaf "Budget", branch "plan" [leaf "d"]] [])
    [branch "Plan" [leaf "a"], leaf "Budget", branch "plan" [leaf "d"]] [] (by decide)
    (by
      intro t ht
      simp only [List.mem_cons, List.mem_singleton, List.not_mem_nil, or_false] at ht
      rcases ht with rfl | rfl | rfl
      · exact ⟨⟨_, rfl⟩, fun c hc => ⟨_, (Option.some.inj hc).symm⟩⟩
      · exact ⟨⟨_, rfl⟩, fun c hc => by simp [leaf, own, lookup] at hc⟩
      · exact ⟨⟨_, rfl⟩, fun c hc => ⟨_, (Option.some.inj hc).symm⟩⟩)

end XmindMerge

namespace XmindMerge

/-! ## Properties: the notes of consolidated topics -/

theorem getProp_obj (ps : Props) (k : String) :
    getProp (.obj ps) k = .ok ((lookup k ps).getD .undefined) := rfl

theorem has_obj (ps : Props) (k : String) : has (.obj ps) k = (lookup k ps).isSome := rfl

/-- Well-formed notes, spelled out. -/
theorem hasNotes_iff (t : JsVal) (a : String) (p : List JsVal) (o : Option (List JsVal)) :
    HasNotes t a p o ↔ ∃ np pp hp cp xp, own "notes" t = some (.obj np) ∧
      lookup "plain" np = some (.obj pp) ∧ lookup "content" pp = some (.str a) ∧
      lookup "html" np = some (.obj hp) ∧ lookup "content" hp = some (.obj cp) ∧
      lookup "paragraphs" cp = some (.arr p xp) ∧ OpsShape np o := by
  constructor
  · rintro ⟨h1, h2, h3⟩
    unfold plainOf at h1
    unfold paragraphsOf at h2
    unfold opsOf at h3
    cases hn : own "notes" t with
    | none => simp [hn] at h1
    | some n =>
      cases n with
      | obj np =>
        simp only [hn] at h1 h2 h3
        refine ⟨np, ?_⟩
        cases hp : lookup "plain" np with
        | none => simp [hp] at h1
        | some pl =>
          cases pl with
          | obj pp =>
            simp only [hp] at h1
            cases hc : lookup "content" pp with
            | none => simp [hc] at h1
            | some c =>
              cases c with
              | str s =>
                simp only [hc, Option.some.injEq] at h1
                subst h1
                cases hh : lookup "html" np with
                | none => simp [hh] at h2
                | some ht =>
                  cases ht with
                  | obj hp2 =>
                    simp only [hh] at h2
                    cases hcc : lookup "content" hp2 with
                    | none => simp [hcc] at h2
                    | some cc =>
                      cases cc with
                      | obj cp =>
                        simp only [hcc] at h2
                        cases hpar : lookup "paragraphs" cp with
                        | none => simp [hpar] at h2
                        | some par =>
                          cases par with
                          | arr ps xp =>
                            simp only [hpar, Option.some.injEq] at h2
                            subst h2
                            refine ⟨pp, hp2, cp, xp, rfl, rfl, hc, rfl, hcc, hpar, ?_⟩
                            cases ho : lookup "ops" np with
                            | none =>
                              simp only [ho, Option.some.injEq] at h3
                              subst h3
                              exact ho
                            | some os =>
                              cases os with
                              | obj op =>
                                simp only [ho] at h3
                                cases hoo : lookup "ops" op with
                                | none => simp [hoo] at h3
                                | some l =>
                                  cases l with
                                  | arr l xo =>
                                    simp only [hoo, Option.some.injEq] at h3
                                    subst h3
                                    exact ⟨op, xo, ho, hoo⟩
                                  | _ => simp [hoo] at h3
                              | _ => simp [ho] at h3
                          | _ => simp [hpar] at h2
                      | _ => simp [hcc] at h2
                  | _ => simp [hh] at h2
              | _ => simp [hc] at h1
          | _ => simp [hp] at h1
      | _ => simp [hn] at h1
  · rintro ⟨np, pp, hp, cp, xp, h1, h2, h3, h4, h5, h6, h7⟩
    refine ⟨by simp [plainOf, h1, h2, h3], by simp [paragraphsOf, h1, h4, h5, h6], ?_⟩
    cases o with
    | none =>
      have : lookup "ops" np = none := h7
      simp [opsOf, h1, this]
    | some l =>
      obtain ⟨op, xo, h8, h9⟩ := h7
      simp [opsOf, h1, h8, h9]

theorem opsShape_assign_ne {np : Props} {o : Option (List JsVal)} (h : OpsShape np o)
    {k : String} (hk : "ops" ≠ k) (v : JsVal) : OpsShape (assign k v np) o := by
  cases o with
  | none =>
    show lookup "ops" (assign k v np) = none
    rw [lookup_assign_ne hk]
    exact h
  | some l =>
    obtain ⟨op, xo, h1, h2⟩ := h
    exact ⟨op, xo, by rw [lookup_assign_ne hk]; exact h1, h2⟩

theorem merge_plain_wellFormed {m item : JsVal} {a b : String} {p q : List JsVal}
    {om oi : Option (List JsVal)} (hm : HasNotes m a p om) (hi : HasNotes item b q oi) :
    ∃ m1, merge_plain m item = .ok m1 ∧ HasNotes m1 (a ++ "\n" ++ b) p om := by
  obtain ⟨np, pp, hp, cp, xp, m1, m2, m3, m4, m5, m6, m7⟩ := (hasNotes_iff _ _ _ _).1 hm
  obtain ⟨nq, pq, hq, cq, xq, i1, i2, i3, i4, i5, i6, i7⟩ := (hasNotes_iff _ _ _ _).1 hi
  refine ⟨putProp m "notes" (.obj (assign "plain"
      (.obj (assign "content" (.str (a ++ "\n" ++ b)) pp)) np)), ?_, ?_⟩
  · simp [merge_plain, getProp_of_own m1, getProp_of_own i1, getProp_obj, m2, m3, i2, i3, toStr,
      setProp_obj, putProp_obj, bind, Except.bind, pure, Except.pure]
  · refine (hasNotes_iff _ _ _ _).2 ⟨_, _, hp, cp, xp, own_putProp_self m1 _,
      lookup_assign_self _ _ _, lookup_assign_self _ _ _, ?_, m5, m6,
      opsShape_assign_ne m7 (by decide) _⟩
    rw [lookup_assign_ne (by decide)]
    exact m4

theorem merge_html_wellFormed {m item : JsVal} {a b : String} {p q : List JsVal}
    {om oi : Option (List JsVal)} (hm : HasNotes m a p om) (hi : HasNotes item b q oi) :
    ∃ m1, merge_html m item = .ok m1 ∧ HasNotes m1 a (p ++ q) om := by
  obtain ⟨np, pp, hp, cp, xp, m1, m2, m3, m4, m5, m6, m7⟩ := (hasNotes_iff _ _ _ _).1 hm
  obtain ⟨nq, pq, hq, cq, xq, i1, i2, i3, i4, i5, i6, i7⟩ := (hasNotes_iff _ _ _ _).1 hi
  refine ⟨putProp m "notes" (.obj (assign "html" (.obj (assign "content"
      (.obj (assign "paragraphs" (.arr (p ++ q) []) cp)) hp)) np)), ?_, ?_⟩
  · simp [merge_html, getProp_of_own m1, getProp_of_own i1, getProp_obj, m4, m5, m6, i4, i5, i6,
      concat, setProp_obj, putProp_obj, bind, Except.bind, pure, Except.pure]
  · refine (hasNotes_iff _ _ _ _).2 ⟨_, pp, _, _, [], own_putProp_self m1 _, ?_, m3,
      lookup_assign_self _ _ _, lookup_assign_self _ _ _, lookup_assign_self _ _ _,
      opsShape_assign_ne m7 (by decide) _⟩
    rw [lookup_assign_ne (by decide)]
    exact m2

theorem merge_ops_wellFormed {m item : JsVal} {a b : String} {p q : List JsVal}
    {om oi : Option (List JsVal)} (hm : HasNotes m a p om) (hi : HasNotes item b q oi) :
    ∃ m1, merge_ops m item = .ok m1 ∧ HasNotes m1 a p (mergedOps om oi) := by
  obtain ⟨np, pp, hp, cp, xp, m1, m2, m3, m4, m5, m6, m7⟩ := (hasNotes_iff _ _ _ _).1 hm
  obtain ⟨nq, pq, hq, cq, xq, i1, i2, i3, i4, i5, i6, i7⟩ := (hasNotes_iff _ _ _ _).1 hi
  cases oi with
  | none =>
    have i8 : lookup "ops" nq = none := i7
    refine ⟨m, ?_, hm⟩
    simp [merge_ops, getProp_of_own i1, has_obj, i8, bind, Except.bind, pure, Except.pure]
  | some li =>
    obtain ⟨oq, xo, i8, i9⟩ := i7
    cases om with
    | none =>
      have m8 : lookup "ops" np = none := m7
      refine ⟨putProp m "notes" (.obj (assign "ops" (.obj oq) np)), ?_, ?_⟩
      · simp [merge_ops, getProp_of_own i1, getProp_of_own m1, has_obj, getProp_obj, i8, m8,
          setProp_obj, bind, Except.bind, pure, Except.pure]
      · refine (hasNotes_iff _ _ _ _).2 ⟨_, pp, hp, cp, xp, own_putProp_self m1 _, ?_, m3, ?_,
          m5, m6, ⟨oq, xo, lookup_assign_self _ _ _, by simpa [mergedOps] using i9⟩⟩
        · rw [lookup_assign_ne (by decide)]
          exact m2
        · rw [lookup_assign_ne (by decide)]
          exact m4
    | some lm =>
      obtain ⟨op, xm, m8, m9⟩ := m7
      refine ⟨putProp m "notes" (.obj (assign "ops"
        (.obj (assign "ops" (.arr (lm ++ li) []) op)) np)), ?_, ?_⟩
      · simp [merge_ops, getProp_of_own i1, getProp_of_own m1, has_obj, getProp_obj, i8, i9, m8,
          m9, concat, setProp_obj, putProp_obj, bind, Except.bind, pure, Except.pure]
      · refine (hasNotes_iff _ _ _ _).2 ⟨_, pp, hp, cp, xp, own_putProp_self m1 _, ?_, m3, ?_,
          m5, m6, ⟨_, [], lookup_assign_self _ _ _, by
            simpa [mergedOps] using lookup_assign_self "ops" (.arr (lm ++ li) []) op⟩⟩
        · rw [lookup_assign_ne (by decide)]
          exact m2
        · rw [lookup_assign_ne (by decide)]
          exact m4

/-- The `try` block on well-formed notes: no statement throws, and the
matched topic gets the joined plain text, the concatenated paragraphs and the
ops list of the specification. -/
theorem merge_notes_wellFormed {m item : JsVal} {a b : String} {p q : List JsVal}
    {om oi : Option (List JsVal)} (hm : HasNotes m a p om) (hi : HasNotes item b q oi) :
    ∃ m3, merge_notes m item = (m3, none) ∧
      HasNotes m3 (a ++ "\n" ++ b) (p ++ q) (mergedOps om oi) := by
  obtain ⟨m1, e1, h1⟩ := merge_plain_wellFormed hm hi
  obtain ⟨m2, e2, h2⟩ := merge_html_wellFormed h1 hi
  obtain ⟨m3, e3, h3⟩ := merge_ops_wellFormed (b := b) h2 hi
  exact ⟨m3, by simp [merge_notes, e1, e2, e3], h3⟩

end XmindMerge

namespace XmindMerge

theorem hasNotes_of_own_eq {t t1 : JsVal} (h : own "notes" t1 = own "notes" t) {a : String}
    {p : List JsVal} {o : Option (List JsVal)} (hn : HasNotes t a p o) : HasNotes t1 a p o := by
  unfold HasNotes plainOf paragraphsOf opsOf at *
  rw [h]
  exact hn

/-- When only the current topic has notes, the matched topic receives them
whole. -/
theorem consolidate_into_copies_notes (m item : JsVal) (hm : Titled m)
    (hc : ChildrenIsObject m) (v : JsVal) (hv : own "notes" item = some v)
    (hnone : own "notes" m = none) :
    ∃ m2 w, consolidate_into m item = .ok (m2, w) ∧ own "notes" m2 = some v := by
  obtain ⟨s, hs⟩ := hm
  have h1 : consolidate_notes m item = .ok (putProp m "notes" v, []) := by
    simp [consolidate_notes, has, hv, hnone, getProp_of_own hv, setProp_of_own hs, bind,
      Except.bind, pure, Except.pure]
  have ht : own "title" (putProp m "notes" v) = some (.str s) :=
    (own_putProp_ne (by decide) _ _).trans hs
  obtain ⟨m2, h2, _, _⟩ := merge_children_total item ht
    (childrenIsObject_of_own_eq (own_putProp_ne (by decide) _ _) hc)
  refine ⟨m2, [], by simp [consolidate_into, h1, h2, bind, Except.bind, pure, Except.pure], ?_⟩
  rw [merge_children_frame h2 (by decide)]
  exact own_putProp_of_own hs _

/-- When both topics have well-formed notes, the matched topic gets the
joined plain text, the concatenated paragraphs and the ops list of the
specification, and no warning is printed. -/
theorem consolidate_into_merges_notes (m item : JsVal) (hm : Titled m)
    (hc : ChildrenIsObject m) (a b : String) (p q : List JsVal) (om oi : Option (List JsVal))
    (hma : HasNotes m a p om) (hib : HasNotes item b q oi) :
    ∃ m2, consolidate_into m item = .ok (m2, []) ∧
      HasNotes m2 (a ++ "\n" ++ b) (p ++ q) (mergedOps om oi) := by
  obtain ⟨s, hs⟩ := hm
  obtain ⟨m3, e3, h3⟩ := merge_notes_wellFormed hma hib
  have hmn : has m "notes" = true := by
    obtain ⟨np, _, _, _, _, h, _⟩ := (hasNotes_iff _ _ _ _).1 hma
    exact has_of_own h
  have hin : has item "notes" = true := by
    obtain ⟨np, _, _, _, _, h, _⟩ := (hasNotes_iff _ _ _ _).1 hib
    exact has_of_own h
  have h1 : consolidate_notes m item = .ok (m3, []) := by
    simp [consolidate_notes, hmn, hin, e3]
  have ht : own "title" m3 = some (.str s) :=
    (consolidate_notes_frame h1 (by decide)).trans hs
  obtain ⟨m2, h2, _, _⟩ := merge_children_total item ht
    (childrenIsObject_of_own_eq (consolidate_notes_frame h1 (by decide)) hc)
  refine ⟨m2, by simp [consolidate_into, h1, h2, bind, Except.bind, pure, Except.pure], ?_⟩
  exact hasNotes_of_own_eq (merge_children_frame h2 (by decide)) h3

/-- C5. When `consolidate_xmind` merges a current topic into a matched topic
(a topic of the output list, so with a string title; its `children`, when
present, an object).  If only the current topic `item` has notes, the matched
topic `m` receives those notes whole.  If both the matched topic `n` and the
current topic `jtem` have well-formed notes, the merge succeeds without a
warning and the matched topic's plain text becomes matched, newline, current,
its HTML paragraphs become the matched paragraphs followed by the current
ones, and its ops list becomes the matched ops followed by the current ops
when the current topic has an ops section (the current ops alone when the
matched topic had none) and stays as it was when the current topic has no ops
section. -/
theorem consolidate_into_notes [Engine] (m item n jtem v : JsVal) (a b : String) (p q : List JsVal)
    (om oi : Option (List JsVal)) (hm : Titled m) (hc : ChildrenIsObject m)
    (hv : own "notes" item = some v) (hnone : own "notes" m = none)
    (hn : Titled n) (hd : ChildrenIsObject n)
    (hna : HasNotes n a p om) (hjb : HasNotes jtem b q oi) :
    (∃ m2 w, consolidate_into m item = .ok (m2, w) ∧ own "notes" m2 = some v) ∧
    (∃ n2, consolidate_into n jtem = .ok (n2, []) ∧
        HasNotes n2 (a ++ "\n" ++ b) (p ++ q) (mergedOps om oi)) ∧
    consolidate_xmind (workbook [noted "Plan" ["x"] true, leaf "Budget",
        noted "plan" ["y", "z"] true, noted "budget" ["w"] false] []) =
      .ok { dst_xmind := workbook [noted "Plan" ["x", "y", "z"] true,
              noted "Budget" ["w"] false] [],
            count := 2, console := [] } :=
  ⟨consolidate_into_copies_notes m item hm hc v hv hnone,
    consolidate_into_merges_notes n jtem hn hd a b p q om oi hna hjb,
    (consolidate_xmind_ascii _ (by decide)).trans (by decide)⟩

theorem consolidate_into_notes_witness :
    (∃ m2 w, consolidate_into (leaf "Plan") (noted "plan" ["y"] true) = .ok (m2, w) ∧
        own "notes" m2 = some (noteOf ["y"] true)) ∧
    (∃ n2, consolidate_into (noted "Plan" ["x"] false) (noted "plan" ["y"] true) =
        .ok (n2, []) ∧
        HasNotes n2 ("x" ++ "\n" ++ "y") ([lineParagraph "x"] ++ [lineParagraph "y"])
          (mergedOps none (some [lineInsert "y"]))) ∧
    consolidate_xmind (workbook [noted "Plan" ["x"] true, leaf "Budget",
        noted "plan" ["y", "z"] true, noted "budget" ["w"] false] []) =
      .ok { dst_xmind := workbook [noted "Plan" ["x", "y", "z"] true,
              noted "Budget" ["w"] false] [],
            count := 2, console := [] } :=
  consolidate_into_notes (leaf "Plan") (noted "plan" ["y"] true) (noted "Plan" ["x"] false)
    (noted "plan" ["y"] true) (noteOf ["y"] true) "x" "y" [lineParagraph "x"]
    [lineParagraph "y"] none (some [lineInsert "y"]) ⟨_, rfl⟩
    (fun c hc => by simp [leaf, own, lookup] at hc) (by decide) (by decide) ⟨_, rfl⟩
    (fun c hc => by simp [noted, own, lookup] at hc) (by decide) (by decide)

/-! ## Properties: consistency of the note representations -/

theorem joinWith_cons_cons (sep s t : String) (rest : List String) :
    joinWith sep (s :: t :: rest) = s ++ sep ++ joinWith sep (t :: rest) := rfl

theorem joinWith_append (sep : String) {xs ys : List String} (hx : xs ≠ []) (hy : ys ≠ []) :
    joinWith sep (xs ++ ys) = joinWith sep xs ++ sep ++ joinWith sep ys := by
  induction xs with
  | nil => exact absurd rfl hx
  | cons x xs ih =>
    cases xs with
    | nil =>
      cases ys with
      | nil => exact absurd rfl hy
      | cons y ys => simp [joinWith]
    | cons x2 xs =>
      have := ih (by simp)
      rw [List.cons_append, List.cons_append, joinWith_cons_cons, ← List.cons_append, this,
        joinWith_cons_cons]
      simp [String.append_assoc]

theorem concatStrings_append (xs ys : List String) :
    concatStrings (xs ++ ys) = concatStrings xs ++ concatStrings ys := by
  induction xs with
  | nil => simp [concatStrings]
  | cons x xs ih => simp [concatStrings, ih, String.append_assoc]

/-- Joined notes are consistent when both topics have an ops form or neither
has one. -/
theorem consistent_merged {a b : String} {p q : List JsVal} {om oi : Option (List JsVal)}
    (c1 : Consistent a p om) (c2 : Consistent b q oi) (hops : om.isSome = oi.isSome) :
    Consistent (a ++ "\n" ++ b) (p ++ q) (mergedOps om oi) := by
  obtain ⟨p1, p2, p3⟩ := c1
  obtain ⟨q1, q2, q3⟩ := c2
  refine ⟨by simp [p1], ?_, ?_⟩
  · rw [List.map_append, joinWith_append "\n" (by simpa using p1) (by simpa using q1), p2, q2]
  · intro l hl
    cases oi with
    | none =>
      cases om with
      | none => simp [mergedOps] at hl
      | some lm => simp at hops
    | some li =>
      cases om with
      | none => simp at hops
      | some lm =>
        simp only [mergedOps, Option.getD_some, Option.some.injEq] at hl
        subst hl
        unfold opsText at *
        rw [List.map_append, concatStrings_append, p3 lm rfl, q3 li rfl]
        simp [String.append_assoc]

end XmindMerge

namespace XmindMerge

theorem notesConsistent_of_hasNotes {t : JsVal} {a : String} {p : List JsVal}
    {o : Option (List JsVal)} (h : HasNotes t a p o) (c : Consistent a p o) :
    NotesConsistent t := by
  obtain ⟨h1, h2, h3⟩ := h
  simp only [NotesConsistent, h1, h2, h3]
  exact c

/-- C6, as stated, fails.  Two matching top-level topics with well-formed,
consistent notes, the first with an ops form and the second without one,
leave a topic whose notes are not consistent: the plain text and the HTML
form carry both lines, the ops form only the first.  Likewise when only the
second has an ops form: the ops form then carries only the second line. -/
theorem notes_consistency_counterexample :
    NotesConsistent (noted "Plan" ["x"] true) ∧ NotesConsistent (noted "plan" ["y"] false) ∧
    consolidate_xmind (workbook [noted "Plan" ["x"] true, noted "plan" ["y"] false] []) =
      .ok { dst_xmind := workbook [.obj [("title", .str "Plan"), ("notes", .obj [
              ("plain", .obj [("content", .str "x\ny")]),
              ("ops", .obj [("ops", .arr [.obj [("insert", .str "x\n")]] [])]),
              ("html", .obj [("content", .obj [("paragraphs", .arr [
                .obj [("spans", .arr [.obj [("text", .str "x")]] [])],
                .obj [("spans", .arr [.obj [("text", .str "y")]] [])]] [])])])])]] [],
            count := 1, console := [] } ∧
    ¬ NotesConsistent (.obj [("title", .str "Plan"), ("notes", .obj [
              ("plain", .obj [("content", .str "x\ny")]),
              ("ops", .obj [("ops", .arr [.obj [("insert", .str "x\n")]] [])]),
              ("html", .obj [("content", .obj [("paragraphs", .arr [
                .obj [("spans", .arr [.obj [("text", .str "x")]] [])],
                .obj [("spans", .arr [.obj [("text", .str "y")]] [])]] [])])])])]) ∧
    consolidate_xmind (workbook [noted "Plan" ["x"] false, noted "plan" ["y"] true] []) =
      .ok { dst_xmind := workbook [.obj [("title", .str "Plan"), ("notes", .obj [
              ("plain", .obj [("content", .str "x\ny")]),
              ("html", .obj [("content", .obj [("paragraphs", .arr [
                .obj [("spans", .arr [.obj [("text", .str "x")]] [])],
                .obj [("spans", .arr [.obj [("text", .str "y")]] [])]] [])])]),
              ("ops", .obj [("ops", .arr [.obj [("insert", .str "y\n")]] [])])])]] [],
            count := 1, console := [] } ∧
    ¬ NotesConsistent (.obj [("title", .str "Plan"), ("notes", .obj [
              ("plain", .obj [("content", .str "x\ny")]),
              ("html", .obj [("content", .obj [("paragraphs", .arr [
                .obj [("spans", .arr [.obj [("text", .str "x")]] [])],
                .obj [("spans", .arr [.obj [("text", .str "y")]] [])]] [])])]),
              ("ops", .obj [("ops", .arr [.obj [("insert", .str "y\n")]] [])])])]) := by
  refine ⟨by decide, by decide, by decide, by decide, by decide, by decide⟩

/-- C6, amended.  For a matched topic `m` (with a string title; `children`,
when present, an object) and a current topic `item` whose notes are
well-formed and consistent, and which both have an ops form or both have
none, the consolidation succeeds without a warning and the matched topic's
notes are again well-formed and consistent: every representation present
carries the content of the matched topic followed by that of the current
topic. -/
theorem consolidate_into_consistent (m item : JsVal) (a b : String) (p q : List JsVal)
    (om oi : Option (List JsVal)) (hm : Titled m) (hc : ChildrenIsObject m)
    (h1 : HasNotes m a p om) (h2 : HasNotes item b q oi)
    (c1 : Consistent a p om) (c2 : Consistent b q oi) (hops : om.isSome = oi.isSome) :
    ∃ m2, consolidate_into m item = .ok (m2, []) ∧
      HasNotes m2 (a ++ "\n" ++ b) (p ++ q) (mergedOps om oi) ∧
      Consistent (a ++ "\n" ++ b) (p ++ q) (mergedOps om oi) ∧ NotesConsistent m2 := by
  obtain ⟨m2, e, h⟩ := consolidate_into_merges_notes m item hm hc a b p q om oi h1 h2
  have c := consistent_merged c1 c2 hops
  exact ⟨m2, e, h, c, notesConsistent_of_hasNotes h c⟩

theorem consolidate_into_consistent_witness :
    ∃ m2, consolidate_into (noted "Plan" ["x"] true) (noted "plan" ["y", "z"] true) =
        .ok (m2, []) ∧
      HasNotes m2 ("x" ++ "\n" ++ "y\nz")
        ([.obj [("spans", .arr [.obj [("text", .str "x")]] [])]] ++
          [.obj [("spans", .arr [.obj [("text", .str "y")]] [])],
           .obj [("spans", .arr [.obj [("text", .str "z")]] [])]])
        (mergedOps (some [.obj [("insert", .str "x\n")]])
          (some [.obj [("insert", .str "y\n")], .obj [("insert", .str "z\n")]])) ∧
      Consistent ("x" ++ "\n" ++ "y\nz")
        ([.obj [("spans", .arr [.obj [("text", .str "x")]] [])]] ++
          [.obj [("spans", .arr [.obj [("text", .str "y")]] [])],
           .obj [("spans", .arr [.obj [("text", .str "z")]] [])]])
        (mergedOps (some [.obj [("insert", .str "x\n")]])
          (some [.obj [("insert", .str "y\n")], .obj [("insert", .str "z\n")]])) ∧
      NotesConsistent m2 :=
  consolidate_into_consistent (noted "Plan" ["x"] true) (noted "plan" ["y", "z"] true)
    "x" "y\nz" _ _ _ _ ⟨_, rfl⟩ (fun c hc => by simp [noted, own, lookup] at hc)
    (by decide) (by decide) (by decide) (by decide) (by decide)

end XmindMerge

namespace XmindMerge

/-! ## Properties: `add_src_attr` on the notes of a topic -/

theorem append_plain_wellFormed (line : String) {t : JsVal} {a : String} {p : List JsVal}
    {o : Option (List JsVal)} (h : HasNotes t a p o) :
    ∃ t1, append_plain line t = .ok t1 ∧ HasNotes t1 (a ++ "\n" ++ line) p o := by
  obtain ⟨np, pp, hp, cp, xp, m1, m2, m3, m4, m5, m6, m7⟩ := (hasNotes_iff _ _ _ _).1 h
  refine ⟨putProp t "notes" (.obj (assign "plain"
      (.obj (assign "content" (.str (a ++ "\n" ++ line)) pp)) np)), ?_, ?_⟩
  · simp [append_plain, getProp_of_own m1, getProp_obj, m2, m3, toStr, setProp_obj, putProp_obj,
      bind, Except.bind, pure, Except.pure]
  · refine (hasNotes_iff _ _ _ _).2 ⟨_, _, hp, cp, xp, own_putProp_self m1 _,
      lookup_assign_self _ _ _, lookup_assign_self _ _ _, ?_, m5, m6,
      opsShape_assign_ne m7 (by decide) _⟩
    rw [lookup_assign_ne (by decide)]
    exact m4

theorem append_html_wellFormed (line : String) {t : JsVal} {a : String} {p : List JsVal}
    {o : Option (List JsVal)} (h : HasNotes t a p o) :
    ∃ t1, append_html line t = .ok t1 ∧ HasNotes t1 a (p ++ [lineParagraph line]) o := by
  obtain ⟨np, pp, hp, cp, xp, m1, m2, m3, m4, m5, m6, m7⟩ := (hasNotes_iff _ _ _ _).1 h
  refine ⟨putProp t "notes" (.obj (assign "html" (.obj (assign "content"
      (.obj (assign "paragraphs" (.arr (p ++ [lineParagraph line]) xp) cp)) hp)) np)), ?_, ?_⟩
  · simp [append_html, getProp_of_own m1, getProp_obj, m4, m5, m6, callPush, lineParagraph,
      putProp_obj, bind, Except.bind, pure, Except.pure]
  · refine (hasNotes_iff _ _ _ _).2 ⟨_, pp, _, _, xp, own_putProp_self m1 _, ?_, m3,
      lookup_assign_self _ _ _, lookup_assign_self _ _ _, lookup_assign_self _ _ _,
      opsShape_assign_ne m7 (by decide) _⟩
    rw [lookup_assign_ne (by decide)]
    exact m2

theorem append_ops_wellFormed (line : String) {t : JsVal} {a : String} {p : List JsVal}
    {o : Option (List JsVal)} (h : HasNotes t a p o) :
    ∃ t1, append_ops line t = .ok t1 ∧
      HasNotes t1 a p (o.map fun l => l ++ [lineInsert line]) := by
  obtain ⟨np, pp, hp, cp, xp, m1, m2, m3, m4, m5, m6, m7⟩ := (hasNotes_iff _ _ _ _).1 h
  cases o with
  | none =>
    have m8 : lookup "ops" np = none := m7
    refine ⟨t, ?_, h⟩
    simp [append_ops, getProp_of_own m1, has_obj, m8, bind, Except.bind, pure, Except.pure]
  | some l =>
    obtain ⟨op, xo, m8, m9⟩ := m7
    refine ⟨putProp t "notes" (.obj (assign "ops"
      (.obj (assign "ops" (.arr (l ++ [lineInsert line]) xo) op)) np)), ?_, ?_⟩
    · simp [append_ops, getProp_of_own m1, has_obj, getProp_obj, m8, m9, callPush, lineInsert,
        putProp_obj, bind, Except.bind, pure, Except.pure]
    · refine (hasNotes_iff _ _ _ _).2 ⟨_, pp, hp, cp, xp, own_putProp_self m1 _, ?_, m3, ?_,
        m5, m6, ⟨_, xo, lookup_assign_self _ _ _, lookup_assign_self _ _ _⟩⟩
      · rw [lookup_assign_ne (by decide)]
        exact m2
      · rw [lookup_assign_ne (by decide)]
        exact m4

/-- On well-formed notes the `try` block of `add_src_attr` runs through: the
line is appended to every representation present and nothing is logged. -/
theorem annotate_wellFormed (src_filename : String) {t : JsVal} {a : String}
    {p : List JsVal} {o : Option (List JsVal)} (h : HasNotes t a p o) (errs : List String) :
    ∃ t3, annotate src_filename t errs = .ok (t3, errs) ∧
      HasNotes t3 (a ++ "\n" ++ attributionLine src_filename)
        (p ++ [lineParagraph (attributionLine src_filename)])
        (o.map fun l => l ++ [lineInsert (attributionLine src_filename)]) := by
  obtain ⟨t1, e1, h1⟩ := append_plain_wellFormed (attributionLine src_filename) h
  obtain ⟨t2, e2, h2⟩ := append_html_wellFormed (attributionLine src_filename) h1
  obtain ⟨t3, e3, h3⟩ := append_ops_wellFormed (attributionLine src_filename) h2
  have hn : has t "notes" = true := by
    obtain ⟨np, _, _, _, _, hh, _⟩ := (hasNotes_iff _ _ _ _).1 h
    exact has_of_own hh
  refine ⟨t3, ?_, h3⟩
  unfold attributionLine at e1 e2 e3
  simp [annotate, hn, e1, e2, e3]

/-- A topic object without notes gets the new note. -/
theorem annotate_new (src_filename : String) (ps : Props) (h : lookup "notes" ps = none)
    (errs : List String) :
    annotate src_filename (.obj ps) errs =
      .ok (.obj (assign "notes" (newNote (attributionLine src_filename)) ps), errs) := by
  simp [annotate, has_obj, h, setProp_obj, attributionLine]

theorem add_src_attr_single (src_filename : String) (topic : JsVal) (errs : List String) :
    add_src_attr false src_filename [topic] errs =
      (annotate src_filename topic errs).map fun r => ([r.1], r.2) := by
  have h : add_src_attr_topic false src_filename topic errs = annotate src_filename topic errs := by
    cases topic <;> simp [add_src_attr_topic]
  simp only [add_src_attr, h]
  cases annotate src_filename topic errs <;> rfl

/-- C9. Note append.  For every source label `L`, `add_src_attr` on a topic
(an object) without notes gives it notes whose plain text is exactly
`Merge-Source: ` followed by `L`, with one HTML paragraph of one span with
that line and one ops insert of the line plus a newline; on a topic with
well-formed notes whose plain text is `X` it gives the plain text `X`,
newline, `Merge-Source: `, `L`, appends one paragraph of one span with the
line to the HTML form, and appends one insert of the line plus a newline to
the ops form only when there was an ops form.  Nothing is logged in either
case. -/
theorem add_src_attr_note_append (L : String) (ps qs : Props) (X : String) (p : List JsVal)
    (o : Option (List JsVal)) (errs : List String) (hnone : lookup "notes" ps = none)
    (hsome : HasNotes (.obj qs) X p o) :
    (∃ t, add_src_attr false L [.obj ps] errs = .ok ([t], errs) ∧
        own "notes" t = some (newNote ("Merge-Source: " ++ L)) ∧
        HasNotes t ("Merge-Source: " ++ L) [lineParagraph ("Merge-Source: " ++ L)]
          (some [lineInsert ("Merge-Source: " ++ L)])) ∧
    (∃ t, add_src_attr false L [.obj qs] errs = .ok ([t], errs) ∧
        HasNotes t (X ++ "\n" ++ ("Merge-Source: " ++ L))
          (p ++ [lineParagraph ("Merge-Source: " ++ L)])
          (o.map fun l => l ++ [lineInsert ("Merge-Source: " ++ L)])) := by
  constructor
  · refine ⟨.obj (assign "notes" (newNote ("Merge-Source: " ++ L)) ps), ?_,
      own_putProp_obj "notes" ps _, ?_⟩
    · rw [add_src_attr_single, annotate_new L ps hnone errs]
      rfl
    · simp [HasNotes, plainOf, paragraphsOf, opsOf, own, lookup_assign_self, newNote, lookup,
        lineParagraph, lineInsert]
  · obtain ⟨t3, e, h3⟩ := annotate_wellFormed L hsome errs
    exact ⟨t3, by rw [add_src_attr_single, e]; rfl, h3⟩

theorem add_src_attr_note_append_witness :
    (∃ t, add_src_attr false "file.ext" [.obj [("title", .str "T")]] [] = .ok ([t], []) ∧
        own "notes" t = some (newNote ("Merge-Source: " ++ "file.ext")) ∧
        HasNotes t ("Merge-Source: " ++ "file.ext")
          [lineParagraph ("Merge-Source: " ++ "file.ext")]
          (some [lineInsert ("Merge-Source: " ++ "file.ext")])) ∧
    (∃ t, add_src_attr false "file.ext"
          [.obj [("title", .str "T"), ("notes", noteOf ["X"] true)]] [] = .ok ([t], []) ∧
        HasNotes t ("X" ++ "\n" ++ ("Merge-Source: " ++ "file.ext"))
          ([lineParagraph "X"] ++ [lineParagraph ("Merge-Source: " ++ "file.ext")])
          ((some [lineInsert "X"]).map fun l =>
            l ++ [lineInsert ("Merge-Source: " ++ "file.ext")])) :=
  add_src_attr_note_append "file.ext" [("title", .str "T")]
    [("title", .str "T"), ("notes", noteOf ["X"] true)] "X" [lineParagraph "X"]
    (some [lineInsert "X"]) [] (by decide) (by decide)

end XmindMerge

namespace XmindMerge

/-! ## Properties: `add_src_attr` on notes of any shape -/

theorem notesPart_putProp {t n : JsVal} (hn : own "notes" t = some n) {k k1 : String}
    (hk : k ≠ k1) (v : JsVal) :
    notesPart k (putProp t "notes" (putProp n k1 v)) = notesPart k t := by
  simp only [notesPart, own_putProp_self hn, hn, Option.bind_some]
  exact own_putProp_ne hk _ _

theorem append_plain_frame {line : String} {t t1 : JsVal} (h : append_plain line t = .ok t1) :
    (∀ k, k ≠ "notes" → own k t1 = own k t) ∧
    (has t "notes" = true → ∀ k, k ≠ "plain" → notesPart k t1 = notesPart k t) := by
  simp only [append_plain, bind_ok, pure, Except.pure, Except.ok.injEq] at h
  obtain ⟨notes, h1, plain, _, _, _, _, _, _, _, rfl⟩ := h
  refine ⟨fun k hk => own_putProp_ne hk _ _, fun hn k hk => ?_⟩
  cases hown : own "notes" t with
  | none => simp [has, hown] at hn
  | some n =>
    rw [getProp_of_own hown] at h1
    cases h1
    exact notesPart_putProp hown hk _

theorem append_html_frame {line : String} {t t1 : JsVal} (h : append_html line t = .ok t1) :
    (∀ k, k ≠ "notes" → own k t1 = own k t) ∧
    (has t "notes" = true → ∀ k, k ≠ "html" → notesPart k t1 = notesPart k t) := by
  simp only [append_html, bind_ok, pure, Except.pure, Except.ok.injEq] at h
  obtain ⟨notes, h1, html, _, _, _, _, _, _, _, rfl⟩ := h
  refine ⟨fun k hk => own_putProp_ne hk _ _, fun hn k hk => ?_⟩
  cases hown : own "notes" t with
  | none => simp [has, hown] at hn
  | some n =>
    rw [getProp_of_own hown] at h1
    cases h1
    exact notesPart_putProp hown hk _

theorem append_ops_frame {line : String} {t t1 : JsVal} (h : append_ops line t = .ok t1) :
    ∀ k, k ≠ "notes" → own k t1 = own k t := by
  simp only [append_ops, bind_ok] at h
  obtain ⟨notes, _, h⟩ := h
  split at h
  · simp only [bind_ok, pure, Except.pure, Except.ok.injEq] at h
    obtain ⟨_, _, _, _, _, _, rfl⟩ := h
    exact fun k hk => own_putProp_ne hk _ _
  · simp only [pure, Except.pure, Except.ok.injEq] at h
    subst h
    exact fun k hk => rfl

/-- C10, as stated, fails.  On notes whose plain text and ops form are
well-formed but whose HTML form lacks the paragraph list, `add_src_attr`
updates the plain text, records an error, and leaves the ops form without the
line.  On notes whose `plain` is a bare string, it appends to the HTML form,
leaves the plain text as it was, and records nothing. -/
theorem annotation_half_updated :
    add_src_attr false "f.xmind" [.obj [("notes", .obj [
        ("plain", .obj [("content", .str "X")]),
        ("html", .obj [("content", .obj [])]),
        ("ops", .obj [("ops", .arr [lineInsert "X"] [])])])]] [] =
      .ok ([.obj [("notes", .obj [
        ("plain", .obj [("content", .str "X\nMerge-Source: f.xmind")]),
        ("html", .obj [("content", .obj [])]),
        ("ops", .obj [("ops", .arr [lineInsert "X"] [])])])]],
        ["Unable to add to existing note in f.xmind: " ++
          "Cannot read properties of undefined (reading \x27push\x27)"]) ∧
    add_src_attr false "f.xmind" [.obj [("notes", .obj [
        ("plain", .str "X"),
        ("html", .obj [("content", .obj [("paragraphs", .arr [lineParagraph "X"] [])])])])]] [] =
      .ok ([.obj [("notes", .obj [
        ("plain", .str "X"),
        ("html", .obj [("content", .obj [("paragraphs",
          .arr [lineParagraph "X", lineParagraph "Merge-Source: f.xmind"] [])])])])]], []) := by
  constructor <;> decide

/-- The `try` block of `add_src_attr` on a topic with notes.  The three
appends run in the order plain text, HTML form, ops form, and the block ends
at the first that throws, with exactly one error naming the source file: an
error in the first leaves the topic as it was; an error in the second leaves
the plain-text update in place and the HTML and ops forms as they were; an
error in the third leaves the plain-text and HTML updates in place and the
ops form as it was.  When none throws, nothing is recorded. -/
theorem annotate_cases (L : String) (topic : JsVal) (errs : List String)
    (h : has topic "notes" = true) :
    ∃ t errs1, annotate L topic errs = .ok (t, errs1) ∧
      ((errs1 = errs ∧ ∃ t1 t2, append_plain (attributionLine L) topic = .ok t1 ∧
          append_html (attributionLine L) t1 = .ok t2 ∧
          append_ops (attributionLine L) t2 = .ok t) ∨
       (∃ e, errs1 = errs ++ [noteError L e] ∧
          append_plain (attributionLine L) topic = .error e ∧ t = topic) ∨
       (∃ e, errs1 = errs ++ [noteError L e] ∧
          append_plain (attributionLine L) topic = .ok t ∧
          append_html (attributionLine L) t = .error e ∧
          notesPart "html" t = notesPart "html" topic ∧
          notesPart "ops" t = notesPart "ops" topic) ∨
       (∃ e t1, errs1 = errs ++ [noteError L e] ∧
          append_plain (attributionLine L) topic = .ok t1 ∧
          append_html (attributionLine L) t1 = .ok t ∧
          append_ops (attributionLine L) t = .error e ∧
          notesPart "ops" t = notesPart "ops" topic)) := by
  cases e1 : append_plain (attributionLine L) topic with
  | error e =>
    have ha : annotate L topic errs = .ok (topic, errs ++ [noteError L e]) := by
      simp only [attributionLine] at e1
      simp [annotate, h, e1]
    rw [ha]
    exact ⟨topic, _, rfl, Or.inr (Or.inl ⟨e, rfl, rfl, rfl⟩)⟩
  | ok t1 =>
    have f1 := append_plain_frame e1
    have hn1 : has t1 "notes" = true := by
      have e1c := e1
      simp only [append_plain, bind_ok, pure, Except.pure, Except.ok.injEq] at e1c
      obtain ⟨notes, h1, plain, _, _, _, _, _, _, _, rfl⟩ := e1c
      cases hown : own "notes" topic with
      | none => simp [has, hown] at h
      | some n => exact has_of_own (own_putProp_self hown _)
    cases e2 : append_html (attributionLine L) t1 with
    | error e =>
      have ha : annotate L topic errs = .ok (t1, errs ++ [noteError L e]) := by
        simp only [attributionLine] at e1 e2
        simp [annotate, h, e1, e2]
      rw [ha]
      exact ⟨t1, _, rfl, Or.inr (Or.inr (Or.inl ⟨e, rfl, rfl, e2,
        f1.2 h "html" (by decide), f1.2 h "ops" (by decide)⟩))⟩
    | ok t2 =>
      have f2 := append_html_frame e2
      cases e3 : append_ops (attributionLine L) t2 with
      | error e =>
        have ha : annotate L topic errs = .ok (t2, errs ++ [noteError L e]) := by
          simp only [attributionLine] at e1 e2 e3
          simp [annotate, h, e1, e2, e3]
        rw [ha]
        refine ⟨t2, _, rfl, Or.inr (Or.inr (Or.inr ⟨e, t1, rfl, rfl, e2, e3, ?_⟩))⟩
        exact (f2.2 hn1 "ops" (by decide)).trans (f1.2 h "ops" (by decide))
      | ok t3 =>
        have ha : annotate L topic errs = .ok (t3, errs) := by
          simp only [attributionLine] at e1 e2 e3
          simp [annotate, h, e1, e2, e3]
        rw [ha]
        exact ⟨t3, _, rfl, Or.inl ⟨rfl, t1, t2, rfl, e2, e3⟩⟩

end XmindMerge

namespace XmindMerge

/-! ## Properties: identifier reissue -/

/-- C7, at a failing input.  On a root topic with a `labels` array of strings
and a `sizes` array holding a number and a nested array, the cleaned tree has
the identifiers replaced, but each string of `labels` has become an object of
its characters, the number an empty object and the nested array an object
keyed by index: the non-`id` fields are not copied unchanged. -/
theorem deeply_breaks_primitive_arrays :
    (deeply sampleGen (.obj [("id", .str "a"), ("title", .str "T"),
        ("labels", .arr [.str "ab", .str "c"] []),
        ("sizes", .arr [.num 3, .arr [.num 1, .num 2] []] []),
        ("children", .obj [("attached", .arr [.obj [("id", .str "b"), ("title", .str "U")]] [])])])
      0).1 =
    .obj [("id", .str "uu"), ("title", .str "T"),
        ("labels", .arr [.obj [("0", .str "a"), ("1", .str "b")], .obj [("0", .str "c")]] []),
        ("sizes", .arr [.obj [], .obj [("0", .num 1), ("1", .num 2)]] []),
        ("children", .obj [("attached", .arr [.obj [("id", .str "u"), ("title", .str "U")]] [])])] := by
  decide

end XmindMerge

namespace XmindMerge

/-! ## Properties: the identifiers of a cleaned tree are new -/

theorem count_generated_succ (gen : Nat → String) (n : Nat) (a : JsVal) :
    (generated gen (n + 1)).count a = (generated gen n).count a +
      (if JsVal.str (gen n) = a then 1 else 0) := by
  simp [generated, List.range_succ, List.count_append, List.count_cons, List.count_nil]

theorem count_generated_mono (gen : Nat → String) {n m : Nat} (h : n ≤ m) (a : JsVal) :
    (generated gen n).count a ≤ (generated gen m).count a := by
  induction h with
  | refl => exact le_refl _
  | step _ ih =>
    rw [count_generated_succ]
    omega

theorem innerIds_append (ps qs : Props) : innerIds (ps ++ qs) = innerIds ps ++ innerIds qs := by
  induction ps with
  | nil => rfl
  | cons p ps ih =>
    obtain ⟨k, v⟩ := p
    simp [innerIds, ih]

theorem innerIds_indexedChars (cs : List Char) (i : Nat) : innerIds (indexedChars cs i) = [] := by
  induction cs generalizing i with
  | nil => rfl
  | cons c cs ih => simp [indexedChars, innerIds, ids, ih]

theorem reissue_ids (gen : Nat → String) (ps : Props) (n : Nat) :
    n ≤ (reissue gen ps n).2 ∧
    ∀ a, (idsProps (reissue gen ps n).1).count a + (generated gen n).count a ≤
      (innerIds ps).count a + (generated gen (reissue gen ps n).2).count a := by
  induction ps generalizing n with
  | nil => simp [reissue, idsProps, innerIds]
  | cons p ps ih =>
    obtain ⟨k, v⟩ := p
    by_cases hk : k = "id"
    · subst hk
      obtain ⟨h1, h2⟩ := ih (n + 1)
      simp only [reissue, if_true]
      refine ⟨by omega, fun a => ?_⟩
      have := h2 a
      rw [count_generated_succ] at this
      simp only [idsProps, if_true, ids, innerIds, List.count_append, List.count_cons,
        List.count_nil, List.nil_append, List.singleton_append, beq_iff_eq] at this ⊢
      omega
    · obtain ⟨h1, h2⟩ := ih n
      simp only [reissue, hk, if_false]
      refine ⟨h1, fun a => ?_⟩
      have := h2 a
      simp only [idsProps, hk, if_false, innerIds, List.count_append, List.nil_append] at this ⊢
      omega

mutual
/-- Every identifier of the cleaned tree was issued during the call. -/
theorem deeply_ids (gen : Nat → String) : ∀ (v : JsVal) (n : Nat),
    n ≤ (deeply gen v n).2 ∧
    ∀ a, (ids (deeply gen v n).1).count a + (generated gen n).count a ≤
      (generated gen (deeply gen v n).2).count a
  | .obj ps, n => by
    have h := deeplyProps_ids gen ps n
    have r := reissue_ids gen (deeplyProps gen ps n).1 (deeplyProps gen ps n).2
    simp only [deeply, ids]
    refine ⟨by omega, fun a => ?_⟩
    have := h.2 a
    have := r.2 a
    omega
  | .arr xs ps, n => by
    have h1 := deeplyIndexed_ids gen xs 0 n
    have h2 := deeplyProps_ids gen ps (deeplyIndexed gen xs 0 n).2
    have r := reissue_ids gen
      ((deeplyIndexed gen xs 0 n).1 ++ (deeplyProps gen ps (deeplyIndexed gen xs 0 n).2).1)
      (deeplyProps gen ps (deeplyIndexed gen xs 0 n).2).2
    simp only [deeply, ids]
    refine ⟨by omega, fun a => ?_⟩
    have := h1.2 a
    have := h2.2 a
    have := r.2 a
    rw [innerIds_append, List.count_append] at this
    omega
  | .str s, n => by
    have r := reissue_ids gen (indexedChars s.data 0) n
    simp only [deeply, ids]
    refine ⟨r.1, fun a => ?_⟩
    have := r.2 a
    rw [innerIds_indexedChars] at this
    simpa using this
  | .undefined, n => by simp [deeply, ids, idsProps]
  | .null, n => by simp [deeply, ids, idsProps]
  | .bool _, n => by simp [deeply, ids, idsProps]
  | .num _, n => by simp [deeply, ids, idsProps]
theorem deeplyValue_ids (gen : Nat → String) : ∀ (v : JsVal) (n : Nat),
    n ≤ (deeplyValue gen v n).2 ∧
    ∀ a, (ids (deeplyValue gen v n).1).count a + (generated gen n).count a ≤
      (generated gen (deeplyValue gen v n).2).count a
  | .obj ps, n => by
    have h := deeplyProps_ids gen ps n
    have r := reissue_ids gen (deeplyProps gen ps n).1 (deeplyProps gen ps n).2
    simp only [deeplyValue, ids]
    refine ⟨by omega, fun a => ?_⟩
    have := h.2 a
    have := r.2 a
    omega
  | .arr xs _, n => by
    have h := deeplyItems_ids gen xs n
    simp only [deeplyValue, ids, idsProps, List.append_nil]
    exact h
  | .str _, n => by simp [deeplyValue, ids]
  | .undefined, n => by simp [deeplyValue, ids]
  | .null, n => by simp [deeplyValue, ids]
  | .bool _, n => by simp [deeplyValue, ids]
  | .num _, n => by simp [deeplyValue, ids]
theorem deeplyProps_ids (gen : Nat → String) : ∀ (ps : Props) (n : Nat),
    n ≤ (deeplyProps gen ps n).2 ∧
    ∀ a, (innerIds (deeplyProps gen ps n).1).count a + (generated gen n).count a ≤
      (generated gen (deeplyProps gen ps n).2).count a
  | [], n => by simp [deeplyProps, innerIds]
  | (k, v) :: ps, n => by
    have h1 := deeplyValue_ids gen v n
    have h2 := deeplyProps_ids gen ps (deeplyValue gen v n).2
    simp only [deeplyProps, innerIds, List.count_append]
    refine ⟨by omega, fun a => ?_⟩
    have := h1.2 a
    have := h2.2 a
    omega
theorem deeplyIndexed_ids (gen : Nat → String) : ∀ (xs : List JsVal) (i n : Nat),
    n ≤ (deeplyIndexed gen xs i n).2 ∧
    ∀ a, (innerIds (deeplyIndexed gen xs i n).1).count a + (generated gen n).count a ≤
      (generated gen (deeplyIndexed gen xs i n).2).count a
  | [], i, n => by simp [deeplyIndexed, innerIds]
  | x :: xs, i, n => by
    have h1 := deeplyValue_ids gen x n
    have h2 := deeplyIndexed_ids gen xs (i + 1) (deeplyValue gen x n).2
    simp only [deeplyIndexed, innerIds, List.count_append]
    refine ⟨by omega, fun a => ?_⟩
    have := h1.2 a
    have := h2.2 a
    omega
theorem deeplyItems_ids (gen : Nat → String) : ∀ (xs : List JsVal) (n : Nat),
    n ≤ (deeplyItems gen xs n).2 ∧
    ∀ a, (idsList (deeplyItems gen xs n).1).count a + (generated gen n).count a ≤
      (generated gen (deeplyItems gen xs n).2).count a
  | [], n => by simp [deeplyItems, idsList]
  | x :: xs, n => by
    have h1 := deeply_ids gen x n
    have h2 := deeplyItems_ids gen xs (deeply gen x n).2
    simp only [deeplyItems, idsList, List.count_append]
    refine ⟨by omega, fun a => ?_⟩
    have := h1.2 a
    have := h2.2 a
    omega
end

end XmindMerge

namespace XmindMerge

/-! ## Properties: counting identifiers through reads and writes -/

theorem ids_undefined : ids .undefined = [] := by simp [ids]

theorem idsList_append (xs ys : List JsVal) : idsList (xs ++ ys) = idsList xs ++ idsList ys := by
  induction xs with
  | nil => rfl
  | cons x xs ih => simp [idsList, ih]

theorem count_lookup_le {k : String} {ps : Props} {c : JsVal} (h : lookup k ps = some c)
    (a : JsVal) : (ids c).count a ≤ (idsProps ps).count a := by
  induction ps with
  | nil => simp [lookup] at h
  | cons p ps ih =>
    obtain ⟨k1, v1⟩ := p
    simp only [idsProps, List.count_append]
    by_cases hk : k1 = k
    · simp only [lookup, hk, if_true, Option.some.injEq] at h
      subst h
      omega
    · simp only [lookup, hk, if_false] at h
      have := ih h
      omega

theorem count_lookup_two_le {k1 k2 : String} (hne : k1 ≠ k2) {ps : Props} {c1 c2 : JsVal}
    (h1 : lookup k1 ps = some c1) (h2 : lookup k2 ps = some c2) (a : JsVal) :
    (ids c1).count a + (ids c2).count a ≤ (idsProps ps).count a := by
  induction ps with
  | nil => simp [lookup] at h1
  | cons p ps ih =>
    obtain ⟨k, v⟩ := p
    simp only [idsProps, List.count_append]
    by_cases hk1 : k = k1
    · have hk2 : ¬ k = k2 := fun e => hne (hk1.symm.trans e)
      simp only [lookup, hk1, if_true, Option.some.injEq] at h1
      simp only [lookup, hk2, if_false] at h2
      subst h1
      have := count_lookup_le h2 a
      omega
    · simp only [lookup, hk1, if_false] at h1
      by_cases hk2 : k = k2
      · simp only [lookup, hk2, if_true, Option.some.injEq] at h2
        subst h2
        have := count_lookup_le h1 a
        omega
      · simp only [lookup, hk2, if_false] at h2
        have := ih h1 h2
        omega

theorem count_own_le {k : String} {o c : JsVal} (h : own k o = some c) (a : JsVal) :
    (ids c).count a ≤ (ids o).count a := by
  cases o <;> simp only [own] at h <;> try exact absurd h (by simp)
  · have := count_lookup_le h a
    simp only [ids, List.count_append]
    omega
  · exact count_lookup_le h a

theorem count_own_two_le {k1 k2 : String} (hne : k1 ≠ k2) {o c1 c2 : JsVal}
    (h1 : own k1 o = some c1) (h2 : own k2 o = some c2) (a : JsVal) :
    (ids c1).count a + (ids c2).count a ≤ (ids o).count a := by
  cases o <;> simp only [own] at h1 h2 <;> try exact absurd h1 (by simp)
  · have := count_lookup_two_le hne h1 h2 a
    simp only [ids, List.count_append]
    omega
  · exact count_lookup_two_le hne h1 h2 a

/-- The value a property read yields has no identifier its object lacks. -/
theorem count_getProp_le {k : String} {o v : JsVal} (h : getProp o k = .ok v) (a : JsVal) :
    (ids v).count a ≤ (ids o).count a := by
  cases hown : own k o with
  | none =>
    have : v = .undefined := by
      cases o <;> simp_all [getProp, own]
    subst this
    simp [ids]
  | some c =>
    rw [getProp_of_own hown] at h
    cases h
    exact count_own_le hown a

theorem count_getProp_two_le {k1 k2 : String} (hne : k1 ≠ k2) {o v1 v2 : JsVal}
    (h1 : getProp o k1 = .ok v1) (h2 : getProp o k2 = .ok v2) (a : JsVal) :
    (ids v1).count a + (ids v2).count a ≤ (ids o).count a := by
  cases hown1 : own k1 o with
  | none =>
    have : v1 = .undefined := by
      cases o <;> simp_all [getProp, own]
    subst this
    have := count_getProp_le h2 a
    simp only [ids, List.count_nil]
    omega
  | some c1 =>
    cases hown2 : own k2 o with
    | none =>
      have : v2 = .undefined := by
        cases o <;> simp_all [getProp, own]
      subst this
      have := count_getProp_le h1 a
      simp only [ids, List.count_nil]
      omega
    | some c2 =>
      rw [getProp_of_own hown1] at h1
      rw [getProp_of_own hown2] at h2
      cases h1
      cases h2
      exact count_own_two_le hne hown1 hown2 a

theorem count_assign {k : String} (hk : k ≠ "id") (v : JsVal) (ps : Props) (a : JsVal) :
    (idsProps (assign k v ps)).count a + (ids ((lookup k ps).getD .undefined)).count a =
      (idsProps ps).count a + (ids v).count a := by
  induction ps with
  | nil => simp [assign, lookup, idsProps, hk, ids]
  | cons p ps ih =>
    obtain ⟨k1, v1⟩ := p
    by_cases h : k1 = k
    · subst h
      simp only [assign, lookup, if_true, idsProps, hk, if_false, List.nil_append,
        List.count_append, Option.getD_some]
      omega
    · simp only [assign, lookup, h, if_false, idsProps, List.count_append]
      omega

/-- Storing `v` under `k` adds the identifiers of `v` and removes those of the
value that was there. -/
theorem count_putProp {k : String} (hk : k ≠ "id") (o v : JsVal) (a : JsVal) :
    (ids (putProp o k v)).count a + (ids ((own k o).getD .undefined)).count a ≤
      (ids o).count a + (ids v).count a := by
  cases o with
  | obj ps =>
    have := count_assign hk v ps a
    simp only [putProp, own, ids]
    omega
  | arr xs ps =>
    have := count_assign hk v ps a
    simp only [putProp, own, ids, List.count_append]
    omega
  | _ => simp [putProp, own, ids]

theorem getProp_eq_getD {o v : JsVal} {k : String} (h : getProp o k = .ok v) :
    v = (own k o).getD .undefined := by
  cases o <;> simp_all [getProp, own]

theorem count_putProp_of_getProp {k : String} (hk : k ≠ "id") {o old : JsVal}
    (h : getProp o k = .ok old) (v : JsVal) (a : JsVal) :
    (ids (putProp o k v)).count a + (ids old).count a ≤ (ids o).count a + (ids v).count a := by
  rw [getProp_eq_getD h]
  exact count_putProp hk o v a

theorem setProp_eq_putProp {o o1 v : JsVal} {k : String} (h : setProp o k v = .ok o1) :
    o1 = putProp o k v := by
  cases o <;> simp_all [setProp]

theorem count_setProp {k : String} (hk : k ≠ "id") {o old o1 : JsVal}
    (h : getProp o k = .ok old) {v : JsVal} (hs : setProp o k v = .ok o1) (a : JsVal) :
    (ids o1).count a + (ids old).count a ≤ (ids o).count a + (ids v).count a := by
  rw [setProp_eq_putProp hs]
  exact count_putProp_of_getProp hk h v a

theorem count_putFirst {d s : JsVal} (h : getFirst d = .ok s) (v : JsVal) (a : JsVal) :
    (ids (putFirst d v)).count a + (ids s).count a ≤ (ids d).count a + (ids v).count a := by
  cases d with
  | undefined => simp [getFirst] at h
  | null => simp [getFirst] at h
  | bool b => simp [getFirst] at h; subst h; simp [putFirst, ids]
  | num n => simp [getFirst] at h; subst h; simp [putFirst, ids]
  | str s0 =>
    simp only [getFirst, Except.ok.injEq] at h
    split at h <;> subst h <;> simp [putFirst, ids]
  | arr xs ps =>
    cases xs with
    | nil => simp [getFirst] at h; subst h; simp [putFirst, ids]
    | cons x xs =>
      simp only [getFirst, List.headD_cons, Except.ok.injEq] at h
      subst h
      simp only [putFirst, ids, idsList, List.count_append]
      omega
  | obj ps =>
    simp only [getFirst, Except.ok.injEq] at h
    subst h
    have := count_assign (k := "0") (by decide) v ps a
    simp only [putFirst, ids]
    omega

theorem count_getFirst_le {d s : JsVal} (h : getFirst d = .ok s) (a : JsVal) :
    (ids s).count a ≤ (ids d).count a := by
  have := count_putFirst h .undefined a
  simp only [ids_undefined, List.count_nil] at this
  omega

theorem count_concat_le (x y : JsVal) (a : JsVal) :
    (ids (concat x y)).count a ≤ (ids x).count a + (ids y).count a := by
  cases x <;> cases y <;>
    (simp [concat, ids, idsProps, idsList, idsList_append, List.count_append]; try omega)

theorem count_callPush {expr : String} {t item t1 : JsVal} (h : callPush expr t item = .ok t1)
    (a : JsVal) : (ids t1).count a = (ids t).count a + (ids item).count a := by
  cases t <;> simp [callPush] at h
  subst h
  simp only [ids, idsList_append, idsList, List.append_nil, List.count_append]
  omega

end XmindMerge

namespace XmindMerge

/-! ## Properties: `add_src_attr` adds no identifier -/

/-- Replacing the value under `k` by one with no more identifiers leaves the
object with no more identifiers. -/
theorem count_putProp_mono {k : String} (hk : k ≠ "id") {o old v : JsVal}
    (h : getProp o k = .ok old) (a : JsVal) (hv : (ids v).count a ≤ (ids old).count a) :
    (ids (putProp o k v)).count a ≤ (ids o).count a := by
  have := count_putProp_of_getProp hk h v a
  omega

theorem append_plain_count {line : String} {t t1 : JsVal} (h : append_plain line t = .ok t1)
    (a : JsVal) : (ids t1).count a ≤ (ids t).count a := by
  simp only [append_plain, bind_ok, pure, Except.pure, Except.ok.injEq] at h
  obtain ⟨notes, h1, plain, h2, content, h3, s, _, plain1, h4, rfl⟩ := h
  apply count_putProp_mono (by decide) h1
  apply count_putProp_mono (by decide) h2
  have := count_setProp (by decide) h3 h4 a
  simp only [ids, List.count_nil] at this
  omega

theorem append_html_count {line : String} {t t1 : JsVal} (h : append_html line t = .ok t1)
    (a : JsVal) : (ids t1).count a ≤ (ids t).count a := by
  simp only [append_html, bind_ok, pure, Except.pure, Except.ok.injEq] at h
  obtain ⟨notes, h1, html, h2, content, h3, paragraphs, h4, paragraphs1, h5, rfl⟩ := h
  apply count_putProp_mono (by decide) h1
  apply count_putProp_mono (by decide) h2
  apply count_putProp_mono (by decide) h3
  apply count_putProp_mono (by decide) h4
  rw [count_callPush h5]
  simp [ids, idsProps, idsList]

theorem append_ops_count {line : String} {t t1 : JsVal} (h : append_ops line t = .ok t1)
    (a : JsVal) : (ids t1).count a ≤ (ids t).count a := by
  simp only [append_ops, bind_ok] at h
  obtain ⟨notes, h1, h⟩ := h
  split at h
  · simp only [bind_ok, pure, Except.pure, Except.ok.injEq] at h
    obtain ⟨ops, h2, list, h3, list1, h4, rfl⟩ := h
    apply count_putProp_mono (by decide) h1
    apply count_putProp_mono (by decide) h2
    apply count_putProp_mono (by decide) h3
    rw [count_callPush h4]
    simp [ids, idsProps, idsList]
  · simp only [pure, Except.pure, Except.ok.injEq] at h
    rw [← h]

theorem ids_newNote (note : String) : ids (newNote note) = [] := by
  simp [newNote, ids, idsProps, idsList]

theorem annotate_count {src_filename : String} {t t1 : JsVal} {errs errs1 : List String}
    (h : annotate src_filename t errs = .ok (t1, errs1)) (a : JsVal) :
    (ids t1).count a ≤ (ids t).count a := by
  unfold annotate at h
  simp only at h
  split at h
  · split at h
    · simp only [Except.ok.injEq, Prod.mk.injEq] at h
      rw [← h.1]
    · rename_i t2 h2
      split at h
      · simp only [Except.ok.injEq, Prod.mk.injEq] at h
        rw [← h.1]
        exact append_plain_count h2 a
      · rename_i t3 h3
        split at h
        · simp only [Except.ok.injEq, Prod.mk.injEq] at h
          rw [← h.1]
          exact (append_html_count h3 a).trans (append_plain_count h2 a)
        · rename_i t4 h4
          simp only [Except.ok.injEq, Prod.mk.injEq] at h
          rw [← h.1]
          exact (append_ops_count h4 a).trans
            ((append_html_count h3 a).trans (append_plain_count h2 a))
  · split at h
    · exact absurd h (by simp)
    · rename_i t2 h2
      simp only [Except.ok.injEq, Prod.mk.injEq] at h
      rw [← h.1, setProp_eq_putProp h2]
      have := count_putProp (k := "notes") (by decide) t (newNote (SRC_ATTR_TAG ++ src_filename)) a
      rw [ids_newNote] at this
      simp only [List.count_nil] at this
      omega

theorem count_restore {k : String} (hk : k ≠ "id") {r : Option JsVal} {ps : Props} (a : JsVal)
    (h : ∀ w, r = some w → ∃ old, lookup k ps = some old ∧ (ids w).count a ≤ (ids old).count a) :
    (idsProps (restore k r ps)).count a ≤ (idsProps ps).count a := by
  cases r with
  | none => exact le_refl _
  | some w =>
    obtain ⟨old, h1, h2⟩ := h w rfl
    have := count_assign hk w ps a
    rw [h1] at this
    simp only [restore, Option.getD_some] at this ⊢
    omega

mutual
theorem add_src_attr_count (deeper : Bool) (src_filename : String) :
    ∀ (topics : List JsVal) (errs : List String) (out : List JsVal) (errs1 : List String),
    add_src_attr deeper src_filename topics errs = .ok (out, errs1) →
    ∀ a, (idsList out).count a ≤ (idsList topics).count a
  | [], errs, out, errs1, h, a => by
    simp only [add_src_attr, Except.ok.injEq, Prod.mk.injEq] at h
    rw [← h.1]
  | topic :: rest, errs, out, errs1, h, a => by
    simp only [add_src_attr] at h
    split at h
    · exact absurd h (by simp)
    · rename_i r hr
      split at h
      · exact absurd h (by simp)
      · rename_i r2 hr2
        simp only [Except.ok.injEq, Prod.mk.injEq] at h
        rw [← h.1]
        have h1 := add_src_attr_topic_count deeper src_filename topic errs r.1 r.2 hr a
        have h2 := add_src_attr_count deeper src_filename rest r.2 r2.1 r2.2 hr2 a
        simp only [idsList, List.count_append]
        omega
theorem add_src_attr_topic_count (deeper : Bool) (src_filename : String) :
    ∀ (topic : JsVal) (errs : List String) (out : JsVal) (errs1 : List String),
    add_src_attr_topic deeper src_filename topic errs = .ok (out, errs1) →
    ∀ a, (ids out).count a ≤ (ids topic).count a
  | .obj ps, errs, out, errs1, h, a => by
    simp only [add_src_attr_topic] at h
    split at h
    · split at h
      · exact absurd h (by simp)
      · rename_i r hr
        have h1 := add_src_attr_children_count deeper src_filename ps errs r.1 r.2 hr a
        have h2 := annotate_count h a
        simp only [ids] at h2 ⊢
        omega
    · exact annotate_count h a
  | .arr xs ps, errs, out, errs1, h, a => by
    simp only [add_src_attr_topic] at h
    split at h
    · split at h
      · exact absurd h (by simp)
      · rename_i r hr
        have h1 := add_src_attr_children_count deeper src_filename ps errs r.1 r.2 hr a
        have h2 := annotate_count h a
        simp only [ids, List.count_append] at h2 ⊢
        omega
    · exact annotate_count h a
  | .undefined, errs, out, errs1, h, a => by
    simp only [add_src_attr_topic] at h
    exact annotate_count h a
  | .null, errs, out, errs1, h, a => by
    simp only [add_src_attr_topic] at h
    exact annotate_count h a
  | .bool _, errs, out, errs1, h, a => by
    simp only [add_src_attr_topic] at h
    exact annotate_count h a
  | .num _, errs, out, errs1, h, a => by
    simp only [add_src_attr_topic] at h
    exact annotate_count h a
  | .str _, errs, out, errs1, h, a => by
    simp only [add_src_attr_topic] at h
    exact annotate_count h a
theorem add_src_attr_children_count (deeper : Bool) (src_filename : String) :
    ∀ (ps : Props) (errs : List String) (out : Props) (errs1 : List String),
    add_src_attr_children deeper src_filename ps errs = .ok (out, errs1) →
    ∀ a, (idsProps out).count a ≤ (idsProps ps).count a
  | [], errs, out, errs1, h, a => by
    simp only [add_src_attr_children, Except.ok.injEq, Prod.mk.injEq] at h
    rw [← h.1]
  | (k, v) :: rest, errs, out, errs1, h, a => by
    simp only [add_src_attr_children] at h
    split at h
    · split at h
      · exact absurd h (by simp)
      · rename_i hk _ r hr
        simp only [Except.ok.injEq, Prod.mk.injEq] at h
        rw [← h.1]
        have h1 := add_src_attr_lists_count deeper src_filename v errs r.1 r.2 hr a
        subst hk
        simp only [idsProps, List.count_append]
        simp only [show ¬ ("children" = "id") by decide, if_false, List.count_nil]
        omega
    · split at h
      · exact absurd h (by simp)
      · rename_i r hr
        simp only [Except.ok.injEq, Prod.mk.injEq] at h
        rw [← h.1]
        have h1 := add_src_attr_children_count deeper src_filename rest errs r.1 r.2 hr a
        simp only [idsProps, List.count_append]
        omega
theorem add_src_attr_lists_count (deeper : Bool) (src_filename : String) :
    ∀ (v : JsVal) (errs : List String) (out : JsVal) (errs1 : List String),
    add_src_attr_lists deeper src_filename v errs = .ok (out, errs1) →
    ∀ a, (ids out).count a ≤ (ids v).count a
  | .obj cps, errs, out, errs1, h, a => by
    simp only [add_src_attr_lists] at h
    split at h
    · exact absurd h (by simp)
    · rename_i ra hra
      split at h
      · exact absurd h (by simp)
      · rename_i rd hrd
        simp only [Except.ok.injEq, Prod.mk.injEq] at h
        rw [← h.1]
        have h1 := add_src_attr_at_count deeper src_filename "attached" cps errs ra.1 ra.2 hra a
        have h2 := add_src_attr_at_count deeper src_filename "detached" cps ra.2 rd.1 rd.2 hrd a
        have c1 := count_restore (k := "attached") (by decide) a h1
        have c2 : (idsProps (restore "detached" rd.1 (restore "attached" ra.1 cps))).count a ≤
            (idsProps (restore "attached" ra.1 cps)).count a := by
          apply count_restore (by decide)
          intro w hw
          obtain ⟨old, ho, hc⟩ := h2 w hw
          refine ⟨old, ?_, hc⟩
          cases hra1 : ra.1 with
          | none => simpa [restore] using ho
          | some w1 =>
            simp only [restore]
            rw [lookup_assign_ne (by decide)]
            exact ho
        simp only [ids]
        omega
  | .arr xs cps, errs, out, errs1, h, a => by
    simp only [add_src_attr_lists] at h
    split at h
    · exact absurd h (by simp)
    · rename_i ra hra
      split at h
      · exact absurd h (by simp)
      · rename_i rd hrd
        simp only [Except.ok.injEq, Prod.mk.injEq] at h
        rw [← h.1]
        have h1 := add_src_attr_at_count deeper src_filename "attached" cps errs ra.1 ra.2 hra a
        have h2 := add_src_attr_at_count deeper src_filename "detached" cps ra.2 rd.1 rd.2 hrd a
        have c1 := count_restore (k := "attached") (by decide) a h1
        have c2 : (idsProps (restore "detached" rd.1 (restore "attached" ra.1 cps))).count a ≤
            (idsProps (restore "attached" ra.1 cps)).count a := by
          apply count_restore (by decide)
          intro w hw
          obtain ⟨old, ho, hc⟩ := h2 w hw
          refine ⟨old, ?_, hc⟩
          cases hra1 : ra.1 with
          | none => simpa [restore] using ho
          | some w1 =>
            simp only [restore]
            rw [lookup_assign_ne (by decide)]
            exact ho
        simp only [ids, List.count_append]
        omega
  | .undefined, errs, out, errs1, h, a => by
    simp only [add_src_attr_lists, Except.ok.injEq, Prod.mk.injEq] at h
    rw [← h.1]
  | .null, errs, out, errs1, h, a => by
    simp only [add_src_attr_lists, Except.ok.injEq, Prod.mk.injEq] at h
    rw [← h.1]
  | .bool _, errs, out, errs1, h, a => by
    simp only [add_src_attr_lists, Except.ok.injEq, Prod.mk.injEq] at h
    rw [← h.1]
  | .num _, errs, out, errs1, h, a => by
    simp only [add_src_attr_lists, Except.ok.injEq, Prod.mk.injEq] at h
    rw [← h.1]
  | .str _, errs, out, errs1, h, a => by
    simp only [add_src_attr_lists, Except.ok.injEq, Prod.mk.injEq] at h
    rw [← h.1]
theorem add_src_attr_at_count (deeper : Bool) (src_filename : String) (key : String) :
    ∀ (ps : Props) (errs : List String) (out : Option JsVal) (errs1 : List String),
    add_src_attr_at deeper src_filename key ps errs = .ok (out, errs1) →
    ∀ a w, out = some w →
      ∃ old, lookup key ps = some old ∧ (ids w).count a ≤ (ids old).count a
  | [], errs, out, errs1, h, a, w, hw => by
    simp only [add_src_attr_at, Except.ok.injEq, Prod.mk.injEq] at h
    rw [← h.1] at hw
    exact absurd hw (by simp)
  | (k, v) :: rest, errs, out, errs1, h, a, w, hw => by
    simp only [add_src_attr_at] at h
    split at h
    · rename_i hk
      have := add_src_attr_array_count deeper src_filename v errs out errs1 h a w hw
      exact ⟨v, by simp [lookup, hk], this⟩
    · rename_i hk
      obtain ⟨old, ho, hc⟩ :=
        add_src_attr_at_count deeper src_filename key rest errs out errs1 h a w hw
      exact ⟨old, by simp [lookup, hk, ho], hc⟩
theorem add_src_attr_array_count (deeper : Bool) (src_filename : String) :
    ∀ (v : JsVal) (errs : List String) (out : Option JsVal) (errs1 : List String),
    add_src_attr_array deeper src_filename v errs = .ok (out, errs1) →
    ∀ a w, out = some w → (ids w).count a ≤ (ids v).count a
  | .arr xs ps, errs, out, errs1, h, a, w, hw => by
    simp only [add_src_attr_array] at h
    split at h
    · exact absurd h (by simp)
    · rename_i r hr
      simp only [Except.ok.injEq, Prod.mk.injEq] at h
      rw [← h.1] at hw
      cases hw
      have := add_src_attr_count deeper src_filename xs errs r.1 r.2 hr a
      simp only [ids, List.count_append]
      omega
  | .undefined, errs, out, errs1, h, a, w, hw => by
    simp [add_src_attr_array] at h
  | .null, errs, out, errs1, h, a, w, hw => by
    simp [add_src_attr_array] at h
  | .bool _, errs, out, errs1, h, a, w, hw => by
    simp [add_src_attr_array] at h
  | .num _, errs, out, errs1, h, a, w, hw => by
    simp [add_src_attr_array] at h
  | .str _, errs, out, errs1, h, a, w, hw => by
    simp [add_src_attr_array] at h
  | .obj _, errs, out, errs1, h, a, w, hw => by
    simp [add_src_attr_array] at h
end

end XmindMerge

namespace XmindMerge

/-! ## Properties: `merge_content` adds only new identifiers -/

theorem ids_arr (xs : List JsVal) (ps : Props) : ids (.arr xs ps) = idsList xs ++ idsProps ps := by
  simp [ids]

theorem setTopList_count {d c old d1 v : JsVal} {key : String} (hk : key ≠ "id")
    (hc : topChildren d = .ok c) (ho : getProp c key = .ok old)
    (h : setTopList d key v = .ok d1) (a : JsVal) :
    (ids d1).count a + (ids old).count a ≤ (ids d).count a + (ids v).count a := by
  simp only [topChildren, bind_ok] at hc
  obtain ⟨sheet, h1, root, h2, h3⟩ := hc
  simp only [setTopList, bind_ok, pure, Except.pure, Except.ok.injEq] at h
  obtain ⟨sheet', h1', root', h2', c', h3', c1, h4, rfl⟩ := h
  rw [h1] at h1'
  cases h1'
  rw [h2] at h2'
  cases h2'
  rw [h3] at h3'
  cases h3'
  have A := count_putFirst h1 (putProp sheet ROOT_TOPIC (putProp root "children" c1)) a
  have B := count_putProp_of_getProp (k := ROOT_TOPIC) (by decide) h2
    (putProp root "children" c1) a
  have C := count_putProp_of_getProp (k := "children") (by decide) h3 c1 a
  have D := count_setProp hk ho h4 a
  omega

theorem attribute_topics_count {args : Args} {src_xmind : String} {topics out : List JsVal}
    {errs errs1 : List String} (h : attribute_topics args src_xmind topics errs = .ok (out, errs1))
    (a : JsVal) : (idsList out).count a ≤ (idsList topics).count a := by
  unfold attribute_topics at h
  split at h
  · exact add_src_attr_count _ _ _ _ _ _ h a
  · simp only [Except.ok.injEq, Prod.mk.injEq] at h
    rw [← h.1]

theorem append_list_count {args : Args} {src_xmind : String} (key : String) (hk : key ≠ "id")
    {clean_obj : JsVal} {s s1 : Session} {n : Nat}
    (h : append_list args src_xmind key clean_obj s = .ok (some (s1, n))) (a : JsVal) :
    s1.issued = s.issued ∧
    (ids s1.dst_xmind).count a ≤ (ids s.dst_xmind).count a + (ids (cleanList key clean_obj)).count a := by
  unfold append_list at h
  split at h
  · rename_i topics ps heq
    simp only [bind_ok, pure, Except.pure, Except.ok.injEq, Option.some.injEq,
      Prod.mk.injEq] at h
    obtain ⟨r, hr, c, hc, old, ho, dst1, hset, rfl, _⟩ := h
    refine ⟨rfl, ?_⟩
    have h1 := setTopList_count hk hc ho hset a
    have h2 := count_concat_le old (.arr r.1 ps) a
    have h3 := attribute_topics_count hr a
    simp only [cleanList, heq, Option.getD_some]
    simp only [ids_arr, List.count_append] at h2 ⊢
    omega
  · simp [pure, Except.pure] at h

theorem src_status_count (gen : Nat → String) (n : Nat) (title : JsVal) (tc rc : Nat)
    (src_xmind : String) (a : JsVal) :
    n ≤ (src_status gen n title tc rc src_xmind).2 ∧
    (ids (src_status gen n title tc rc src_xmind).1).count a + (generated gen n).count a ≤
      (ids title).count a + (generated gen (src_status gen n title tc rc src_xmind).2).count a := by
  unfold src_status
  simp only
  split
  · refine ⟨by omega, ?_⟩
    simp only [count_generated_succ, ids, idsProps, idsList, if_true, List.count_append,
      List.count_cons, List.count_nil, beq_iff_eq, List.append_nil, List.nil_append,
      show ¬ ("title" = "id") by decide, show ¬ ("children" = "id") by decide,
      show ¬ ("attached" = "id") by decide, if_false]
    omega
  · refine ⟨by omega, ?_⟩
    simp only [count_generated_succ, ids, idsProps, idsList, if_true, List.count_append,
      List.count_cons, List.count_nil, beq_iff_eq, List.append_nil, List.nil_append,
      show ¬ ("title" = "id") by decide, show ¬ ("children" = "id") by decide,
      show ¬ ("attached" = "id") by decide, if_false]
    omega

theorem push_status_count {d st d1 : JsVal} (h : push_status d st = .ok d1) (a : JsVal) :
    (ids d1).count a ≤ (ids d).count a + (ids st).count a := by
  simp only [push_status, bind_ok] at h
  obtain ⟨detached, hdet, log, h1, children, h2, attached, h3, attached1, h4, hset⟩ := h
  simp only [topDetached, bind_ok] at hdet
  obtain ⟨c, hc, ho⟩ := hdet
  have A := setTopList_count (by decide) hc ho hset a
  have B := count_putFirst h1 (putProp log "children" (putProp children "attached" attached1)) a
  have C := count_putProp_of_getProp (k := "children") (by decide) h2
    (putProp children "attached" attached1) a
  have D := count_putProp_of_getProp (k := "attached") (by decide) h3 attached1 a
  have E := count_callPush h4 a
  omega

theorem count_getD_two_le (k1 k2 : String) (hne : k1 ≠ k2) (o : JsVal) (a : JsVal) :
    (ids ((own k1 o).getD .undefined)).count a + (ids ((own k2 o).getD .undefined)).count a ≤
      (ids o).count a := by
  cases h1 : own k1 o with
  | none =>
    cases h2 : own k2 o with
    | none => simp [ids]
    | some c2 =>
      have := count_own_le h2 a
      simpa [ids] using this
  | some c1 =>
    cases h2 : own k2 o with
    | none =>
      have := count_own_le h1 a
      simpa [ids] using this
    | some c2 => simpa using count_own_two_le hne h1 h2 a

theorem count_cleanList_le (clean_obj : JsVal) (a : JsVal) :
    (ids (cleanList "attached" clean_obj)).count a +
      (ids (cleanList "detached" clean_obj)).count a +
      (ids ((own "title" clean_obj).getD .undefined)).count a ≤ (ids clean_obj).count a := by
  have h1 := count_getD_two_le "attached" "detached" (by decide)
    ((own "children" clean_obj).getD .undefined) a
  have h2 := count_getD_two_le "children" "title" (by decide) clean_obj a
  simp only [cleanList]
  omega

end XmindMerge

namespace XmindMerge

/-- One call of `merge_content` leaves in the master, besides the identifiers
it had, only identifiers issued during the call. -/
theorem merge_content_count {args : Args} {gen : Nat → String} {parsed : Except String JsVal}
    {src_xmind : String} {resources : Nat} {s s1 : Session} {status : String}
    (h : merge_content args gen parsed src_xmind resources s = .ok (status, s1)) (a : JsVal) :
    s.issued ≤ s1.issued ∧
    (ids s1.dst_xmind).count a + (generated gen s.issued).count a ≤
      (ids s.dst_xmind).count a + (generated gen s1.issued).count a := by
  unfold merge_content at h
  split at h
  · simp only [Except.ok.injEq, Prod.mk.injEq] at h
    rw [← h.2]
    exact ⟨le_refl _, le_refl _⟩
  · rename_i src_obj hsrc
    split at h
    · simp only [bind_ok, pure, Except.pure] at h
      obtain ⟨root, hroot, ra, ha, rd, hd, dst1, hpush, h⟩ := h
      simp only [Except.ok.injEq, Prod.mk.injEq] at h
      have hclean := deeply_ids gen root s.issued
      have hpieces := count_cleanList_le (deeply gen root s.issued).1 a
      cases ra with
      | none =>
        cases rd with
        | none =>
          simp only at hd hpush h
          have hst := src_status_count gen (deeply gen root s.issued).2
            ((own "title" (deeply gen root s.issued).1).getD .undefined) 0 resources src_xmind a
          have hp := push_status_count hpush a
          rw [← h.2]
          simp only at hst hp ⊢
          have := hclean.2 a
          exact ⟨by omega, by omega⟩
        | some pd =>
          obtain ⟨s2, n2⟩ := pd
          simp only at hd hpush h
          have hdc := append_list_count "detached" (by decide) hd a
          have hst := src_status_count gen s2.issued
            ((own "title" (deeply gen root s.issued).1).getD .undefined) (0 + n2) resources
            src_xmind a
          have hp := push_status_count hpush a
          rw [← h.2]
          simp only at hst hp hdc ⊢
          have := hclean.2 a
          rw [hdc.1] at hst hp ⊢
          exact ⟨by omega, by omega⟩
      | some pa =>
        obtain ⟨s1a, n1⟩ := pa
        have hac := append_list_count "attached" (by decide) ha a
        cases rd with
        | none =>
          simp only at hd hpush h
          have hst := src_status_count gen s1a.issued
            ((own "title" (deeply gen root s.issued).1).getD .undefined) n1 resources src_xmind a
          have hp := push_status_count hpush a
          rw [← h.2]
          simp only at hst hp hac ⊢
          have := hclean.2 a
          rw [hac.1] at hst hp ⊢
          exact ⟨by omega, by omega⟩
        | some pd =>
          obtain ⟨s2, n2⟩ := pd
          simp only at hd hpush h
          have hdc := append_list_count "detached" (by decide) hd a
          have hst := src_status_count gen s2.issued
            ((own "title" (deeply gen root s.issued).1).getD .undefined) (n1 + n2) resources
            src_xmind a
          have hp := push_status_count hpush a
          rw [← h.2]
          simp only at hst hp hac hdc ⊢
          have := hclean.2 a
          rw [hdc.1, hac.1] at hst hp ⊢
          exact ⟨by omega, by omega⟩
    · simp only [Except.ok.injEq, Prod.mk.injEq] at h
      rw [← h.2]
      exact ⟨le_refl _, le_refl _⟩

end XmindMerge

namespace XmindMerge

/-! ## Properties: the post-passes add no identifier -/

theorem count_getD_le (k : String) (o : JsVal) (a : JsVal) :
    (ids ((own k o).getD .undefined)).count a ≤ (ids o).count a := by
  cases h : own k o with
  | none => simp [ids]
  | some c => simpa using count_own_le h a

theorem merge_plain_count {m item m1 : JsVal} (h : merge_plain m item = .ok m1) (a : JsVal) :
    (ids m1).count a ≤ (ids m).count a := by
  simp only [merge_plain, bind_ok, pure, Except.pure, Except.ok.injEq] at h
  obtain ⟨notes, h1, plain, h2, content, h3, s, _, _, _, _, _, _, _, _, _, plain1, h4, rfl⟩ := h
  apply count_putProp_mono (by decide) h1
  apply count_putProp_mono (by decide) h2
  have := count_setProp (by decide) h3 h4 a
  simp only [ids, List.count_nil] at this
  omega

theorem merge_html_count {m item m1 : JsVal} (h : merge_html m item = .ok m1) (a : JsVal) :
    (ids m1).count a ≤
      (ids m).count a + (ids ((own "html" (notesValue item)).getD .undefined)).count a := by
  simp only [merge_html, bind_ok, pure, Except.pure, Except.ok.injEq] at h
  obtain ⟨notes, h1, html, h2, content, h3, x, h4, inotes, i1, ihtml, i2, icontent, i3, y, i4,
    content1, h5, rfl⟩ := h
  have A := count_putProp_of_getProp (k := "notes") (by decide) h1
    (putProp notes "html" (putProp html "content" content1)) a
  have B := count_putProp_of_getProp (k := "html") (by decide) h2
    (putProp html "content" content1) a
  have C := count_putProp_of_getProp (k := "content") (by decide) h3 content1 a
  have D := count_setProp (by decide) h4 h5 a
  have E := count_concat_le x y a
  have F := count_getProp_le i4 a
  have G := count_getProp_le i3 a
  rw [getProp_eq_getD i1] at i2
  rw [getProp_eq_getD i2] at G
  simp only [notesValue]
  omega

theorem merge_ops_count {m item m1 : JsVal} (h : merge_ops m item = .ok m1) (a : JsVal) :
    (ids m1).count a ≤
      (ids m).count a + (ids ((own "ops" (notesValue item)).getD .undefined)).count a := by
  simp only [merge_ops, bind_ok] at h
  obtain ⟨inotes, i1, h⟩ := h
  split at h
  · simp only [bind_ok] at h
    obtain ⟨notes, h1, h⟩ := h
    split at h
    · simp only [bind_ok, pure, Except.pure, Except.ok.injEq] at h
      obtain ⟨ops, h2, x, h3, iops, i2, y, i3, ops1, h4, rfl⟩ := h
      have A := count_putProp_of_getProp (k := "notes") (by decide) h1
        (putProp notes "ops" ops1) a
      have B := count_putProp_of_getProp (k := "ops") (by decide) h2 ops1 a
      have D := count_setProp (by decide) h3 h4 a
      have E := count_concat_le x y a
      have F := count_getProp_le i3 a
      rw [getProp_eq_getD i1] at i2
      rw [getProp_eq_getD i2] at F
      simp only [notesValue]
      omega
    · simp only [bind_ok, pure, Except.pure, Except.ok.injEq] at h
      obtain ⟨iops, i2, notes1, h2, rfl⟩ := h
      have A := count_putProp_of_getProp (k := "notes") (by decide) h1 notes1 a
      rw [setProp_eq_putProp h2] at A ⊢
      have B := count_putProp (k := "ops") (by decide) notes iops a
      rw [getProp_eq_getD i1] at i2
      rw [getProp_eq_getD i2] at A B ⊢
      simp only [notesValue]
      omega
  · simp only [pure, Except.pure, Except.ok.injEq] at h
    rw [← h]
    omega

theorem merge_notes_count (m item : JsVal) (a : JsVal) :
    (ids (merge_notes m item).1).count a ≤ (ids m).count a + (ids (notesValue item)).count a := by
  have key := count_getD_two_le "html" "ops" (by decide) (notesValue item) a
  unfold merge_notes
  split
  · simp only
    omega
  · rename_i m1 h1
    have c1 := merge_plain_count h1 a
    split
    · simp only
      omega
    · rename_i m2 h2
      have c2 := merge_html_count h2 a
      split
      · simp only
        omega
      · rename_i m3 h3
        have c3 := merge_ops_count h3 a
        simp only
        omega

theorem consolidate_notes_count {m item m1 : JsVal} {w : List String}
    (h : consolidate_notes m item = .ok (m1, w)) (a : JsVal) :
    (ids m1).count a ≤ (ids m).count a + (ids (notesValue item)).count a := by
  unfold consolidate_notes at h
  split at h
  · split at h
    · have key := merge_notes_count m item a
      split at h
      · rename_i m0 hm
        simp only [Except.ok.injEq, Prod.mk.injEq] at h
        rw [hm] at key
        rw [← h.1]
        exact key
      · rename_i m0 e hm
        simp only [bind_ok, pure, Except.pure, Except.ok.injEq, Prod.mk.injEq] at h
        obtain ⟨_, _, _, _, h, _⟩ := h
        rw [hm] at key
        rw [← h]
        exact key
    · simp only [bind_ok, pure, Except.pure, Except.ok.injEq, Prod.mk.injEq] at h
      obtain ⟨v, hv, m0, h0, rfl, _⟩ := h
      rw [setProp_eq_putProp h0, getProp_eq_getD hv]
      have := count_putProp (k := "notes") (by decide) m ((own "notes" item).getD .undefined) a
      simp only [notesValue]
      omega
  · simp only [Except.ok.injEq, Prod.mk.injEq] at h
    rw [← h.1]
    omega

theorem ensure_children_count {m m1 : JsVal} (h : ensure_children m = .ok m1) (a : JsVal) :
    (ids m1).count a ≤ (ids m).count a := by
  unfold ensure_children at h
  split at h
  · simp only [Except.ok.injEq] at h
    rw [← h]
  · rw [setProp_eq_putProp h]
    have := count_putProp (k := "children") (by decide) m (.obj []) a
    simp only [ids, idsProps, List.count_nil] at this ⊢
    omega

theorem merge_children_count {m item m1 : JsVal} (h : merge_children m item = .ok m1)
    (a : JsVal) :
    (ids m1).count a ≤
      (ids m).count a + (ids ((own "children" item).getD .undefined)).count a := by
  unfold merge_children at h
  split at h
  · simp only [bind_ok] at h
    obtain ⟨ic, i1, ia, i2, h⟩ := h
    have F := count_getProp_le i2 a
    rw [getProp_eq_getD i1] at F
    split at h
    · simp only [bind_ok, pure, Except.pure, Except.ok.injEq] at h
      obtain ⟨c, h1, x, h2, c1, h3, rfl⟩ := h
      have A := count_putProp_of_getProp (k := "children") (by decide) h1 c1 a
      have B := count_setProp (by decide) h2 h3 a
      have C := count_concat_le x ia a
      omega
    · simp only [bind_ok, pure, Except.pure, Except.ok.injEq] at h
      obtain ⟨m0, h0, c, h1, c1, h3, rfl⟩ := h
      have Z := ensure_children_count h0 a
      have A := count_putProp_of_getProp (k := "children") (by decide) h1 c1 a
      rw [setProp_eq_putProp h3] at A ⊢
      have B := count_putProp (k := "attached") (by decide) c ia a
      omega
  · simp only [pure, Except.pure, Except.ok.injEq] at h
    rw [← h]
    omega

/-- The matched topic has, after a consolidation, no identifier that it or
the current topic did not have. -/
theorem consolidate_into_count {m item m2 : JsVal} {w : List String}
    (h : consolidate_into m item = .ok (m2, w)) (a : JsVal) :
    (ids m2).count a ≤ (ids m).count a + (ids item).count a := by
  simp only [consolidate_into, bind_ok, pure, Except.pure, Except.ok.injEq, Prod.mk.injEq] at h
  obtain ⟨r, hr, m3, h3, rfl, _⟩ := h
  have A := consolidate_notes_count (w := r.2) hr a
  have B := merge_children_count h3 a
  have C := count_getD_two_le "notes" "children" (by decide) item a
  simp only [notesValue] at A
  omega

theorem consolidate_item_ids [Engine] {st st1 : Consolidation} {item : JsVal}
    (h : consolidate_item st item = .ok st1) (a : JsVal) :
    (idsList st1.new_attached).count a ≤
      (idsList st.new_attached).count a + (ids item).count a := by
  rcases consolidate_item_ok h with ⟨rfl, _⟩ | ⟨pre, m, post, m2, w, h1, _, _, hinto, rfl⟩
  · simp [idsList_append, idsList]
  · have := consolidate_into_count hinto a
    rw [h1]
    simp only [idsList_append, idsList, List.count_append]
    omega

theorem consolidate_loop_ids [Engine] {rest : List JsVal} {st st1 : Consolidation}
    (h : consolidate_loop st rest = .ok st1) (a : JsVal) :
    (idsList st1.new_attached).count a ≤
      (idsList st.new_attached).count a + (idsList rest).count a := by
  induction rest generalizing st with
  | nil =>
    simp only [consolidate_loop, Except.ok.injEq] at h
    rw [← h]
    omega
  | cons item rest ih =>
    simp only [consolidate_loop] at h
    cases hs : consolidate_item st item with
    | error e => simp [hs] at h
    | ok st2 =>
      simp only [hs] at h
      have := ih h
      have := consolidate_item_ids hs a
      simp only [idsList, List.count_append]
      omega

theorem topAttached_split {d v : JsVal} (h : topAttached d = .ok v) :
    ∃ c, topChildren d = .ok c ∧ getProp c "attached" = .ok v := by
  simp only [topAttached, bind_ok] at h
  exact h

theorem consolidate_xmind_ids [Engine] {d : JsVal} {r : ConsolidateResult}
    (h : consolidate_xmind d = .ok r) (a : JsVal) :
    (ids r.dst_xmind).count a ≤ (ids d).count a := by
  simp only [consolidate_xmind, bind_ok] at h
  obtain ⟨v, hv, h⟩ := h
  cases v with
  | arr items ps =>
    simp only [bind_ok] at h
    obtain ⟨st, hst, h⟩ := h
    split at h
    · simp only [bind_ok, pure, Except.pure, Except.ok.injEq] at h
      obtain ⟨dst1, hset, rfl⟩ := h
      obtain ⟨c, hc, ho⟩ := topAttached_split hv
      have A := setTopList_count (by decide) hc ho hset a
      have B := consolidate_loop_ids hst a
      simp only [ids_arr, idsList, idsProps, List.count_append, List.count_nil] at A B ⊢
      omega
    · simp only [pure, Except.pure, Except.ok.injEq] at h
      rw [← h]
  | undefined => simp at h
  | null => simp at h
  | bool b => simp at h
  | num n => simp at h
  | str s => simp at h
  | obj ps => simp at h

end XmindMerge

namespace XmindMerge

theorem count_idsList_perm {xs ys : List JsVal} (h : xs.Perm ys) (a : JsVal) :
    (idsList xs).count a = (idsList ys).count a := by
  induction h with
  | nil => rfl
  | cons x _ ih => simp only [idsList, List.count_append, ih]
  | swap x y l =>
    simp only [idsList, List.count_append]
    omega
  | trans _ _ ih1 ih2 => exact ih1.trans ih2

theorem count_sortBy (xs : List JsVal) (a : JsVal) :
    (idsList (sortBy xs)).count a = (idsList xs).count a :=
  count_idsList_perm (List.perm_insertionSort _ xs) a

mutual
theorem sort_children_count : ∀ (t : JsVal) (a : JsVal),
    (ids (sort_children t)).count a ≤ (ids t).count a
  | .obj ps, a => by
    have := sort_children_props_count ps a
    simpa only [sort_children, ids] using this
  | .arr xs ps, a => by
    have := sort_children_props_count ps a
    simp only [sort_children, ids, List.count_append]
    omega
  | .undefined, a => by simp [sort_children]
  | .null, a => by simp [sort_children]
  | .bool _, a => by simp [sort_children]
  | .num _, a => by simp [sort_children]
  | .str _, a => by simp [sort_children]
theorem sort_children_props_count : ∀ (ps : Props) (a : JsVal),
    (idsProps (sort_children_props ps)).count a ≤ (idsProps ps).count a
  | [], a => by simp [sort_children_props]
  | (k, v) :: rest, a => by
    simp only [sort_children_props]
    split
    · rename_i hk
      have := sort_children_in_count v a
      subst hk
      simp only [idsProps, List.count_append, show ¬ ("children" = "id") by decide, if_false,
        List.count_nil]
      omega
    · have := sort_children_props_count rest a
      simp only [idsProps, List.count_append]
      omega
theorem sort_children_in_count : ∀ (v : JsVal) (a : JsVal),
    (ids (sort_children_in v)).count a ≤ (ids v).count a
  | .obj cps, a => by
    have := sort_attached_count cps a
    simpa only [sort_children_in, ids] using this
  | .arr xs cps, a => by
    have := sort_attached_count cps a
    simp only [sort_children_in, ids, List.count_append]
    omega
  | .undefined, a => by simp [sort_children_in]
  | .null, a => by simp [sort_children_in]
  | .bool _, a => by simp [sort_children_in]
  | .num _, a => by simp [sort_children_in]
  | .str _, a => by simp [sort_children_in]
theorem sort_attached_count : ∀ (ps : Props) (a : JsVal),
    (idsProps (sort_attached ps)).count a ≤ (idsProps ps).count a
  | [], a => by simp [sort_attached]
  | (k, v) :: rest, a => by
    simp only [sort_attached]
    split
    · rename_i hk
      have := sort_array_count v a
      subst hk
      simp only [idsProps, List.count_append, show ¬ ("attached" = "id") by decide, if_false,
        List.count_nil]
      omega
    · have := sort_attached_count rest a
      simp only [idsProps, List.count_append]
      omega
theorem sort_array_count : ∀ (v : JsVal) (a : JsVal),
    (ids (sort_array v)).count a ≤ (ids v).count a
  | .arr xs ps, a => by
    have := sort_children_list_count xs a
    have := count_sortBy (sort_children_list xs) a
    simp only [sort_array, ids_arr, idsProps, List.count_append, List.count_nil]
    omega
  | .obj _, a => by simp [sort_array]
  | .undefined, a => by simp [sort_array]
  | .null, a => by simp [sort_array]
  | .bool _, a => by simp [sort_array]
  | .num _, a => by simp [sort_array]
  | .str _, a => by simp [sort_array]
theorem sort_children_list_count : ∀ (xs : List JsVal) (a : JsVal),
    (idsList (sort_children_list xs)).count a ≤ (idsList xs).count a
  | [], a => by simp [sort_children_list]
  | x :: xs, a => by
    have := sort_children_count x a
    have := sort_children_list_count xs a
    simp only [sort_children_list, idsList, List.count_append]
    omega
end

theorem sort_topics_ids {d d1 : JsVal} (h : sort_topics d = .ok d1) (a : JsVal) :
    (ids d1).count a ≤ (ids d).count a := by
  simp only [sort_topics, bind_ok, pure, Except.pure, Except.ok.injEq] at h
  obtain ⟨sheet, h1, root, h2, rfl⟩ := h
  have A := count_putFirst h1 (putProp sheet ROOT_TOPIC (sort_children root)) a
  have B := count_putProp_of_getProp (k := ROOT_TOPIC) (by decide) h2 (sort_children root) a
  have C := sort_children_count root a
  split
  · omega
  · exact le_refl _

theorem fold_item_count (item : JsVal) (a : JsVal) :
    (ids (fold_item item)).count a ≤ (ids item).count a := by
  unfold fold_item
  split
  · have := count_putProp (k := "branch") (by decide) item (.str "folded") a
    simp only [ids, List.count_nil] at this ⊢
    omega
  · exact le_refl _

theorem fold_items_count (items : List JsVal) (a : JsVal) :
    (idsList (items.map fold_item)).count a ≤ (idsList items).count a := by
  induction items with
  | nil => simp
  | cons x xs ih =>
    have := fold_item_count x a
    simp only [List.map_cons, idsList, List.count_append]
    omega

theorem fold_xmind_ids {d d1 : JsVal} (h : fold_xmind d = .ok d1) (a : JsVal) :
    (ids d1).count a ≤ (ids d).count a := by
  simp only [fold_xmind, bind_ok] at h
  obtain ⟨v, hv, h⟩ := h
  cases v with
  | arr items ps =>
    obtain ⟨c, hc, ho⟩ := topAttached_split hv
    have A := setTopList_count (by decide) hc ho h a
    have B := fold_items_count items a
    simp only [ids_arr, List.count_append] at A
    omega
  | undefined => simp at h
  | null => simp at h
  | bool b => simp at h
  | num n => simp at h
  | str s => simp at h
  | obj ps => simp at h

/-- The post-passes add no identifier. -/
theorem check_done_load_ids [Engine] {args : Args} {d d1 : JsVal} (h : check_done_load args d = .ok d1)
    (a : JsVal) : (ids d1).count a ≤ (ids d).count a := by
  simp only [check_done_load, bind_ok] at h
  obtain ⟨d2, h2, d3, h3, h4⟩ := h
  have A : (ids d2).count a ≤ (ids d).count a := by
    unfold consolidate_stage at h2
    split at h2
    · cases hc : consolidate_xmind d with
      | error e => simp [hc, Except.map] at h2
      | ok r =>
        simp only [hc, Except.map, Except.ok.injEq] at h2
        rw [← h2]
        exact consolidate_xmind_ids hc a
    · simp only [Except.ok.injEq] at h2
      rw [← h2]
  have B : (ids d3).count a ≤ (ids d2).count a := by
    unfold sort_stage at h3
    split at h3
    · exact sort_topics_ids h3 a
    · simp only [Except.ok.injEq] at h3
      rw [← h3]
  have C : (ids d1).count a ≤ (ids d3).count a := by
    unfold fold_stage at h4
    split at h4
    · exact fold_xmind_ids h4 a
    · simp only [Except.ok.injEq] at h4
      rw [← h4]
  omega

/-- All the calls of `merge_content` leave in the master, besides the
identifiers it had, only identifiers issued during the calls. -/
theorem merge_all_count {args : Args} {gen : Nat → String} {sources : List Source}
    {s s1 : Session} {statuses : List String}
    (h : merge_all args gen sources s = .ok (statuses, s1)) (a : JsVal) :
    s.issued ≤ s1.issued ∧
    (ids s1.dst_xmind).count a + (generated gen s.issued).count a ≤
      (ids s.dst_xmind).count a + (generated gen s1.issued).count a := by
  induction sources generalizing s statuses with
  | nil =>
    simp only [merge_all, Except.ok.injEq, Prod.mk.injEq] at h
    rw [← h.2]
    exact ⟨le_refl _, le_refl _⟩
  | cons src rest ih =>
    simp only [merge_all] at h
    split at h
    · exact absurd h (by simp)
    · rename_i r hr
      split at h
      · exact absurd h (by simp)
      · rename_i r2 hr2
        simp only [Except.ok.injEq, Prod.mk.injEq] at h
        obtain ⟨_, hs1⟩ := h
        subst hs1
        have A := merge_content_count (show merge_content args gen src.parsed src.name
          src.resources s = .ok (r.1, r.2) from hr) a
        have B := ih (show merge_all args gen rest r.2 = .ok (r2.1, r2.2) from hr2)
        omega

end XmindMerge

namespace XmindMerge

/-! ## Properties: uniqueness of the identifiers of the master -/

theorem generated_nodup {gen : Nat → String} (hinj : Function.Injective gen) (n : Nat) :
    (generated gen n).Nodup := by
  unfold generated
  apply List.Nodup.map _ (List.nodup_range n)
  intro i j h
  exact hinj (JsVal.str.inj h)

theorem mem_generated {gen : Nat → String} {n : Nat} {a : JsVal} (h : a ∈ generated gen n) :
    ∃ i, a = .str (gen i) := by
  unfold generated at h
  obtain ⟨i, _, hi⟩ := List.mem_map.1 h
  exact ⟨i, hi.symm⟩

/-- A tree whose identifiers are, with multiplicity, among those of the
template and the generated ones has pairwise distinct identifiers, none of
which occurs in a source. -/
theorem unique_of_count {gen : Nat → String} {sources : List Source} {template d : JsVal}
    {n : Nat} (hinj : Function.Injective gen)
    (hsrc : ∀ i, JsVal.str (gen i) ∉ sourceIds sources)
    (hnodup : (ids template).Nodup)
    (hgen : ∀ i, JsVal.str (gen i) ∉ ids template)
    (hdisj : ∀ x ∈ ids template, x ∉ sourceIds sources)
    (hcount : ∀ a, (ids d).count a ≤ (ids template).count a + (generated gen n).count a) :
    (ids d).Nodup ∧ ∀ x ∈ ids d, x ∉ sourceIds sources := by
  constructor
  · rw [List.nodup_iff_count_le_one]
    intro a
    have h1 := List.nodup_iff_count_le_one.1 hnodup a
    have h2 := List.nodup_iff_count_le_one.1 (generated_nodup hinj n) a
    have h3 := hcount a
    by_cases ha : a ∈ generated gen n
    · obtain ⟨i, rfl⟩ := mem_generated ha
      have : (ids template).count (.str (gen i)) = 0 := List.count_eq_zero.2 (hgen i)
      omega
    · have : (generated gen n).count a = 0 := List.count_eq_zero.2 ha
      omega
  · intro x hx
    have h3 := hcount x
    have hpos : 0 < (ids d).count x := List.count_pos_iff.2 hx
    by_cases hxt : x ∈ ids template
    · exact hdisj x hxt
    · have h0 : (ids template).count x = 0 := List.count_eq_zero.2 hxt
      have hg : 0 < (generated gen n).count x := by omega
      obtain ⟨i, rfl⟩ := mem_generated (List.count_pos_iff.1 hg)
      exact hsrc i

theorem sampleGen_injective : Function.Injective sampleGen := by
  intro i j h
  have h2 := congrArg String.length h
  simpa [sampleGen, String.length] using h2

theorem sampleGen_ne {s : String} (h : s.data.head? ≠ some 'u') (i : Nat) : sampleGen i ≠ s := by
  intro e
  apply h
  rw [← e]
  simp [sampleGen, List.replicate_succ]

/-- C8, as stated, fails.  With a generator that never repeats a value and
never yields an identifier of the source, and a source written by an earlier
run on the same template, one call of `merge_content` leaves a master that
still carries the identifier `r0` of the template's root topic, which occurs
in the source. -/
theorem identifier_survives_from_template :
    Function.Injective sampleGen ∧
    (∀ i, JsVal.str (sampleGen i) ∉
      sourceIds [{ parsed := .ok sampleSource, name := "a.xmind", resources := 0 }]) ∧
    merge_content { src_attr := false, deeper := false, sort_topics := false, fold := false }
        sampleGen (.ok sampleSource) "a.xmind" 0
        { dst_xmind := sampleTemplate, src_errors := [], issued := 0 } =
      .ok ("+", { dst_xmind := sampleMerged, src_errors := [], issued := 6 }) ∧
    JsVal.str "r0" ∈ ids sampleMerged ∧
    JsVal.str "r0" ∈
      sourceIds [{ parsed := .ok sampleSource, name := "a.xmind", resources := 0 }] := by
  refine ⟨sampleGen_injective, ?_, by decide, by decide, by decide⟩
  · intro i
    have hids : sourceIds [{ parsed := .ok sampleSource, name := "a.xmind", resources := 0 }] =
        [.str "s0", .str "r0", .str "p1", .str "l0"] := by decide
    rw [hids]
    simp only [List.mem_cons, JsVal.str.injEq, List.mem_singleton, List.not_mem_nil, or_false,
      not_or]
    exact ⟨sampleGen_ne (by decide) i, sampleGen_ne (by decide) i, sampleGen_ne (by decide) i,
      sampleGen_ne (by decide) i⟩

/-- C8, amended.  Assume the identifier generator never repeats a value and
never yields a value occurring in a source, and assume also that the
identifiers of the template are pairwise distinct, are never yielded by the
generator and occur in no source.  Then after any sequence of
`merge_content` calls on the template-initialised master, and again after the
post-passes (consolidation, sort and fold, each when configured), the
identifiers of the master are pairwise distinct and none of them occurs in a
source. -/
theorem identifiers_unique [Engine] (args : Args) (gen : Nat → String) (sources : List Source)
    (template : JsVal) (errs : List String) (statuses : List String) (s : Session)
    (final : JsVal)
    (hinj : Function.Injective gen)
    (hsrc : ∀ i, JsVal.str (gen i) ∉ sourceIds sources)
    (hnodup : (ids template).Nodup)
    (hgen : ∀ i, JsVal.str (gen i) ∉ ids template)
    (hdisj : ∀ x ∈ ids template, x ∉ sourceIds sources)
    (hmerge : merge_all args gen sources
      { dst_xmind := template, src_errors := errs, issued := 0 } = .ok (statuses, s))
    (hpost : check_done_load args s.dst_xmind = .ok final) :
    ((ids s.dst_xmind).Nodup ∧ ∀ x ∈ ids s.dst_xmind, x ∉ sourceIds sources) ∧
    ((ids final).Nodup ∧ ∀ x ∈ ids final, x ∉ sourceIds sources) := by
  have h1 : ∀ a, (ids s.dst_xmind).count a ≤
      (ids template).count a + (generated gen s.issued).count a := by
    intro a
    have := (merge_all_count hmerge a).2
    simp only [generated, List.range_zero, List.map_nil, List.count_nil] at this
    simpa [generated] using this
  have h2 : ∀ a, (ids final).count a ≤
      (ids template).count a + (generated gen s.issued).count a :=
    fun a => (check_done_load_ids hpost a).trans (h1 a)
  exact ⟨unique_of_count hinj hsrc hnodup hgen hdisj h1,
    unique_of_count hinj hsrc hnodup hgen hdisj h2⟩

theorem identifiers_unique_witness :
    ((ids sampleMerged).Nodup ∧ ∀ x ∈ ids sampleMerged, x ∉
      sourceIds [{ parsed := .ok freshSource, name := "a.xmind", resources := 0 }]) ∧
    ((ids sampleMerged).Nodup ∧ ∀ x ∈ ids sampleMerged, x ∉
      sourceIds [{ parsed := .ok freshSource, name := "a.xmind", resources := 0 }]) :=
  identifiers_unique { src_attr := false, deeper := true, sort_topics := true, fold := false }
    sampleGen
    [{ parsed := .ok freshSource, name := "a.xmind", resources := 0 }]
    sampleTemplate [] ["+"] { dst_xmind := sampleMerged, src_errors := [], issued := 6 }
    sampleMerged sampleGen_injective
    (by
      intro i
      have hids : sourceIds [{ parsed := .ok freshSource, name := "a.xmind", resources := 0 }] =
          [.str "s9", .str "r9", .str "p1", .str "l9"] := by decide
      rw [hids]
      simp only [List.mem_cons, JsVal.str.injEq, List.mem_singleton, List.not_mem_nil, or_false,
        not_or]
      exact ⟨sampleGen_ne (by decide) i, sampleGen_ne (by decide) i,
        sampleGen_ne (by decide) i, sampleGen_ne (by decide) i⟩)
    (by decide)
    (by
      intro i
      have hids : ids sampleTemplate = [.str "s0", .str "r0", .str "l0"] := by decide
      rw [hids]
      simp only [List.mem_cons, JsVal.str.injEq, List.mem_singleton, List.not_mem_nil, or_false,
        not_or]
      exact ⟨sampleGen_ne (by decide) i, sampleGen_ne (by decide) i,
        sampleGen_ne (by decide) i⟩)
    (by decide) (by decide) (by decide)

end XmindMerge

namespace XmindMerge

theorem lookup_sort_children_props (ps : Props) :
    lookup "children" (sort_children_props ps) = (lookup "children" ps).map sort_children_in := by
  induction ps with
  | nil => rfl
  | cons p rest ih =>
    obtain ⟨k, v⟩ := p
    by_cases hk : k = "children"
    · simp [sort_children_props, lookup, hk]
    · simp [sort_children_props, lookup, hk, ih]

theorem lookup_sort_children_props_ne {k : String} (hk : k ≠ "children") (ps : Props) :
    lookup k (sort_children_props ps) = lookup k ps := by
  induction ps with
  | nil => rfl
  | cons p rest ih =>
    obtain ⟨k1, v⟩ := p
    by_cases h1 : k1 = "children"
    · subst h1
      simp [sort_children_props, lookup, Ne.symm hk]
    · by_cases h2 : k1 = k
      · subst h2
        simp [sort_children_props, lookup, h1]
      · simp [sort_children_props, lookup, h1, h2, ih]

theorem lookup_sort_attached (ps : Props) :
    lookup "attached" (sort_attached ps) = (lookup "attached" ps).map sort_array := by
  induction ps with
  | nil => rfl
  | cons p rest ih =>
    obtain ⟨k, v⟩ := p
    by_cases hk : k = "attached"
    · simp [sort_attached, lookup, hk]
    · simp [sort_attached, lookup, hk, ih]

theorem lookup_sort_attached_ne {k : String} (hk : k ≠ "attached") (ps : Props) :
    lookup k (sort_attached ps) = lookup k ps := by
  induction ps with
  | nil => rfl
  | cons p rest ih =>
    obtain ⟨k1, v⟩ := p
    by_cases h1 : k1 = "attached"
    · subst h1
      simp [sort_attached, lookup, Ne.symm hk]
    · by_cases h2 : k1 = k
      · subst h2
        simp [sort_attached, lookup, h1]
      · simp [sort_attached, lookup, h1, h2, ih]

/-- `sort_children` changes no property of a topic but `children`. -/
theorem own_sort_children_ne {k : String} (hk : k ≠ "children") (t : JsVal) :
    own k (sort_children t) = own k t := by
  cases t <;> simp [sort_children, own, lookup_sort_children_props_ne hk]

theorem own_sort_children (t : JsVal) :
    own "children" (sort_children t) = (own "children" t).map sort_children_in := by
  cases t <;> simp [sort_children, own, lookup_sort_children_props]

/-- Of the value `children`, `sort_children` changes no property but
`attached`. -/
theorem own_sort_children_in_ne {k : String} (hk : k ≠ "attached") (c : JsVal) :
    own k (sort_children_in c) = own k c := by
  cases c <;> simp [sort_children_in, own, lookup_sort_attached_ne hk]

theorem own_sort_children_in (c : JsVal) :
    own "attached" (sort_children_in c) = (own "attached" c).map sort_array := by
  cases c <;> simp [sort_children_in, own, lookup_sort_attached]

theorem sort_children_list_eq_map (xs : List JsVal) :
    sort_children_list xs = xs.map sort_children := by
  induction xs with
  | nil => rfl
  | cons x xs ih => simp [sort_children_list, ih]

theorem sortKey_sort_children (t : JsVal) : sortKey (sort_children t) = sortKey t := by
  simp [sortKey, own_sort_children_ne (show "title" ≠ "children" by decide)]

theorem titleLe_sort_children (a b : JsVal) :
    titleLe (sort_children a) (sort_children b) ↔ titleLe a b := by
  simp [titleLe, sortKey_sort_children]

/-- The list is the same whether it is sorted before the recursive calls, as
in the source, or after them. -/
theorem sortBy_sort_children (xs : List JsVal) :
    sortBy (xs.map sort_children) = (sortBy xs).map sort_children := by
  unfold sortBy
  exact (List.map_insertionSort titleLe titleLe sort_children xs
    (fun a _ b _ => (titleLe_sort_children a b).symm)).symm

/-- The attached list of a topic after `sort_children`: the sorted list of
its members, each processed in turn. -/
theorem attachedOf_sort_children (t : JsVal) :
    attachedOf (sort_children t) = (sortBy (attachedOf t)).map sort_children := by
  unfold attachedOf
  rw [own_sort_children]
  cases h : own "children" t with
  | none => simp [sortBy]
  | some c =>
    simp only [Option.map_some']
    rw [own_sort_children_in]
    cases h2 : own "attached" c with
    | none => simp [sortBy]
    | some a =>
      cases a <;> simp [sort_array, sortBy, sort_children_list_eq_map]
      · exact sortBy_sort_children _

end XmindMerge

namespace XmindMerge

theorem titleText_of_own {t : JsVal} {s : String} (h : own "title" t = some (.str s)) :
    titleText t = s := by
  simp [titleText, titleOf, h]

/-- On topics with string titles the order of `sortBy` is the order of the
code units of the titles. -/
theorem titleLe_iff {a b : JsVal} (ha : Titled a) (hb : Titled b) :
    titleLe a b ↔ codeUnits (titleText a) ≤ codeUnits (titleText b) := by
  obtain ⟨s, hs⟩ := ha
  obtain ⟨t, ht⟩ := hb
  rw [titleText_of_own hs, titleText_of_own ht, ← not_lt]
  simp only [titleLe, sortKey, hs, ht, Option.getD_some, compareAscending, jsLt]
  by_cases h1 : codeUnits t < codeUnits s
  · simp [h1]
  · by_cases h2 : codeUnits s < codeUnits t <;> simp [h1, h2]

theorem titleText_sortBy {xs : List JsVal} (h : ∀ x ∈ xs, Titled x) :
    (sortBy xs).map (fun x => codeUnits (titleText x)) =
      (xs.map fun x => codeUnits (titleText x)).insertionSort (· ≤ ·) := by
  unfold sortBy
  exact List.map_insertionSort titleLe (· ≤ ·) (fun x => codeUnits (titleText x)) xs
    (fun a ha b hb => titleLe_iff (h a ha) (h b hb))

theorem ascending_sortBy {xs : List JsVal} (h : ∀ x ∈ xs, Titled x) :
    AscendingTitles (sortBy xs) := by
  unfold AscendingTitles
  rw [titleText_sortBy h]
  exact List.sorted_insertionSort _ _

theorem titleText_sort_children (t : JsVal) : titleText (sort_children t) = titleText t := by
  simp [titleText, titleOf, own_sort_children_ne (show "title" ≠ "children" by decide)]

theorem titled_sort_children {t : JsVal} (h : Titled t) : Titled (sort_children t) := by
  obtain ⟨s, hs⟩ := h
  exact ⟨s, by rw [own_sort_children_ne (by decide), hs]⟩

/-- Topics with the same title keep their order under `sortBy`. -/
theorem withTitle_sortBy {xs : List JsVal} (h : ∀ x ∈ xs, Titled x) (s : String) :
    withTitle s (sortBy xs) = withTitle s xs := by
  have hsub : (withTitle s xs).Sublist (sortBy xs) := by
    apply List.sublist_insertionSort _ (List.filter_sublist _)
    rw [List.pairwise_iff_forall_sublist]
    intro a b hab
    have ha : a ∈ withTitle s xs := hab.subset (by simp)
    have hb : b ∈ withTitle s xs := hab.subset (by simp)
    simp only [withTitle, List.mem_filter, decide_eq_true_eq] at ha hb
    rw [titleLe_iff (h a ha.1) (h b hb.1), ha.2, hb.2]
  have h2 : (withTitle s xs).Sublist (withTitle s (sortBy xs)) := by
    have := hsub.filter (fun x => decide (titleText x = s))
    simpa [withTitle] using this
  have hlen : (withTitle s (sortBy xs)).length = (withTitle s xs).length :=
    ((List.perm_insertionSort titleLe xs).filter _).length_eq
  exact (h2.eq_of_length hlen.symm).symm

theorem reached_trans {a b c : JsVal} (h1 : ReachedByAttached a b)
    (h2 : ReachedByAttached b c) : ReachedByAttached a c := by
  induction h1 with
  | root t => exact h2
  | step hc _ ih => exact .step hc (ih h2)

theorem mem_attachedOf_sort_children {t c1 : JsVal} (h : c1 ∈ attachedOf (sort_children t)) :
    ∃ c, c ∈ attachedOf t ∧ c1 = sort_children c := by
  rw [attachedOf_sort_children, List.mem_map] at h
  obtain ⟨c, hc, rfl⟩ := h
  exact ⟨c, (List.mem_insertionSort titleLe).1 hc, rfl⟩

/-- A topic reached in the sorted tree is the sorted form of a topic reached
in the tree before. -/
theorem reached_sort_children_inv {a u1 : JsVal} (h : ReachedByAttached a u1) :
    ∀ t, a = sort_children t → ∃ u, ReachedByAttached t u ∧ u1 = sort_children u := by
  induction h with
  | root a => exact fun t e => ⟨t, .root t, e⟩
  | step hc _ ih =>
    intro t e
    subst e
    obtain ⟨c, hc1, rfl⟩ := mem_attachedOf_sort_children hc
    obtain ⟨u, hu, e2⟩ := ih c rfl
    exact ⟨u, .step hc1 hu, e2⟩

/-- A topic reached in the tree is reached, in its sorted form, in the sorted
tree. -/
theorem reached_sort_children {t u : JsVal} (h : ReachedByAttached t u) :
    ReachedByAttached (sort_children t) (sort_children u) := by
  induction h with
  | root t => exact .root _
  | step hc _ ih =>
    refine .step ?_ ih
    rw [attachedOf_sort_children]
    exact List.mem_map_of_mem _ ((List.mem_insertionSort titleLe).2 hc)

theorem ascending_map_sort_children {ys : List JsVal} (h : AscendingTitles ys) :
    AscendingTitles (ys.map sort_children) := by
  unfold AscendingTitles at h ⊢
  rw [List.map_map]
  have : (fun x => codeUnits (titleText x)) ∘ sort_children =
      fun x => codeUnits (titleText x) :=
    funext fun x => congrArg codeUnits (titleText_sort_children x)
  rw [this]
  exact h

/-- The root topic after `sort_topics` is `sort_children` of the root topic
before. -/
theorem sort_topics_root {d d1 : JsVal} (h : sort_topics d = .ok d1) :
    ∃ root, topRoot d = .ok root ∧ topRoot d1 = .ok (sort_children root) := by
  simp only [sort_topics, bind_ok, pure, Except.pure, Except.ok.injEq] at h
  obtain ⟨sheet, h1, root, h2, rfl⟩ := h
  refine ⟨root, by simp [topRoot, h1, h2, bind, Except.bind], ?_⟩
  by_cases hs : has sheet ROOT_TOPIC = true
  · rw [if_pos hs]
    unfold has at hs
    cases ho : own ROOT_TOPIC sheet with
    | none => simp [ho] at hs
    | some w =>
      have e1 := getFirst_putFirst h1 ho (putProp sheet ROOT_TOPIC (sort_children root))
      have e2 := getProp_of_own (own_putProp_self ho (sort_children root))
      simp [topRoot, e1, e2, bind, Except.bind]
  · rw [if_neg hs]
    have hr : root = .undefined := by
      unfold has at hs
      cases ho : own ROOT_TOPIC sheet with
      | some w => simp [ho] at hs
      | none =>
        cases sheet <;> simp_all [getProp]
    subst hr
    simp [topRoot, h1, h2, bind, Except.bind, sort_children]

end XmindMerge

namespace XmindMerge

theorem detachedHere_sort_attached (cps : Props) :
    detachedHere (sort_attached cps) = detachedHere cps := by
  induction cps with
  | nil => rfl
  | cons p rest ih =>
    obtain ⟨k, v⟩ := p
    by_cases hk : k = "attached"
    · subst hk
      simp [sort_attached, detachedHere]
    · by_cases hd : k = "detached"
      · subst hd
        simp [sort_attached, detachedHere]
      · simp [sort_attached, detachedHere, hk, hd, ih]

theorem detachedListsList_perm {xs ys : List JsVal} (h : xs.Perm ys) :
    (detachedListsList xs).Perm (detachedListsList ys) := by
  induction h with
  | nil => exact List.Perm.refl _
  | cons x _ ih => exact List.Perm.append_left _ ih
  | swap x y l =>
    simp only [detachedListsList, ← List.append_assoc]
    exact List.Perm.append_right _ List.perm_append_comm
  | trans _ _ ih1 ih2 => exact ih1.trans ih2

mutual
theorem detachedLists_sort_children : ∀ t : JsVal,
    (detachedLists (sort_children t)).Perm (detachedLists t)
  | .obj ps => by
    simpa only [sort_children, detachedLists] using detachedListsProps_sort ps
  | .arr xs ps => by
    simpa only [sort_children, detachedLists] using detachedListsProps_sort ps
  | .undefined => by simp [sort_children]
  | .null => by simp [sort_children]
  | .bool _ => by simp [sort_children]
  | .num _ => by simp [sort_children]
  | .str _ => by simp [sort_children]
theorem detachedListsProps_sort : ∀ ps : Props,
    (detachedListsProps (sort_children_props ps)).Perm (detachedListsProps ps)
  | [] => by simp [sort_children_props]
  | (k, v) :: rest => by
    simp only [sort_children_props]
    split
    · rename_i hk
      subst hk
      simpa only [detachedListsProps, if_true] using detachedListsIn_sort v
    · rename_i hk
      simpa only [detachedListsProps, if_neg hk] using detachedListsProps_sort rest
theorem detachedListsIn_sort : ∀ c : JsVal,
    (detachedListsIn (sort_children_in c)).Perm (detachedListsIn c)
  | .obj cps => by
    simp only [sort_children_in, detachedListsIn, detachedHere_sort_attached]
    exact List.Perm.append_left _ (detachedBelow_sort cps)
  | .arr xs cps => by
    simp only [sort_children_in, detachedListsIn, detachedHere_sort_attached]
    exact List.Perm.append_left _ (detachedBelow_sort cps)
  | .undefined => by simp [sort_children_in]
  | .null => by simp [sort_children_in]
  | .bool _ => by simp [sort_children_in]
  | .num _ => by simp [sort_children_in]
  | .str _ => by simp [sort_children_in]
theorem detachedBelow_sort : ∀ cps : Props,
    (detachedBelow (sort_attached cps)).Perm (detachedBelow cps)
  | [] => by simp [sort_attached]
  | (k, v) :: rest => by
    simp only [sort_attached]
    split
    · rename_i hk
      subst hk
      simpa only [detachedBelow, if_true] using detachedListsArray_sort v
    · rename_i hk
      simpa only [detachedBelow, if_neg hk] using detachedBelow_sort rest
theorem detachedListsArray_sort : ∀ v : JsVal,
    (detachedListsArray (sort_array v)).Perm (detachedListsArray v)
  | .arr xs ps => by
    simp only [sort_array, detachedListsArray]
    exact (detachedListsList_perm (List.perm_insertionSort titleLe _)).trans
      (detachedListsList_sort xs)
  | .obj _ => by simp [sort_array]
  | .undefined => by simp [sort_array]
  | .null => by simp [sort_array]
  | .bool _ => by simp [sort_array]
  | .num _ => by simp [sort_array]
  | .str _ => by simp [sort_array]
theorem detachedListsList_sort : ∀ xs : List JsVal,
    (detachedListsList (sort_children_list xs)).Perm (detachedListsList xs)
  | [] => by simp [sort_children_list]
  | x :: xs => by
    simp only [sort_children_list, detachedListsList]
    exact (detachedLists_sort_children x).append (detachedListsList_sort xs)
end

theorem detachedValue_sort_children (t : JsVal) :
    detachedValue (sort_children t) = detachedValue t := by
  unfold detachedValue
  rw [own_sort_children]
  cases own "children" t with
  | none => rfl
  | some c => simp [own_sort_children_in_ne (show "detached" ≠ "attached" by decide)]

theorem getProp_sort_children (t : JsVal) :
    getProp (sort_children t) "children" = (getProp t "children").map sort_children_in := by
  cases t with
  | obj ps =>
    simp only [sort_children, getProp, own, lookup_sort_children_props, Except.map]
    cases lookup "children" ps <;> simp [sort_children_in]
  | arr xs ps =>
    simp only [sort_children, getProp, own, lookup_sort_children_props, Except.map]
    cases lookup "children" ps <;> simp [sort_children_in]
  | _ => simp [sort_children, getProp, own, Except.map, sort_children_in]

theorem getProp_sort_children_in {k : String} (hk : k ≠ "attached") (c : JsVal) :
    getProp (sort_children_in c) k = getProp c k := by
  cases c with
  | obj ps => simp only [sort_children_in, getProp, own, lookup_sort_attached_ne hk]
  | arr xs ps => simp only [sort_children_in, getProp, own, lookup_sort_attached_ne hk]
  | _ => simp [sort_children_in]

theorem topChildren_eq_topRoot (d : JsVal) :
    topChildren d = topRoot d >>= fun root => getProp root "children" := by
  simp [topChildren, topRoot]

theorem topDetached_sort_topics {d d1 : JsVal} (h : sort_topics d = .ok d1) :
    topDetached d1 = topDetached d := by
  obtain ⟨root, h1, h2⟩ := sort_topics_root h
  simp only [topDetached, topChildren_eq_topRoot, h1, h2]
  show (getProp (sort_children root) "children" >>= fun c => getProp c "detached") =
    (getProp root "children" >>= fun c => getProp c "detached")
  rw [getProp_sort_children]
  cases getProp root "children" with
  | error e => rfl
  | ok c => exact getProp_sort_children_in (by decide) c

end XmindMerge

namespace XmindMerge

/-! ## Properties: `sort_topics` -/

theorem reached_cases {t u : JsVal} (h : ReachedByAttached t u) :
    u = t ∨ ∃ c, c ∈ attachedOf t ∧ ReachedByAttached c u := by
  cases h with
  | root => exact .inl rfl
  | step hc h2 => exact .inr ⟨_, hc, h2⟩

/-- C12, as stated, fails.  All topics of this master have string titles.
`sort_topics` sorts the top-level attached list and leaves the detached
merge-log topic as it is, whose attached list (the summaries, in merge order)
is not in ascending title order. -/
theorem sort_topics_skips_detached :
    sort_topics (workbook [leaf "b", leaf "a"]
        [branch "Merge Log" [leaf "Zeta", leaf "Alpha"]]) =
      .ok (workbook [leaf "a", leaf "b"] [branch "Merge Log" [leaf "Zeta", leaf "Alpha"]]) ∧
    attachedOf (branch "Merge Log" [leaf "Zeta", leaf "Alpha"]) = [leaf "Zeta", leaf "Alpha"] ∧
    ¬ AscendingTitles [leaf "Zeta", leaf "Alpha"] := by
  refine ⟨by decide, by decide, ?_⟩
  simp only [AscendingTitles, List.map, List.Sorted, List.pairwise_cons, not_and]
  intro h
  have h2 := h (codeUnits (titleText (leaf "Alpha"))) (by simp)
  exact absurd h2 (not_le.2 (by decide))

theorem sort_topics_total {d root : JsVal} (h : topRoot d = .ok root) :
    ∃ d1, sort_topics d = .ok d1 := by
  simp only [topRoot, bind_ok] at h
  obtain ⟨sheet, h1, h2⟩ := h
  simp only [sort_topics, h1, h2, bind, Except.bind, pure, Except.pure]
  exact ⟨_, rfl⟩

/-- C12, amended.  When every topic reached from the root topic through
attached links has a string title, `sort_topics` returns, and afterwards the
attached list of every topic reached from the root topic through attached
links is in ascending title order, the order being that of JavaScript
strings (by UTF-16 code units). -/
theorem sort_topics_ascending (d root : JsVal) (hr : topRoot d = .ok root)
    (ht : ∀ u, ReachedByAttached root u → ∀ c ∈ attachedOf u, Titled c) :
    ∃ d1 root1, sort_topics d = .ok d1 ∧ topRoot d1 = .ok root1 ∧
      ∀ u1, ReachedByAttached root1 u1 → AscendingTitles (attachedOf u1) := by
  obtain ⟨d1, h⟩ := sort_topics_total hr
  obtain ⟨r, h1, h2⟩ := sort_topics_root h
  rw [hr] at h1
  cases h1
  refine ⟨d1, _, h, h2, ?_⟩
  intro u1 hu1
  obtain ⟨u, hu, rfl⟩ := reached_sort_children_inv hu1 root rfl
  rw [attachedOf_sort_children]
  exact ascending_map_sort_children (ascending_sortBy (ht u hu))

theorem sort_topics_ascending_witness :
    ∃ d1 root1, sort_topics (workbook [leaf "b", branch "a" [leaf "z", leaf "y"]] []) = .ok d1 ∧
      topRoot d1 = .ok root1 ∧
      ∀ u1, ReachedByAttached root1 u1 → AscendingTitles (attachedOf u1) :=
  sort_topics_ascending (workbook [leaf "b", branch "a" [leaf "z", leaf "y"]] [])
    (.obj [("title", .str "Merged"), ("children", .obj [
      ("attached", .arr [leaf "b", branch "a" [leaf "z", leaf "y"]] []),
      ("detached", .arr [] [])])])
    (by decide)
    (by
      intro u hu c hc
      have leafs : ∀ s v, ReachedByAttached (leaf s) v → v = leaf s := by
        intro s v hv
        rcases reached_cases hv with e | ⟨c, hc, _⟩
        · exact e
        · simp [attachedOf, leaf, own, lookup] at hc
      rcases reached_cases hu with rfl | ⟨c1, hc1, h1⟩
      · simp [attachedOf, own, lookup] at hc
        rcases hc with rfl | rfl <;> exact ⟨_, rfl⟩
      · simp [attachedOf, own, lookup] at hc1
        rcases hc1 with rfl | rfl
        · rw [leafs _ _ h1] at hc
          simp [attachedOf, leaf, own, lookup] at hc
        · rcases reached_cases h1 with rfl | ⟨c2, hc2, h2⟩
          · simp [attachedOf, branch, own, lookup] at hc
            rcases hc with rfl | rfl <;> exact ⟨_, rfl⟩
          · simp [attachedOf, branch, own, lookup] at hc2
            rcases hc2 with rfl | rfl <;>
            · rw [leafs _ _ h2] at hc
              simp [attachedOf, leaf, own, lookup] at hc)

end XmindMerge

namespace XmindMerge

/-- C13. `sort_topics` leaves detached topics untouched.  On a master with a
first sheet it returns; the top-level detached list afterwards is the one
before; no `sort_children` call changes the value `children.detached` of its
topic; and the lists `children.detached` found at every level below the root
topic are the same after as before, each with its members, order and
contents, up to the order in which the sorted topics that hold them are
met. -/
theorem sort_topics_keeps_detached (d root : JsVal) (hr : topRoot d = .ok root) :
    ∃ d1, sort_topics d = .ok d1 ∧ topDetached d1 = topDetached d ∧
      (∀ t, detachedValue (sort_children t) = detachedValue t) ∧
      ∃ root1, topRoot d1 = .ok root1 ∧ detachedValue root1 = detachedValue root ∧
        (detachedLists root1).Perm (detachedLists root) := by
  obtain ⟨d1, h⟩ := sort_topics_total hr
  obtain ⟨r, h1, h2⟩ := sort_topics_root h
  rw [hr] at h1
  cases h1
  exact ⟨d1, h, topDetached_sort_topics h, detachedValue_sort_children,
    _, h2, detachedValue_sort_children root, detachedLists_sort_children root⟩

theorem sort_topics_keeps_detached_witness :
    ∃ d1, sort_topics (workbook
        [leaf "b",
         .obj [("title", .str "a"), ("children", .obj [("detached", .arr [leaf "q", leaf "p"] [])])]]
        [leaf "Z", leaf "A"]) = .ok d1 ∧
      topDetached d1 = topDetached (workbook
        [leaf "b",
         .obj [("title", .str "a"), ("children", .obj [("detached", .arr [leaf "q", leaf "p"] [])])]]
        [leaf "Z", leaf "A"]) ∧
      (∀ t, detachedValue (sort_children t) = detachedValue t) ∧
      ∃ root1, topRoot d1 = .ok root1 ∧
        detachedValue root1 = detachedValue (.obj [("title", .str "Merged"), ("children", .obj [
          ("attached", .arr [leaf "b", .obj [("title", .str "a"),
            ("children", .obj [("detached", .arr [leaf "q", leaf "p"] [])])]] []),
          ("detached", .arr [leaf "Z", leaf "A"] [])])]) ∧
        (detachedLists root1).Perm (detachedLists (.obj [("title", .str "Merged"),
          ("children", .obj [
            ("attached", .arr [leaf "b", .obj [("title", .str "a"),
              ("children", .obj [("detached", .arr [leaf "q", leaf "p"] [])])]] []),
            ("detached", .arr [leaf "Z", leaf "A"] [])])])) :=
  sort_topics_keeps_detached
    (workbook
      [leaf "b",
       .obj [("title", .str "a"), ("children", .obj [("detached", .arr [leaf "q", leaf "p"] [])])]]
      [leaf "Z", leaf "A"])
    (.obj [("title", .str "Merged"), ("children", .obj [
      ("attached", .arr [leaf "b", .obj [("title", .str "a"),
        ("children", .obj [("detached", .arr [leaf "q", leaf "p"] [])])]] []),
      ("detached", .arr [leaf "Z", leaf "A"] [])])])
    (by decide)

/-- C14. Sorting loses and invents nothing and is stable.  For every topic
`u` reached from the root through attached links whose attached topics have
string titles, `sort_children` on the root turns `u` into a topic reached
from the sorted root that differs from `u` in `children` only, and whose
attached list consists of the topics of a list `ys`, each sorted in turn (its
title unchanged), where `ys` is a permutation of the attached list of `u`, is
in ascending title order (the order of JavaScript strings, by UTF-16 code
units), and holds the topics of any one title in their original order. -/
theorem sort_children_stable (root u : JsVal) (hr : ReachedByAttached root u)
    (ht : ∀ c ∈ attachedOf u, Titled c) :
    ReachedByAttached (sort_children root) (sort_children u) ∧
    (∀ k, k ≠ "children" → own k (sort_children u) = own k u) ∧
    ∃ ys, attachedOf (sort_children u) = ys.map sort_children ∧
      (attachedOf (sort_children u)).map titleText = ys.map titleText ∧
      ys.Perm (attachedOf u) ∧ AscendingTitles ys ∧
      ∀ s, withTitle s ys = withTitle s (attachedOf u) := by
  refine ⟨reached_sort_children hr, fun k hk => own_sort_children_ne hk u,
    sortBy (attachedOf u), attachedOf_sort_children u, ?_,
    List.perm_insertionSort titleLe _, ascending_sortBy ht, withTitle_sortBy ht⟩
  rw [attachedOf_sort_children, List.map_map]
  exact congrArg (fun f => List.map f _) (funext titleText_sort_children)

/-- The run of `sort_children` on a topic whose attached list holds two
topics titled `b` around one titled `a`: `a` comes first and the two `b`
keep their order. -/
theorem stable_sort_example :
    sort_children (branch "m" [.obj [("title", .str "b"), ("id", .num 1)], leaf "a",
      .obj [("title", .str "b"), ("id", .num 2)]]) =
    branch "m" [leaf "a", .obj [("title", .str "b"), ("id", .num 1)],
      .obj [("title", .str "b"), ("id", .num 2)]] := by
  decide

/-- The order is that of the UTF-16 code units: a title that starts with a
character beyond the basic plane (first code unit `0xD83D`) comes before a
title that starts with `U+FF21`, although its code point is the greater. -/
theorem code_unit_order_example :
    codeUnits "😀" = [0xD83D, 0xDE00] ∧ codeUnits "Ａ" = [0xFF21] ∧
    sort_children (branch "m" [leaf "Ａ", leaf "😀"]) = branch "m" [leaf "😀", leaf "Ａ"] ∧
    sort_children (branch "m" [leaf "😀", leaf "Ａ"]) = branch "m" [leaf "😀", leaf "Ａ"] := by
  decide

theorem sort_children_stable_witness :
    ReachedByAttached
      (sort_children (branch "r" [leaf "z",
        branch "m" [.obj [("title", .str "b"), ("id", .num 1)], leaf "a",
          .obj [("title", .str "b"), ("id", .num 2)]]]))
      (sort_children (branch "m" [.obj [("title", .str "b"), ("id", .num 1)], leaf "a",
          .obj [("title", .str "b"), ("id", .num 2)]])) ∧
    (∀ k, k ≠ "children" →
      own k (sort_children (branch "m" [.obj [("title", .str "b"), ("id", .num 1)], leaf "a",
          .obj [("title", .str "b"), ("id", .num 2)]])) =
      own k (branch "m" [.obj [("title", .str "b"), ("id", .num 1)], leaf "a",
          .obj [("title", .str "b"), ("id", .num 2)]])) ∧
    ∃ ys, attachedOf (sort_children (branch "m" [.obj [("title", .str "b"), ("id", .num 1)],
          leaf "a", .obj [("title", .str "b"), ("id", .num 2)]])) = ys.map sort_children ∧
      (attachedOf (sort_children (branch "m" [.obj [("title", .str "b"), ("id", .num 1)],
          leaf "a", .obj [("title", .str "b"), ("id", .num 2)]]))).map titleText =
        ys.map titleText ∧
      ys.Perm (attachedOf (branch "m" [.obj [("title", .str "b"), ("id", .num 1)], leaf "a",
          .obj [("title", .str "b"), ("id", .num 2)]])) ∧
      AscendingTitles ys ∧
      ∀ s, withTitle s ys =
        withTitle s (attachedOf (branch "m" [.obj [("title", .str "b"), ("id", .num 1)],
          leaf "a", .obj [("title", .str "b"), ("id", .num 2)]])) :=
  sort_children_stable
    (branch "r" [leaf "z",
      branch "m" [.obj [("title", .str "b"), ("id", .num 1)], leaf "a",
        .obj [("title", .str "b"), ("id", .num 2)]]])
    (branch "m" [.obj [("title", .str "b"), ("id", .num 1)], leaf "a",
      .obj [("title", .str "b"), ("id", .num 2)]])
    (.step (by decide) (.root _))
    (by
      intro c hc
      simp [attachedOf, branch, own, lookup] at hc
      rcases hc with rfl | rfl | rfl <;> exact ⟨_, rfl⟩)

end XmindMerge

namespace XmindMerge

/-! ## Properties: `fold_xmind` -/

/-- The assignment `dst_xmind[0][ROOT_TOPIC].children[k] = v` on a master
whose first sheet has a root topic with children, written out. -/
theorem setTopList_eq {d sheet root c w : JsVal} {k0 : String} (h1 : getFirst d = .ok sheet)
    (h2 : own ROOT_TOPIC sheet = some root) (h3 : own "children" root = some c)
    (hc : own k0 c = some w) (k : String) (v : JsVal) :
    setTopList d k v =
      .ok (putFirst d (putProp sheet ROOT_TOPIC (putProp root "children" (putProp c k v)))) := by
  simp [setTopList, h1, getProp_of_own h2, getProp_of_own h3, setProp_of_own hc, bind,
    Except.bind, pure, Except.pure]

theorem fold_item_children {x : JsVal} (h : has x "children" = true) :
    own "branch" (fold_item x) = some (.str "folded") ∧
    ∀ k, k ≠ "branch" → own k (fold_item x) = own k x := by
  unfold fold_item
  rw [if_pos h]
  unfold has at h
  cases ho : own "children" x with
  | none => simp [ho] at h
  | some w => exact ⟨own_putProp_of_own ho _, fun k hk => own_putProp_ne hk _ _⟩

theorem fold_item_leaf {x : JsVal} (h : has x "children" = false) : fold_item x = x := by
  simp [fold_item, h]

/-- C15. `fold_xmind` marks the top-level attached topics that have a
`children` field and changes nothing else.  On a master whose top-level
attached topics are a list it returns; afterwards the list has the same
length, each of its topics that has a `children` field has `branch` set to
`folded` and every other field as before (its children with it), each topic
without a `children` field is as before, in the same position; the value
`children` of the root topic differs in `attached` only (so the detached list
is as before), the root topic in `children` only, the first sheet in the root
topic only, and the workbook in its first sheet only. -/
theorem fold_xmind_marks (d : JsVal) (items : List JsVal) (ps : Props)
    (ha : topAttached d = .ok (.arr items ps)) :
    ∃ d1, fold_xmind d = .ok d1 ∧
    (∃ items1, topAttached d1 = .ok (.arr items1 ps) ∧ items1.length = items.length ∧
      ∀ (i : Nat) (x : JsVal), items[i]? = some x → ∃ x1, items1[i]? = some x1 ∧
        (has x "children" = true → own "branch" x1 = some (.str "folded") ∧
          ∀ k, k ≠ "branch" → own k x1 = own k x) ∧
        (has x "children" = false → x1 = x)) ∧
    topDetached d1 = topDetached d ∧
    ∃ sheet sheet1 root root1 c c1, getFirst d = .ok sheet ∧ getFirst d1 = .ok sheet1 ∧
      own ROOT_TOPIC sheet = some root ∧ own ROOT_TOPIC sheet1 = some root1 ∧
      own "children" root = some c ∧ own "children" root1 = some c1 ∧
      d1 = putFirst d sheet1 ∧
      (∀ k, k ≠ ROOT_TOPIC → own k sheet1 = own k sheet) ∧
      (∀ k, k ≠ "children" → own k root1 = own k root) ∧
      (∀ k, k ≠ "attached" → own k c1 = own k c) := by
  obtain ⟨c, hc, hca⟩ := topAttached_ok ha (by simp)
  obtain ⟨sheet, root, h1, h2, h3⟩ := topChildren_ok hc hca
  have hf : fold_xmind d = .ok (putFirst d (putProp sheet ROOT_TOPIC (putProp root "children"
      (putProp c "attached" (.arr (items.map fold_item) ps))))) := by
    simp only [fold_xmind, ha, bind, Except.bind]
    exact setTopList_eq h1 h2 h3 hca _ _
  have e1 := getFirst_putFirst h1 h2 (putProp sheet ROOT_TOPIC (putProp root "children"
    (putProp c "attached" (.arr (items.map fold_item) ps))))
  have e2 : own ROOT_TOPIC (putProp sheet ROOT_TOPIC (putProp root "children"
    (putProp c "attached" (.arr (items.map fold_item) ps)))) = _ := own_putProp_self h2 _
  have e3 : own "children" (putProp root "children"
    (putProp c "attached" (.arr (items.map fold_item) ps))) = _ := own_putProp_self h3 _
  have e4 : own "attached" (putProp c "attached" (.arr (items.map fold_item) ps)) = _ :=
    own_putProp_self hca _
  have e5 := topChildren_eq e1 e2 e3
  refine ⟨_, hf, ⟨items.map fold_item, topAttached_eq e5 e4, by simp, ?_⟩, ?_,
    sheet, _, root, _, c, _, h1, e1, h2, e2, h3, e3, rfl,
    fun k hk => own_putProp_ne hk _ _, fun k hk => own_putProp_ne hk _ _,
    fun k hk => own_putProp_ne hk _ _⟩
  · intro i x hx
    refine ⟨fold_item x, by simp [hx], fold_item_children, fold_item_leaf⟩
  · simp only [topDetached, e5, hc]
    show getProp (putProp c "attached" _) "detached" = getProp c "detached"
    cases c <;> simp [getProp, putProp, own] at hca ⊢ <;>
      rw [lookup_assign_ne (by decide)]

theorem fold_xmind_marks_witness :
    ∃ d1, fold_xmind (workbook [branch "Plan" [leaf "a"], leaf "Budget"] [branch "Log" []]) =
        .ok d1 ∧
    (∃ items1, topAttached d1 = .ok (.arr items1 []) ∧
      items1.length = [branch "Plan" [leaf "a"], leaf "Budget"].length ∧
      ∀ (i : Nat) (x : JsVal), [branch "Plan" [leaf "a"], leaf "Budget"][i]? = some x →
        ∃ x1, items1[i]? = some x1 ∧
        (has x "children" = true → own "branch" x1 = some (.str "folded") ∧
          ∀ k, k ≠ "branch" → own k x1 = own k x) ∧
        (has x "children" = false → x1 = x)) ∧
    topDetached d1 =
      topDetached (workbook [branch "Plan" [leaf "a"], leaf "Budget"] [branch "Log" []]) ∧
    ∃ sheet sheet1 root root1 c c1,
      getFirst (workbook [branch "Plan" [leaf "a"], leaf "Budget"] [branch "Log" []]) =
        .ok sheet ∧
      getFirst d1 = .ok sheet1 ∧
      own ROOT_TOPIC sheet = some root ∧ own ROOT_TOPIC sheet1 = some root1 ∧
      own "children" root = some c ∧ own "children" root1 = some c1 ∧
      d1 = putFirst (workbook [branch "Plan" [leaf "a"], leaf "Budget"] [branch "Log" []])
        sheet1 ∧
      (∀ k, k ≠ ROOT_TOPIC → own k sheet1 = own k sheet) ∧
      (∀ k, k ≠ "children" → own k root1 = own k root) ∧
      (∀ k, k ≠ "attached" → own k c1 = own k c) :=
  fold_xmind_marks (workbook [branch "Plan" [leaf "a"], leaf "Budget"] [branch "Log" []])
    [branch "Plan" [leaf "a"], leaf "Budget"] [] (by decide)

/-- The run of `fold_xmind` on a master with one top-level topic that has
children and one that has none. -/
theorem fold_xmind_example :
    fold_xmind (workbook [branch "Plan" [leaf "a"], leaf "Budget"] [branch "Log" []]) =
      .ok (workbook
        [.obj [("title", .str "Plan"), ("children", .obj [("attached", .arr [leaf "a"] [])]),
          ("branch", .str "folded")], leaf "Budget"] [branch "Log" []]) := by
  decide

end XmindMerge

namespace XmindMerge

/-! ## Properties: the log of `add_src_attr` -/

theorem logged_ok {α : Type} (errs : List String) (x : α × List String) :
    logged errs (.ok x) = .ok (x.1, errs ++ x.2) := rfl

theorem logged_error {α : Type} (errs : List String) (e : String) :
    logged errs (.error e : Except String (α × List String)) = .error e := rfl

/-- The notes part of the callback adds to the log and does not read it. -/
theorem annotate_log (L : String) (t : JsVal) (errs : List String) :
    annotate L t errs = logged errs (annotate L t []) := by
  unfold annotate
  by_cases h : has t "notes" = true
  · simp only [h, if_true]
    cases append_plain (SRC_ATTR_TAG ++ L) t with
    | error e => simp [logged, Except.map]
    | ok t1 =>
      simp only
      cases append_html (SRC_ATTR_TAG ++ L) t1 with
      | error e => simp [logged, Except.map]
      | ok t2 =>
        simp only
        cases append_ops (SRC_ATTR_TAG ++ L) t2 with
        | error e => simp [logged, Except.map]
        | ok t3 => simp [logged, Except.map]
  · simp only [h]
    cases setProp t "notes" (newNote (SRC_ATTR_TAG ++ L)) with
    | error e => simp [logged, Except.map]
    | ok t1 => simp [logged, Except.map]

mutual
theorem add_src_attr_log (deeper : Bool) (L : String) :
    ∀ (topics : List JsVal) (errs : List String),
    add_src_attr deeper L topics errs = logged errs (add_src_attr deeper L topics [])
  | [], errs => by simp [add_src_attr, logged, Except.map]
  | topic :: rest, errs => by
    simp only [add_src_attr]
    rw [add_src_attr_topic_log deeper L topic errs]
    cases add_src_attr_topic deeper L topic [] with
    | error e => simp [logged, Except.map]
    | ok r =>
      simp only [logged_ok]
      rw [add_src_attr_log deeper L rest (errs ++ r.2), add_src_attr_log deeper L rest r.2]
      cases add_src_attr deeper L rest [] with
      | error e => simp [logged, Except.map]
      | ok r2 => simp [logged, Except.map, List.append_assoc]
theorem add_src_attr_topic_log (deeper : Bool) (L : String) :
    ∀ (topic : JsVal) (errs : List String),
    add_src_attr_topic deeper L topic errs = logged errs (add_src_attr_topic deeper L topic [])
  | .obj ps, errs => by
    simp only [add_src_attr_topic]
    split
    · rw [add_src_attr_children_log deeper L ps errs]
      cases add_src_attr_children deeper L ps [] with
      | error e => simp [logged, Except.map]
      | ok r =>
        simp only [logged_ok]
        rw [annotate_log L _ (errs ++ r.2), annotate_log L _ r.2]
        cases annotate L (.obj r.1) [] with
        | error e => simp [logged, Except.map]
        | ok r2 => simp [logged, Except.map, List.append_assoc]
    · exact annotate_log L _ errs
  | .arr xs ps, errs => by
    simp only [add_src_attr_topic]
    split
    · rw [add_src_attr_children_log deeper L ps errs]
      cases add_src_attr_children deeper L ps [] with
      | error e => simp [logged, Except.map]
      | ok r =>
        simp only [logged_ok]
        rw [annotate_log L _ (errs ++ r.2), annotate_log L _ r.2]
        cases annotate L (.arr xs r.1) [] with
        | error e => simp [logged, Except.map]
        | ok r2 => simp [logged, Except.map, List.append_assoc]
    · exact annotate_log L _ errs
  | .undefined, errs => by simp only [add_src_attr_topic]; exact annotate_log L _ errs
  | .null, errs => by simp only [add_src_attr_topic]; exact annotate_log L _ errs
  | .bool _, errs => by simp only [add_src_attr_topic]; exact annotate_log L _ errs
  | .num _, errs => by simp only [add_src_attr_topic]; exact annotate_log L _ errs
  | .str _, errs => by simp only [add_src_attr_topic]; exact annotate_log L _ errs
theorem add_src_attr_children_log (deeper : Bool) (L : String) :
    ∀ (ps : Props) (errs : List String),
    add_src_attr_children deeper L ps errs = logged errs (add_src_attr_children deeper L ps [])
  | [], errs => by simp [add_src_attr_children, logged, Except.map]
  | (k, v) :: rest, errs => by
    simp only [add_src_attr_children]
    split
    · rw [add_src_attr_lists_log deeper L v errs]
      cases add_src_attr_lists deeper L v [] with
      | error e => simp [logged, Except.map]
      | ok r => simp [logged, Except.map]
    · rw [add_src_attr_children_log deeper L rest errs]
      cases add_src_attr_children deeper L rest [] with
      | error e => simp [logged, Except.map]
      | ok r => simp [logged, Except.map]
theorem add_src_attr_lists_log (deeper : Bool) (L : String) :
    ∀ (v : JsVal) (errs : List String),
    add_src_attr_lists deeper L v errs = logged errs (add_src_attr_lists deeper L v [])
  | .obj cps, errs => by
    simp only [add_src_attr_lists]
    rw [add_src_attr_at_log deeper L "attached" cps errs]
    cases add_src_attr_at deeper L "attached" cps [] with
    | error e => simp [logged, Except.map]
    | ok a =>
      simp only [logged_ok]
      rw [add_src_attr_at_log deeper L "detached" cps (errs ++ a.2),
        add_src_attr_at_log deeper L "detached" cps a.2]
      cases add_src_attr_at deeper L "detached" cps [] with
      | error e => simp [logged, Except.map]
      | ok d => simp [logged, Except.map, List.append_assoc]
  | .arr xs cps, errs => by
    simp only [add_src_attr_lists]
    rw [add_src_attr_at_log deeper L "attached" cps errs]
    cases add_src_attr_at deeper L "attached" cps [] with
    | error e => simp [logged, Except.map]
    | ok a =>
      simp only [logged_ok]
      rw [add_src_attr_at_log deeper L "detached" cps (errs ++ a.2),
        add_src_attr_at_log deeper L "detached" cps a.2]
      cases add_src_attr_at deeper L "detached" cps [] with
      | error e => simp [logged, Except.map]
      | ok d => simp [logged, Except.map, List.append_assoc]
  | .undefined, errs => by simp [add_src_attr_lists, logged, Except.map]
  | .null, errs => by simp [add_src_attr_lists, logged, Except.map]
  | .bool _, errs => by simp [add_src_attr_lists, logged, Except.map]
  | .num _, errs => by simp [add_src_attr_lists, logged, Except.map]
  | .str _, errs => by simp [add_src_attr_lists, logged, Except.map]
theorem add_src_attr_at_log (deeper : Bool) (L : String) (key : String) :
    ∀ (ps : Props) (errs : List String),
    add_src_attr_at deeper L key ps errs = logged errs (add_src_attr_at deeper L key ps [])
  | [], errs => by simp [add_src_attr_at, logged, Except.map]
  | (k, v) :: rest, errs => by
    simp only [add_src_attr_at]
    split
    · exact add_src_attr_array_log deeper L v errs
    · exact add_src_attr_at_log deeper L key rest errs
theorem add_src_attr_array_log (deeper : Bool) (L : String) :
    ∀ (v : JsVal) (errs : List String),
    add_src_attr_array deeper L v errs = logged errs (add_src_attr_array deeper L v [])
  | .arr xs ps, errs => by
    simp only [add_src_attr_array]
    rw [add_src_attr_log deeper L xs errs]
    cases add_src_attr deeper L xs [] with
    | error e => simp [logged, Except.map]
    | ok r => simp [logged, Except.map]
  | .obj _, errs => by simp [add_src_attr_array, logged, Except.map]
  | .undefined, errs => by simp [add_src_attr_array, logged, Except.map]
  | .null, errs => by simp [add_src_attr_array, logged, Except.map]
  | .bool _, errs => by simp [add_src_attr_array, logged, Except.map]
  | .num _, errs => by simp [add_src_attr_array, logged, Except.map]
  | .str _, errs => by simp [add_src_attr_array, logged, Except.map]
end

end XmindMerge

namespace XmindMerge

/-! ## Properties: `add_src_attr` goes on after a failed append -/

theorem add_src_attr_append (deeper : Bool) (L : String) (xs ys : List JsVal)
    (errs : List String) :
    add_src_attr deeper L (xs ++ ys) errs =
      match add_src_attr deeper L xs errs with
      | .error e => .error e
      | .ok r =>
        match add_src_attr deeper L ys r.2 with
        | .error e => .error e
        | .ok r2 => .ok (r.1 ++ r2.1, r2.2) := by
  induction xs generalizing errs with
  | nil =>
    simp only [List.nil_append, add_src_attr]
    cases add_src_attr deeper L ys errs <;> simp
  | cons x xs ih =>
    simp only [List.cons_append, add_src_attr]
    cases add_src_attr_topic deeper L x errs with
    | error e => rfl
    | ok r =>
      simp only
      rw [show xs.append ys = xs ++ ys from rfl, ih]
      cases add_src_attr deeper L xs r.2 with
      | error e => rfl
      | ok r2 =>
        simp only
        cases add_src_attr deeper L ys r2.2 <;> simp

theorem add_src_attr_one (deeper : Bool) (L : String) (t : JsVal) (errs : List String) :
    add_src_attr deeper L [t] errs =
      (add_src_attr_topic deeper L t errs).map fun r => ([r.1], r.2) := by
  simp only [add_src_attr]
  cases add_src_attr_topic deeper L t errs <;> simp [Except.map]

theorem add_src_attr_children_none (deeper : Bool) (L : String) {ps : Props}
    (h : lookup "children" ps = none) (errs : List String) :
    add_src_attr_children deeper L ps errs = .ok (ps, errs) := by
  induction ps with
  | nil => rfl
  | cons p rest ih =>
    obtain ⟨k, v⟩ := p
    by_cases hk : k = "children"
    · simp [lookup, hk] at h
    · simp only [lookup, hk, if_false] at h
      simp [add_src_attr_children, hk, ih h]

/-- Without the recursion the callback is its notes part. -/
theorem add_src_attr_topic_flat {deeper : Bool} {t : JsVal}
    (h : deeper = false ∨ has t "children" = false) (L : String) (errs : List String) :
    add_src_attr_topic deeper L t errs = annotate L t errs := by
  rcases h with h | h
  · subst h
    cases t <;> simp [add_src_attr_topic]
  · cases deeper with
    | false => cases t <;> simp [add_src_attr_topic]
    | true =>
      cases t with
      | obj ps =>
        have hn : lookup "children" ps = none := by
          cases hl : lookup "children" ps with
          | none => rfl
          | some w => simp [has, own, hl] at h
        simp [add_src_attr_topic, add_src_attr_children_none true L hn]
      | arr xs ps =>
        have hn : lookup "children" ps = none := by
          cases hl : lookup "children" ps with
          | none => rfl
          | some w => simp [has, own, hl] at h
        simp [add_src_attr_topic, add_src_attr_children_none true L hn]
      | _ => simp [add_src_attr_topic]

/-- The notes part of the callback on a topic with notes: it returns, with
no message when the three appends succeed and with one message, which names
the source file and carries the text of the error, when one of them throws. -/
theorem annotate_messages (L : String) {t : JsVal} (h : has t "notes" = true) :
    ∃ t1 m, annotate L t [] = .ok (t1, m) ∧
      ((m = [] ∧ ∃ a b, append_plain (attributionLine L) t = .ok a ∧
          append_html (attributionLine L) a = .ok b ∧
          append_ops (attributionLine L) b = .ok t1) ∨
       (∃ e, m = [noteError L e] ∧
          (append_plain (attributionLine L) t = .error e ∨
           ∃ a, append_plain (attributionLine L) t = .ok a ∧
             (append_html (attributionLine L) a = .error e ∨
              ∃ b, append_html (attributionLine L) a = .ok b ∧
                append_ops (attributionLine L) b = .error e)))) := by
  unfold annotate attributionLine
  simp only [h, if_true]
  cases e1 : append_plain (SRC_ATTR_TAG ++ L) t with
  | error e => exact ⟨_, _, rfl, .inr ⟨e, by simp, .inl rfl⟩⟩
  | ok a =>
    simp only
    cases e2 : append_html (SRC_ATTR_TAG ++ L) a with
    | error e => exact ⟨_, _, rfl, .inr ⟨e, by simp, .inr ⟨a, rfl, .inl e2⟩⟩⟩
    | ok b =>
      simp only
      cases e3 : append_ops (SRC_ATTR_TAG ++ L) b with
      | error e => exact ⟨_, _, rfl, .inr ⟨e, by simp, .inr ⟨a, rfl, .inr ⟨b, e2, e3⟩⟩⟩⟩
      | ok c => exact ⟨_, _, rfl, .inl ⟨rfl, a, b, rfl, e2, e3⟩⟩

/-- C11, as stated, fails.  The notes of this topic do not have the expected
shape (the plain form has no `content`), yet no append throws: the plain text
becomes `undefined` followed by the attribution line, and nothing is added to
the error log. -/
theorem annotation_error_not_logged :
    add_src_attr false "f.xmind" [.obj [("title", .str "T"), ("notes", .obj [
        ("plain", .obj []),
        ("html", .obj [("content", .obj [("paragraphs", .arr [] [])])])])]] [] =
      .ok ([.obj [("title", .str "T"), ("notes", .obj [
        ("plain", .obj [("content", .str "undefined\nMerge-Source: f.xmind")]),
        ("html", .obj [("content", .obj [("paragraphs",
          .arr [lineParagraph "Merge-Source: f.xmind"] [])])])])]], []) := by
  decide

/-- C11, amended.  Let `t` be a topic with notes in a sequence, after the
topics `pre` and before the topics `rest`, on which `add_src_attr` returns
when called on them alone.  Whatever `add_src_attr` does and logs on `t`
alone, on the whole sequence it does and logs the same on `t`, and it
annotates the topics of `rest` exactly as it does without `t`, logging for
them what it logs without `t`.  When no recursion into `t` takes place (no
deeper merge, or no `children` field), the call on `t` returns, and it logs
exactly one message, which names the source file, when one of the three
appends throws, and nothing when none throws, whatever shape the notes
have. -/
theorem add_src_attr_recovers (deeper : Bool) (L : String) (pre : List JsVal) (t : JsVal)
    (rest : List JsVal) (errs : List String) (pre1 rest1 : List JsVal) (m1 m2 : List String)
    (ht : has t "notes" = true)
    (hpre : add_src_attr deeper L pre errs = .ok (pre1, m1))
    (hrest : add_src_attr deeper L rest [] = .ok (rest1, m2)) :
    (∀ t1 m, add_src_attr deeper L [t] [] = .ok ([t1], m) →
      add_src_attr deeper L (pre ++ t :: rest) errs =
        .ok (pre1 ++ t1 :: rest1, m1 ++ m ++ m2)) ∧
    (deeper = false ∨ has t "children" = false →
      ∃ t1 m, add_src_attr deeper L [t] [] = .ok ([t1], m) ∧
        ((m = [] ∧ ∃ a b, append_plain (attributionLine L) t = .ok a ∧
            append_html (attributionLine L) a = .ok b ∧
            append_ops (attributionLine L) b = .ok t1) ∨
         (∃ e, m = [noteError L e] ∧
            (append_plain (attributionLine L) t = .error e ∨
             ∃ a, append_plain (attributionLine L) t = .ok a ∧
               (append_html (attributionLine L) a = .error e ∨
                ∃ b, append_html (attributionLine L) a = .ok b ∧
                  append_ops (attributionLine L) b = .error e))))) := by
  constructor
  · intro t1 m h1
    rw [add_src_attr_append, hpre]
    simp only
    rw [add_src_attr_one] at h1
    simp only [add_src_attr]
    rw [add_src_attr_topic_log]
    cases h2 : add_src_attr_topic deeper L t [] with
    | error e => simp [h2, Except.map] at h1
    | ok r =>
      simp only [h2, Except.map, Except.ok.injEq, Prod.mk.injEq, List.cons.injEq, and_true] at h1
      simp only [logged_ok]
      rw [add_src_attr_log, hrest]
      simp [logged_ok, h1.1, h1.2, List.append_assoc]
  · intro hd
    obtain ⟨t1, m, h1, h2⟩ := annotate_messages L ht
    refine ⟨t1, m, ?_, h2⟩
    rw [add_src_attr_one, add_src_attr_topic_flat hd, h1]
    rfl

theorem add_src_attr_recovers_witness :
    (∀ t1 m, add_src_attr false "f.xmind" [.obj [("title", .str "T"), ("notes", .str "n")]] [] =
        .ok ([t1], m) →
      add_src_attr false "f.xmind"
        ([leaf "A"] ++ .obj [("title", .str "T"), ("notes", .str "n")] :: [leaf "B"]) [] =
        .ok ([.obj [("title", .str "A"), ("notes", newNote "Merge-Source: f.xmind")]] ++
          t1 :: [.obj [("title", .str "B"), ("notes", newNote "Merge-Source: f.xmind")]],
          [] ++ m ++ [])) ∧
    (false = false ∨ has (.obj [("title", .str "T"), ("notes", .str "n")]) "children" = false →
      ∃ t1 m, add_src_attr false "f.xmind" [.obj [("title", .str "T"), ("notes", .str "n")]] [] =
          .ok ([t1], m) ∧
        ((m = [] ∧ ∃ a b, append_plain (attributionLine "f.xmind")
              (.obj [("title", .str "T"), ("notes", .str "n")]) = .ok a ∧
            append_html (attributionLine "f.xmind") a = .ok b ∧
            append_ops (attributionLine "f.xmind") b = .ok t1) ∨
         (∃ e, m = [noteError "f.xmind" e] ∧
            (append_plain (attributionLine "f.xmind")
                (.obj [("title", .str "T"), ("notes", .str "n")]) = .error e ∨
             ∃ a, append_plain (attributionLine "f.xmind")
                 (.obj [("title", .str "T"), ("notes", .str "n")]) = .ok a ∧
               (append_html (attributionLine "f.xmind") a = .error e ∨
                ∃ b, append_html (attributionLine "f.xmind") a = .ok b ∧
                  append_ops (attributionLine "f.xmind") b = .error e))))) :=
  add_src_attr_recovers false "f.xmind" [leaf "A"]
    (.obj [("title", .str "T"), ("notes", .str "n")]) [leaf "B"] []
    [.obj [("title", .str "A"), ("notes", newNote "Merge-Source: f.xmind")]]
    [.obj [("title", .str "B"), ("notes", newNote "Merge-Source: f.xmind")]] [] []
    (by decide) (by decide) (by decide)

end XmindMerge

namespace XmindMerge

/-! ## Properties: which topics `add_src_attr` annotates -/

theorem lookup_restore_self (k : String) (v : Option JsVal) (ps : Props) :
    lookup k (restore k v ps) = (v.map some).getD (lookup k ps) := by
  cases v with
  | none => rfl
  | some w => simp [restore, lookup_assign_self]

theorem lookup_restore_ne {k k1 : String} (h : k1 ≠ k) (v : Option JsVal) (ps : Props) :
    lookup k1 (restore k v ps) = lookup k1 ps := by
  cases v with
  | none => rfl
  | some w => simp [restore, lookup_assign_ne h]

/-- The notes part of the callback changes no field but `notes`. -/
theorem annotate_frame {L : String} {t t1 : JsVal} {errs errs1 : List String}
    (h : annotate L t errs = .ok (t1, errs1)) {k : String} (hk : k ≠ "notes") :
    own k t1 = own k t := by
  unfold annotate at h
  simp only at h
  split at h
  · split at h
    · simp only [Except.ok.injEq, Prod.mk.injEq] at h
      rw [← h.1]
    · rename_i a ha
      split at h
      · simp only [Except.ok.injEq, Prod.mk.injEq] at h
        rw [← h.1]
        exact (append_plain_frame ha).1 k hk
      · rename_i b hb
        split at h
        · simp only [Except.ok.injEq, Prod.mk.injEq] at h
          rw [← h.1, (append_html_frame hb).1 k hk]
          exact (append_plain_frame ha).1 k hk
        · rename_i c hc
          simp only [Except.ok.injEq, Prod.mk.injEq] at h
          rw [← h.1, append_ops_frame hc k hk, (append_html_frame hb).1 k hk]
          exact (append_plain_frame ha).1 k hk
  · split at h
    · exact absurd h (by simp)
    · rename_i a ha
      simp only [Except.ok.injEq, Prod.mk.injEq] at h
      rw [← h.1, setProp_eq_putProp ha]
      exact own_putProp_ne hk _ _

/-- The notes part of the callback on an object adds the line once. -/
theorem annotate_noteAdded {L : String} {ps : Props} {t1 : JsVal} {errs errs1 : List String}
    (h : annotate L (.obj ps) errs = .ok (t1, errs1)) : NoteAdded L (.obj ps) t1 := by
  refine ⟨fun k hk _ => annotate_frame h hk, ?_, ?_⟩
  · intro hn
    rw [annotate_new L ps hn errs] at h
    simp only [Except.ok.injEq, Prod.mk.injEq] at h
    rw [← h.1]
    exact own_putProp_obj "notes" ps _
  · intro X p o hX
    obtain ⟨t3, e, h3⟩ := annotate_wellFormed L hX errs
    rw [e] at h
    simp only [Except.ok.injEq, Prod.mk.injEq] at h
    rw [← h.1]
    exact h3

theorem noteAdded_of_own_eq {L : String} {u u0 u1 : JsVal} (h : NoteAdded L u0 u1)
    (he : ∀ k, k ≠ "children" → own k u0 = own k u) : NoteAdded L u u1 := by
  obtain ⟨h1, h2, h3⟩ := h
  refine ⟨fun k hk hc => (h1 k hk hc).trans (he k hc), ?_, ?_⟩
  · intro hn
    exact h2 ((he "notes" (by decide)).trans hn)
  · intro X p o hX
    exact h3 X p o (hasNotes_of_own_eq (he "notes" (by decide)) hX)

/-- The outcome of `add_src_attr`, topic by topic. -/
theorem add_src_attr_pointwise {deeper : Bool} {L : String} :
    ∀ {xs ys : List JsVal} {errs errs1 : List String},
    add_src_attr deeper L xs errs = .ok (ys, errs1) →
    ys.length = xs.length ∧ ∀ (i : Nat) (x : JsVal), xs[i]? = some x →
      ∃ y e e1, ys[i]? = some y ∧ add_src_attr_topic deeper L x e = .ok (y, e1)
  | [], ys, errs, errs1, h => by
    simp only [add_src_attr, Except.ok.injEq, Prod.mk.injEq] at h
    rw [← h.1]
    simp
  | x :: xs, ys, errs, errs1, h => by
    simp only [add_src_attr] at h
    split at h
    · exact absurd h (by simp)
    · rename_i r hr
      split at h
      · exact absurd h (by simp)
      · rename_i r2 hr2
        simp only [Except.ok.injEq, Prod.mk.injEq] at h
        obtain ⟨hl, hp⟩ := add_src_attr_pointwise (show add_src_attr deeper L xs r.2 =
          .ok (r2.1, r2.2) from hr2)
        rw [← h.1]
        refine ⟨by simp [hl], ?_⟩
        intro i y hy
        cases i with
        | zero =>
          simp only [List.getElem?_cons_zero, Option.some.injEq] at hy
          subst hy
          exact ⟨r.1, errs, r.2, by simp, hr⟩
        | succ j =>
          simp only [List.getElem?_cons_succ] at hy ⊢
          exact hp j y hy

theorem add_src_attr_at_ok {deeper : Bool} {L key : String} :
    ∀ {cps : Props} {errs errs1 : List String} {r : Option JsVal},
    add_src_attr_at deeper L key cps errs = .ok (r, errs1) →
    (lookup key cps = none ∧ r = none) ∨
    (∃ xs ps ys, lookup key cps = some (.arr xs ps) ∧ r = some (.arr ys ps) ∧
      add_src_attr deeper L xs errs = .ok (ys, errs1))
  | [], errs, errs1, r, h => by
    simp only [add_src_attr_at, Except.ok.injEq, Prod.mk.injEq] at h
    exact .inl ⟨rfl, h.1.symm⟩
  | (k, v) :: rest, errs, errs1, r, h => by
    simp only [add_src_attr_at] at h
    split at h
    · rename_i hk
      subst hk
      cases v with
      | arr xs ps =>
        simp only [add_src_attr_array] at h
        split at h
        · exact absurd h (by simp)
        · rename_i r2 hr2
          simp only [Except.ok.injEq, Prod.mk.injEq] at h
          exact .inr ⟨xs, ps, r2.1, by simp [lookup], h.1.symm, by rw [hr2, ← h.2]⟩
      | _ => simp [add_src_attr_array] at h
    · rename_i hk
      simp only [lookup, hk, if_false]
      exact add_src_attr_at_ok h

theorem side_key_ne : Side.attached.key ≠ Side.detached.key := by decide

/-- The two lists of a value `children` after the recursive calls. -/
theorem add_src_attr_lists_ok {deeper : Bool} {L : String} {v v1 : JsVal}
    {errs errs1 : List String} (h : add_src_attr_lists deeper L v errs = .ok (v1, errs1))
    (s : Side) {xs : List JsVal} {ps : Props} (hs : own s.key v = some (.arr xs ps)) :
    ∃ ys e e1, own s.key v1 = some (.arr ys ps) ∧ add_src_attr deeper L xs e = .ok (ys, e1) := by
  have main : ∀ cps, own s.key v = lookup s.key cps →
      ∀ a d, add_src_attr_at deeper L "attached" cps errs = .ok a →
      add_src_attr_at deeper L "detached" cps a.2 = .ok d →
      ∃ ys e e1, lookup s.key (restore "detached" d.1 (restore "attached" a.1 cps)) =
        some (.arr ys ps) ∧ add_src_attr deeper L xs e = .ok (ys, e1) := by
    intro cps hv a d ha hd
    rw [hs] at hv
    cases s with
    | attached =>
      rw [lookup_restore_ne (show Side.attached.key ≠ "detached" by decide)]
      show ∃ ys e e1, lookup "attached" _ = _ ∧ _
      rw [lookup_restore_self]
      rcases add_src_attr_at_ok (show _ = Except.ok (a.1, a.2) from ha) with
        ⟨hn, _⟩ | ⟨xs1, ps1, ys, hl, hr, hrun⟩
      · rw [show Side.attached.key = "attached" from rfl, hn] at hv
        exact absurd hv (by simp)
      · rw [show Side.attached.key = "attached" from rfl, hl] at hv
        simp only [Option.some.injEq, JsVal.arr.injEq] at hv
        obtain ⟨rfl, rfl⟩ := hv
        exact ⟨ys, _, _, by simp [hr], hrun⟩
    | detached =>
      show ∃ ys e e1, lookup "detached" _ = _ ∧ _
      rw [lookup_restore_self]
      rcases add_src_attr_at_ok (show _ = Except.ok (d.1, d.2) from hd) with
        ⟨hn, _⟩ | ⟨xs1, ps1, ys, hl, hr, hrun⟩
      · rw [show Side.detached.key = "detached" from rfl, hn] at hv
        exact absurd hv (by simp)
      · rw [show Side.detached.key = "detached" from rfl, hl] at hv
        simp only [Option.some.injEq, JsVal.arr.injEq] at hv
        obtain ⟨rfl, rfl⟩ := hv
        exact ⟨ys, _, _, by simp [hr], hrun⟩
  cases v with
  | obj cps =>
    simp only [add_src_attr_lists] at h
    split at h
    · exact absurd h (by simp)
    · rename_i a ha
      split at h
      · exact absurd h (by simp)
      · rename_i d hd
        simp only [Except.ok.injEq, Prod.mk.injEq] at h
        rw [← h.1]
        exact main cps rfl a d ha hd
  | arr zs cps =>
    simp only [add_src_attr_lists] at h
    split at h
    · exact absurd h (by simp)
    · rename_i a ha
      split at h
      · exact absurd h (by simp)
      · rename_i d hd
        simp only [Except.ok.injEq, Prod.mk.injEq] at h
        rw [← h.1]
        exact main cps rfl a d ha hd
  | _ => simp [own] at hs

/-- The properties of a topic after the recursion into its children. -/
theorem add_src_attr_children_ok {deeper : Bool} {L : String} :
    ∀ {ps ps1 : Props} {errs errs1 : List String},
    add_src_attr_children deeper L ps errs = .ok (ps1, errs1) →
    (∀ k, k ≠ "children" → lookup k ps1 = lookup k ps) ∧
    ∀ v, lookup "children" ps = some v →
      ∃ v1 e e1, lookup "children" ps1 = some v1 ∧
        add_src_attr_lists deeper L v e = .ok (v1, e1)
  | [], ps1, errs, errs1, h => by
    simp only [add_src_attr_children, Except.ok.injEq, Prod.mk.injEq] at h
    rw [← h.1]
    simp [lookup]
  | (k, v) :: rest, ps1, errs, errs1, h => by
    simp only [add_src_attr_children] at h
    split at h
    · rename_i hk
      subst hk
      split at h
      · exact absurd h (by simp)
      · rename_i r hr
        simp only [Except.ok.injEq, Prod.mk.injEq] at h
        rw [← h.1]
        refine ⟨fun k hk => by simp [lookup, Ne.symm hk], ?_⟩
        intro w hw
        simp only [lookup, if_true, Option.some.injEq] at hw
        subst hw
        exact ⟨r.1, errs, r.2, by simp [lookup], hr⟩
    · rename_i hk
      split at h
      · exact absurd h (by simp)
      · rename_i r hr
        simp only [Except.ok.injEq, Prod.mk.injEq] at h
        obtain ⟨h1, h2⟩ := add_src_attr_children_ok (show add_src_attr_children deeper L rest errs =
          .ok (r.1, r.2) from hr)
        rw [← h.1]
        constructor
        · intro k1 hk1
          by_cases e : k = k1
          · simp [lookup, e]
          · simp [lookup, e, h1 k1 hk1]
        · intro w hw
          simp only [lookup, hk, if_false] at hw ⊢
          exact h2 w hw

end XmindMerge

namespace XmindMerge

theorem topicTreeProps_lookup {ps : Props} (h : topicTreeProps ps = true) {v : JsVal}
    (hv : lookup "children" ps = some v) : topicTreeIn v = true := by
  induction ps with
  | nil => simp [lookup] at hv
  | cons p rest ih =>
    obtain ⟨k, w⟩ := p
    by_cases hk : k = "children"
    · subst hk
      simp only [lookup, if_true, Option.some.injEq] at hv
      subst hv
      simpa [topicTreeProps] using h
    · simp only [lookup, hk, if_false] at hv
      simp only [topicTreeProps, hk, if_false] at h
      exact ih h hv

theorem topicTreeAt_lookup {key : String} {cps : Props} (h : topicTreeAt key cps = true)
    {a : JsVal} (ha : lookup key cps = some a) : topicTreeArray a = true := by
  induction cps with
  | nil => simp [lookup] at ha
  | cons p rest ih =>
    obtain ⟨k, w⟩ := p
    by_cases hk : k = key
    · subst hk
      simp only [lookup, if_true, Option.some.injEq] at ha
      subst ha
      simpa [topicTreeAt] using h
    · simp only [lookup, hk, if_false] at ha
      simp only [topicTreeAt, hk, if_false] at h
      exact ih h ha

theorem topicTreeList_get {xs : List JsVal} (h : topicTreeList xs = true) {i : Nat} {c : JsVal}
    (hc : xs[i]? = some c) : topicTree c = true := by
  induction xs generalizing i with
  | nil => simp at hc
  | cons x xs ih =>
    simp only [topicTreeList, Bool.and_eq_true] at h
    cases i with
    | zero =>
      simp only [List.getElem?_cons_zero, Option.some.injEq] at hc
      subst hc
      exact h.1
    | succ j =>
      simp only [List.getElem?_cons_succ] at hc
      exact ih h.2 hc

theorem childAt_some {t c : JsVal} {k : String} {i : Nat} (h : childAt t k i = some c) :
    ∃ v xs ps, own "children" t = some v ∧ own k v = some (.arr xs ps) ∧ xs[i]? = some c := by
  unfold childAt at h
  cases hv : own "children" t with
  | none => simp [hv] at h
  | some v =>
    rw [hv] at h
    cases ha : own k v with
    | none => simp [Option.bind, ha] at h
    | some a =>
      simp only [Option.bind, ha] at h
      cases a with
      | arr xs ps => exact ⟨v, xs, ps, rfl, ha, h⟩
      | _ => simp at h

theorem childAt_of {t v c : JsVal} {k : String} {xs : List JsVal} {ps : Props} {i : Nat}
    (hv : own "children" t = some v) (ha : own k v = some (.arr xs ps)) (hc : xs[i]? = some c) :
    childAt t k i = some c := by
  simp [childAt, hv, ha, hc]

/-- The children of a well-formed topic are well-formed topics. -/
theorem topicTree_childAt {t c : JsVal} (h : topicTree t = true) (s : Side) {i : Nat}
    (hc : childAt t s.key i = some c) : topicTree c = true := by
  obtain ⟨v, xs, ps, hv, ha, hx⟩ := childAt_some hc
  cases t with
  | obj tps =>
    have h1 := topicTreeProps_lookup (by simpa [topicTree] using h) hv
    cases v with
    | obj cps =>
      simp only [topicTreeIn, Bool.and_eq_true] at h1
      have h2 : topicTreeArray (.arr xs ps) = true := by
        cases s with
        | attached => exact topicTreeAt_lookup h1.1 ha
        | detached => exact topicTreeAt_lookup h1.2 ha
      exact topicTreeList_get (by simpa [topicTreeArray] using h2) hx
    | _ => simp [topicTreeIn] at h1
  | _ => simp [topicTree] at h

/-- One call of the callback with a deeper merge: the line is added to the
topic, and each child is the outcome of the callback on the child before. -/
theorem add_src_attr_topic_step {L : String} {ps : Props} {t1 : JsVal}
    {errs errs1 : List String}
    (h : add_src_attr_topic true L (.obj ps) errs = .ok (t1, errs1)) :
    NoteAdded L (.obj ps) t1 ∧
    ∀ (s : Side) (i : Nat) (c : JsVal), childAt (.obj ps) s.key i = some c →
      ∃ c1 e e1, childAt t1 s.key i = some c1 ∧
        add_src_attr_topic true L c e = .ok (c1, e1) := by
  simp only [add_src_attr_topic, if_true] at h
  split at h
  · exact absurd h (by simp)
  · rename_i r hr
    obtain ⟨k1, k2⟩ := add_src_attr_children_ok (show add_src_attr_children true L ps errs =
      .ok (r.1, r.2) from hr)
    refine ⟨noteAdded_of_own_eq (annotate_noteAdded h) (fun k hk => k1 k hk), ?_⟩
    intro s i c hc
    obtain ⟨v, xs, q, hv, ha, hx⟩ := childAt_some hc
    obtain ⟨v1, e, e1, hv1, hrun⟩ := k2 v hv
    obtain ⟨ys, e2, e3, hys, hrun2⟩ := add_src_attr_lists_ok hrun s ha
    obtain ⟨_, hp⟩ := add_src_attr_pointwise hrun2
    obtain ⟨y, e4, e5, hy, hrun3⟩ := hp i c hx
    refine ⟨y, e4, e5, childAt_of ?_ hys hy, hrun3⟩
    rw [annotate_frame h (show "children" ≠ "notes" by decide)]
    exact hv1

/-- With a deeper merge, the line is added once to every topic below a
well-formed topic on which the callback returns. -/
theorem descend_noteAdded {L : String} :
    ∀ (path : List (Side × Nat)) {t t1 : JsVal} {errs errs1 : List String},
    topicTree t = true → add_src_attr_topic true L t errs = .ok (t1, errs1) →
    ∀ u, descend t path = some u → ∃ u1, descend t1 path = some u1 ∧ NoteAdded L u u1
  | [], t, t1, errs, errs1, hwf, h, u, hu => by
    simp only [descend, Option.some.injEq] at hu
    subst hu
    cases t with
    | obj ps => exact ⟨t1, rfl, (add_src_attr_topic_step h).1⟩
    | _ => simp [topicTree] at hwf
  | (s, i) :: rest, t, t1, errs, errs1, hwf, h, u, hu => by
    simp only [descend] at hu ⊢
    cases hc : childAt t s.key i with
    | none => simp [hc] at hu
    | some c =>
      simp only [hc] at hu
      cases t with
      | obj ps =>
        obtain ⟨c1, e, e1, hc1, hrun⟩ := (add_src_attr_topic_step h).2 s i c hc
        obtain ⟨u1, hu1, hn⟩ := descend_noteAdded rest (topicTree_childAt hwf s hc) hrun u hu
        exact ⟨u1, by simp [hc1, hu1], hn⟩
      | _ => simp [topicTree] at hwf

theorem annotate_obj_total (L : String) (ps : Props) (errs : List String) :
    ∃ r, annotate L (.obj ps) errs = .ok r := by
  unfold annotate
  simp only
  split
  · cases append_plain (SRC_ATTR_TAG ++ L) (.obj ps) with
    | error e => exact ⟨_, rfl⟩
    | ok a =>
      simp only
      cases append_html (SRC_ATTR_TAG ++ L) a with
      | error e => exact ⟨_, rfl⟩
      | ok b =>
        simp only
        cases append_ops (SRC_ATTR_TAG ++ L) b with
        | error e => exact ⟨_, rfl⟩
        | ok c => exact ⟨_, rfl⟩
  · exact ⟨_, rfl⟩

mutual
theorem add_src_attr_total (deeper : Bool) (L : String) :
    ∀ (topics : List JsVal) (errs : List String), topicTreeList topics = true →
    ∃ r, add_src_attr deeper L topics errs = .ok r
  | [], errs, _ => ⟨_, rfl⟩
  | topic :: rest, errs, h => by
    simp only [topicTreeList, Bool.and_eq_true] at h
    obtain ⟨r, hr⟩ := add_src_attr_topic_total deeper L topic errs h.1
    obtain ⟨r2, hr2⟩ := add_src_attr_total deeper L rest r.2 h.2
    simp only [add_src_attr, hr, hr2]
    exact ⟨_, rfl⟩
theorem add_src_attr_topic_total (deeper : Bool) (L : String) :
    ∀ (topic : JsVal) (errs : List String), topicTree topic = true →
    ∃ r, add_src_attr_topic deeper L topic errs = .ok r
  | .obj ps, errs, h => by
    simp only [add_src_attr_topic]
    split
    · obtain ⟨r, hr⟩ := add_src_attr_children_total deeper L ps errs (by simpa [topicTree] using h)
      simp only [hr]
      exact annotate_obj_total L _ _
    · exact annotate_obj_total L _ _
  | .arr _ _, _, h => by simp [topicTree] at h
  | .undefined, _, h => by simp [topicTree] at h
  | .null, _, h => by simp [topicTree] at h
  | .bool _, _, h => by simp [topicTree] at h
  | .num _, _, h => by simp [topicTree] at h
  | .str _, _, h => by simp [topicTree] at h
theorem add_src_attr_children_total (deeper : Bool) (L : String) :
    ∀ (ps : Props) (errs : List String), topicTreeProps ps = true →
    ∃ r, add_src_attr_children deeper L ps errs = .ok r
  | [], errs, _ => ⟨_, rfl⟩
  | (k, v) :: rest, errs, h => by
    simp only [add_src_attr_children]
    simp only [topicTreeProps] at h
    split
    · rename_i hk
      rw [if_pos hk] at h
      obtain ⟨r, hr⟩ := add_src_attr_lists_total deeper L v errs h
      simp only [hr]
      exact ⟨_, rfl⟩
    · rename_i hk
      rw [if_neg hk] at h
      obtain ⟨r, hr⟩ := add_src_attr_children_total deeper L rest errs h
      simp only [hr]
      exact ⟨_, rfl⟩
theorem add_src_attr_lists_total (deeper : Bool) (L : String) :
    ∀ (v : JsVal) (errs : List String), topicTreeIn v = true →
    ∃ r, add_src_attr_lists deeper L v errs = .ok r
  | .obj cps, errs, h => by
    simp only [topicTreeIn, Bool.and_eq_true] at h
    obtain ⟨a, ha⟩ := add_src_attr_at_total deeper L "attached" cps errs h.1
    obtain ⟨d, hd⟩ := add_src_attr_at_total deeper L "detached" cps a.2 h.2
    simp only [add_src_attr_lists, ha, hd]
    exact ⟨_, rfl⟩
  | .arr _ _, _, h => by simp [topicTreeIn] at h
  | .undefined, _, h => by simp [topicTreeIn] at h
  | .null, _, h => by simp [topicTreeIn] at h
  | .bool _, _, h => by simp [topicTreeIn] at h
  | .num _, _, h => by simp [topicTreeIn] at h
  | .str _, _, h => by simp [topicTreeIn] at h
theorem add_src_attr_at_total (deeper : Bool) (L : String) (key : String) :
    ∀ (cps : Props) (errs : List String), topicTreeAt key cps = true →
    ∃ r, add_src_attr_at deeper L key cps errs = .ok r
  | [], errs, _ => ⟨_, rfl⟩
  | (k, v) :: rest, errs, h => by
    simp only [add_src_attr_at]
    simp only [topicTreeAt] at h
    split
    · rename_i hk
      rw [if_pos hk] at h
      exact add_src_attr_array_total deeper L v errs h
    · rename_i hk
      rw [if_neg hk] at h
      exact add_src_attr_at_total deeper L key rest errs h
theorem add_src_attr_array_total (deeper : Bool) (L : String) :
    ∀ (v : JsVal) (errs : List String), topicTreeArray v = true →
    ∃ r, add_src_attr_array deeper L v errs = .ok r
  | .arr xs ps, errs, h => by
    obtain ⟨r, hr⟩ := add_src_attr_total deeper L xs errs (by simpa [topicTreeArray] using h)
    simp only [add_src_attr_array, hr]
    exact ⟨_, rfl⟩
  | .obj _, _, h => by simp [topicTreeArray] at h
  | .undefined, _, h => by simp [topicTreeArray] at h
  | .null, _, h => by simp [topicTreeArray] at h
  | .bool _, _, h => by simp [topicTreeArray] at h
  | .num _, _, h => by simp [topicTreeArray] at h
  | .str _, _, h => by simp [topicTreeArray] at h
end

end XmindMerge

namespace XmindMerge

/-- C20. Attribution coverage follows the deeper flag.  On a sequence of
well-formed topic trees `add_src_attr` returns in both modes, with as many
topics as it was given.  With a deeper merge, every topic of the sequence and
every topic below one of them, reached through `children.attached` and
`children.detached` at any depth, is found at the same place afterwards with
the attribution line added once.  Without it, every topic of the sequence has
the line added once and its `children` are as they were. -/
theorem add_src_attr_coverage (L : String) (ts : List JsVal) (errs : List String)
    (hwf : topicTreeList ts = true) :
    (∃ ts1 errs1, add_src_attr true L ts errs = .ok (ts1, errs1) ∧ ts1.length = ts.length ∧
      ∀ (i : Nat) (path : List (Side × Nat)) (u : JsVal), topicAt ts i path = some u →
        ∃ u1, topicAt ts1 i path = some u1 ∧ NoteAdded L u u1) ∧
    (∃ ts1 errs1, add_src_attr false L ts errs = .ok (ts1, errs1) ∧ ts1.length = ts.length ∧
      ∀ (i : Nat) (u : JsVal), ts[i]? = some u →
        ∃ u1, ts1[i]? = some u1 ∧ NoteAdded L u u1 ∧ own "children" u1 = own "children" u) := by
  constructor
  · obtain ⟨r, hr⟩ := add_src_attr_total true L ts errs hwf
    obtain ⟨hl, hp⟩ := add_src_attr_pointwise (show add_src_attr true L ts errs =
      .ok (r.1, r.2) from hr)
    refine ⟨r.1, r.2, hr, hl, ?_⟩
    intro i path u hu
    unfold topicAt at hu ⊢
    cases ht : ts[i]? with
    | none => simp [ht] at hu
    | some t =>
      simp only [ht] at hu
      obtain ⟨y, e, e1, hy, hrun⟩ := hp i t ht
      obtain ⟨u1, hu1, hn⟩ := descend_noteAdded path (topicTreeList_get hwf ht) hrun u hu
      exact ⟨u1, by simp [hy, hu1], hn⟩
  · obtain ⟨r, hr⟩ := add_src_attr_total false L ts errs hwf
    obtain ⟨hl, hp⟩ := add_src_attr_pointwise (show add_src_attr false L ts errs =
      .ok (r.1, r.2) from hr)
    refine ⟨r.1, r.2, hr, hl, ?_⟩
    intro i u hu
    obtain ⟨y, e, e1, hy, hrun⟩ := hp i u hu
    rw [add_src_attr_topic_flat (.inl rfl)] at hrun
    have hobj := topicTreeList_get hwf hu
    cases u with
    | obj ps =>
      exact ⟨y, hy, annotate_noteAdded hrun, annotate_frame hrun (by decide)⟩
    | _ => simp [topicTree] at hobj

theorem add_src_attr_coverage_witness :
    (∃ ts1 errs1, add_src_attr true "f.xmind"
        [.obj [("title", .str "T"), ("children", .obj [
          ("attached", .arr [branch "A" [leaf "A1"]] []),
          ("detached", .arr [leaf "D"] [])])], leaf "U"] [] = .ok (ts1, errs1) ∧
      ts1.length = [.obj [("title", .str "T"), ("children", .obj [
          ("attached", .arr [branch "A" [leaf "A1"]] []),
          ("detached", .arr [leaf "D"] [])])], leaf "U"].length ∧
      ∀ (i : Nat) (path : List (Side × Nat)) (u : JsVal),
        topicAt [.obj [("title", .str "T"), ("children", .obj [
          ("attached", .arr [branch "A" [leaf "A1"]] []),
          ("detached", .arr [leaf "D"] [])])], leaf "U"] i path = some u →
        ∃ u1, topicAt ts1 i path = some u1 ∧ NoteAdded "f.xmind" u u1) ∧
    (∃ ts1 errs1, add_src_attr false "f.xmind"
        [.obj [("title", .str "T"), ("children", .obj [
          ("attached", .arr [branch "A" [leaf "A1"]] []),
          ("detached", .arr [leaf "D"] [])])], leaf "U"] [] = .ok (ts1, errs1) ∧
      ts1.length = [.obj [("title", .str "T"), ("children", .obj [
          ("attached", .arr [branch "A" [leaf "A1"]] []),
          ("detached", .arr [leaf "D"] [])])], leaf "U"].length ∧
      ∀ (i : Nat) (u : JsVal),
        [.obj [("title", .str "T"), ("children", .obj [
          ("attached", .arr [branch "A" [leaf "A1"]] []),
          ("detached", .arr [leaf "D"] [])])], leaf "U"][i]? = some u →
        ∃ u1, ts1[i]? = some u1 ∧ NoteAdded "f.xmind" u u1 ∧
          own "children" u1 = own "children" u) :=
  add_src_attr_coverage "f.xmind"
    [.obj [("title", .str "T"), ("children", .obj [
      ("attached", .arr [branch "A" [leaf "A1"]] []),
      ("detached", .arr [leaf "D"] [])])], leaf "U"] [] (by decide)

/-- The two runs of `add_src_attr` on a topic with one attached child that
has a child of its own, and one detached child: with a deeper merge all four
topics get the note; without it only the topic of the sequence does. -/
theorem attribution_coverage_example :
    add_src_attr true "f" [.obj [("title", .str "T"), ("children", .obj [
        ("attached", .arr [branch "A" [leaf "A1"]] []),
        ("detached", .arr [leaf "D"] [])])]] [] =
      .ok ([.obj [("title", .str "T"), ("children", .obj [
        ("attached", .arr [.obj [("title", .str "A"), ("children", .obj [("attached",
          .arr [.obj [("title", .str "A1"), ("notes", newNote "Merge-Source: f")]] [])]),
          ("notes", newNote "Merge-Source: f")]] []),
        ("detached", .arr [.obj [("title", .str "D"), ("notes", newNote "Merge-Source: f")]] [])]),
        ("notes", newNote "Merge-Source: f")]], []) ∧
    add_src_attr false "f" [.obj [("title", .str "T"), ("children", .obj [
        ("attached", .arr [branch "A" [leaf "A1"]] []),
        ("detached", .arr [leaf "D"] [])])]] [] =
      .ok ([.obj [("title", .str "T"), ("children", .obj [
        ("attached", .arr [branch "A" [leaf "A1"]] []),
        ("detached", .arr [leaf "D"] [])]),
        ("notes", newNote "Merge-Source: f")]], []) := by
  constructor <;> decide

end XmindMerge

namespace XmindMerge

/-! ## Properties: the shape of the cleaned root topic -/

theorem toDigitsCore_suffix (fuel n : Nat) (ds : List Char) :
    ∃ pre, Nat.toDigitsCore 10 fuel n ds = pre ++ ds := by
  induction fuel generalizing n ds with
  | zero => exact ⟨[], rfl⟩
  | succ f ih =>
    simp only [Nat.toDigitsCore]
    split
    · exact ⟨[Nat.digitChar (n % 10)], rfl⟩
    · obtain ⟨pre, h⟩ := ih (n / 10) (Nat.digitChar (n % 10) :: ds)
      exact ⟨pre ++ [Nat.digitChar (n % 10)], by simp [h]⟩

/-- The decimal numeral of a number ends with its last digit. -/
theorem toString_nat_last (i : Nat) :
    ∃ pre, (toString i).data = pre ++ [Nat.digitChar (i % 10)] := by
  show ∃ pre, (Nat.repr i).data = _
  simp only [Nat.repr, Nat.toDigits, List.asString, Nat.toDigitsCore]
  split
  · exact ⟨[], rfl⟩
  · obtain ⟨pre, h⟩ := toDigitsCore_suffix i (i / 10) [Nat.digitChar (i % 10)]
    exact ⟨pre, h⟩

theorem digitChar_mod_ne {c : Char} (hc : c ∉ ['0', '1', '2', '3', '4', '5', '6', '7', '8', '9'])
    (i : Nat) : Nat.digitChar (i % 10) ≠ c := by
  have h : i % 10 < 10 := Nat.mod_lt _ (by decide)
  intro e
  apply hc
  rw [← e]
  interval_cases (i % 10) <;> decide

/-- An array index is not the name `k` when `k` does not end with a digit. -/
theorem toString_nat_ne {k : String} {pre : List Char} {c : Char} (hk : k.data = pre ++ [c])
    (hc : c ∉ ['0', '1', '2', '3', '4', '5', '6', '7', '8', '9']) (i : Nat) :
    toString i ≠ k := by
  intro e
  obtain ⟨p, hp⟩ := toString_nat_last i
  rw [e, hk] at hp
  have := congrArg List.getLast? hp
  simp only [List.getLast?_append, List.getLast?_singleton, Option.or,
    Option.some.injEq] at this
  exact digitChar_mod_ne hc i this.symm

theorem index_ne_children (i : Nat) : toString i ≠ "children" :=
  toString_nat_ne (show "children".data = "childre".data ++ ['n'] by decide) (by decide) i

theorem index_ne_title (i : Nat) : toString i ≠ "title" :=
  toString_nat_ne (show "title".data = "titl".data ++ ['e'] by decide) (by decide) i

theorem lookup_append (k : String) (ps qs : Props) :
    lookup k (ps ++ qs) = (lookup k ps).or (lookup k qs) := by
  induction ps with
  | nil => simp [lookup]
  | cons p rest ih =>
    obtain ⟨k1, v⟩ := p
    by_cases h : k1 = k <;> simp [lookup, h, ih]

theorem lookup_indexedChars {k : String} (hk : ∀ i : Nat, toString i ≠ k) (cs : List Char)
    (i : Nat) : lookup k (indexedChars cs i) = none := by
  induction cs generalizing i with
  | nil => rfl
  | cons c cs ih => simp [indexedChars, lookup, hk i, ih]

theorem lookup_reissue_ne {k : String} (hk : k ≠ "id") (gen : Nat → String) (ps : Props)
    (n : Nat) : lookup k (reissue gen ps n).1 = lookup k ps := by
  induction ps generalizing n with
  | nil => rfl
  | cons p rest ih =>
    obtain ⟨k1, v⟩ := p
    by_cases h1 : k1 = "id"
    · subst h1
      simp [reissue, lookup, Ne.symm hk, ih]
    · by_cases h2 : k1 = k
      · subst h2
        simp [reissue, lookup, h1]
      · simp [reissue, lookup, h1, h2, ih]

/-- The first `mapValues` keeps the names and processes every value. -/
theorem lookup_deeplyProps (gen : Nat → String) (k : String) (ps : Props) (n : Nat) :
    (lookup k ps = none → lookup k (deeplyProps gen ps n).1 = none) ∧
    ∀ v, lookup k ps = some v → ∃ m, lookup k (deeplyProps gen ps n).1 =
      some (deeplyValue gen v m).1 := by
  induction ps generalizing n with
  | nil => simp [deeplyProps, lookup]
  | cons p rest ih =>
    obtain ⟨k1, w⟩ := p
    by_cases h : k1 = k
    · simp only [deeplyProps, lookup, h, if_true]
      exact ⟨fun e => absurd e (by simp), fun v hv => ⟨n, by simp at hv; rw [hv]⟩⟩
    · simp only [deeplyProps, lookup, h, if_false]
      exact ih _

theorem lookup_deeplyIndexed {k : String} (hk : ∀ i : Nat, toString i ≠ k)
    (gen : Nat → String) (xs : List JsVal) (i n : Nat) :
    lookup k (deeplyIndexed gen xs i n).1 = none := by
  induction xs generalizing i n with
  | nil => rfl
  | cons x xs ih => simp [deeplyIndexed, lookup, hk i, ih]

/-- The cleaned root topic is an object. -/
theorem deeply_obj (gen : Nat → String) (x : JsVal) (n : Nat) :
    ∃ q, (deeply gen x n).1 = .obj q := by
  cases x <;> exact ⟨_, rfl⟩

/-- A field of the cleaned topic whose name is neither `id` nor an index: it
is there when the topic had it, with its value processed. -/
theorem own_deeply {k : String} (hid : k ≠ "id") (hk : ∀ i : Nat, toString i ≠ k)
    (gen : Nat → String) (x : JsVal) (n : Nat) :
    (own k x = none → own k (deeply gen x n).1 = none) ∧
    ∀ v, own k x = some v → ∃ m, own k (deeply gen x n).1 = some (deeplyValue gen v m).1 := by
  cases x with
  | obj ps =>
    simp only [deeply, own, lookup_reissue_ne hid]
    exact lookup_deeplyProps gen k ps n
  | arr xs ps =>
    simp only [deeply, own, lookup_reissue_ne hid, lookup_append, lookup_deeplyIndexed hk,
      Option.none_or]
    exact lookup_deeplyProps gen k ps _
  | str s =>
    simp [deeply, own, lookup_reissue_ne hid, lookup_indexedChars hk]
  | _ => simp [deeply, own, lookup]

/-- A field of a processed value. -/
theorem own_deeplyValue {k : String} (hid : k ≠ "id") (gen : Nat → String) (cps : Props)
    (n : Nat) :
    (lookup k cps = none → own k (deeplyValue gen (.obj cps) n).1 = none) ∧
    ∀ v, lookup k cps = some v →
      ∃ m, own k (deeplyValue gen (.obj cps) n).1 = some (deeplyValue gen v m).1 := by
  simp only [deeplyValue, own, lookup_reissue_ne hid]
  exact lookup_deeplyProps gen k cps n

theorem own_deeplyValue_other {k : String} (gen : Nat → String) {v : JsVal}
    (hv : ∀ cps, v ≠ .obj cps) (n : Nat) : own k (deeplyValue gen v n).1 = none := by
  cases v with
  | obj cps => exact absurd rfl (hv cps)
  | arr xs ps => simp [deeplyValue, own, lookup]
  | _ => simp [deeplyValue, own]

/-- The processed elements of a list, one by one. -/
theorem deeplyItems_pointwise (gen : Nat → String) (xs : List JsVal) (n : Nat) :
    (deeplyItems gen xs n).1.length = xs.length ∧
    ∀ (i : Nat) (x : JsVal), xs[i]? = some x →
      ∃ m, (deeplyItems gen xs n).1[i]? = some (deeply gen x m).1 := by
  induction xs generalizing n with
  | nil => simp [deeplyItems]
  | cons y ys ih =>
    obtain ⟨hl, hp⟩ := ih (deeply gen y n).2
    refine ⟨by simp [deeplyItems, hl], ?_⟩
    intro i x hx
    cases i with
    | zero =>
      simp only [List.getElem?_cons_zero, Option.some.injEq] at hx
      subst hx
      exact ⟨n, by simp [deeplyItems]⟩
    | succ j =>
      simp only [List.getElem?_cons_succ] at hx
      obtain ⟨m, hm⟩ := hp j x hx
      exact ⟨m, by simpa [deeplyItems] using hm⟩

end XmindMerge

namespace XmindMerge

/-! ## Properties: the shape of the master during a merge -/

theorem masterShape_reads {d log : JsVal} {A D L : List JsVal} (h : MasterShape d A log D L) :
    ∃ c pa pd, topChildren d = .ok c ∧ own "attached" c = some (.arr A pa) ∧
      own "detached" c = some (.arr (log :: D) pd) := by
  obtain ⟨sheet, root, c, pa, pd, lc, pl, h1, h2, h3, h4, h5, _, _⟩ := h
  exact ⟨c, pa, pd, topChildren_eq h1 h2 h3, h4, h5⟩

theorem concat_arr (xs ys : List JsVal) (ps qs : Props) :
    concat (.arr xs ps) (.arr ys qs) = .arr (xs ++ ys) [] := rfl

/-- The append of a list of topics to the top-level attached topics. -/
theorem masterShape_append_attached {d log : JsVal} {A D L : List JsVal}
    (h : MasterShape d A log D L) :
    ∃ c old, topChildren d = .ok c ∧ getProp c "attached" = .ok old ∧
      ∀ (X : List JsVal) (ps : Props), ∃ d1,
        setTopList d "attached" (concat old (.arr X ps)) = .ok d1 ∧
        MasterShape d1 (A ++ X) log D L := by
  obtain ⟨sheet, root, c, pa, pd, lc, pl, h1, h2, h3, h4, h5, h6, h7⟩ := h
  refine ⟨c, .arr A pa, topChildren_eq h1 h2 h3, getProp_of_own h4, ?_⟩
  intro X ps
  refine ⟨_, setTopList_eq h1 h2 h3 h4 _ _, ?_⟩
  refine ⟨_, _, _, [], pd, lc, pl, getFirst_putFirst h1 h2 _, own_putProp_self h2 _,
    own_putProp_self h3 _, own_putProp_self h4 _, ?_, h6, h7⟩
  rw [own_putProp_ne (by decide)]
  exact h5

/-- The append of a list of topics to the top-level detached topics. -/
theorem masterShape_append_detached {d log : JsVal} {A D L : List JsVal}
    (h : MasterShape d A log D L) :
    ∃ c old, topChildren d = .ok c ∧ getProp c "detached" = .ok old ∧
      ∀ (X : List JsVal) (ps : Props), ∃ d1,
        setTopList d "detached" (concat old (.arr X ps)) = .ok d1 ∧
        MasterShape d1 A log (D ++ X) L := by
  obtain ⟨sheet, root, c, pa, pd, lc, pl, h1, h2, h3, h4, h5, h6, h7⟩ := h
  refine ⟨c, .arr (log :: D) pd, topChildren_eq h1 h2 h3, getProp_of_own h5, ?_⟩
  intro X ps
  refine ⟨_, setTopList_eq h1 h2 h3 h4 _ _, ?_⟩
  refine ⟨_, _, _, pa, [], lc, pl, getFirst_putFirst h1 h2 _, own_putProp_self h2 _,
    own_putProp_self h3 _, ?_, own_putProp_self h5 _, h6, h7⟩
  rw [own_putProp_ne (by decide)]
  exact h4

/-- The push of a summary on the merge log. -/
theorem masterShape_push {d log : JsVal} {A D L : List JsVal} (h : MasterShape d A log D L)
    (st : JsVal) :
    ∃ d1 log1, push_status d st = .ok d1 ∧ MasterShape d1 A log1 D (L ++ [st]) ∧
      ∀ k, k ≠ "children" → own k log1 = own k log := by
  obtain ⟨sheet, root, c, pa, pd, lc, pl, h1, h2, h3, h4, h5, h6, h7⟩ := h
  have e : push_status d st = setTopList d "detached"
      (.arr (putProp log "children" (putProp lc "attached" (.arr (L ++ [st]) pl)) :: D) pd) := by
    simp [push_status, topDetached, topChildren_eq h1 h2 h3, getProp_of_own h5, getFirst,
      getProp_of_own h6, getProp_of_own h7, callPush, putFirst, bind, Except.bind]
  refine ⟨_, putProp log "children" (putProp lc "attached" (.arr (L ++ [st]) pl)),
    e.trans (setTopList_eq h1 h2 h3 h4 _ _), ?_, fun k hk => own_putProp_ne hk _ _⟩
  refine ⟨_, _, _, pa, pd, _, pl, getFirst_putFirst h1 h2 _, own_putProp_self h2 _,
    own_putProp_self h3 _, ?_, own_putProp_self h5 _, own_putProp_self h6 _,
    own_putProp_self h7 _⟩
  rw [own_putProp_ne (by decide)]
  exact h4

end XmindMerge

namespace XmindMerge

/-! ## Properties: what one merge appends -/

/-- The list of the cleaned root topic for a list of the source root topic. -/
theorem cleanList_some {key : String} (hid : key ≠ "id") (gen : Nat → String) {root : JsVal}
    (n : Nat) {xs : List JsVal} (h : sourceList key root = some xs) :
    ∃ m, own key ((own "children" (deeply gen root n).1).getD .undefined) =
      some (.arr (deeplyItems gen xs m).1 []) := by
  unfold sourceList at h
  cases hc : own "children" root with
  | none => simp [hc] at h
  | some v =>
    rw [hc] at h
    obtain ⟨m, hm⟩ := (own_deeply (show "children" ≠ "id" by decide) index_ne_children
      gen root n).2 v hc
    rw [hm]
    cases v with
    | obj cps =>
      simp only at h
      cases hl : lookup key cps with
      | none => simp [hl] at h
      | some a =>
        rw [hl] at h
        obtain ⟨m2, hm2⟩ := (own_deeplyValue hid gen cps m).2 a hl
        cases a with
        | arr ys ps =>
          simp only [Option.some.injEq] at h
          subst h
          exact ⟨m2, by rw [Option.getD_some, hm2]; rfl⟩
        | _ => simp at h
    | _ => simp at h

theorem cleanList_none {key : String} (hid : key ≠ "id") (gen : Nat → String) {root : JsVal}
    (n : Nat) (h : sourceList key root = none) (ys : List JsVal) (ps : Props) :
    own key ((own "children" (deeply gen root n).1).getD .undefined) ≠ some (.arr ys ps) := by
  unfold sourceList at h
  cases hc : own "children" root with
  | none =>
    rw [(own_deeply (show "children" ≠ "id" by decide) index_ne_children gen root n).1 hc]
    simp [own]
  | some v =>
    rw [hc] at h
    obtain ⟨m, hm⟩ := (own_deeply (show "children" ≠ "id" by decide) index_ne_children
      gen root n).2 v hc
    rw [hm]
    simp only [Option.getD_some]
    cases v with
    | obj cps =>
      simp only at h
      cases hl : lookup key cps with
      | none =>
        rw [(own_deeplyValue hid gen cps m).1 hl]
        simp
      | some a =>
        rw [hl] at h
        obtain ⟨m2, hm2⟩ := (own_deeplyValue hid gen cps m).2 a hl
        rw [hm2]
        cases a with
        | arr zs qs => simp at h
        | obj q => simp [deeplyValue]
        | _ => simp [deeplyValue]
    | arr zs q => rw [own_deeplyValue_other gen (by simp) m]; simp
    | undefined => rw [own_deeplyValue_other gen (by simp) m]; simp
    | null => rw [own_deeplyValue_other gen (by simp) m]; simp
    | bool b => rw [own_deeplyValue_other gen (by simp) m]; simp
    | num i => rw [own_deeplyValue_other gen (by simp) m]; simp
    | str t => rw [own_deeplyValue_other gen (by simp) m]; simp

/-- The outcome of the attribution step, topic by topic, and its log. -/
theorem attribute_topics_spec {args : Args} {src_xmind : String} {topics out : List JsVal}
    {errs errs1 : List String}
    (h : attribute_topics args src_xmind topics errs = .ok (out, errs1)) :
    out.length = topics.length ∧
    (∀ (i : Nat) (c : JsVal), topics[i]? = some c →
      ∃ y, out[i]? = some y ∧ Attributed args src_xmind c y) ∧
    ∃ msgs, errs1 = errs ++ msgs ∧ (args.src_attr = false → msgs = []) := by
  unfold attribute_topics at h
  by_cases ha : args.src_attr = true
  · rw [if_pos ha] at h
    obtain ⟨hl, hp⟩ := add_src_attr_pointwise h
    refine ⟨hl, ?_, ?_⟩
    · intro i c hc
      obtain ⟨y, e, e1, hy, hrun⟩ := hp i c hc
      exact ⟨y, hy, .inr ⟨ha, e, e1, hrun⟩⟩
    · rw [add_src_attr_log] at h
      cases hr : add_src_attr args.deeper src_xmind topics [] with
      | error e => simp [hr, logged_error] at h
      | ok r =>
        rw [hr, logged_ok] at h
        simp only [Except.ok.injEq, Prod.mk.injEq] at h
        exact ⟨r.2, h.2.symm, fun hf => absurd ha (by simp [hf])⟩
  · rw [if_neg ha] at h
    simp only [Except.ok.injEq, Prod.mk.injEq] at h
    obtain ⟨rfl, rfl⟩ := h
    refine ⟨rfl, ?_, [], by simp, fun _ => rfl⟩
    intro i c hc
    exact ⟨c, hc, .inl ⟨by simpa using ha, rfl⟩⟩

theorem imported_of_clean {args : Args} {gen : Nat → String} {src_xmind : String}
    {xs out : List JsVal} {m : Nat} (hl : out.length = (deeplyItems gen xs m).1.length)
    (hp : ∀ (i : Nat) (c : JsVal), (deeplyItems gen xs m).1[i]? = some c →
      ∃ y, out[i]? = some y ∧ Attributed args src_xmind c y) :
    Imported args gen src_xmind xs out := by
  obtain ⟨h1, h2⟩ := deeplyItems_pointwise gen xs m
  refine ⟨hl.trans h1, ?_⟩
  intro i x hx
  obtain ⟨n, hn⟩ := h2 i x hx
  obtain ⟨y, hy, ha⟩ := hp i _ hn
  exact ⟨y, n, hy, ha⟩

/-- One of the two append blocks of `merge_content`, on a master to which a
list can be appended under `key`. -/
theorem append_list_spec {args : Args} {gen : Nat → String} {src_xmind key : String}
    (hid : key ≠ "id") {root : JsVal} {n : Nat} {s : Session}
    {r : Option (Session × Nat)} {P : JsVal → List JsVal → Prop}
    (happ : ∃ c old, topChildren s.dst_xmind = .ok c ∧ getProp c key = .ok old ∧
      ∀ (X : List JsVal) (ps : Props), ∃ d1,
        setTopList s.dst_xmind key (concat old (.arr X ps)) = .ok d1 ∧ P d1 X)
    (hP0 : P s.dst_xmind [])
    (h : append_list args src_xmind key (deeply gen root n).1 s = .ok r) :
    ∃ X s1, P s1.dst_xmind X ∧ s1.issued = s.issued ∧
      ImportedFrom args gen src_xmind (sourceList key root) X ∧
      (∃ msgs, s1.src_errors = s.src_errors ++ msgs ∧ (args.src_attr = false → msgs = []) ∧
        (sourceList key root = none → msgs = [])) ∧
      r = (sourceList key root).map (fun _ => (s1, X.length)) := by
  unfold append_list at h
  cases hs : sourceList key root with
  | none =>
    have hn := cleanList_none hid gen n hs
    split at h
    · rename_i topics ps heq
      exact absurd heq (hn topics ps)
    · simp only [pure, Except.pure, Except.ok.injEq] at h
      exact ⟨[], s, hP0, rfl, rfl, ⟨[], by simp, fun _ => rfl, fun _ => rfl⟩, by simp [h]⟩
  | some xs =>
    obtain ⟨m, hm⟩ := cleanList_some hid gen n hs
    rw [hm] at h
    simp only [bind_ok, pure, Except.pure, Except.ok.injEq] at h
    obtain ⟨rr, hrr, c, hc, old, ho, d1, hset, rfl⟩ := h
    obtain ⟨c0, old0, hc0, ho0, hall⟩ := happ
    rw [hc0] at hc
    cases hc
    rw [ho0] at ho
    cases ho
    obtain ⟨d2, hset2, hP⟩ := hall rr.1 []
    rw [hset2] at hset
    cases hset
    obtain ⟨hl, hp, msgs, hmsg, hfalse⟩ := attribute_topics_spec
      (show attribute_topics args src_xmind _ s.src_errors = .ok (rr.1, rr.2) from hrr)
    exact ⟨rr.1, { s with dst_xmind := d1, src_errors := rr.2 }, hP, rfl,
      imported_of_clean hl hp, ⟨msgs, hmsg, hfalse, fun e => absurd e (by simp)⟩, by simp⟩

end XmindMerge

namespace XmindMerge

/-- One call of `merge_content` on a source with a root topic, on a master
with a merge log: what it appends to the two top-level lists and to the merge
log, the status it returns and what it logs. -/
theorem merge_content_spec {args : Args} {gen : Nat → String} {src : JsVal}
    {src_xmind : String} {resources : Nat} {s s1 : Session} {status : String}
    {sheet root log : JsVal} {A D L : List JsVal}
    (hm : MasterShape s.dst_xmind A log D L) (hsheet : getFirst src = .ok sheet)
    (hroot : own ROOT_TOPIC sheet = some root)
    (h : merge_content args gen (.ok src) src_xmind resources s = .ok (status, s1)) :
    ∃ A1 D1 log1 n,
      MasterShape s1.dst_xmind (A ++ A1) log1 (D ++ D1)
        (L ++ [(src_status gen n ((own "title" (deeply gen root s.issued).1).getD .undefined)
          (A1.length + D1.length) resources src_xmind).1]) ∧
      (∀ k, k ≠ "children" → own k log1 = own k log) ∧
      ImportedFrom args gen src_xmind (sourceList "attached" root) A1 ∧
      ImportedFrom args gen src_xmind (sourceList "detached" root) D1 ∧
      status = (if (sourceList "attached" root).isSome then "+" else "?") ∧
      ∃ ma md, s1.src_errors = s.src_errors ++ ma ++ md ∧
        (sourceList "attached" root = none → ma = [noAttachedMessage src_xmind]) ∧
        ((sourceList "attached" root).isSome = true → args.src_attr = false → ma = []) ∧
        (sourceList "detached" root = none → md = []) ∧
        (args.src_attr = false → md = []) := by
  have e0 : ((Except.ok src : Except String JsVal) >>= getFirst) = .ok sheet := hsheet
  unfold merge_content at h
  rw [e0] at h
  simp only [has_of_own hroot, if_true, bind_ok, pure, Except.pure] at h
  obtain ⟨root1, hroot1, ra, ha, rd, hd, dst1, hpush, h⟩ := h
  rw [getProp_of_own hroot] at hroot1
  cases hroot1
  simp only [Except.ok.injEq, Prod.mk.injEq] at h
  obtain ⟨X, sa, hPa, hia, hima, ⟨ma, hma, hma1, hma2⟩, hra⟩ :=
    append_list_spec (P := fun d X => MasterShape d (A ++ X) log D L)
      (s := Session.mk s.dst_xmind s.src_errors (deeply gen root s.issued).2)
      (show "attached" ≠ "id" by decide)
      (masterShape_append_attached hm) (by simpa using hm) ha
  cases hsa : sourceList "attached" root with
  | none =>
    rw [hsa] at hra hima
    simp only [Option.map_none'] at hra
    subst hra
    simp only [ImportedFrom] at hima
    subst hima
    simp only at hd hpush h
    have hm0 : MasterShape s.dst_xmind A log D L := hm
    obtain ⟨Y, sd, hPd, hid, himd, ⟨md, hmd, hmd1, hmd2⟩, hrd⟩ :=
      append_list_spec (P := fun d Y => MasterShape d A log (D ++ Y) L)
        (s := Session.mk s.dst_xmind (s.src_errors ++
          ["No attached subtopics found in \x27" ++ src_xmind ++ "\x27"])
          (deeply gen root s.issued).2)
        (show "detached" ≠ "id" by decide)
        (masterShape_append_detached hm0) (by simpa using hm0) hd
    cases hsd : sourceList "detached" root with
    | none =>
      rw [hsd] at hrd himd
      simp only [Option.map_none'] at hrd
      subst hrd
      simp only [ImportedFrom] at himd
      subst himd
      simp only at hpush h
      obtain ⟨d1, log1, hp, hshape, hframe⟩ := masterShape_push hm0
        (src_status gen (deeply gen root s.issued).2
          ((own "title" (deeply gen root s.issued).1).getD .undefined) 0 resources src_xmind).1
      rw [hp] at hpush
      cases hpush
      obtain ⟨rfl, rfl⟩ := h
      refine ⟨[], [], log1, _, by simpa using hshape, hframe, rfl, rfl, by simp,
        [noAttachedMessage src_xmind], [], by simp [noAttachedMessage], fun _ => rfl,
        fun e => absurd e (by simp), fun _ => rfl, fun _ => rfl⟩
    | some ys =>
      rw [hsd] at hrd himd
      simp only [Option.map_some'] at hrd
      subst hrd
      simp only at hpush h
      obtain ⟨d1, log1, hp, hshape, hframe⟩ := masterShape_push hPd
        (src_status gen sd.issued
          ((own "title" (deeply gen root s.issued).1).getD .undefined) (0 + Y.length)
          resources src_xmind).1
      rw [hp] at hpush
      cases hpush
      obtain ⟨rfl, rfl⟩ := h
      refine ⟨[], Y, log1, _, by simpa using hshape, hframe, rfl, himd, by simp,
        [noAttachedMessage src_xmind], md, by simp [hmd, noAttachedMessage], fun _ => rfl,
        fun e => absurd e (by simp), fun e => absurd e (by simp), hmd1⟩
  | some xs =>
    rw [hsa] at hra hima
    simp only [Option.map_some'] at hra
    subst hra
    simp only at hd hpush h
    obtain ⟨Y, sd, hPd, hid, himd, ⟨md, hmd, hmd1, hmd2⟩, hrd⟩ :=
      append_list_spec (P := fun d Y => MasterShape d (A ++ X) log (D ++ Y) L)
        (show "detached" ≠ "id" by decide)
        (masterShape_append_detached hPa) (by simpa using hPa) hd
    cases hsd : sourceList "detached" root with
    | none =>
      rw [hsd] at hrd himd
      simp only [Option.map_none'] at hrd
      subst hrd
      simp only [ImportedFrom] at himd
      subst himd
      simp only at hpush h
      obtain ⟨d1, log1, hp, hshape, hframe⟩ := masterShape_push hPa
        (src_status gen sa.issued
          ((own "title" (deeply gen root s.issued).1).getD .undefined) X.length
          resources src_xmind).1
      rw [hp] at hpush
      cases hpush
      obtain ⟨rfl, rfl⟩ := h
      refine ⟨X, [], log1, _, by simpa using hshape, hframe, hima, rfl, by simp,
        ma, [], by simp [hma], fun e => absurd e (by simp), fun _ => hma1,
        fun _ => rfl, fun _ => rfl⟩
    | some ys =>
      rw [hsd] at hrd himd
      simp only [Option.map_some'] at hrd
      subst hrd
      simp only at hpush h
      obtain ⟨d1, log1, hp, hshape, hframe⟩ := masterShape_push hPd
        (src_status gen sd.issued
          ((own "title" (deeply gen root s.issued).1).getD .undefined) (X.length + Y.length)
          resources src_xmind).1
      rw [hp] at hpush
      cases hpush
      obtain ⟨rfl, rfl⟩ := h
      refine ⟨X, Y, log1, _, hshape, hframe, hima, himd, by simp,
        ma, md, by simp [hmd, hma], fun e => absurd e (by simp), fun _ => hma1,
        fun e => absurd e (by simp), hmd1⟩

end XmindMerge

namespace XmindMerge

/-! ## Properties: the parts of one merge -/

theorem importedFrom_length {args : Args} {gen : Nat → String} {src_xmind : String}
    {o : Option (List JsVal)} {ys : List JsVal} (h : ImportedFrom args gen src_xmind o ys) :
    ys.length = (o.getD []).length := by
  cases o with
  | none =>
    simp only [ImportedFrom] at h
    subst h
    rfl
  | some xs => exact h.1

theorem src_status_lines (gen : Nat → String) (n : Nat) (title : JsVal)
    (topics resources : Nat) (src_xmind : String) :
    own "title" (src_status gen n title topics resources src_xmind).1 = some title ∧
    (attachedOf (src_status gen n title topics resources src_xmind).1).map titleText =
      summaryLines topics resources src_xmind := by
  unfold src_status summaryLines
  by_cases hr : resources > 0
  · simp [hr, own, lookup, attachedOf, titleText, titleOf]
  · simp [hr, own, lookup, attachedOf, titleText, titleOf]

theorem title_deeply (gen : Nat → String) {root : JsVal} {t : String}
    (h : own "title" root = some (.str t)) (n : Nat) :
    (own "title" (deeply gen root n).1).getD .undefined = .str t := by
  obtain ⟨m, hm⟩ := (own_deeply (show "title" ≠ "id" by decide) index_ne_title gen root n).2 _ h
  rw [hm]
  rfl

/-- One call of `merge_content` on a source with a root topic puts one
summary on the merge log, after the entries that were there. -/
theorem summary_step {args : Args} {gen : Nat → String} {src : JsVal}
    {src_xmind : String} {resources : Nat} {s s1 : Session} {status : String}
    {sheet root log : JsVal} {A D L : List JsVal}
    (hm : MasterShape s.dst_xmind A log D L) (hsheet : getFirst src = .ok sheet)
    (hroot : own ROOT_TOPIC sheet = some root)
    (h : merge_content args gen (.ok src) src_xmind resources s = .ok (status, s1)) :
    ∃ A1 D1 log1 st, MasterShape s1.dst_xmind (A ++ A1) log1 (D ++ D1) (L ++ [st]) ∧
      A1.length = ((sourceList "attached" root).getD []).length ∧
      D1.length = ((sourceList "detached" root).getD []).length ∧
      IsSummary st root (A1.length + D1.length) resources src_xmind := by
  obtain ⟨A1, D1, log1, n, hshape, hframe, hia, hid, _⟩ := merge_content_spec hm hsheet hroot h
  refine ⟨A1, D1, log1, _, hshape, importedFrom_length hia, importedFrom_length hid, ?_, ?_⟩
  · intro t ht
    rw [(src_status_lines gen n _ _ resources src_xmind).1, title_deeply gen ht]
  · exact (src_status_lines gen n _ _ resources src_xmind).2

theorem sourceRoot_some {parsed : Except String JsVal} {root : JsVal}
    (h : sourceRoot parsed = some root) :
    ∃ src sheet, parsed = .ok src ∧ getFirst src = .ok sheet ∧
      own ROOT_TOPIC sheet = some root := by
  unfold sourceRoot at h
  cases parsed with
  | error e => simp [bind, Except.bind] at h
  | ok src =>
    cases hs : getFirst src with
    | error e => simp [bind, Except.bind, hs] at h
    | ok sheet =>
      simp only [bind, Except.bind, hs] at h
      exact ⟨src, sheet, rfl, hs, h⟩

/-- A source whose content does not parse or has no root topic: the call
returns the status `x`, logs one message and leaves the master as it is. -/
theorem merge_content_failed (args : Args) (gen : Nat → String)
    {parsed : Except String JsVal} (src_xmind : String) (resources : Nat) (s : Session)
    (h : sourceRoot parsed = none) :
    ∃ msg, merge_content args gen parsed src_xmind resources s =
      .ok ("x", Session.mk s.dst_xmind (s.src_errors ++ [msg]) s.issued) := by
  unfold sourceRoot at h
  unfold merge_content
  cases hp : parsed >>= getFirst with
  | error e => exact ⟨_, rfl⟩
  | ok sheet =>
    rw [hp] at h
    simp only at h
    simp only [has, h, Option.isSome_none, Bool.false_eq_true, if_false]
    exact ⟨_, rfl⟩

theorem topCount_of_shape {d log : JsVal} {A D L : List JsVal} (h : MasterShape d A log D L) :
    topCount d = A.length + (log :: D).length := by
  obtain ⟨c, pa, pd, hc, ha, hd⟩ := masterShape_reads h
  simp [topCount, topAttached, topDetached, hc, getProp_of_own ha, getProp_of_own hd,
    listCount, bind, Except.bind]

theorem sourceRoot_of {src sheet root : JsVal} (hsheet : getFirst src = .ok sheet)
    (hroot : own ROOT_TOPIC sheet = some root) : sourceRoot (.ok src) = some root := by
  simp [sourceRoot, bind, Except.bind, hsheet, hroot]

end XmindMerge

namespace XmindMerge

/-! ## Properties: `merge_content` returns -/

theorem topicTreeProps_reissue (gen : Nat → String) (ps : Props) (n : Nat) :
    topicTreeProps (reissue gen ps n).1 = topicTreeProps ps := by
  induction ps generalizing n with
  | nil => rfl
  | cons p rest ih =>
    obtain ⟨k, v⟩ := p
    by_cases h1 : k = "id"
    · subst h1
      simp [reissue, topicTreeProps, ih]
    · by_cases h2 : k = "children"
      · subst h2
        simp [reissue, topicTreeProps]
      · simp [reissue, topicTreeProps, h1, h2, ih]

theorem topicTreeAt_reissue {key : String} (hk : key ≠ "id") (gen : Nat → String) (ps : Props)
    (n : Nat) : topicTreeAt key (reissue gen ps n).1 = topicTreeAt key ps := by
  induction ps generalizing n with
  | nil => rfl
  | cons p rest ih =>
    obtain ⟨k, v⟩ := p
    by_cases h1 : k = "id"
    · subst h1
      simp [reissue, topicTreeAt, Ne.symm hk, ih]
    · by_cases h2 : k = key
      · subst h2
        simp [reissue, topicTreeAt, h1]
      · simp [reissue, topicTreeAt, h1, h2, ih]

mutual
/-- The cleaned form of a well-formed topic tree is a well-formed topic
tree. -/
theorem deeply_topicTree (gen : Nat → String) :
    ∀ (x : JsVal) (n : Nat), topicTree x = true → topicTree (deeply gen x n).1 = true
  | .obj ps, n, h => by
    simp only [deeply, topicTree, topicTreeProps_reissue]
    exact deeplyProps_topicTree gen ps n (by simpa [topicTree] using h)
  | .arr _ _, _, h => by simp [topicTree] at h
  | .undefined, _, h => by simp [topicTree] at h
  | .null, _, h => by simp [topicTree] at h
  | .bool _, _, h => by simp [topicTree] at h
  | .num _, _, h => by simp [topicTree] at h
  | .str _, _, h => by simp [topicTree] at h
theorem deeplyProps_topicTree (gen : Nat → String) :
    ∀ (ps : Props) (n : Nat), topicTreeProps ps = true →
    topicTreeProps (deeplyProps gen ps n).1 = true
  | [], _, _ => rfl
  | (k, v) :: rest, n, h => by
    simp only [deeplyProps, topicTreeProps] at h ⊢
    split
    · rename_i hk
      rw [if_pos hk] at h
      exact deeplyValue_topicTreeIn gen v n h
    · rename_i hk
      rw [if_neg hk] at h
      exact deeplyProps_topicTree gen rest _ h
theorem deeplyValue_topicTreeIn (gen : Nat → String) :
    ∀ (v : JsVal) (n : Nat), topicTreeIn v = true → topicTreeIn (deeplyValue gen v n).1 = true
  | .obj cps, n, h => by
    simp only [topicTreeIn, Bool.and_eq_true] at h
    simp only [deeplyValue, topicTreeIn, Bool.and_eq_true,
      topicTreeAt_reissue (show "attached" ≠ "id" by decide),
      topicTreeAt_reissue (show "detached" ≠ "id" by decide)]
    exact ⟨deeplyProps_topicTreeAt gen "attached" cps n h.1,
      deeplyProps_topicTreeAt gen "detached" cps n h.2⟩
  | .arr _ _, _, h => by simp [topicTreeIn] at h
  | .undefined, _, h => by simp [topicTreeIn] at h
  | .null, _, h => by simp [topicTreeIn] at h
  | .bool _, _, h => by simp [topicTreeIn] at h
  | .num _, _, h => by simp [topicTreeIn] at h
  | .str _, _, h => by simp [topicTreeIn] at h
theorem deeplyProps_topicTreeAt (gen : Nat → String) (key : String) :
    ∀ (cps : Props) (n : Nat), topicTreeAt key cps = true →
    topicTreeAt key (deeplyProps gen cps n).1 = true
  | [], _, _ => rfl
  | (k, v) :: rest, n, h => by
    simp only [deeplyProps, topicTreeAt] at h ⊢
    split
    · rename_i hk
      rw [if_pos hk] at h
      exact deeplyValue_topicTreeArray gen v n h
    · rename_i hk
      rw [if_neg hk] at h
      exact deeplyProps_topicTreeAt gen key rest _ h
theorem deeplyValue_topicTreeArray (gen : Nat → String) :
    ∀ (a : JsVal) (n : Nat), topicTreeArray a = true →
    topicTreeArray (deeplyValue gen a n).1 = true
  | .arr xs ps, n, h => by
    simp only [deeplyValue, topicTreeArray]
    exact deeplyItems_topicTree gen xs n (by simpa [topicTreeArray] using h)
  | .obj _, _, h => by simp [topicTreeArray] at h
  | .undefined, _, h => by simp [topicTreeArray] at h
  | .null, _, h => by simp [topicTreeArray] at h
  | .bool _, _, h => by simp [topicTreeArray] at h
  | .num _, _, h => by simp [topicTreeArray] at h
  | .str _, _, h => by simp [topicTreeArray] at h
theorem deeplyItems_topicTree (gen : Nat → String) :
    ∀ (xs : List JsVal) (n : Nat), topicTreeList xs = true →
    topicTreeList (deeplyItems gen xs n).1 = true
  | [], _, _ => rfl
  | x :: xs, n, h => by
    simp only [topicTreeList, Bool.and_eq_true] at h
    simp only [deeplyItems, topicTreeList, Bool.and_eq_true]
    exact ⟨deeply_topicTree gen x n h.1, deeplyItems_topicTree gen xs _ h.2⟩
end

theorem deeplyItems_objects (gen : Nat → String) (xs : List JsVal) (n : Nat) :
    ∀ t ∈ (deeplyItems gen xs n).1, ∃ ps, t = .obj ps := by
  induction xs generalizing n with
  | nil => simp [deeplyItems]
  | cons x xs ih =>
    intro t ht
    simp only [deeplyItems, List.mem_cons] at ht
    rcases ht with rfl | ht
    · exact deeply_obj gen x n
    · exact ih _ t ht

/-- Without a deeper merge `add_src_attr` returns on any list of objects. -/
theorem add_src_attr_flat_total (L : String) (ts : List JsVal) (errs : List String)
    (h : ∀ t ∈ ts, ∃ ps, t = .obj ps) : ∃ r, add_src_attr false L ts errs = .ok r := by
  induction ts generalizing errs with
  | nil => exact ⟨_, rfl⟩
  | cons t ts ih =>
    obtain ⟨ps, rfl⟩ := h t (by simp)
    obtain ⟨r, hr⟩ := annotate_obj_total L ps errs
    obtain ⟨r2, hr2⟩ := ih r.2 (fun u hu => h u (by simp [hu]))
    simp only [add_src_attr, add_src_attr_topic, hr, hr2, Bool.false_eq_true, if_false]
    exact ⟨_, rfl⟩

/-- The attribution step returns on the cleaned form of a list of the source
root topic: always without a deeper merge, and with one when the topics of
the list are well-formed topic trees. -/
theorem attribute_topics_total (args : Args) (gen : Nat → String) (src_xmind : String)
    (xs : List JsVal) (n : Nat) (errs : List String)
    (h : args.src_attr = true → args.deeper = true → topicTreeList xs = true) :
    ∃ r, attribute_topics args src_xmind (deeplyItems gen xs n).1 errs = .ok r := by
  unfold attribute_topics
  by_cases ha : args.src_attr = true
  · rw [if_pos ha]
    by_cases hd : args.deeper = true
    · rw [hd]
      exact add_src_attr_total true src_xmind _ errs (deeplyItems_topicTree gen xs n (h ha hd))
    · have hf : args.deeper = false := by simpa using hd
      rw [hf]
      exact add_src_attr_flat_total src_xmind _ errs (deeplyItems_objects gen xs n)
  · rw [if_neg ha]
    exact ⟨_, rfl⟩

/-- One of the two append blocks returns, on a master to which a list can be
appended under `key`. -/
theorem append_list_total {args : Args} (gen : Nat → String) (src_xmind : String)
    {key : String} (hid : key ≠ "id") {root : JsVal} {n : Nat} {s : Session}
    {P : JsVal → List JsVal → Prop}
    (happ : ∃ c old, topChildren s.dst_xmind = .ok c ∧ getProp c key = .ok old ∧
      ∀ (X : List JsVal) (ps : Props), ∃ d1,
        setTopList s.dst_xmind key (concat old (.arr X ps)) = .ok d1 ∧ P d1 X)
    (hsafe : args.src_attr = true → args.deeper = true →
      ∀ xs, sourceList key root = some xs → topicTreeList xs = true) :
    ∃ r, append_list args src_xmind key (deeply gen root n).1 s = .ok r := by
  unfold append_list
  cases hs : sourceList key root with
  | none =>
    have hn := cleanList_none hid gen n hs
    split
    · rename_i topics ps heq
      exact absurd heq (hn topics ps)
    · exact ⟨_, rfl⟩
  | some xs =>
    obtain ⟨m, hm⟩ := cleanList_some hid gen n hs
    rw [hm]
    obtain ⟨r, hr⟩ := attribute_topics_total args gen src_xmind xs m s.src_errors
      (fun ha hd => hsafe ha hd xs hs)
    obtain ⟨c, old, hc, ho, hall⟩ := happ
    obtain ⟨d1, hset, _⟩ := hall r.1 []
    simp [hr, hc, ho, hset, bind, Except.bind, pure, Except.pure]

end XmindMerge

namespace XmindMerge

theorem bind_error {ε α β : Type} {x : Except ε α} {f : α → Except ε β} {e : ε} :
    (x >>= f) = .error e ↔ x = .error e ∨ ∃ a, x = .ok a ∧ f a = .error e := by
  cases x with
  | error e1 => simp [bind, Except.bind]
  | ok a => simp [bind, Except.bind]

/-- On a master with a merge log `merge_content` returns: always when no
deeper attribution is configured, and with one when the topics of the two
lists of the source root topic are well-formed topic trees. -/
theorem merge_content_total (args : Args) (gen : Nat → String) {parsed : Except String JsVal}
    (src_xmind : String) (resources : Nat) {s : Session} {log : JsVal} {A D L : List JsVal}
    (hm : MasterShape s.dst_xmind A log D L)
    (hsafe : args.src_attr = true → args.deeper = true → WellFormedSource parsed) :
    ∃ r, merge_content args gen parsed src_xmind resources s = .ok r := by
  cases hroot : sourceRoot parsed with
  | none =>
    obtain ⟨msg, hf⟩ := merge_content_failed args gen src_xmind resources s hroot
    exact ⟨_, hf⟩
  | some root =>
    obtain ⟨src, sheet, rfl, hsheet, hown⟩ := sourceRoot_some hroot
    have hs : ∀ key, args.src_attr = true → args.deeper = true →
        ∀ xs, sourceList key root = some xs → topicTreeList xs = true :=
      fun key ha hd xs hx => hsafe ha hd root hroot key xs hx
    cases hres : merge_content args gen (.ok src) src_xmind resources s with
    | ok r => exact ⟨r, rfl⟩
    | error e =>
      exfalso
      have e0 : ((Except.ok src : Except String JsVal) >>= getFirst) = .ok sheet := hsheet
      unfold merge_content at hres
      rw [e0] at hres
      simp only [has_of_own hown, if_true, bind_error, pure, Except.pure] at hres
      rw [getProp_of_own hown] at hres
      simp only [false_or, Except.ok.injEq, exists_eq_left', reduceCtorEq] at hres
      rcases hres with ha | ⟨ra, ha, hres⟩
      · obtain ⟨r, hr⟩ := append_list_total gen src_xmind (n := s.issued)
          (s := Session.mk s.dst_xmind s.src_errors (deeply gen root s.issued).2)
          (P := fun d X => MasterShape d (A ++ X) log D L)
          (show "attached" ≠ "id" by decide)
          (masterShape_append_attached hm) (hs "attached")
        rw [hr] at ha
        exact absurd ha (by simp)
      · obtain ⟨X, sa, hPa, hia, hima, _, hra⟩ :=
          append_list_spec (P := fun d X => MasterShape d (A ++ X) log D L)
            (s := Session.mk s.dst_xmind s.src_errors (deeply gen root s.issued).2)
            (show "attached" ≠ "id" by decide)
            (masterShape_append_attached hm) (by simpa using hm) ha
        cases hsa : sourceList "attached" root with
        | none =>
          rw [hsa] at hra
          simp only [Option.map_none'] at hra
          subst hra
          simp only at hres
          rcases hres with hd | ⟨rd, hd, hres⟩
          · obtain ⟨r, hr⟩ := append_list_total gen src_xmind (n := s.issued)
              (s := Session.mk s.dst_xmind (s.src_errors ++
                ["No attached subtopics found in \x27" ++ src_xmind ++ "\x27"])
                (deeply gen root s.issued).2)
              (P := fun d Y => MasterShape d A log (D ++ Y) L)
              (show "detached" ≠ "id" by decide)
              (masterShape_append_detached hm) (hs "detached")
            rw [hr] at hd
            exact absurd hd (by simp)
          · obtain ⟨Y, sd, hPd, hid, himd, _, hrd⟩ :=
              append_list_spec (P := fun d Y => MasterShape d A log (D ++ Y) L)
                (s := Session.mk s.dst_xmind (s.src_errors ++
                  ["No attached subtopics found in \x27" ++ src_xmind ++ "\x27"])
                  (deeply gen root s.issued).2)
                (show "detached" ≠ "id" by decide)
                (masterShape_append_detached hm) (by simpa using hm) hd
            cases hsd : sourceList "detached" root with
            | none =>
              rw [hsd] at hrd
              simp only [Option.map_none'] at hrd
              subst hrd
              simp only [or_false] at hres
              obtain ⟨d1, log1, hp, _⟩ := masterShape_push hm
                (src_status gen (deeply gen root s.issued).2
                  ((own "title" (deeply gen root s.issued).1).getD .undefined) 0 resources
                  src_xmind).1
              rw [hp] at hres
              exact absurd hres (by simp)
            | some ys =>
              rw [hsd] at hrd
              simp only [Option.map_some'] at hrd
              subst hrd
              simp only [or_false] at hres
              obtain ⟨d1, log1, hp, _⟩ := masterShape_push hPd
                (src_status gen sd.issued
                  ((own "title" (deeply gen root s.issued).1).getD .undefined) (0 + Y.length)
                  resources src_xmind).1
              rw [hp] at hres
              exact absurd hres (by simp)
        | some xs =>
          rw [hsa] at hra
          simp only [Option.map_some'] at hra
          subst hra
          simp only at hres
          rcases hres with hd | ⟨rd, hd, hres⟩
          · obtain ⟨r, hr⟩ := append_list_total gen src_xmind (n := s.issued) (s := sa)
              (P := fun d Y => MasterShape d (A ++ X) log (D ++ Y) L)
              (show "detached" ≠ "id" by decide)
              (masterShape_append_detached hPa) (hs "detached")
            rw [hr] at hd
            exact absurd hd (by simp)
          · obtain ⟨Y, sd, hPd, hid, himd, _, hrd⟩ :=
              append_list_spec (P := fun d Y => MasterShape d (A ++ X) log (D ++ Y) L)
                (show "detached" ≠ "id" by decide)
                (masterShape_append_detached hPa) (by simpa using hPa) hd
            cases hsd : sourceList "detached" root with
            | none =>
              rw [hsd] at hrd
              simp only [Option.map_none'] at hrd
              subst hrd
              simp only [or_false] at hres
              obtain ⟨d1, log1, hp, _⟩ := masterShape_push hPa
                (src_status gen sa.issued
                  ((own "title" (deeply gen root s.issued).1).getD .undefined) X.length
                  resources src_xmind).1
              rw [hp] at hres
              exact absurd hres (by simp)
            | some ys =>
              rw [hsd] at hrd
              simp only [Option.map_some'] at hrd
              subst hrd
              simp only [or_false] at hres
              obtain ⟨d1, log1, hp, _⟩ := masterShape_push hPd
                (src_status gen sd.issued
                  ((own "title" (deeply gen root s.issued).1).getD .undefined)
                  (X.length + Y.length) resources src_xmind).1
              rw [hp] at hres
              exact absurd hres (by simp)

end XmindMerge

namespace XmindMerge

/-! ## Properties: a sequence of merges -/

/-- One call of `merge_content` on a master with a merge log returns and
leaves a master with a merge log, whose top-level lists have grown by what
the source contributes. -/
theorem merge_content_shape (args : Args) (gen : Nat → String) (src : Source) {s : Session}
    {log : JsVal} {A D L : List JsVal} (hm : MasterShape s.dst_xmind A log D L)
    (hsafe : args.src_attr = true → args.deeper = true → WellFormedSource src.parsed) :
    ∃ status s1 A1 log1 D1 L1,
      merge_content args gen src.parsed src.name src.resources s = .ok (status, s1) ∧
      MasterShape s1.dst_xmind A1 log1 D1 L1 ∧
      A1.length + D1.length = A.length + D.length + mergedCount src := by
  obtain ⟨r, hr⟩ := merge_content_total args gen src.name src.resources hm hsafe
  cases hroot : sourceRoot src.parsed with
  | none =>
    obtain ⟨msg, hf⟩ := merge_content_failed args gen src.name src.resources s hroot
    exact ⟨_, _, A, log, D, L, hf, hm, by simp [mergedCount, hroot]⟩
  | some root =>
    obtain ⟨v, sheet, hv, hsheet, hown⟩ := sourceRoot_some hroot
    rw [hv] at hr
    obtain ⟨X, Y, log0, n, hshape, _, hia, hid, _⟩ :=
      merge_content_spec hm hsheet hown (show _ = Except.ok (r.1, r.2) from hr)
    have e1 := importedFrom_length hia
    have e2 := importedFrom_length hid
    refine ⟨r.1, r.2, _, _, _, _, by rw [hv]; exact hr, hshape, ?_⟩
    simp only [mergedCount, hroot, List.length_append]
    omega

/-- Any sequence of merges into a master with a merge log returns and leaves
a master with a merge log, whose top-level lists have grown by what the
sources contribute. -/
theorem merge_all_shape (args : Args) (gen : Nat → String) :
    ∀ (sources : List Source) (s : Session) (log : JsVal) (A D L : List JsVal),
      MasterShape s.dst_xmind A log D L →
      (∀ src ∈ sources, args.src_attr = true → args.deeper = true →
        WellFormedSource src.parsed) →
      ∃ statuses s1 A1 log1 D1 L1, merge_all args gen sources s = .ok (statuses, s1) ∧
        statuses.length = sources.length ∧
        MasterShape s1.dst_xmind A1 log1 D1 L1 ∧
        A1.length + D1.length = A.length + D.length + (sources.map mergedCount).sum
  | [], s, log, A, D, L, hm, _ => ⟨[], s, A, log, D, L, rfl, rfl, hm, by simp⟩
  | src :: rest, s, log, A, D, L, hm, hsafe => by
    obtain ⟨status, s1, A1, log1, D1, L1, h1, hs1, hl1⟩ :=
      merge_content_shape args gen src hm (hsafe src (by simp))
    obtain ⟨statuses, s2, A2, log2, D2, L2, h2, hn2, hs2, hl2⟩ :=
      merge_all_shape args gen rest s1 log1 A1 D1 L1 hs1
        (fun x hx => hsafe x (by simp [hx]))
    refine ⟨status :: statuses, s2, A2, log2, D2, L2, ?_, by simp [hn2], hs2, ?_⟩
    · simp only [merge_all, h1, h2]
    · simp only [List.map_cons, List.sum_cons]
      omega

end XmindMerge

namespace XmindMerge

/-! ## Properties: `merge_content` appends in order -/

/-- C16, as stated, fails.  After this call of `merge_content` the top-level
detached list is not its previous value followed by the topics of the
source: its first topic, the merge log, was the topic `Merge Log` without
entries and now holds the summary of the source. -/
theorem detached_list_not_previous_value :
    merge_content { src_attr := false, deeper := false, sort_topics := false, fold := false }
        sampleGen (.ok (workbook [leaf "Plan"] [leaf "Note"])) "a.xmind" 0
        { dst_xmind := workbook [] [branch "Merge Log" []], src_errors := [], issued := 0 } =
      .ok ("+", Session.mk (workbook [leaf "Plan"]
        [branch "Merge Log" [.obj [("title", .str "Merged"), ("id", .str "u"),
          ("children", .obj [("attached", .arr [
            .obj [("title", .str "Merged 2 top-level topics"), ("id", .str "uu")],
            .obj [("title", .str "Source file was a.xmind"), ("id", .str "uuu")]] [])])]],
         leaf "Note"]) [] 3) ∧
    branch "Merge Log" [.obj [("title", .str "Merged"), ("id", .str "u"),
          ("children", .obj [("attached", .arr [
            .obj [("title", .str "Merged 2 top-level topics"), ("id", .str "uu")],
            .obj [("title", .str "Source file was a.xmind"), ("id", .str "uuu")]] [])])]] ≠
      branch "Merge Log" [] := by
  constructor <;> decide

/-- C16, amended.  On a master with the top-level attached topics `A` and
the top-level detached topics `log :: D`, the first being the merge log, a
call of `merge_content` on a source with a root topic returns (with a deeper
attribution, when the source is well-formed) and leaves the top-level
attached topics `A ++ A1` and the top-level detached topics
`log1 :: (D ++ D1)`.  Here `A1` and `D1` are the topics of the lists
`children.attached` and `children.detached` of the source root topic, in
their order, each with new identifiers and, when configured, the attribution
(none for a list the source does not have); and `log1` is the merge log,
changed in its `children` only.  The topics that were in the master keep
their positions. -/
theorem merge_content_appends (args : Args) (gen : Nat → String) (src sheet root log : JsVal)
    (src_xmind : String) (resources : Nat) (s : Session) (A D L : List JsVal)
    (hm : MasterShape s.dst_xmind A log D L)
    (hsheet : getFirst src = .ok sheet) (hroot : own ROOT_TOPIC sheet = some root)
    (hsafe : args.src_attr = true → args.deeper = true → WellFormedSource (.ok src)) :
    ∃ status s1 A1 D1 log1 L1,
      merge_content args gen (.ok src) src_xmind resources s = .ok (status, s1) ∧
      MasterShape s1.dst_xmind (A ++ A1) log1 (D ++ D1) L1 ∧
      (∀ k, k ≠ "children" → own k log1 = own k log) ∧
      ImportedFrom args gen src_xmind (sourceList "attached" root) A1 ∧
      ImportedFrom args gen src_xmind (sourceList "detached" root) D1 ∧
      A1.length = ((sourceList "attached" root).getD []).length ∧
      D1.length = ((sourceList "detached" root).getD []).length := by
  obtain ⟨r, hr⟩ := merge_content_total args gen src_xmind resources hm hsafe
  obtain ⟨A1, D1, log1, n, hshape, hframe, hia, hid, _⟩ :=
    merge_content_spec hm hsheet hroot (show _ = Except.ok (r.1, r.2) from hr)
  exact ⟨r.1, r.2, A1, D1, log1, _, hr, hshape, hframe, hia, hid, importedFrom_length hia,
    importedFrom_length hid⟩

theorem merge_content_appends_witness :
    ∃ status s1 A1 D1 log1 L1,
      merge_content { src_attr := true, deeper := true, sort_topics := false, fold := false }
        sampleGen (.ok (workbook [leaf "Plan"] [leaf "Note"])) "a.xmind" 0
        (Session.mk (workbook [] [branch "Merge Log" []]) [] 0) = .ok (status, s1) ∧
      MasterShape s1.dst_xmind ([] ++ A1) log1 ([] ++ D1) L1 ∧
      (∀ k, k ≠ "children" → own k log1 = own k (branch "Merge Log" [])) ∧
      ImportedFrom { src_attr := true, deeper := true, sort_topics := false, fold := false }
        sampleGen "a.xmind" (sourceList "attached" (.obj [("title", .str "Merged"),
          ("children", .obj [("attached", .arr [leaf "Plan"] []),
            ("detached", .arr [leaf "Note"] [])])])) A1 ∧
      ImportedFrom { src_attr := true, deeper := true, sort_topics := false, fold := false }
        sampleGen "a.xmind" (sourceList "detached" (.obj [("title", .str "Merged"),
          ("children", .obj [("attached", .arr [leaf "Plan"] []),
            ("detached", .arr [leaf "Note"] [])])])) D1 ∧
      A1.length = ((sourceList "attached" (.obj [("title", .str "Merged"),
          ("children", .obj [("attached", .arr [leaf "Plan"] []),
            ("detached", .arr [leaf "Note"] [])])])).getD []).length ∧
      D1.length = ((sourceList "detached" (.obj [("title", .str "Merged"),
          ("children", .obj [("attached", .arr [leaf "Plan"] []),
            ("detached", .arr [leaf "Note"] [])])])).getD []).length :=
  merge_content_appends
    { src_attr := true, deeper := true, sort_topics := false, fold := false } sampleGen
    (workbook [leaf "Plan"] [leaf "Note"])
    (.obj [("rootTopic", .obj [("title", .str "Merged"),
      ("children", .obj [("attached", .arr [leaf "Plan"] []),
        ("detached", .arr [leaf "Note"] [])])])])
    (.obj [("title", .str "Merged"),
      ("children", .obj [("attached", .arr [leaf "Plan"] []),
        ("detached", .arr [leaf "Note"] [])])])
    (branch "Merge Log" []) "a.xmind" 0
    (Session.mk (workbook [] [branch "Merge Log" []]) [] 0) [] [] []
    ⟨_, _, _, [], [], _, [], rfl, rfl, rfl, rfl, rfl, rfl, rfl⟩
    (by decide) (by decide)
    (by
      intro _ _ root hroot key xs hx
      have hr : sourceRoot (.ok (workbook [leaf "Plan"] [leaf "Note"])) =
          some (.obj [("title", .str "Merged"),
            ("children", .obj [("attached", .arr [leaf "Plan"] []),
              ("detached", .arr [leaf "Note"] [])])]) := by decide
      rw [hr] at hroot
      cases hroot
      by_cases ha : key = "attached"
      · subst ha
        have : sourceList "attached" (.obj [("title", .str "Merged"),
            ("children", .obj [("attached", .arr [leaf "Plan"] []),
              ("detached", .arr [leaf "Note"] [])])]) = some [leaf "Plan"] := by decide
        rw [this] at hx
        cases hx
        decide
      · by_cases hd : key = "detached"
        · subst hd
          have : sourceList "detached" (.obj [("title", .str "Merged"),
              ("children", .obj [("attached", .arr [leaf "Plan"] []),
                ("detached", .arr [leaf "Note"] [])])]) = some [leaf "Note"] := by decide
          rw [this] at hx
          cases hx
          decide
        · simp [sourceList, own, lookup, Ne.symm ha, Ne.symm hd] at hx)

/-! ## Properties: count conservation -/

/-- C17, as stated, fails.  The template holds one top-level topic, the
merge log; after the merge of one source with one attached topic the master
holds two top-level topics, while the sources contribute one. -/
theorem template_topics_are_counted :
    merge_all { src_attr := false, deeper := false, sort_topics := false, fold := false }
        sampleGen
        [{ parsed := .ok (.arr [.obj [("rootTopic", .obj [("title", .str "Two"),
            ("children", .obj [("attached", .arr [leaf "Q"] [])])])]] []),
           name := "b.xmind", resources := 0 }]
        (Session.mk (workbook [] [branch "Merge Log" []]) [] 0) =
      .ok (["+"], Session.mk (workbook [leaf "Q"]
        [branch "Merge Log" [.obj [("title", .str "Two"), ("id", .str "u"),
          ("children", .obj [("attached", .arr [
            .obj [("title", .str "Merged 1 top-level topics"), ("id", .str "uu")],
            .obj [("title", .str "Source file was b.xmind"), ("id", .str "uuu")]] [])])]]])
        [] 3) ∧
    topCount (workbook [leaf "Q"]
        [branch "Merge Log" [.obj [("title", .str "Two"), ("id", .str "u"),
          ("children", .obj [("attached", .arr [
            .obj [("title", .str "Merged 1 top-level topics"), ("id", .str "uu")],
            .obj [("title", .str "Source file was b.xmind"), ("id", .str "uuu")]] [])])]]]) = 2 ∧
    ([{ parsed := .ok (.arr [.obj [("rootTopic", .obj [("title", .str "Two"),
            ("children", .obj [("attached", .arr [leaf "Q"] [])])])]] []),
        name := "b.xmind", resources := 0 }].map mergedCount).sum = 1 := by
  refine ⟨by decide, by decide, by decide⟩

/-- C17, amended.  For every sequence of sources merged into a master
initialised from a template with a merge log, the merges return (with a
deeper attribution, when the sources are well-formed), with one status for
each source, and the number of top-level attached plus detached topics in
the master before consolidation equals the number of top-level attached plus
detached topics of the template plus the sum, over the sources, of their
top-level attached plus detached counts, a source whose content does not
parse or has no root topic counting for nothing. -/
theorem merge_all_count_conservation (args : Args) (gen : Nat → String)
    (sources : List Source) (template log : JsVal) (A D L : List JsVal) (errs : List String)
    (hm : MasterShape template A log D L)
    (hsafe : ∀ src ∈ sources, args.src_attr = true → args.deeper = true →
      WellFormedSource src.parsed) :
    ∃ statuses s, merge_all args gen sources (Session.mk template errs 0) = .ok (statuses, s) ∧
      statuses.length = sources.length ∧
      topCount s.dst_xmind = topCount template + (sources.map mergedCount).sum := by
  obtain ⟨statuses, s, A1, log1, D1, L1, h, hn, hs, hlen⟩ :=
    merge_all_shape args gen sources (Session.mk template errs 0) log A D L hm hsafe
  refine ⟨statuses, s, h, hn, ?_⟩
  rw [topCount_of_shape hs, topCount_of_shape hm]
  simp only [List.length_cons]
  omega

theorem merge_all_count_conservation_witness :
    ∃ statuses s, merge_all
        { src_attr := false, deeper := false, sort_topics := false, fold := false } sampleGen
        [{ parsed := .error "Unexpected end of JSON input", name := "a.xmind", resources := 0 },
         { parsed := .ok (.arr [.obj [("rootTopic", .obj [("title", .str "Two"),
             ("children", .obj [("attached", .arr [leaf "Q"] [])])])]] []),
           name := "b.xmind", resources := 0 }]
        (Session.mk (workbook [] [branch "Merge Log" []]) [] 0) = .ok (statuses, s) ∧
      statuses.length =
        [({ parsed := .error "Unexpected end of JSON input", name := "a.xmind",
            resources := 0 } : Source),
         { parsed := .ok (.arr [.obj [("rootTopic", .obj [("title", .str "Two"),
             ("children", .obj [("attached", .arr [leaf "Q"] [])])])]] []),
           name := "b.xmind", resources := 0 }].length ∧
      topCount s.dst_xmind = topCount (workbook [] [branch "Merge Log" []]) +
        ([{ parsed := .error "Unexpected end of JSON input", name := "a.xmind", resources := 0 },
          { parsed := .ok (.arr [.obj [("rootTopic", .obj [("title", .str "Two"),
              ("children", .obj [("attached", .arr [leaf "Q"] [])])])]] []),
            name := "b.xmind", resources := 0 }].map mergedCount).sum :=
  merge_all_count_conservation
    { src_attr := false, deeper := false, sort_topics := false, fold := false } sampleGen
    [{ parsed := .error "Unexpected end of JSON input", name := "a.xmind", resources := 0 },
     { parsed := .ok (.arr [.obj [("rootTopic", .obj [("title", .str "Two"),
         ("children", .obj [("attached", .arr [leaf "Q"] [])])])]] []),
       name := "b.xmind", resources := 0 }]
    (workbook [] [branch "Merge Log" []]) (branch "Merge Log" []) [] [] [] []
    ⟨_, _, _, [], [], _, [], rfl, rfl, rfl, rfl, rfl, rfl, rfl⟩
    (fun _ _ h => absurd h (by decide))

/-! ## Properties: the status of a merge -/

/-- Status classification of `merge_content` where it returns.  On a master
with a merge log the call returns (with a deeper attribution, when the topics
of the two lists of the source root topic are well-formed topic trees).  It returns `x`
exactly when the source has no root topic, that is when the content does not
parse or its first sheet has no field `rootTopic`; `?` exactly when the
source has a root topic without a list `children.attached`; and `+` exactly
when the source has a root topic with such a list.  When the root topic has
no list `children.detached`, nothing is logged for that: the log grows by the
message on the missing attached topics when the status is `?`, and, without
source attribution, by nothing when it is `+`. -/
theorem merge_content_status (args : Args) (gen : Nat → String)
    (parsed : Except String JsVal) (src_xmind : String) (resources : Nat) (s : Session)
    (log : JsVal) (A D L : List JsVal) (hm : MasterShape s.dst_xmind A log D L)
    (hsafe : args.src_attr = true → args.deeper = true → WellFormedSource parsed) :
    ∃ status s1, merge_content args gen parsed src_xmind resources s = .ok (status, s1) ∧
      (status = "x" ↔ sourceRoot parsed = none) ∧
      (status = "?" ↔
        ∃ root, sourceRoot parsed = some root ∧ sourceList "attached" root = none) ∧
      (status = "+" ↔
        ∃ root, sourceRoot parsed = some root ∧ (sourceList "attached" root).isSome = true) ∧
      ∀ root, sourceRoot parsed = some root → sourceList "detached" root = none →
        ∃ ma, s1.src_errors = s.src_errors ++ ma ∧
          (sourceList "attached" root = none → ma = [noAttachedMessage src_xmind]) ∧
          ((sourceList "attached" root).isSome = true → args.src_attr = false → ma = []) := by
  obtain ⟨r, hr⟩ := merge_content_total args gen src_xmind resources hm hsafe
  refine ⟨r.1, r.2, hr, ?_⟩
  cases hroot : sourceRoot parsed with
  | none =>
    obtain ⟨msg, hf⟩ := merge_content_failed args gen src_xmind resources s hroot
    rw [hf] at hr
    cases hr
    simp
  | some root =>
    obtain ⟨src, sheet, rfl, hsheet, hown⟩ := sourceRoot_some hroot
    obtain ⟨A1, D1, log1, n, _, _, _, _, hst, ma, md, herr, h1, h2, h3, _⟩ :=
      merge_content_spec hm hsheet hown (show _ = Except.ok (r.1, r.2) from hr)
    cases hsa : sourceList "attached" root with
    | none =>
      rw [hsa] at hst h1
      simp only [Option.isSome_none, Bool.false_eq_true, if_false] at hst
      rw [hst]
      refine ⟨by simp, by simp [hsa], by simp [hsa], ?_⟩
      intro root1 hr1 hd1
      simp only [Option.some.injEq] at hr1
      subst hr1
      exact ⟨ma, by rw [herr, h3 hd1]; simp, fun _ => h1 rfl, fun e => by simp [hsa] at e⟩
    | some xs =>
      rw [hsa] at hst h2
      simp only [Option.isSome_some, if_true] at hst
      rw [hst]
      refine ⟨by simp, by simp [hsa], by simp [hsa], ?_⟩
      intro root1 hr1 hd1
      simp only [Option.some.injEq] at hr1
      subst hr1
      exact ⟨ma, by rw [herr, h3 hd1]; simp, fun e => by simp [hsa] at e, fun _ => h2 rfl⟩

theorem merge_content_status_witness :
    ∃ status s1, merge_content
        { src_attr := true, deeper := true, sort_topics := false, fold := false } sampleGen
        (.ok (.arr [.obj [("rootTopic", .obj [("title", .str "Two"),
          ("children", .obj [("detached", .arr [branch "N" [leaf "M"]] [])])])]] []))
        "b.xmind" 0 (Session.mk (workbook [] [branch "Merge Log" []]) [] 0) =
        .ok (status, s1) ∧
      (status = "x" ↔ sourceRoot (.ok (.arr [.obj [("rootTopic", .obj [("title", .str "Two"),
          ("children", .obj [("detached", .arr [branch "N" [leaf "M"]] [])])])]] [])) = none) ∧
      (status = "?" ↔
        ∃ root, sourceRoot (.ok (.arr [.obj [("rootTopic", .obj [("title", .str "Two"),
          ("children", .obj [("detached", .arr [branch "N" [leaf "M"]] [])])])]] [])) =
            some root ∧ sourceList "attached" root = none) ∧
      (status = "+" ↔
        ∃ root, sourceRoot (.ok (.arr [.obj [("rootTopic", .obj [("title", .str "Two"),
          ("children", .obj [("detached", .arr [branch "N" [leaf "M"]] [])])])]] [])) =
            some root ∧ (sourceList "attached" root).isSome = true) ∧
      ∀ root, sourceRoot (.ok (.arr [.obj [("rootTopic", .obj [("title", .str "Two"),
          ("children", .obj [("detached", .arr [branch "N" [leaf "M"]] [])])])]] [])) =
            some root → sourceList "detached" root = none →
        ∃ ma, s1.src_errors = (Session.mk (workbook [] [branch "Merge Log" []]) [] 0).src_errors
            ++ ma ∧
          (sourceList "attached" root = none → ma = [noAttachedMessage "b.xmind"]) ∧
          ((sourceList "attached" root).isSome = true →
            ({ src_attr := true, deeper := true, sort_topics := false, fold := false } :
              Args).src_attr = false → ma = []) :=
  merge_content_status
    { src_attr := true, deeper := true, sort_topics := false, fold := false } sampleGen
    (.ok (.arr [.obj [("rootTopic", .obj [("title", .str "Two"),
      ("children", .obj [("detached", .arr [branch "N" [leaf "M"]] [])])])]] []))
    "b.xmind" 0 (Session.mk (workbook [] [branch "Merge Log" []]) [] 0)
    (branch "Merge Log" []) [] [] []
    ⟨_, _, _, [], [], _, [], rfl, rfl, rfl, rfl, rfl, rfl, rfl⟩
    (by
      intro _ _ root hroot key xs hx
      have hr : root = .obj [("title", .str "Two"),
          ("children", .obj [("detached", .arr [branch "N" [leaf "M"]] [])])] := by
        have : sourceRoot (.ok (.arr [.obj [("rootTopic", .obj [("title", .str "Two"),
          ("children", .obj [("detached", .arr [branch "N" [leaf "M"]] [])])])]] [])) =
          some (.obj [("title", .str "Two"),
          ("children", .obj [("detached", .arr [branch "N" [leaf "M"]] [])])]) := by decide
        rw [this] at hroot
        exact (Option.some.inj hroot).symm
      subst hr
      by_cases hk : key = "detached"
      · subst hk
        have : sourceList "detached" (.obj [("title", .str "Two"),
          ("children", .obj [("detached", .arr [branch "N" [leaf "M"]] [])])]) =
          some [branch "N" [leaf "M"]] := by decide
        rw [this] at hx
        cases hx
        decide
      · simp [sourceList, own, lookup, hk, Ne.symm hk] at hx
        )

/-- The three statuses on examples: a content that does not parse, a root
topic without attached topics, and a root topic with attached topics and
without detached ones. -/
theorem status_examples :
    (merge_content { src_attr := false, deeper := false, sort_topics := false, fold := false }
        sampleGen (.error "Unexpected end of JSON input") "a.xmind" 0
        (Session.mk (workbook [] [branch "Merge Log" []]) [] 0)).map
          (fun r => (r.1, r.2.src_errors)) =
      .ok ("x", ["Unable to parse JSON in \x27a.xmind\x27: Unexpected end of JSON input"]) ∧
    (merge_content { src_attr := false, deeper := false, sort_topics := false, fold := false }
        sampleGen (.ok (.arr [.obj [("rootTopic", .obj [("title", .str "Two")])]] []))
        "b.xmind" 0
        (Session.mk (workbook [] [branch "Merge Log" []]) [] 0)).map
          (fun r => (r.1, r.2.src_errors)) =
      .ok ("?", ["No attached subtopics found in \x27b.xmind\x27"]) ∧
    (merge_content { src_attr := false, deeper := false, sort_topics := false, fold := false }
        sampleGen (.ok (.arr [.obj [("rootTopic", .obj [("title", .str "Two"),
          ("children", .obj [("attached", .arr [leaf "Q"] [])])])]] []))
        "c.xmind" 0
        (Session.mk (workbook [] [branch "Merge Log" []]) [] 0)).map
          (fun r => (r.1, r.2.src_errors)) =
      .ok ("+", []) := by
  refine ⟨by decide, by decide, by decide⟩

/-! ## Properties: the summary on the merge log -/

/-- The summaries of the calls that return.  On a master with a merge log,
the first of its top-level detached topics, with the entries `L`, a call of
`merge_content` on a source with a root topic returns (with a deeper
attribution, when the source is well-formed) and leaves the merge log with the entries `L` followed by one
summary `st1`; a second such call leaves it with `L`, `st1` and one more
summary `st2`.  Each summary carries the title of the root topic of its
source, and its attached topics are titled, in order, `Merged N top-level
topics`, where `N` is the number of top-level attached plus detached topics
appended from the source, then `Merged R resources` only when `R > 0`, then
`Source file was` followed by the file name. -/
theorem merge_content_summary (args : Args) (gen : Nat → String) (src sheet root : JsVal)
    (src_xmind : String) (resources : Nat) (src2 sheet2 root2 : JsVal) (src_xmind2 : String)
    (resources2 : Nat) (s : Session) (log : JsVal) (A D L : List JsVal)
    (hm : MasterShape s.dst_xmind A log D L)
    (hsheet : getFirst src = .ok sheet) (hroot : own ROOT_TOPIC sheet = some root)
    (hsafe : args.src_attr = true → args.deeper = true → WellFormedSource (.ok src))
    (hsheet2 : getFirst src2 = .ok sheet2) (hroot2 : own ROOT_TOPIC sheet2 = some root2)
    (hsafe2 : args.src_attr = true → args.deeper = true → WellFormedSource (.ok src2)) :
    ∃ status s1 A1 D1 log1 st1,
      merge_content args gen (.ok src) src_xmind resources s = .ok (status, s1) ∧
      MasterShape s1.dst_xmind (A ++ A1) log1 (D ++ D1) (L ++ [st1]) ∧
      A1.length = ((sourceList "attached" root).getD []).length ∧
      D1.length = ((sourceList "detached" root).getD []).length ∧
      IsSummary st1 root (A1.length + D1.length) resources src_xmind ∧
      ∃ status2 s2 A2 D2 log2 st2,
        merge_content args gen (.ok src2) src_xmind2 resources2 s1 = .ok (status2, s2) ∧
        MasterShape s2.dst_xmind (A ++ A1 ++ A2) log2 (D ++ D1 ++ D2) (L ++ [st1, st2]) ∧
        A2.length = ((sourceList "attached" root2).getD []).length ∧
        D2.length = ((sourceList "detached" root2).getD []).length ∧
        IsSummary st2 root2 (A2.length + D2.length) resources2 src_xmind2 := by
  obtain ⟨r, hr⟩ := merge_content_total args gen src_xmind resources hm hsafe
  obtain ⟨A1, D1, log1, st1, hs1, ha1, hd1, hsum1⟩ :=
    summary_step hm hsheet hroot (show _ = Except.ok (r.1, r.2) from hr)
  obtain ⟨r2, hr2⟩ := merge_content_total args gen src_xmind2 resources2 hs1 hsafe2
  obtain ⟨A2, D2, log2, st2, hs2, ha2, hd2, hsum2⟩ :=
    summary_step hs1 hsheet2 hroot2 (show _ = Except.ok (r2.1, r2.2) from hr2)
  exact ⟨r.1, r.2, A1, D1, log1, st1, hr, hs1, ha1, hd1, hsum1, r2.1, r2.2, A2, D2, log2, st2,
    hr2, by simpa using hs2, ha2, hd2, hsum2⟩

theorem merge_content_summary_witness :
    ∃ status s1 A1 D1 log1 st1,
      merge_content { src_attr := false, deeper := false, sort_topics := false, fold := false }
        sampleGen (.ok (workbook [leaf "Plan"] [leaf "Note"])) "a.xmind" 0
        (Session.mk (workbook [] [branch "Merge Log" []]) [] 0) = .ok (status, s1) ∧
      MasterShape s1.dst_xmind ([] ++ A1) log1 ([] ++ D1) ([] ++ [st1]) ∧
      A1.length = ((sourceList "attached" (.obj [("title", .str "Merged"),
          ("children", .obj [("attached", .arr [leaf "Plan"] []),
            ("detached", .arr [leaf "Note"] [])])])).getD []).length ∧
      D1.length = ((sourceList "detached" (.obj [("title", .str "Merged"),
          ("children", .obj [("attached", .arr [leaf "Plan"] []),
            ("detached", .arr [leaf "Note"] [])])])).getD []).length ∧
      IsSummary st1 (.obj [("title", .str "Merged"),
          ("children", .obj [("attached", .arr [leaf "Plan"] []),
            ("detached", .arr [leaf "Note"] [])])]) (A1.length + D1.length) 0 "a.xmind" ∧
      ∃ status2 s2 A2 D2 log2 st2,
        merge_content { src_attr := false, deeper := false, sort_topics := false, fold := false }
          sampleGen (.ok (.arr [.obj [("rootTopic", .obj [("title", .str "Two"),
            ("children", .obj [("attached", .arr [leaf "Q"] [])])])]] [])) "b.xmind" 2 s1 =
          .ok (status2, s2) ∧
        MasterShape s2.dst_xmind ([] ++ A1 ++ A2) log2 ([] ++ D1 ++ D2) ([] ++ [st1, st2]) ∧
        A2.length = ((sourceList "attached" (.obj [("title", .str "Two"),
          ("children", .obj [("attached", .arr [leaf "Q"] [])])])).getD []).length ∧
        D2.length = ((sourceList "detached" (.obj [("title", .str "Two"),
          ("children", .obj [("attached", .arr [leaf "Q"] [])])])).getD []).length ∧
        IsSummary st2 (.obj [("title", .str "Two"),
          ("children", .obj [("attached", .arr [leaf "Q"] [])])]) (A2.length + D2.length) 2
          "b.xmind" :=
  merge_content_summary
    { src_attr := false, deeper := false, sort_topics := false, fold := false } sampleGen
    (workbook [leaf "Plan"] [leaf "Note"])
    (.obj [("rootTopic", .obj [("title", .str "Merged"),
      ("children", .obj [("attached", .arr [leaf "Plan"] []),
        ("detached", .arr [leaf "Note"] [])])])])
    (.obj [("title", .str "Merged"),
      ("children", .obj [("attached", .arr [leaf "Plan"] []),
        ("detached", .arr [leaf "Note"] [])])])
    "a.xmind" 0
    (.arr [.obj [("rootTopic", .obj [("title", .str "Two"),
      ("children", .obj [("attached", .arr [leaf "Q"] [])])])]] [])
    (.obj [("rootTopic", .obj [("title", .str "Two"),
      ("children", .obj [("attached", .arr [leaf "Q"] [])])])])
    (.obj [("title", .str "Two"), ("children", .obj [("attached", .arr [leaf "Q"] [])])])
    "b.xmind" 2
    (Session.mk (workbook [] [branch "Merge Log" []]) [] 0)
    (branch "Merge Log" []) [] [] []
    ⟨_, _, _, [], [], _, [], rfl, rfl, rfl, rfl, rfl, rfl, rfl⟩
    (by decide) (by decide) (fun h => absurd h (by decide))
    (by decide) (by decide) (fun h => absurd h (by decide))

/-- The run of two merges on a template with an empty merge log: the merge
log ends with one summary for each source, in the order of the merges. -/
theorem two_summaries_example :
    merge_all { src_attr := false, deeper := false, sort_topics := false, fold := false }
        sampleGen
        [{ parsed := .ok (workbook [leaf "Plan"] [leaf "Note"]), name := "a.xmind",
           resources := 0 },
         { parsed := .ok (.arr [.obj [("rootTopic", .obj [("title", .str "Two"),
             ("children", .obj [("attached", .arr [leaf "Q"] [])])])]] []),
           name := "b.xmind", resources := 2 }]
        (Session.mk (workbook [] [branch "Merge Log" []]) [] 0) =
      .ok (["+", "+"], Session.mk (workbook [leaf "Plan", leaf "Q"]
        [branch "Merge Log" [.obj [("title", .str "Merged"), ("id", .str "u"),
          ("children", .obj [("attached", .arr [
            .obj [("title", .str "Merged 2 top-level topics"), ("id", .str "uu")],
            .obj [("title", .str "Source file was a.xmind"), ("id", .str "uuu")]] [])])],
          .obj [("title", .str "Two"), ("id", .str "uuuu"),
          ("children", .obj [("attached", .arr [
            .obj [("title", .str "Merged 1 top-level topics"), ("id", .str "uuuuu")],
            .obj [("title", .str "Merged 2 resources"), ("id", .str "uuuuuu")],
            .obj [("title", .str "Source file was b.xmind"), ("id", .str "uuuuuuu")]] [])])]],
         leaf "Note"]) [] 7) := by
  decide

/-! ## Properties: a source that makes `merge_content` throw -/

/-- C18: the code departs from the claim.  The source has a root topic with a
list `children.attached`, so the claim gives the status `+`; the only topic of
that list has a `children.attached` that is a string.  With `--src_attr` and
`--deeper` the recursive call of `add_src_attr` on that string throws out of
`merge_content`, which returns no status at all; without `--deeper` the same
source is merged with the status `+`. -/
theorem nested_list_breaks_status :
    sourceRoot (.ok (.arr [.obj [("rootTopic", .obj [("title", .str "R"), ("children", .obj [
        ("attached", .arr [.obj [("title", .str "T"),
          ("children", .obj [("attached", .str "oops")])]] [])])])]] [])) =
      some (.obj [("title", .str "R"), ("children", .obj [
        ("attached", .arr [.obj [("title", .str "T"),
          ("children", .obj [("attached", .str "oops")])]] [])])]) ∧
    (sourceList "attached" (.obj [("title", .str "R"), ("children", .obj [
        ("attached", .arr [.obj [("title", .str "T"),
          ("children", .obj [("attached", .str "oops")])]] [])])])).isSome = true ∧
    merge_content { src_attr := true, deeper := true, sort_topics := false, fold := false }
        sampleGen
        (.ok (.arr [.obj [("rootTopic", .obj [("title", .str "R"), ("children", .obj [
          ("attached", .arr [.obj [("title", .str "T"),
            ("children", .obj [("attached", .str "oops")])]] [])])])]] []))
        "a.xmind" 0 (Session.mk (workbook [] [branch "Merge Log" []]) [] 0) =
      .error "topics.forEach is not a function" ∧
    (merge_content { src_attr := true, deeper := false, sort_topics := false, fold := false }
        sampleGen
        (.ok (.arr [.obj [("rootTopic", .obj [("title", .str "R"), ("children", .obj [
          ("attached", .arr [.obj [("title", .str "T"),
            ("children", .obj [("attached", .str "oops")])]] [])])])]] []))
        "a.xmind" 0 (Session.mk (workbook [] [branch "Merge Log" []]) [] 0)).map
          (fun r => r.1) = .ok "+" := by
  decide

/-- C19: the code departs from the claim.  The source has a root topic, whose
only detached topic has a `children.detached` that is `null`.  With
`--src_attr` and `--deeper` the recursive call of `add_src_attr` on `null`
throws out of `merge_content` before the summary is pushed: the call on a
source with a root topic appends no summary.  Without the two flags the same
call appends the one summary to the merge log. -/
theorem nested_list_loses_summary :
    sourceRoot (.ok (.arr [.obj [("rootTopic", .obj [("title", .str "R"), ("children", .obj [
        ("detached", .arr [.obj [("title", .str "F"),
          ("children", .obj [("detached", .null)])]] [])])])]] [])) =
      some (.obj [("title", .str "R"), ("children", .obj [
        ("detached", .arr [.obj [("title", .str "F"),
          ("children", .obj [("detached", .null)])]] [])])]) ∧
    merge_content { src_attr := true, deeper := true, sort_topics := false, fold := false }
        sampleGen
        (.ok (.arr [.obj [("rootTopic", .obj [("title", .str "R"), ("children", .obj [
          ("detached", .arr [.obj [("title", .str "F"),
            ("children", .obj [("detached", .null)])]] [])])])]] []))
        "a.xmind" 0 (Session.mk (workbook [] [branch "Merge Log" []]) [] 0) =
      .error "Cannot read properties of null (reading \x27forEach\x27)" ∧
    (merge_content { src_attr := false, deeper := false, sort_topics := false, fold := false }
        sampleGen
        (.ok (.arr [.obj [("rootTopic", .obj [("title", .str "R"), ("children", .obj [
          ("detached", .arr [.obj [("title", .str "F"),
            ("children", .obj [("detached", .null)])]] [])])])]] []))
        "a.xmind" 0 (Session.mk (workbook [] [branch "Merge Log" []]) [] 0)).map
          (fun r => topDetached r.2.dst_xmind) =
      .ok (.ok (.arr [branch "Merge Log" [.obj [("title", .str "R"), ("id", .str "u"),
          ("children", .obj [("attached", .arr [
            .obj [("title", .str "Merged 1 top-level topics"), ("id", .str "uu")],
            .obj [("title", .str "Source file was a.xmind"), ("id", .str "uuu")]] [])])]],
        .obj [("title", .str "F"), ("children", .obj [("detached", .null)])]] [])) := by
  decide

end XmindMerge

namespace XmindMerge

/-! ## Properties: a failed source is skipped -/

/-- A call of `merge_content` that returns the status `x` took one of the
two failure branches. -/
theorem merge_content_x {args : Args} {gen : Nat → String} {parsed : Except String JsVal}
    {src_xmind : String} {resources : Nat} {s s1 : Session}
    (h : merge_content args gen parsed src_xmind resources s = .ok ("x", s1)) :
    (∃ e, (parsed >>= getFirst) = .error e ∧
      s1 = Session.mk s.dst_xmind (s.src_errors ++ [parseFailureMessage src_xmind e])
        s.issued) ∨
    (∃ sheet, (parsed >>= getFirst) = .ok sheet ∧ has sheet ROOT_TOPIC = false ∧
      s1 = Session.mk s.dst_xmind (s.src_errors ++ [noRootMessage src_xmind]) s.issued) := by
  unfold merge_content at h
  split at h
  · rename_i msg hmsg
    simp only [Except.ok.injEq, Prod.mk.injEq, true_and] at h
    exact .inl ⟨msg, hmsg, h.symm⟩
  · rename_i src_obj hsrc
    split at h
    · exfalso
      simp only [bind_ok, pure, Except.pure] at h
      obtain ⟨root, hroot, ra, ha, rd, hd, dst1, hpush, h⟩ := h
      simp only [Except.ok.injEq, Prod.mk.injEq] at h
      cases ra with
      | none =>
        simp only at h
        exact absurd h.1 (by decide)
      | some pa =>
        simp only at h
        exact absurd h.1 (by decide)
    · rename_i hhas
      simp only [Except.ok.injEq, Prod.mk.injEq, true_and] at h
      exact .inr ⟨src_obj, hsrc, by simpa using hhas, h.symm⟩

/-- C21. A failed source is skipped atomically.  Whenever `merge_content`
returns the status `x`, the source has no root topic (its content does not
parse, or its first sheet has no field `rootTopic`), the master afterwards is
the master before the call, with its merge log and everything else, no
identifier has been issued, and the error log has grown by exactly one
message, which names the source file: the message on the parse failure with
the text of the error, or the message on the missing root topic.  And on
every source without a root topic `merge_content` does return the status
`x`. -/
theorem merge_content_skips_failed (args : Args) (gen : Nat → String)
    (parsed : Except String JsVal) (src_xmind : String) (resources : Nat) (s s1 : Session)
    (h : merge_content args gen parsed src_xmind resources s = .ok ("x", s1)) :
    sourceRoot parsed = none ∧ s1.dst_xmind = s.dst_xmind ∧ s1.issued = s.issued ∧
    ((∃ e, (parsed >>= getFirst) = .error e ∧
        s1.src_errors = s.src_errors ++ [parseFailureMessage src_xmind e]) ∨
     (∃ sheet, (parsed >>= getFirst) = .ok sheet ∧ has sheet ROOT_TOPIC = false ∧
        s1.src_errors = s.src_errors ++ [noRootMessage src_xmind])) ∧
    ∀ p : Except String JsVal, sourceRoot p = none →
      ∃ msg, merge_content args gen p src_xmind resources s =
        .ok ("x", Session.mk s.dst_xmind (s.src_errors ++ [msg]) s.issued) := by
  have htotal : ∀ p : Except String JsVal, sourceRoot p = none →
      ∃ msg, merge_content args gen p src_xmind resources s =
        .ok ("x", Session.mk s.dst_xmind (s.src_errors ++ [msg]) s.issued) :=
    fun p hp => merge_content_failed args gen src_xmind resources s hp
  rcases merge_content_x h with ⟨e, he, rfl⟩ | ⟨sheet, hs, hhas, rfl⟩
  · exact ⟨by simp [sourceRoot, he], rfl, rfl, .inl ⟨e, he, rfl⟩, htotal⟩
  · refine ⟨?_, rfl, rfl, .inr ⟨sheet, hs, hhas, rfl⟩, htotal⟩
    unfold has at hhas
    cases ho : own ROOT_TOPIC sheet with
    | none => simp [sourceRoot, hs, ho]
    | some w => simp [ho] at hhas

theorem merge_content_skips_failed_witness :
    sourceRoot (.ok (.arr [.obj [("title", .str "Sheet 1")]] [])) = none ∧
    (Session.mk (workbook [leaf "Plan"] [branch "Merge Log" [leaf "Earlier"]])
      ["old", "No root topic in \x27b.xmind\x27"] 4).dst_xmind =
      (Session.mk (workbook [leaf "Plan"] [branch "Merge Log" [leaf "Earlier"]])
        ["old"] 4).dst_xmind ∧
    (Session.mk (workbook [leaf "Plan"] [branch "Merge Log" [leaf "Earlier"]])
      ["old", "No root topic in \x27b.xmind\x27"] 4).issued =
      (Session.mk (workbook [leaf "Plan"] [branch "Merge Log" [leaf "Earlier"]])
        ["old"] 4).issued ∧
    ((∃ e, ((.ok (.arr [.obj [("title", .str "Sheet 1")]] []) : Except String JsVal) >>=
          getFirst) = .error e ∧
        (Session.mk (workbook [leaf "Plan"] [branch "Merge Log" [leaf "Earlier"]])
          ["old", "No root topic in \x27b.xmind\x27"] 4).src_errors =
        (Session.mk (workbook [leaf "Plan"] [branch "Merge Log" [leaf "Earlier"]])
          ["old"] 4).src_errors ++ [parseFailureMessage "b.xmind" e]) ∨
     (∃ sheet, ((.ok (.arr [.obj [("title", .str "Sheet 1")]] []) : Except String JsVal) >>=
          getFirst) = .ok sheet ∧ has sheet ROOT_TOPIC = false ∧
        (Session.mk (workbook [leaf "Plan"] [branch "Merge Log" [leaf "Earlier"]])
          ["old", "No root topic in \x27b.xmind\x27"] 4).src_errors =
        (Session.mk (workbook [leaf "Plan"] [branch "Merge Log" [leaf "Earlier"]])
          ["old"] 4).src_errors ++ [noRootMessage "b.xmind"])) ∧
    ∀ p : Except String JsVal, sourceRoot p = none →
      ∃ msg, merge_content
          { src_attr := true, deeper := true, sort_topics := false, fold := false } sampleGen
          p "b.xmind" 3
          (Session.mk (workbook [leaf "Plan"] [branch "Merge Log" [leaf "Earlier"]])
            ["old"] 4) =
        .ok ("x", Session.mk
          (Session.mk (workbook [leaf "Plan"] [branch "Merge Log" [leaf "Earlier"]])
            ["old"] 4).dst_xmind
          ((Session.mk (workbook [leaf "Plan"] [branch "Merge Log" [leaf "Earlier"]])
            ["old"] 4).src_errors ++ [msg])
          (Session.mk (workbook [leaf "Plan"] [branch "Merge Log" [leaf "Earlier"]])
            ["old"] 4).issued) :=
  merge_content_skips_failed
    { src_attr := true, deeper := true, sort_topics := false, fold := false } sampleGen
    (.ok (.arr [.obj [("title", .str "Sheet 1")]] [])) "b.xmind" 3
    (Session.mk (workbook [leaf "Plan"] [branch "Merge Log" [leaf "Earlier"]]) ["old"] 4)
    (Session.mk (workbook [leaf "Plan"] [branch "Merge Log" [leaf "Earlier"]])
      ["old", "No root topic in \x27b.xmind\x27"] 4)
    (by decide)

/-- The two failures on examples: a content that does not parse, and a
content that is `null`, whose first sheet cannot be read. -/
theorem failed_source_examples :
    merge_content { src_attr := false, deeper := false, sort_topics := false, fold := false }
        sampleGen (.error "Unexpected end of JSON input") "a.xmind" 0
        (Session.mk (workbook [] [branch "Merge Log" []]) [] 0) =
      .ok ("x", Session.mk (workbook [] [branch "Merge Log" []])
        ["Unable to parse JSON in \x27a.xmind\x27: Unexpected end of JSON input"] 0) ∧
    merge_content { src_attr := false, deeper := false, sort_topics := false, fold := false }
        sampleGen (.ok .null) "a.xmind" 0
        (Session.mk (workbook [] [branch "Merge Log" []]) [] 0) =
      .ok ("x", Session.mk (workbook [] [branch "Merge Log" []])
        ["Unable to parse JSON in \x27a.xmind\x27: " ++
          "Cannot read properties of null (reading \x270\x27)"] 0) := by
  constructor <;> decide

end XmindMerge

namespace XmindMerge

/-! ## Properties: the notes of a topic under `add_src_attr`, in both modes -/

/-- The callback of `add_src_attr` reaches the notes part with the topic
`t0`, which is the topic itself in the flat mode and the topic with its
children processed in the deep mode, its other fields as they were, and with
the log extended by what the children have logged. -/
theorem add_src_attr_topic_reach {deeper : Bool} {L : String} {topic t : JsVal}
    {errs errs1 : List String}
    (h : add_src_attr_topic deeper L topic errs = .ok (t, errs1)) :
    ∃ t0 errs0, annotate L t0 errs0 = .ok (t, errs1) ∧
      (∀ k, k ≠ "children" → own k t0 = own k topic) ∧
      (∃ below, errs0 = errs ++ below) ∧
      (deeper = false → t0 = topic ∧ errs0 = errs) := by
  cases deeper with
  | false =>
    rw [add_src_attr_topic_flat (.inl rfl)] at h
    exact ⟨topic, errs, h, fun _ _ => rfl, ⟨[], by simp⟩, fun _ => ⟨rfl, rfl⟩⟩
  | true =>
    cases topic with
    | obj ps =>
      simp only [add_src_attr_topic, if_true] at h
      split at h
      · exact absurd h (by simp)
      · rename_i r hr
        have hlog := add_src_attr_children_log true L ps errs
        rw [hr] at hlog
        cases hr0 : add_src_attr_children true L ps [] with
        | error e => rw [hr0] at hlog; simp [logged, Except.map] at hlog
        | ok r0 =>
          rw [hr0, logged_ok] at hlog
          simp only [Except.ok.injEq] at hlog
          refine ⟨.obj r.1, r.2, h, ?_, ⟨r0.2, by rw [hlog]⟩, fun hd => absurd hd (by simp)⟩
          intro k hk
          exact (add_src_attr_children_ok (show add_src_attr_children true L ps errs =
            .ok (r.1, r.2) from hr)).1 k hk
    | arr xs ps =>
      simp only [add_src_attr_topic, if_true] at h
      split at h
      · exact absurd h (by simp)
      · rename_i r hr
        have hlog := add_src_attr_children_log true L ps errs
        rw [hr] at hlog
        cases hr0 : add_src_attr_children true L ps [] with
        | error e => rw [hr0] at hlog; simp [logged, Except.map] at hlog
        | ok r0 =>
          rw [hr0, logged_ok] at hlog
          simp only [Except.ok.injEq] at hlog
          refine ⟨.arr xs r.1, r.2, h, ?_, ⟨r0.2, by rw [hlog]⟩, fun hd => absurd hd (by simp)⟩
          intro k hk
          exact (add_src_attr_children_ok (show add_src_attr_children true L ps errs =
            .ok (r.1, r.2) from hr)).1 k hk
    | undefined =>
      simp only [add_src_attr_topic] at h
      exact ⟨_, errs, h, fun _ _ => rfl, ⟨[], by simp⟩, fun _ => ⟨rfl, rfl⟩⟩
    | null =>
      simp only [add_src_attr_topic] at h
      exact ⟨_, errs, h, fun _ _ => rfl, ⟨[], by simp⟩, fun _ => ⟨rfl, rfl⟩⟩
    | bool b =>
      simp only [add_src_attr_topic] at h
      exact ⟨_, errs, h, fun _ _ => rfl, ⟨[], by simp⟩, fun _ => ⟨rfl, rfl⟩⟩
    | num n =>
      simp only [add_src_attr_topic] at h
      exact ⟨_, errs, h, fun _ _ => rfl, ⟨[], by simp⟩, fun _ => ⟨rfl, rfl⟩⟩
    | str s =>
      simp only [add_src_attr_topic] at h
      exact ⟨_, errs, h, fun _ _ => rfl, ⟨[], by simp⟩, fun _ => ⟨rfl, rfl⟩⟩

/-- C10, amended.  For a topic with existing notes, in the flat and in the
deep mode.  The call returns in the flat mode, and in the deep mode when the
topic is a well-formed tree.  Whenever it returns, the notes were reached
with the topic `t0` (the topic itself, or in the deep mode the topic after
its children were processed, which leaves its notes as they were) and the
log `errs0` (the log with what the children have logged), and from there the
three appends ran in the order plain text, HTML form, ops form, up to the
first that throws, for which exactly one error naming the source file is
recorded: an error in the first leaves the notes as they were; an error in
the second leaves the plain-text update in place and the HTML and ops forms
as they were; an error in the third leaves the plain-text and HTML updates
in place and the ops form as it was.  When none throws, nothing is
recorded. -/
theorem annotate_outcomes (deeper : Bool) (L : String) (topic : JsVal) (errs : List String)
    (h : has topic "notes" = true) :
    ((deeper = false ∨ topicTree topic = true) →
      ∃ t errs1, add_src_attr deeper L [topic] errs = .ok ([t], errs1)) ∧
    ∀ r, add_src_attr deeper L [topic] errs = .ok r →
      ∃ t t0 errs0, r.1 = [t] ∧
        own "notes" t0 = own "notes" topic ∧
        (∃ below, errs0 = errs ++ below) ∧
        (deeper = false → t0 = topic ∧ errs0 = errs) ∧
        ((r.2 = errs0 ∧ ∃ t1 t2, append_plain (attributionLine L) t0 = .ok t1 ∧
            append_html (attributionLine L) t1 = .ok t2 ∧
            append_ops (attributionLine L) t2 = .ok t) ∨
         (∃ e, r.2 = errs0 ++ [noteError L e] ∧
            append_plain (attributionLine L) t0 = .error e ∧
            own "notes" t = own "notes" topic) ∨
         (∃ e, r.2 = errs0 ++ [noteError L e] ∧
            append_plain (attributionLine L) t0 = .ok t ∧
            append_html (attributionLine L) t = .error e ∧
            notesPart "html" t = notesPart "html" topic ∧
            notesPart "ops" t = notesPart "ops" topic) ∨
         (∃ e t1, r.2 = errs0 ++ [noteError L e] ∧
            append_plain (attributionLine L) t0 = .ok t1 ∧
            append_html (attributionLine L) t1 = .ok t ∧
            append_ops (attributionLine L) t = .error e ∧
            notesPart "ops" t = notesPart "ops" topic)) := by
  have reach : ∀ t errs1, add_src_attr_topic deeper L topic errs = .ok (t, errs1) →
      ∃ t0 errs0, own "notes" t0 = own "notes" topic ∧
        (∃ below, errs0 = errs ++ below) ∧
        (deeper = false → t0 = topic ∧ errs0 = errs) ∧
        ((errs1 = errs0 ∧ ∃ t1 t2, append_plain (attributionLine L) t0 = .ok t1 ∧
            append_html (attributionLine L) t1 = .ok t2 ∧
            append_ops (attributionLine L) t2 = .ok t) ∨
         (∃ e, errs1 = errs0 ++ [noteError L e] ∧
            append_plain (attributionLine L) t0 = .error e ∧
            own "notes" t = own "notes" topic) ∨
         (∃ e, errs1 = errs0 ++ [noteError L e] ∧
            append_plain (attributionLine L) t0 = .ok t ∧
            append_html (attributionLine L) t = .error e ∧
            notesPart "html" t = notesPart "html" topic ∧
            notesPart "ops" t = notesPart "ops" topic) ∨
         (∃ e t1, errs1 = errs0 ++ [noteError L e] ∧
            append_plain (attributionLine L) t0 = .ok t1 ∧
            append_html (attributionLine L) t1 = .ok t ∧
            append_ops (attributionLine L) t = .error e ∧
            notesPart "ops" t = notesPart "ops" topic)) := by
    intro t errs1 ht
    obtain ⟨t0, errs0, ha, hown, hbelow, hflat⟩ := add_src_attr_topic_reach ht
    have hn : own "notes" t0 = own "notes" topic := hown "notes" (by decide)
    have hp : ∀ k, notesPart k t0 = notesPart k topic := fun k => by
      simp only [notesPart, hn]
    have h0 : has t0 "notes" = true := by
      unfold has at h ⊢
      rw [hn]
      exact h
    obtain ⟨t2, e2, ha2, hcases⟩ := annotate_cases L t0 errs0 h0
    rw [ha] at ha2
    simp only [Except.ok.injEq, Prod.mk.injEq] at ha2
    obtain ⟨rfl, rfl⟩ := ha2
    refine ⟨t0, errs0, hn, hbelow, hflat, ?_⟩
    rcases hcases with c | ⟨e, c1, c2, c3⟩ | ⟨e, c1, c2, c3, c4, c5⟩ | ⟨e, t1, c1, c2, c3, c4, c5⟩
    · exact .inl c
    · exact .inr (.inl ⟨e, c1, c2, by rw [c3, hn]⟩)
    · exact .inr (.inr (.inl ⟨e, c1, c2, c3, by rw [c4, hp], by rw [c5, hp]⟩))
    · exact .inr (.inr (.inr ⟨e, t1, c1, c2, c3, c4, by rw [c5, hp]⟩))
  constructor
  · intro hw
    rw [add_src_attr_one]
    have htot : ∃ r, add_src_attr_topic deeper L topic errs = .ok r := by
      rcases hw with hd | htree
      · rw [add_src_attr_topic_flat (.inl hd)]
        obtain ⟨t, e, ha, _⟩ := annotate_cases L topic errs h
        exact ⟨_, ha⟩
      · exact add_src_attr_topic_total deeper L topic errs htree
    obtain ⟨r, hr⟩ := htot
    exact ⟨r.1, r.2, by rw [hr]; rfl⟩
  · intro r hr
    rw [add_src_attr_one] at hr
    cases ht : add_src_attr_topic deeper L topic errs with
    | error e => rw [ht] at hr; simp [Except.map] at hr
    | ok q =>
      rw [ht] at hr
      simp only [Except.map, Except.ok.injEq] at hr
      subst hr
      obtain ⟨t0, errs0, k1, k2, k3, k4⟩ := reach q.1 q.2 ht
      exact ⟨q.1, t0, errs0, rfl, k1, k2, k3, k4⟩

theorem annotate_outcomes_witness :
    ((true = false ∨ topicTree halfNoted = true) →
      ∃ t errs1, add_src_attr true "f.xmind" [halfNoted] [] = .ok ([t], errs1)) ∧
    ∀ r, add_src_attr true "f.xmind" [halfNoted] [] = .ok r →
      ∃ t t0 errs0, r.1 = [t] ∧
        own "notes" t0 = own "notes" halfNoted ∧
        (∃ below, errs0 = [] ++ below) ∧
        (true = false → t0 = halfNoted ∧ errs0 = []) ∧
        ((r.2 = errs0 ∧ ∃ t1 t2, append_plain (attributionLine "f.xmind") t0 = .ok t1 ∧
            append_html (attributionLine "f.xmind") t1 = .ok t2 ∧
            append_ops (attributionLine "f.xmind") t2 = .ok t) ∨
         (∃ e, r.2 = errs0 ++ [noteError "f.xmind" e] ∧
            append_plain (attributionLine "f.xmind") t0 = .error e ∧
            own "notes" t = own "notes" halfNoted) ∨
         (∃ e, r.2 = errs0 ++ [noteError "f.xmind" e] ∧
            append_plain (attributionLine "f.xmind") t0 = .ok t ∧
            append_html (attributionLine "f.xmind") t = .error e ∧
            notesPart "html" t = notesPart "html" halfNoted ∧
            notesPart "ops" t = notesPart "ops" halfNoted) ∨
         (∃ e t1, r.2 = errs0 ++ [noteError "f.xmind" e] ∧
            append_plain (attributionLine "f.xmind") t0 = .ok t1 ∧
            append_html (attributionLine "f.xmind") t1 = .ok t ∧
            append_ops (attributionLine "f.xmind") t = .error e ∧
            notesPart "ops" t = notesPart "ops" halfNoted)) :=
  annotate_outcomes true "f.xmind" halfNoted [] (by decide)

/-- The run in the deep mode on the sample topic: the child gets its note, the
plain text of the topic is updated, the HTML step throws, and one error is
recorded. -/
theorem deep_annotation_example :
    add_src_attr true "f.xmind" [halfNoted] [] =
      .ok ([.obj [("title", .str "T"),
        ("notes", .obj [("plain", .obj [("content", .str "X\nMerge-Source: f.xmind")]),
          ("html", .obj [("content", .obj [])])]),
        ("children", .obj [("attached", .arr [.obj [("title", .str "c"),
          ("notes", newNote "Merge-Source: f.xmind")]] [])])]],
        ["Unable to add to existing note in f.xmind: " ++
          "Cannot read properties of undefined (reading \x27push\x27)"]) := by
  decide

end XmindMerge
